import Mathlib

/-!
# breadwallet-core, Ethereum light client: BCS engine

A shallow embedding of `ethereum/bcs/BREthereumBCS.c` (the chain-tracking state machine) and
theorems about it.  Functions carry the names of the C functions they embed; the parts of the long
handler `bcsHandleBlockHeader` are embedded one by one under names that start with the handler's
name, each with the source lines it stands for.

Conventions of the embedding:

* a header, transaction or log is a value; the C pointers to it are that value, and a NULL pointer
  is `none`;
* `uint64_t` values are natural numbers, and the sums and differences that the source computes on
  them without a guard against wrap-around are reduced modulo `2 ^ 64`;
* a handler returns an `Outcome`: the state it leaves behind, or the fact that it stopped on a
  failed `assert` or a NULL dereference, or that one of its parent walks never ends;
* calls that leave the engine (requests to LES, listener callbacks, queued signals) are appended to
  the `effects` field of the state, oldest first.
-/

namespace BCS

/-! ## Machine integers -/

/-- The modulus of `uint64_t` arithmetic, `2 ^ 64`. -/
def UINT64_MOD : Nat := 18446744073709551616

/-- The largest `uint64_t`, `UINT64_MAX`. -/
def UINT64_MAX : Nat := 18446744073709551615

/-- The `uint64_t` sum `a + b`. -/
def u64Add (a b : Nat) : Nat := (a + b) % UINT64_MOD

/-- The `uint64_t` difference `a - b` of two values below `2 ^ 64`. -/
def u64Sub (a b : Nat) : Nat := (a % UINT64_MOD + UINT64_MOD - b % UINT64_MOD) % UINT64_MOD

/-- Value of `BCS_ORPHAN_AGE_OFFSET`. -/
def BCS_ORPHAN_AGE_OFFSET : Nat := 10

/-- Value of `BCS_SAVE_BLOCKS_COUNT`. -/
def BCS_SAVE_BLOCKS_COUNT : Nat := 300

/-- Value of `BCS_SYNC_BLOCKS_COUNT`. -/
def BCS_SYNC_BLOCKS_COUNT : Nat := 100

/-! ## Data model -/

/-- A 32-byte hash, `BREthereumHash`, taken as a number. -/
abbrev BREthereumHash := Nat

/-- A block header, `BREthereumBlockHeader`, with the fields the engine reads.  `isValid` is the
answer of `blockHeaderIsValid` and `matchesLogs` the answer of `blockHeaderMatch` against the
engine's `filterForAddressOnLogs`; both functions live outside these sources. -/
structure BREthereumBlockHeader where
  hash : BREthereumHash
  parentHash : BREthereumHash
  number : Nat
  timestamp : Nat
  isValid : Bool
  matchesLogs : Bool
  deriving DecidableEq, Repr

/-- A transaction status, `BREthereumTransactionStatus`: the `type` tag together with the member of
the union `u` that the tag selects. -/
inductive BREthereumTransactionStatus where
  | UNKNOWN
  | CREATED
  | SIGNED
  | SUBMITTED
  | QUEUED
  | PENDING
  | INCLUDED (gasUsed : Nat) (blockHash : BREthereumHash) (blockNumber : Nat)
      (transactionIndex : Nat)
  | ERRORED (reason : String)
  deriving DecidableEq, Repr

/-- A transaction, `BREthereumTransaction`: its hash and its status. -/
structure BREthereumTransaction where
  hash : BREthereumHash
  status : BREthereumTransactionStatus
  deriving DecidableEq, Repr

/-- A log, `BREthereumLog`; the engine reads only `logGetHash`. -/
structure BREthereumLog where
  hash : BREthereumHash
  deriving DecidableEq, Repr

/-- State of an active block, `BREthereumBCSActiveBlockState`. -/
inductive BREthereumBCSActiveBlockState where
  | ACTIVE_BLOCK_PENDING_BODIES
  | ACTIVE_BLOCK_PENDING_RECEIPTS
  deriving DecidableEq, Repr

/-- An active block, `BREthereumBCSActiveBlock`: the hash of the block being fetched and the state
of the fetch (`memset` to zero leaves `ACTIVE_BLOCK_PENDING_BODIES`). -/
structure BREthereumBCSActiveBlock where
  hash : BREthereumHash
  state : BREthereumBCSActiveBlockState
  deriving DecidableEq, Repr

/-- Answer of `lesSubmitTransaction`, `BREthereumLESStatus`. -/
inductive BREthereumLESStatus where
  | LES_SUCCESS
  | LES_UNKNOWN_ERROR
  | LES_NETWORK_UNREACHABLE
  deriving DecidableEq, Repr

/-- A call that leaves the engine: a request handed to LES, a listener callback, or a signal queued
for a later handler. -/
inductive BCSEffect where
  | lesGetBlockHeaders (blockStart blockCount : Nat)
  | lesGetBlockBodiesOne (hash : BREthereumHash)
  | lesSubmitTransaction (transaction : BREthereumTransaction)
  | bcsSignalTransactionStatus (hash : BREthereumHash) (status : BREthereumTransactionStatus)
  | transactionCallback (transaction : BREthereumTransaction)
  deriving DecidableEq, Repr

/-- What a handler does: it returns and leaves a value, it stops on a failed `assert` or a NULL
dereference, or it never returns because a walk over parent hashes runs in a circle. -/
inductive Outcome (α : Type) where
  | returns (a : α)
  | aborts
  | loops
  deriving DecidableEq, Repr

/-- Sequencing of outcomes: the next step runs on what the first one returned. -/
def Outcome.andThen {α β : Type} (o : Outcome α) (f : α → Outcome β) : Outcome β :=
  match o with
  | .returns a => f a
  | .aborts => .aborts
  | .loops => .loops

/-! ## BRSet -/

/-- Modelled from the spec: `BRSetGet` of `support/BRSet.c`, which is not among the sources.  A set
is "keyed by hash"; it is embedded as the list of its members in insertion order, and the lookup
returns the member with the given key, or `none` for NULL. -/
def BRSetGet {α : Type} (key : α → BREthereumHash) (set : List α) (hash : BREthereumHash) :
    Option α :=
  set.find? (fun item => key item == hash)

/-- Modelled from the spec: `BRSetAdd` of `support/BRSet.c`.  The item replaces a member with the
same key, where that member stands, and is added as the last member when there is none. -/
def BRSetAdd {α : Type} (key : α → BREthereumHash) (set : List α) (item : α) : List α :=
  if set.any (fun member => key member == key item) then
    set.map (fun member => if key member == key item then item else member)
  else
    set ++ [item]

/-- Modelled from the spec: `BRSetRemove` of `support/BRSet.c`.  The member with the given key
leaves the set; the other members keep their order. -/
def BRSetRemove {α : Type} (key : α → BREthereumHash) (set : List α) (hash : BREthereumHash) :
    List α :=
  set.filter (fun member => !(key member == hash))

/-! ## The engine -/

/-- The engine state, `struct BREthereumBCSStruct`, with the fields the handlers below use.
`genesis` is `networkGetGenesisBlockHeader (bcs->network)`. -/
structure BREthereumBCS where
  genesis : BREthereumBlockHeader
  syncActive : Bool
  syncTail : Nat
  syncHead : Nat
  syncNext : Nat
  chain : Option BREthereumBlockHeader
  chainTail : Option BREthereumBlockHeader
  headers : List BREthereumBlockHeader
  orphans : List BREthereumBlockHeader
  transactions : List BREthereumTransaction
  logs : List BREthereumLog
  pendingTransactions : List BREthereumHash
  activeBlocks : List BREthereumBCSActiveBlock
  effects : List BCSEffect
  deriving DecidableEq, Repr

/-- The key of the header sets `bcs->headers` and `bcs->orphans`: `blockHeaderHashValue` and
`blockHeaderHashEqual` compare the header hash. -/
def blockHeaderGetHash (header : BREthereumBlockHeader) : BREthereumHash := header.hash

/-- The key of the transaction set `bcs->transactions`. -/
def transactionGetHash (transaction : BREthereumTransaction) : BREthereumHash := transaction.hash

/-- The engine right after the initialisations of `bcsCreate` (lines 79-132): empty sets and
lists, the genesis header in `headers`, and `chain = chainTail = genesis`. -/
def bcsCreateInitial (genesis : BREthereumBlockHeader) : BREthereumBCS :=
  { genesis := genesis
    syncActive := false
    syncTail := 0
    syncHead := 0
    syncNext := 0
    chain := some genesis
    chainTail := some genesis
    headers := BRSetAdd blockHeaderGetHash [] genesis
    orphans := []
    transactions := []
    logs := []
    pendingTransactions := []
    activeBlocks := []
    effects := [] }

/-- The replay loop of `bcsCreate` (lines 153-166) over the headers from index `i` on: header `i`
is skipped when header `i + 1` has its block number; otherwise it is added to `headers`, becomes
`chain`, and becomes `chainTail` when `chainTail` is still NULL. -/
def bcsCreateReplay : List BREthereumBlockHeader → BREthereumBCS → BREthereumBCS
  | [], bcs => bcs
  | header :: rest, bcs =>
    let skip : Bool :=
      match rest with
      | [] => false
      | next :: _ => header.number == next.number
    if skip then bcsCreateReplay rest bcs
    else
      bcsCreateReplay rest
        { bcs with
          headers := BRSetAdd blockHeaderGetHash bcs.headers header
          chain := some header
          chainTail := match bcs.chainTail with
            | none => some header
            | some tail => some tail }

/-- The function `bcsCreate` (lines 66-178).  `headers` is the saved-headers argument, `none` for
NULL.  The sort of the saved headers is a TODO in the source, so they are replayed as given. -/
def bcsCreate (genesis : BREthereumBlockHeader) (headers : Option (List BREthereumBlockHeader)) :
    BREthereumBCS :=
  match headers with
  | none => bcsCreateInitial genesis
  | some sortedHeaders =>
    bcsCreateReplay sortedHeaders { bcsCreateInitial genesis with chainTail := none }

/-- The function `bcsHandleAnnounce` (lines 320-333): one request for the announced header. -/
def bcsHandleAnnounce (bcs : BREthereumBCS) (headNumber : Nat) : BREthereumBCS :=
  { bcs with effects := bcs.effects ++ [BCSEffect.lesGetBlockHeaders headNumber 1] }

/-- The function `bcsGetOrphanBlockNumberMinimum` (lines 407-415). -/
def bcsGetOrphanBlockNumberMinimum (bcs : BREthereumBCS) : Nat :=
  bcs.orphans.foldl (fun number orphan => if orphan.number < number then orphan.number else number)
    UINT64_MAX

/-- The loop of `bcsPurgeOrphans` (lines 432-443): each round removes the first orphan met with a
block number below `blockNumber`; a round that meets none ends the loop.  `fuel` bounds the rounds;
every round but the last removes an orphan, so the number of orphans is enough. -/
def bcsPurgeOrphansLoop : Nat → BREthereumBCS → Nat → BREthereumBCS
  | 0, bcs, _ => bcs
  | fuel + 1, bcs, blockNumber =>
    match bcs.orphans.find? (fun orphan => decide (orphan.number < blockNumber)) with
    | none => bcs
    | some orphan =>
      bcsPurgeOrphansLoop fuel
        { bcs with orphans := BRSetRemove blockHeaderGetHash bcs.orphans orphan.hash } blockNumber

/-- The function `bcsPurgeOrphans` (lines 421-444).  The purged header is removed from `orphans`
and released; `headers` is not touched. -/
def bcsPurgeOrphans (bcs : BREthereumBCS) (blockNumber : Nat) : BREthereumBCS :=
  if blockNumber ≤ BCS_ORPHAN_AGE_OFFSET then bcs
  else bcsPurgeOrphansLoop bcs.orphans.length bcs (blockNumber - BCS_ORPHAN_AGE_OFFSET)

/-- The loop of `bcsChainOrphans` (lines 450-470): each round makes the first orphan met whose
parent hash is the hash of `chain` the new `chain` and removes it from `orphans`; a round that
meets none ends the loop.  Reading the hash of a NULL `chain` stops the program.  `fuel` bounds
the rounds as in `bcsPurgeOrphansLoop`. -/
def bcsChainOrphansLoop : Nat → BREthereumBCS → Outcome BREthereumBCS
  | 0, bcs => .returns bcs
  | fuel + 1, bcs =>
    match bcs.orphans with
    | [] => .returns bcs
    | _ :: _ =>
      match bcs.chain with
      | none => .aborts
      | some chain =>
        match bcs.orphans.find? (fun orphan => chain.hash == orphan.parentHash) with
        | none => .returns bcs
        | some orphan =>
          bcsChainOrphansLoop fuel
            { bcs with
              chain := some orphan
              orphans := BRSetRemove blockHeaderGetHash bcs.orphans orphan.hash }

/-- The function `bcsChainOrphans` (lines 446-471). -/
def bcsChainOrphans (bcs : BREthereumBCS) : Outcome BREthereumBCS :=
  bcsChainOrphansLoop bcs.orphans.length bcs

/-- The function `bcsMakeOrphan` (lines 473-482). -/
def bcsMakeOrphan (bcs : BREthereumBCS) (header : BREthereumBlockHeader) : BREthereumBCS :=
  { bcs with orphans := BRSetAdd blockHeaderGetHash bcs.orphans header }

/-- The function `bcsChainThenPurgeOrphans` (lines 484-488). -/
def bcsChainThenPurgeOrphans (bcs : BREthereumBCS) : Outcome BREthereumBCS :=
  (bcsChainOrphans bcs).andThen fun bcs =>
    match bcs.chain with
    | none => .aborts
    | some chain => .returns (bcsPurgeOrphans bcs chain.number)

/-- The function `bcsSyncSubmit` (lines 490-506). -/
def bcsSyncSubmit (bcs : BREthereumBCS) (blockStart blockCount : Nat) : BREthereumBCS :=
  { bcs with effects := bcs.effects ++ [BCSEffect.lesGetBlockHeaders blockStart blockCount] }

/-- The function `bcsSyncContinue` (lines 508-524). -/
def bcsSyncContinue (bcs : BREthereumBCS) (chainBlockNumber : Nat) : BREthereumBCS :=
  let bcs := { bcs with syncActive := bcs.syncActive && decide (chainBlockNumber < bcs.syncHead) }
  if bcs.syncActive = true ∧ bcs.syncNext ≤ chainBlockNumber then
    let needHeadersCount := u64Sub bcs.syncHead (u64Add chainBlockNumber 1)
    let needHeadersCount :=
      if needHeadersCount > BCS_SYNC_BLOCKS_COUNT then BCS_SYNC_BLOCKS_COUNT else needHeadersCount
    bcsSyncSubmit { bcs with syncNext := u64Add bcs.syncNext needHeadersCount }
      (u64Add chainBlockNumber 1) needHeadersCount
  else bcs

/-- The function `bcsSyncFrom` (lines 526-551). -/
def bcsSyncFrom (bcs : BREthereumBCS) (chainBlockNumber : Nat) : BREthereumBCS :=
  if bcs.syncActive = true then bcsSyncContinue bcs chainBlockNumber
  else
    let orphanBlockNumberMinumum := bcsGetOrphanBlockNumberMinimum bcs
    if UINT64_MAX ≠ orphanBlockNumberMinumum ∧
        orphanBlockNumberMinumum > u64Add chainBlockNumber 1 then
      let needHeadersCount := u64Sub orphanBlockNumberMinumum (u64Add chainBlockNumber 1)
      let needHeadersCount :=
        if needHeadersCount > BCS_SYNC_BLOCKS_COUNT then BCS_SYNC_BLOCKS_COUNT
        else needHeadersCount
      bcsSyncSubmit
        { bcs with
          syncTail := u64Add chainBlockNumber 1
          syncHead := orphanBlockNumberMinumum
          syncNext := u64Add chainBlockNumber needHeadersCount
          syncActive := true }
        (u64Add chainBlockNumber 1) needHeadersCount
    else bcs

/-- The function `bcsChainHasBlock` (lines 850-858).  The left operand of `||` reads the number of
`chainTail`, the right one the number of `chain`; reading through NULL stops the program. -/
def bcsChainHasBlock (bcs : BREthereumBCS) (blockHash : BREthereumHash) (blockNumber : Nat) :
    Outcome Bool :=
  match bcs.chainTail with
  | none => .aborts
  | some chainTail =>
    if blockNumber < chainTail.number then .returns true
    else
      match bcs.chain with
      | none => .aborts
      | some chain =>
        .returns (decide (blockNumber ≤ chain.number) &&
          (BRSetGet blockHeaderGetHash bcs.orphans blockHash).isNone &&
          (BRSetGet blockHeaderGetHash bcs.headers blockHash).isSome)

/-- The search of `bcsLookupPendingTransaction` (lines 860-867) in a list of hashes: the index of
the first entry equal to `hash`, or `none` for `-1`. -/
def bcsLookupPendingTransactionIn : List BREthereumHash → BREthereumHash → Option Nat
  | [], _ => none
  | entry :: rest, hash =>
    if entry == hash then some 0
    else
      match bcsLookupPendingTransactionIn rest hash with
      | none => none
      | some index => some (index + 1)

/-- The function `bcsLookupPendingTransaction` (lines 860-867). -/
def bcsLookupPendingTransaction (bcs : BREthereumBCS) (hash : BREthereumHash) : Option Nat :=
  bcsLookupPendingTransactionIn bcs.pendingTransactions hash

/-- Modelled from the spec: `transactionSetStatus` of `BREthereumTransaction.c`, which is not among
the sources.  The transaction is a member of `bcs->transactions` and is changed in place. -/
def transactionSetStatus (transactions : List BREthereumTransaction)
    (transaction : BREthereumTransaction) (status : BREthereumTransactionStatus) :
    List BREthereumTransaction :=
  BRSetAdd transactionGetHash transactions { transaction with status := status }

/-- Modelled from the spec: `transactionStatusEqual` of `BREthereumTransactionStatus.c`, which is
not among the sources.  Two statuses are equal when they have the same type and, for INCLUDED and
ERRORED, the same content ("on change from S0"). -/
def transactionStatusEqual (status oldStatus : BREthereumTransactionStatus) : Bool :=
  decide (status = oldStatus)

/-- The `switch` of `bcsHandleTransactionStatus` (lines 911-949): the status after the switch,
`isInChain` and `isAnError`. -/
def bcsHandleTransactionStatus_switch (bcs : BREthereumBCS)
    (status : BREthereumTransactionStatus) :
    Outcome (BREthereumTransactionStatus × Bool × Bool) :=
  match status with
  | .UNKNOWN => .returns (.SIGNED, false, false)
  | .QUEUED => .returns (.SUBMITTED, false, false)
  | .PENDING => .returns (.SUBMITTED, false, false)
  | .INCLUDED gasUsed blockHash blockNumber transactionIndex =>
    (bcsChainHasBlock bcs blockHash blockNumber).andThen fun isInChain =>
      if isInChain = true then
        .returns (.INCLUDED gasUsed blockHash blockNumber transactionIndex, true, false)
      else .returns (.SUBMITTED, false, false)
  | .ERRORED reason => .returns (.ERRORED reason, false, true)
  | .CREATED => .returns (.CREATED, false, false)
  | .SIGNED => .returns (.SIGNED, false, false)
  | .SUBMITTED => .returns (.SUBMITTED, false, false)

/-- The update of the pending list in `bcsHandleTransactionStatus` (lines 951-969). -/
def bcsHandleTransactionStatus_pending (bcs : BREthereumBCS) (transactionHash : BREthereumHash)
    (isInChain isAnError : Bool) : BREthereumBCS :=
  if isInChain = true ∨ isAnError = true then
    match bcsLookupPendingTransaction bcs transactionHash with
    | some index => { bcs with pendingTransactions := bcs.pendingTransactions.eraseIdx index }
    | none => bcs
  else if (bcsLookupPendingTransaction bcs transactionHash).isNone then
    { bcs with pendingTransactions := bcs.pendingTransactions ++ [transactionHash] }
  else bcs

/-- The function `bcsHandleTransactionStatus` (lines 869-984). -/
def bcsHandleTransactionStatus (bcs : BREthereumBCS) (transactionHash : BREthereumHash)
    (status : BREthereumTransactionStatus) : Outcome BREthereumBCS :=
  match BRSetGet transactionGetHash bcs.transactions transactionHash with
  | none => .returns bcs
  | some transaction =>
    let oldStatus := transaction.status
    let status :=
      match oldStatus with
      | .ERRORED _ => oldStatus
      | _ => status
    let status := if status = .UNKNOWN then oldStatus else status
    (bcsHandleTransactionStatus_switch bcs status).andThen fun (status, isInChain, isAnError) =>
      let bcs := bcsHandleTransactionStatus_pending bcs transactionHash isInChain isAnError
      if transactionStatusEqual status oldStatus = false then
        .returns
          { bcs with
            transactions := transactionSetStatus bcs.transactions transaction status
            effects := bcs.effects ++
              [BCSEffect.transactionCallback { transaction with status := status }] }
      else .returns bcs

/-- The function `bcsHandleSubmitTransaction` (lines 285-312).  `lesStatus` is the answer of
`lesSubmitTransaction`; `bcsSignalTransactionStatus` queues the status for a later
`bcsHandleTransactionStatus`. -/
def bcsHandleSubmitTransaction (bcs : BREthereumBCS) (transaction : BREthereumTransaction)
    (lesStatus : BREthereumLESStatus) : BREthereumBCS :=
  let bcs :=
    { bcs with
      pendingTransactions := bcs.pendingTransactions ++ [transaction.hash]
      transactions := BRSetAdd transactionGetHash bcs.transactions transaction
      effects := bcs.effects ++ [BCSEffect.lesSubmitTransaction transaction] }
  match lesStatus with
  | .LES_SUCCESS => bcs
  | .LES_UNKNOWN_ERROR =>
    { bcs with effects := bcs.effects ++
        [BCSEffect.bcsSignalTransactionStatus transaction.hash (.ERRORED "LES Submit Failed")] }
  | .LES_NETWORK_UNREACHABLE =>
    { bcs with effects := bcs.effects ++
        [BCSEffect.bcsSignalTransactionStatus transaction.hash (.ERRORED "LES Submit Failed")] }

/-- The function `bcsReclaimBlock` (lines 347-359). -/
def bcsReclaimBlock (bcs : BREthereumBCS) (header : BREthereumBlockHeader) : BREthereumBCS :=
  { bcs with headers := BRSetRemove blockHeaderGetHash bcs.headers header.hash }

/-- The first walk of `bcsReclaimAndSaveBlocksIfAppropriate` (lines 374-384), from `header` down
the parent hashes until a parent is missing.  `fuel` bounds the steps; a walk that uses it up runs
in a circle of headers that are all kept. -/
def bcsReclaimAndSaveBlocksIfAppropriate_walk :
    Nat → BREthereumBCS → Option BREthereumBlockHeader → Nat → Outcome BREthereumBCS
  | 0, _, _, _ => .loops
  | fuel + 1, bcs, header, reclaimFromBlockNumber =>
    match header with
    | none => .returns bcs
    | some header =>
      let parentHash := header.parentHash
      let bcs :=
        if header.number = reclaimFromBlockNumber then { bcs with chainTail := some header }
        else if header.number < reclaimFromBlockNumber then bcsReclaimBlock bcs header
        else bcs
      bcsReclaimAndSaveBlocksIfAppropriate_walk fuel bcs
        (BRSetGet blockHeaderGetHash bcs.headers parentHash) reclaimFromBlockNumber

/-- The function `bcsReclaimAndSaveBlocksIfAppropriate` (lines 361-400).  Its second walk (lines
389-395, "TODO: Actually Save") follows the headers that the first walk kept and changes nothing;
it is left out. -/
def bcsReclaimAndSaveBlocksIfAppropriate (bcs : BREthereumBCS) : Outcome BREthereumBCS :=
  match bcs.chain with
  | none => .aborts
  | some chain =>
    match bcs.chainTail with
    | none => .aborts
    | some chainTail =>
      let chainBlockNumber := chain.number
      let chainBlockLength := u64Sub chainBlockNumber chainTail.number
      if chainBlockLength ≥ 2 * BCS_SAVE_BLOCKS_COUNT then
        bcsReclaimAndSaveBlocksIfAppropriate_walk (2 * bcs.headers.length + 2) bcs (some chain)
          (u64Sub chainBlockNumber BCS_SAVE_BLOCKS_COUNT)
      else .returns bcs

/-- The reorganisation walk of `bcsHandleBlockHeader` (lines 618-626): as long as `chain` is neither
NULL nor `headerParent`, `chain` is made an orphan and replaced by its parent in `headers`.
`fuel` bounds the steps; a walk that uses it up runs in a circle. -/
def bcsHandleBlockHeader_reorg :
    Nat → BREthereumBCS → BREthereumBlockHeader → Outcome BREthereumBCS
  | 0, _, _ => .loops
  | fuel + 1, bcs, headerParent =>
    match bcs.chain with
    | none => .returns bcs
    | some chain =>
      if headerParent = chain then .returns bcs
      else
        bcsHandleBlockHeader_reorg fuel
          { bcsMakeOrphan bcs chain with
            chain := BRSetGet blockHeaderGetHash bcs.headers chain.parentHash }
          headerParent

/-- Placement case 3 of `bcsHandleBlockHeader` (lines 616-634): the reorganisation walk, the
`assert` that `chain` is not NULL, and `header` as the new `chain`. -/
def bcsHandleBlockHeader_extend (bcs : BREthereumBCS)
    (header headerParent : BREthereumBlockHeader) : Outcome BREthereumBCS :=
  (bcsHandleBlockHeader_reorg (bcs.headers.length + 2) bcs headerParent).andThen fun bcs =>
    match bcs.chain with
    | none => .aborts
    | some _ => .returns { bcs with chain := some header }

/-- The loop over `bcs->transactions` in `bcsHandleBlockHeader` (lines 639-660), over the members
of the set as they are when the loop starts: a transaction that is included in a block that is now
an orphan gets the status PENDING through `bcsHandleTransactionStatus`. -/
def bcsHandleBlockHeader_transactions :
    List BREthereumTransaction → BREthereumBCS → Outcome BREthereumBCS
  | [], bcs => .returns bcs
  | tx :: rest, bcs =>
    Outcome.andThen
      (match tx.status with
        | .INCLUDED _ blockHash _ _ =>
          if (BRSetGet blockHeaderGetHash bcs.orphans blockHash).isSome then
            bcsHandleTransactionStatus bcs tx.hash .PENDING
          else .returns bcs
        | _ => .returns bcs)
      (fun bcs => bcsHandleBlockHeader_transactions rest bcs)

/-- The loop over `bcs->logs` in `bcsHandleBlockHeader` (lines 662-673): it asserts that the hash
of every log is the hash of a transaction in `bcs->transactions` and changes nothing. -/
def bcsHandleBlockHeader_logs (bcs : BREthereumBCS) : Outcome BREthereumBCS :=
  if bcs.logs.all (fun log => (BRSetGet transactionGetHash bcs.transactions log.hash).isSome) then
    .returns bcs
  else .aborts

/-- The function `bcsBlockHeaderHasMatchingTransactions` (lines 335-339). -/
def bcsBlockHeaderHasMatchingTransactions (_bcs : BREthereumBCS)
    (_header : BREthereumBlockHeader) : Bool :=
  false

/-- The function `bcsBlockHeaderHasMatchingLogs` (lines 341-345). -/
def bcsBlockHeaderHasMatchingLogs (_bcs : BREthereumBCS) (header : BREthereumBlockHeader) : Bool :=
  header.matchesLogs

/-- The walk of `bcsHandleBlockHeader` that collects `neededHeaders` (lines 679-691): from `header`
down the parent hashes until NULL or `headerParent`; a matching header is inserted at index 0.
`fuel` bounds the steps; a walk that uses it up runs in a circle. -/
def bcsHandleBlockHeader_neededHeaders :
    Nat → BREthereumBCS → Option BREthereumBlockHeader → Option BREthereumBlockHeader →
      List BREthereumBlockHeader → Outcome (List BREthereumBlockHeader)
  | 0, _, _, _, _ => .loops
  | fuel + 1, bcs, header, headerParent, neededHeaders =>
    match header with
    | none => .returns neededHeaders
    | some header =>
      if some header = headerParent then .returns neededHeaders
      else
        let neededHeaders :=
          if bcsBlockHeaderHasMatchingTransactions bcs header = true ∨
              bcsBlockHeaderHasMatchingLogs bcs header = true then
            header :: neededHeaders
          else neededHeaders
        bcsHandleBlockHeader_neededHeaders fuel bcs
          (BRSetGet blockHeaderGetHash bcs.headers header.parentHash) headerParent neededHeaders

/-- The loop of `bcsHandleBlockHeader` over `neededHeaders` (lines 695-708): one active block and
one request for the block body per header. -/
def bcsHandleBlockHeader_requestBodies :
    List BREthereumBlockHeader → BREthereumBCS → BREthereumBCS
  | [], bcs => bcs
  | needed :: rest, bcs =>
    bcsHandleBlockHeader_requestBodies rest
      { bcs with
        activeBlocks := bcs.activeBlocks ++
          [{ hash := needed.hash
             state := BREthereumBCSActiveBlockState.ACTIVE_BLOCK_PENDING_BODIES }]
        effects := bcs.effects ++ [BCSEffect.lesGetBlockBodiesOne needed.hash] }

/-- What `bcsHandleBlockHeader` does once `header` is chained (lines 637-735): chain and purge
orphans, look at the transactions and the logs, request the bodies of the needed headers, reclaim
old headers and continue a sync.  `headerParent` is the parent found in `headers`, or `none`. -/
def bcsHandleBlockHeader_chained (bcs : BREthereumBCS)
    (headerParent : Option BREthereumBlockHeader) : Outcome BREthereumBCS :=
  (bcsChainThenPurgeOrphans bcs).andThen fun bcs =>
  (bcsHandleBlockHeader_transactions bcs.transactions bcs).andThen fun bcs =>
  (bcsHandleBlockHeader_logs bcs).andThen fun bcs =>
  (bcsHandleBlockHeader_neededHeaders (bcs.headers.length + 2) bcs bcs.chain headerParent
    []).andThen fun neededHeaders =>
  (bcsReclaimAndSaveBlocksIfAppropriate
    (bcsHandleBlockHeader_requestBodies neededHeaders bcs)).andThen fun bcs =>
  match bcs.chain with
  | none => .aborts
  | some chain => .returns (bcsSyncContinue bcs chain.number)

/-- The placement of `bcsHandleBlockHeader` (lines 590-634) and what follows it; `bcs` already has
`header` in `headers`.  Case 1 adopts the header when there is no chain, case 2 makes it an orphan,
asks for a sync and returns, case 3 extends the chain. -/
def bcsHandleBlockHeader_place (bcs : BREthereumBCS) (header : BREthereumBlockHeader)
    (headerParent : Option BREthereumBlockHeader) : Outcome BREthereumBCS :=
  match bcs.chain with
  | none =>
    bcsHandleBlockHeader_chained { bcs with chain := some header, chainTail := some header }
      headerParent
  | some chain =>
    match headerParent with
    | none => .returns (bcsSyncFrom (bcsMakeOrphan bcs header) chain.number)
    | some parent =>
      if (BRSetGet blockHeaderGetHash bcs.orphans parent.hash).isSome then
        .returns (bcsSyncFrom (bcsMakeOrphan bcs header) chain.number)
      else
        (bcsHandleBlockHeader_extend bcs header parent).andThen fun bcs =>
          bcsHandleBlockHeader_chained bcs headerParent

/-- The test of `bcsHandleBlockHeader` on the block numbers (line 579): there is a parent and the
number of `header` is not one more than the parent's. -/
def bcsHandleBlockHeader_inconsistent (header : BREthereumBlockHeader)
    (headerParent : Option BREthereumBlockHeader) : Bool :=
  match headerParent with
  | none => false
  | some parent => decide (header.number ≠ u64Add 1 parent.number)

/-- The function `bcsHandleBlockHeader` (lines 555-736). -/
def bcsHandleBlockHeader (bcs : BREthereumBCS) (header : BREthereumBlockHeader) :
    Outcome BREthereumBCS :=
  if (BRSetGet blockHeaderGetHash bcs.headers header.hash).isSome then .returns bcs
  else if header.isValid = false then .returns bcs
  else
    let headerParent := BRSetGet blockHeaderGetHash bcs.headers header.parentHash
    if bcsHandleBlockHeader_inconsistent header headerParent = true then .returns bcs
    else
      bcsHandleBlockHeader_place
        { bcs with headers := BRSetAdd blockHeaderGetHash bcs.headers header } header headerParent

/-- Runs `bcsHandleBlockHeader` on the headers of a list, one after the other. -/
def bcsHandleBlockHeaders : List BREthereumBlockHeader → BREthereumBCS → Outcome BREthereumBCS
  | [], bcs => .returns bcs
  | header :: rest, bcs =>
    (bcsHandleBlockHeader bcs header).andThen fun bcs => bcsHandleBlockHeaders rest bcs

/-! ## Notions used to state the properties -/

/-- The headers met on the walk over parent hashes from `start` back to `stop`, `start` first and
`stop` left out; `none` when the walk meets a missing parent, or does not meet `stop` within `fuel`
steps. -/
def parentWalk (headers : List BREthereumBlockHeader) :
    Nat → BREthereumBlockHeader → BREthereumBlockHeader → Option (List BREthereumBlockHeader)
  | 0, _, _ => none
  | fuel + 1, start, stop =>
    if stop = start then some []
    else
      match BRSetGet blockHeaderGetHash headers start.parentHash with
      | none => none
      | some parent =>
        match parentWalk headers fuel parent stop with
        | none => none
        | some path => some (start :: path)

/-- The chain of the engine: the headers on the walk over parent hashes from `chain` down to
`chainTail`, both included; `none` when one of the two is NULL or the walk does not reach
`chainTail`. -/
def bcsChainMembers (bcs : BREthereumBCS) : Option (List BREthereumBlockHeader) :=
  match bcs.chain, bcs.chainTail with
  | some chain, some chainTail =>
    match parentWalk bcs.headers (bcs.headers.length + 2) chain chainTail with
    | none => none
    | some path => some (path ++ [chainTail])
  | _, _ => none

/-- The chain-shape invariant: `chain` and `chainTail` are not NULL and the walk over parent hashes
from `chain` reaches `chainTail` in exactly `chain.number - chainTail.number` steps. -/
def bcsChainShape (bcs : BREthereumBCS) : Bool :=
  match bcs.chain, bcs.chainTail with
  | some chain, some chainTail =>
    match parentWalk bcs.headers (bcs.headers.length + 2) chain chainTail with
    | none => false
    | some path => path.length + chainTail.number == chain.number
  | _, _ => false

/-- A header of the chain is also in the orphan set. -/
def bcsOrphanOnChain (bcs : BREthereumBCS) : Bool :=
  match bcsChainMembers bcs with
  | none => false
  | some members =>
    members.any fun member => (BRSetGet blockHeaderGetHash bcs.orphans member.hash).isSome

/-- The header-set partition: every member of the chain and every orphan is in the header set, and
every header of the header set is on the chain or in the orphan set. -/
def bcsHeaderSetPartition (bcs : BREthereumBCS) : Bool :=
  match bcsChainMembers bcs with
  | none => false
  | some members =>
    (members.all fun member =>
      BRSetGet blockHeaderGetHash bcs.headers member.hash == some member) &&
    (bcs.orphans.all fun orphan =>
      BRSetGet blockHeaderGetHash bcs.headers orphan.hash == some orphan) &&
    (bcs.headers.all fun header =>
      decide (header ∈ members) || (BRSetGet blockHeaderGetHash bcs.orphans header.hash).isSome)

/-- The orphan set holds a header older than `chain.number - BCS_ORPHAN_AGE_OFFSET`. -/
def bcsStaleOrphan (bcs : BREthereumBCS) : Bool :=
  match bcs.chain with
  | none => false
  | some chain =>
    bcs.orphans.any fun orphan => decide (orphan.number < chain.number - BCS_ORPHAN_AGE_OFFSET)

/-- The header passes the three tests of `bcsHandleBlockHeader` and is placed on the chain: there
is no chain yet (case 1), or its parent is in the header set and not in the orphan set (case 3). -/
def headerGoesOnChain (bcs : BREthereumBCS) (header : BREthereumBlockHeader) : Bool :=
  (BRSetGet blockHeaderGetHash bcs.headers header.hash).isNone && header.isValid &&
  !(bcsHandleBlockHeader_inconsistent header
      (BRSetGet blockHeaderGetHash bcs.headers header.parentHash)) &&
  (bcs.chain.isNone ||
    match BRSetGet blockHeaderGetHash bcs.headers header.parentHash with
    | none => false
    | some parent => (BRSetGet blockHeaderGetHash bcs.orphans parent.hash).isNone)

/-! ## Headers and states of the scenarios -/

/-- A valid header that matches no log filter. -/
def exampleHeader (hash parentHash number : Nat) : BREthereumBlockHeader :=
  { hash := hash, parentHash := parentHash, number := number, timestamp := 0,
    isValid := true, matchesLogs := false }

/-- The genesis header of the scenarios. -/
def exampleGenesis : BREthereumBlockHeader := exampleHeader 1000 0 0

/-- The header numbered `n` of the line that starts at the genesis header. -/
def exampleLine (n : Nat) : BREthereumBlockHeader := exampleHeader (1000 + n) (1000 + n - 1) n

/-- A header numbered 0 whose parent nobody has. -/
def exampleStray : BREthereumBlockHeader := exampleHeader 50 40 0

/-- An orphan numbered 5 whose parent nobody has. -/
def exampleOrphan : BREthereumBlockHeader := exampleHeader 2000 1999 5

/-- The engine created without saved headers that has received `exampleOrphan`. -/
def exampleOrphanState : BREthereumBCS :=
  match bcsHandleBlockHeader (bcsCreate exampleGenesis none) exampleOrphan with
  | .returns bcs => bcs
  | _ => bcsCreate exampleGenesis none

/-- Header A1 of scenario S2, the child of the genesis header. -/
def exampleA1 : BREthereumBlockHeader := exampleHeader 1001 1000 1

/-- Header A2 of scenario S2, the child of A1. -/
def exampleA2 : BREthereumBlockHeader := exampleHeader 1002 1001 2

/-- Header B2 of scenario S2, a second child of A1. -/
def exampleB2 : BREthereumBlockHeader := exampleHeader 3002 1001 2

/-- Header B3 of scenario S2, the child of B2. -/
def exampleB3 : BREthereumBlockHeader := exampleHeader 3003 3002 3

/-- The chain G, A1, A2 of scenario S2: the engine created without saved headers that has received
A1 and A2. -/
def exampleForkState : BREthereumBCS :=
  match bcsHandleBlockHeaders [exampleA1, exampleA2] (bcsCreate exampleGenesis none) with
  | .returns bcs => bcs
  | _ => bcsCreate exampleGenesis none

/-- The engine created without saved headers that has received `exampleStray` and then the headers
1 to 11 of the line: the head is numbered 11 and the stray header was purged from the orphans. -/
def examplePurgedState : BREthereumBCS :=
  match bcsHandleBlockHeaders (exampleStray :: (List.range 11).map fun n => exampleLine (n + 1))
      (bcsCreate exampleGenesis none) with
  | .returns bcs => bcs
  | _ => bcsCreate exampleGenesis none

/-- A header numbered 5 whose parent hash is the hash of header 1 of the line. -/
def exampleMisnumbered : BREthereumBlockHeader := exampleHeader 4000 1001 5

/-- The engine created without saved headers that has received `exampleMisnumbered` and then
header 1 of the line. -/
def exampleMisnumberedState : BREthereumBCS :=
  match bcsHandleBlockHeaders [exampleMisnumbered, exampleLine 1]
      (bcsCreate exampleGenesis none) with
  | .returns bcs => bcs
  | _ => bcsCreate exampleGenesis none

/-- The engine created with the saved headers 1 and 3 of the line; header 2 is missing. -/
def exampleGapState : BREthereumBCS :=
  bcsCreate exampleGenesis (some [exampleLine 1, exampleLine 3])

/-- The engine `exampleGapState` after it has received header 2 of the line. -/
def exampleGapFilledState : BREthereumBCS :=
  match bcsHandleBlockHeader exampleGapState (exampleLine 2) with
  | .returns bcs => bcs
  | _ => exampleGapState

/-- The engine created without saved headers that has received `exampleStray` and then the headers
1 to 10 of the line: the head is numbered 10 and the stray header is an orphan. -/
def exampleBeforePurgeState : BREthereumBCS :=
  match bcsHandleBlockHeaders (exampleStray :: (List.range 10).map fun n => exampleLine (n + 1))
      (bcsCreate exampleGenesis none) with
  | .returns bcs => bcs
  | _ => bcsCreate exampleGenesis none

/-- The engine created without saved headers that has received the headers 1 to 11 of the line. -/
def exampleLineState : BREthereumBCS :=
  match bcsHandleBlockHeaders ((List.range 11).map fun n => exampleLine (n + 1))
      (bcsCreate exampleGenesis none) with
  | .returns bcs => bcs
  | _ => bcsCreate exampleGenesis none

/-- The engine `exampleLineState` after it has received `exampleStray`. -/
def exampleStaleState : BREthereumBCS :=
  match bcsHandleBlockHeader exampleLineState exampleStray with
  | .returns bcs => bcs
  | _ => exampleLineState

/-- The transaction is stored as included in a block whose hash is in the given orphan set. -/
def transactionIsOrphaned (orphans : List BREthereumBlockHeader)
    (transaction : BREthereumTransaction) : Bool :=
  match transaction.status with
  | .INCLUDED _ blockHash _ _ => (BRSetGet blockHeaderGetHash orphans blockHash).isSome
  | _ => false

/-- A transaction of the scenarios, with hash 9000, as it is created. -/
def exampleTransaction : BREthereumTransaction := { hash := 9000, status := .CREATED }

/-- Scenario S5 before the reorganisation: on the chain G, A1, A2 the transaction was submitted and
then reported as included in block A2, number 2. -/
def exampleIncludedState : BREthereumBCS :=
  match bcsHandleTransactionStatus
      (bcsHandleSubmitTransaction exampleForkState exampleTransaction .LES_SUCCESS)
      exampleTransaction.hash (.INCLUDED 21000 exampleA2.hash 2 0) with
  | .returns bcs => bcs
  | _ => exampleForkState

/-- Scenario S5 after the reorganisation: header B2 has arrived in `exampleIncludedState`. -/
def exampleReorganisedState : BREthereumBCS :=
  match bcsHandleBlockHeader exampleIncludedState exampleB2 with
  | .returns bcs => bcs
  | _ => exampleIncludedState

/-- A saved header numbered 100. -/
def exampleSaved : BREthereumBlockHeader := exampleHeader 5100 5099 100

/-- The engine created with the one saved header `exampleSaved`, which is head and tail, after the
transaction of the scenarios was submitted. -/
def exampleSavedState : BREthereumBCS :=
  bcsHandleSubmitTransaction (bcsCreate exampleGenesis (some [exampleSaved])) exampleTransaction
    .LES_SUCCESS

/-- The engine `exampleSavedState` after a status INCLUDED for the transaction arrived, with block
number 5 and a block hash that no header has. -/
def exampleBelowTailState : BREthereumBCS :=
  match bcsHandleTransactionStatus exampleSavedState exampleTransaction.hash
      (.INCLUDED 21000 7777 5 0) with
  | .returns bcs => bcs
  | _ => exampleSavedState

/-- The engine created without saved headers in which the transaction of the scenarios was
submitted and then reported as failed. -/
def exampleErroredState : BREthereumBCS :=
  match bcsHandleTransactionStatus
      (bcsHandleSubmitTransaction (bcsCreate exampleGenesis none) exampleTransaction
        .LES_UNKNOWN_ERROR)
      exampleTransaction.hash (.ERRORED "LES Submit Failed") with
  | .returns bcs => bcs
  | _ => bcsCreate exampleGenesis none

/-- The engine is in a state from which placement case 3 of `bcsHandleBlockHeader` is sure to
return for `header`: it has a head and a tail; the head and the orphans are stored in the header
set; the hash of every log is the hash of a stored transaction; no header is 600 or more block
numbers above the tail, so that no reclamation is due; and the walk over parent hashes from the
head meets the parent of `header`. -/
def bcsReadyToChain (bcs : BREthereumBCS) (header : BREthereumBlockHeader) : Bool :=
  match bcs.chain, bcs.chainTail, BRSetGet blockHeaderGetHash bcs.headers header.parentHash with
  | some chain, some chainTail, some parent =>
    (BRSetGet blockHeaderGetHash bcs.headers chain.hash == some chain) &&
    (bcs.orphans.all fun orphan =>
      BRSetGet blockHeaderGetHash bcs.headers orphan.hash == some orphan) &&
    (bcs.logs.all fun log => (BRSetGet transactionGetHash bcs.transactions log.hash).isSome) &&
    ((header :: bcs.headers).all fun known =>
      decide (u64Sub known.number chainTail.number < 2 * BCS_SAVE_BLOCKS_COUNT)) &&
    (parentWalk bcs.headers (bcs.headers.length + 2) chain parent).isSome
  | _, _, _ => false


/-! ## The status that is compared and stored -/

/-- The status that `bcsHandleTransactionStatus` compares with the old status at line 972: the
received status after the two replacements of lines 900-908 and the `switch` of lines 911-949. -/
def bcsHandleTransactionStatus_normalized (bcs : BREthereumBCS)
    (oldStatus status : BREthereumTransactionStatus) : Outcome BREthereumTransactionStatus :=
  let status :=
    match oldStatus with
    | .ERRORED _ => oldStatus
    | _ => status
  let status := if status = .UNKNOWN then oldStatus else status
  (bcsHandleTransactionStatus_switch bcs status).andThen fun result => .returns result.1

/-- The status is INCLUDED or ERRORED: the two statuses that take a transaction off the pending
list. -/
def transactionStatusIsTerminal (status : BREthereumTransactionStatus) : Bool :=
  match status with
  | .INCLUDED _ _ _ _ => true
  | .ERRORED _ => true
  | _ => false

/-- The status is one of the five that the engine stores: CREATED, SIGNED, SUBMITTED, INCLUDED or
ERRORED, and not UNKNOWN, QUEUED or PENDING. -/
def transactionStatusIsStored (status : BREthereumTransactionStatus) : Bool :=
  match status with
  | .CREATED => true
  | .SIGNED => true
  | .SUBMITTED => true
  | .INCLUDED _ _ _ _ => true
  | .ERRORED _ => true
  | .UNKNOWN => false
  | .QUEUED => false
  | .PENDING => false

/-! ## States of the transaction scenarios -/

/-- On the chain G, A1, A2 the transaction of the scenarios was submitted: it is stored as CREATED
and its hash is the one entry of the pending list. -/
def exampleSubmittedState : BREthereumBCS :=
  bcsHandleSubmitTransaction exampleForkState exampleTransaction .LES_SUCCESS

/-- The engine `exampleSubmittedState` after a status QUEUED for the transaction arrived. -/
def exampleQueuedState : BREthereumBCS :=
  match bcsHandleTransactionStatus exampleSubmittedState 9000 .QUEUED with
  | .returns bcs => bcs
  | _ => exampleSubmittedState

/-- A transaction with hash 9001 that carries the status UNKNOWN. -/
def exampleUnknownTransaction : BREthereumTransaction := { hash := 9001, status := .UNKNOWN }

/-- The engine created without saved headers in which `exampleUnknownTransaction` was
submitted. -/
def exampleUnknownState : BREthereumBCS :=
  bcsHandleSubmitTransaction (bcsCreate exampleGenesis none) exampleUnknownTransaction
    .LES_SUCCESS

/-- The engine `exampleUnknownState` after a status UNKNOWN for the transaction arrived. -/
def exampleUnknownReportedState : BREthereumBCS :=
  match bcsHandleTransactionStatus exampleUnknownState 9001 .UNKNOWN with
  | .returns bcs => bcs
  | _ => exampleUnknownState

/-! ## The handlers as the event queue runs them -/

/-- Modelled from the spec: an event of the engine's queue ("the BCS engine processes its inbound
events in FIFO order"; the queue itself, `BREthereumBCSEvent.c`, is not among the sources).  An
event names the handler to run and carries its arguments; for `bcsHandleSubmitTransaction` it also
carries the answer that `lesSubmitTransaction` gives. -/
inductive BCSEvent where
  | announce (headNumber : Nat)
  | submitTransaction (transaction : BREthereumTransaction) (lesStatus : BREthereumLESStatus)
  | transactionStatus (transactionHash : BREthereumHash) (status : BREthereumTransactionStatus)
  | blockHeader (header : BREthereumBlockHeader)
  deriving DecidableEq, Repr

/-- Modelled from the spec: the handler that the queue runs for an event. -/
def bcsHandleEvent (bcs : BREthereumBCS) : BCSEvent → Outcome BREthereumBCS
  | .announce headNumber => .returns (bcsHandleAnnounce bcs headNumber)
  | .submitTransaction transaction lesStatus =>
    .returns (bcsHandleSubmitTransaction bcs transaction lesStatus)
  | .transactionStatus transactionHash status =>
    bcsHandleTransactionStatus bcs transactionHash status
  | .blockHeader header => bcsHandleBlockHeader bcs header

/-- Modelled from the spec: the events of a list handled one after the other, oldest first. -/
def bcsHandleEvents : List BCSEvent → BREthereumBCS → Outcome BREthereumBCS
  | [], bcs => .returns bcs
  | event :: rest, bcs => (bcsHandleEvent bcs event).andThen fun bcs => bcsHandleEvents rest bcs

/-- A transaction of the state has a stored status that is terminal for the spec (ERRORED, or
INCLUDED in a block of the chain with a block number that is at most the number of the head) while
its hash is in the pending list. -/
def bcsTerminalIsPending (bcs : BREthereumBCS) : Bool :=
  bcs.transactions.any fun transaction =>
    decide (transaction.hash ∈ bcs.pendingTransactions) &&
    match transaction.status with
    | .ERRORED _ => true
    | .INCLUDED _ blockHash blockNumber _ =>
      match bcs.chain, bcsChainMembers bcs with
      | some chain, some members =>
        members.any (fun member => member.hash == blockHash) &&
          decide (blockNumber ≤ chain.number)
      | _, _ => false
    | _ => false

/-- Every transaction of the transaction set that is stored as INCLUDED has its block hash in the
header set. -/
def bcsIncludedInHeaderSet (bcs : BREthereumBCS) : Bool :=
  bcs.transactions.all fun transaction =>
    match transaction.status with
    | .INCLUDED _ blockHash _ _ => (BRSetGet blockHeaderGetHash bcs.headers blockHash).isSome
    | _ => true

/-- The transaction is not stored as INCLUDED, or it is and its block hash is in the header set or
its block number is below the number of `chainTail`. -/
def transactionIncludedIsKnown (headers : List BREthereumBlockHeader)
    (chainTail : Option BREthereumBlockHeader) (transaction : BREthereumTransaction) : Bool :=
  match transaction.status with
  | .INCLUDED _ blockHash blockNumber _ =>
    (BRSetGet blockHeaderGetHash headers blockHash).isSome ||
      match chainTail with
      | some chainTail => decide (blockNumber < chainTail.number)
      | none => false
  | _ => true

/-- Every transaction of the transaction set that is stored as INCLUDED has its block hash in the
header set or a block number below the number of `chainTail`. -/
def bcsIncludedInHeaderSetOrBelowTail (bcs : BREthereumBCS) : Bool :=
  bcs.transactions.all (transactionIncludedIsKnown bcs.headers bcs.chainTail)

/-- Every hash of the pending list is the hash of a transaction of the transaction set. -/
def bcsPendingAreKnown (bcs : BREthereumBCS) : Bool :=
  bcs.pendingTransactions.all fun hash =>
    (BRSetGet transactionGetHash bcs.transactions hash).isSome

/-- The events of the double submission: the transaction of the scenarios is submitted twice and
then reported as failed. -/
def exampleResubmitEvents : List BCSEvent :=
  [.submitTransaction exampleTransaction .LES_SUCCESS,
   .submitTransaction exampleTransaction .LES_SUCCESS,
   .transactionStatus 9000 (.ERRORED "nonce too low")]

/-- The engine created without saved headers after the two submissions of
`exampleResubmitEvents`. -/
def exampleSubmittedTwiceState : BREthereumBCS :=
  match bcsHandleEvents (exampleResubmitEvents.take 2) (bcsCreate exampleGenesis none) with
  | .returns bcs => bcs
  | _ => bcsCreate exampleGenesis none

/-- The engine created without saved headers after the three events of
`exampleResubmitEvents`. -/
def exampleErroredPendingState : BREthereumBCS :=
  match bcsHandleEvents exampleResubmitEvents (bcsCreate exampleGenesis none) with
  | .returns bcs => bcs
  | _ => bcsCreate exampleGenesis none

/-- The events of a double submission on the chain G, A1, A2: the two headers arrive, the
transaction of the scenarios is submitted twice and then reported as included in block A2. -/
def exampleResubmitIncludedEvents : List BCSEvent :=
  [.blockHeader exampleA1, .blockHeader exampleA2,
   .submitTransaction exampleTransaction .LES_SUCCESS,
   .submitTransaction exampleTransaction .LES_SUCCESS,
   .transactionStatus 9000 (.INCLUDED 21000 exampleA2.hash 2 0)]

/-- The engine created without saved headers after the events of
`exampleResubmitIncludedEvents`. -/
def exampleIncludedPendingState : BREthereumBCS :=
  match bcsHandleEvents exampleResubmitIncludedEvents (bcsCreate exampleGenesis none) with
  | .returns bcs => bcs
  | _ => bcsCreate exampleGenesis none

/-! ## States of the sync scenario -/

/-- A saved header numbered 50. -/
def exampleSavedFifty : BREthereumBlockHeader := exampleHeader 1050 1049 50

/-- The announced header of scenario S4, numbered 500; nobody has its parent. -/
def exampleAnnounced : BREthereumBlockHeader := exampleHeader 1500 1499 500

/-- Scenario S4 before the announce: the engine created with the one saved header
`exampleSavedFifty`, so that the head is at 50. -/
def exampleHeadFiftyState : BREthereumBCS :=
  bcsCreate exampleGenesis (some [exampleSavedFifty])

/-- Scenario S4 at the call of `bcsSyncFrom`: `exampleAnnounced` is in the header set and is the
one orphan. -/
def exampleAnnouncedOrphanState : BREthereumBCS :=
  bcsMakeOrphan
    { exampleHeadFiftyState with
      headers := BRSetAdd blockHeaderGetHash exampleHeadFiftyState.headers exampleAnnounced }
    exampleAnnounced

/-- Scenario S4 after the call of `bcsSyncFrom`. -/
def exampleSyncingState : BREthereumBCS :=
  { exampleAnnouncedOrphanState with
    syncActive := true
    syncTail := 51
    syncHead := 500
    syncNext := 150
    effects := [BCSEffect.lesGetBlockHeaders 51 100] }

/-- A header with the largest block number that 64 bits hold; nobody has its parent. -/
def exampleLastNumber : BREthereumBlockHeader := exampleHeader 7000 6999 UINT64_MAX

/-- The head is at 50 and `exampleLastNumber` is in the header set and is the one orphan. -/
def exampleLastNumberOrphanState : BREthereumBCS :=
  bcsMakeOrphan
    { exampleHeadFiftyState with
      headers := BRSetAdd blockHeaderGetHash exampleHeadFiftyState.headers exampleLastNumber }
    exampleLastNumber

/-! ## States of the replay scenarios -/

/-- The engine created with the saved headers 2 and 1 of the line, in this order. -/
def exampleUnsortedState : BREthereumBCS :=
  bcsCreate exampleGenesis (some [exampleLine 2, exampleLine 1])

/-- A second header numbered 1 on top of the genesis header. -/
def exampleOtherOne : BREthereumBlockHeader := exampleHeader 6001 1000 1

/-- The engine created with the saved headers 1 and 2 of the line followed by
`exampleOtherOne`: the two headers numbered 1 are not next to each other. -/
def exampleRepeatedNumberState : BREthereumBCS :=
  bcsCreate exampleGenesis (some [exampleLine 1, exampleLine 2, exampleOtherOne])

/-- The engine created with the saved header 1 of the line followed by `exampleOtherOne`: the
two headers numbered 1 are next to each other. -/
def exampleAdjacentNumberState : BREthereumBCS :=
  bcsCreate exampleGenesis (some [exampleLine 1, exampleOtherOne])

/-! ## Notions used to state the reclamation -/

/-- One round of the first walk of `bcsReclaimAndSaveBlocksIfAppropriate` (lines 377-381): the
header numbered `reclaimFromBlockNumber` becomes `chainTail`, a header with a smaller number is
reclaimed. -/
def bcsReclaimAndSaveBlocksIfAppropriate_round (reclaimFromBlockNumber : Nat)
    (bcs : BREthereumBCS) (header : BREthereumBlockHeader) : BREthereumBCS :=
  if header.number = reclaimFromBlockNumber then { bcs with chainTail := some header }
  else if header.number < reclaimFromBlockNumber then bcsReclaimBlock bcs header
  else bcs

/-- The list `rest` holds the headers that the walk over parent hashes meets after `header`, in the
order of the walk and down to a header whose parent is not in the header set. -/
inductive parentWalkEnds (headers : List BREthereumBlockHeader) :
    BREthereumBlockHeader → List BREthereumBlockHeader → Prop where
  | last (header : BREthereumBlockHeader)
      (hparent : BRSetGet blockHeaderGetHash headers header.parentHash = none) :
      parentWalkEnds headers header []
  | step (header parent : BREthereumBlockHeader) (rest : List BREthereumBlockHeader)
      (hparent : BRSetGet blockHeaderGetHash headers header.parentHash = some parent)
      (hrest : parentWalkEnds headers parent rest) :
      parentWalkEnds headers header (parent :: rest)

/-- Every header of the header set whose parent is in the header set has the block number of the
parent plus one. -/
def bcsNumbersFollowParents (bcs : BREthereumBCS) : Bool :=
  bcs.headers.all fun header =>
    match BRSetGet blockHeaderGetHash bcs.headers header.parentHash with
    | none => true
    | some parent => header.number == parent.number + 1

/-! ## States of the reclamation scenarios -/

/-- The headers 0 to `count - 1` of the line, in this order; header 0 is the genesis header of
these scenarios. -/
def exampleLineHeaders (count : Nat) : List BREthereumBlockHeader :=
  (List.range count).map exampleLine

/-- The headers `count` down to 1 of the line, followed by header 0: the chain from header `count`
down to the genesis header. -/
def exampleLineMembers (count : Nat) : List BREthereumBlockHeader :=
  (List.range count).reverse.map (fun n => exampleLine (n + 1)) ++ [exampleLine 0]

/-- The header set holds the headers 0 to 600 of the line, the tail is header 0 and the head is
header 600; every other field is as `bcsCreate` leaves it. -/
def exampleLongState : BREthereumBCS :=
  { bcsCreateInitial (exampleLine 0) with
    headers := exampleLineHeaders 601
    chain := some (exampleLine 600) }

/-- A header numbered 300 whose hash is the parent hash of header 0 of the line. -/
def exampleBelow : BREthereumBlockHeader := exampleHeader 999 998 300

/-- The state `exampleLongState` with `exampleBelow` in the header set as well. -/
def exampleDeepState : BREthereumBCS :=
  { bcsCreateInitial (exampleLine 0) with
    headers := exampleBelow :: exampleLineHeaders 601
    chain := some (exampleLine 600) }

/-- The headers that the reclamation walk meets in `exampleDeepState` from header `count - 1` of
the line on: the headers `count - 1` down to 0 and then `exampleBelow`. -/
def exampleDeepPath (count : Nat) : List BREthereumBlockHeader :=
  (List.range count).reverse.map exampleLine ++ [exampleBelow]

/-! ## The requests for block bodies -/

/-- The hashes of the blocks whose body the engine asked for, oldest request first: the arguments
of the calls of `lesGetBlockBodiesOne` among the effects. -/
def bcsRequestedBodies (effects : List BCSEffect) : List BREthereumHash :=
  effects.filterMap fun effect =>
    match effect with
    | .lesGetBlockBodiesOne hash => some hash
    | _ => none

/-- The test of lines 682-683: the header has matching transactions or matching logs. -/
def bcsBlockHeaderIsNeeded (bcs : BREthereumBCS) (header : BREthereumBlockHeader) : Bool :=
  bcsBlockHeaderHasMatchingTransactions bcs header || bcsBlockHeaderHasMatchingLogs bcs header

/-- The active block that `bcsHandleBlockHeader` adds for a needed header (lines 698-702). -/
def bcsActiveBlockFor (header : BREthereumBlockHeader) : BREthereumBCSActiveBlock :=
  { hash := header.hash, state := BREthereumBCSActiveBlockState.ACTIVE_BLOCK_PENDING_BODIES }

/-! ## States of the orphan and sync scenarios -/

/-- Three orphans numbered 85, 86 and 90 whose parents nobody has. -/
def exampleOldOrphans : List BREthereumBlockHeader :=
  [exampleHeader 2085 2084 85, exampleHeader 2086 2185 86, exampleHeader 2090 2089 90]

/-- The engine created without saved headers with `exampleOldOrphans` as its orphan set. -/
def exampleOldOrphansState : BREthereumBCS :=
  { bcsCreate exampleGenesis none with
    headers := exampleGenesis :: exampleOldOrphans
    orphans := exampleOldOrphans }

/-- The engine created without saved headers with three orphans: a header numbered 2 on top of
hash 3501, `exampleOrphan`, and header 3501, a child of the genesis header. -/
def exampleChainableState : BREthereumBCS :=
  { bcsCreate exampleGenesis none with
    headers :=
      [exampleGenesis, exampleHeader 3502 3501 2, exampleOrphan, exampleHeader 3501 1000 1]
    orphans := [exampleHeader 3502 3501 2, exampleOrphan, exampleHeader 3501 1000 1] }

/-- A header numbered 3 whose parent nobody has: a block of a fork that is not followed. -/
def exampleTrueOrphan : BREthereumBlockHeader := exampleHeader 8003 8002 3

/-- The engine created without saved headers that has received `exampleTrueOrphan` and then the
headers 1 and 2 of the line, which the sync it started asked for. -/
def exampleEmptyBatchState : BREthereumBCS :=
  match bcsHandleBlockHeaders [exampleTrueOrphan, exampleLine 1, exampleLine 2]
      (bcsCreate exampleGenesis none) with
  | .returns bcs => bcs
  | _ => bcsCreate exampleGenesis none

/-! ## States of the block-body scenarios -/

/-- A valid header that matches the log filter of the engine. -/
def exampleMatching (hash parentHash number : Nat) : BREthereumBlockHeader :=
  { exampleHeader hash parentHash number with matchesLogs := true }

/-- The engine created without saved headers that has received a matching header numbered 2 on
top of hash 5001 and its child numbered 3, which matches nothing; both are orphans. -/
def exampleBodiesBeforeState : BREthereumBCS :=
  match bcsHandleBlockHeaders [exampleMatching 5002 5001 2, exampleHeader 5003 5002 3]
      (bcsCreate exampleGenesis none) with
  | .returns bcs => bcs
  | _ => bcsCreate exampleGenesis none

/-- The engine `exampleBodiesBeforeState` after it has received the matching header 5001, the
child of the genesis header. -/
def exampleBodiesState : BREthereumBCS :=
  match bcsHandleBlockHeader exampleBodiesBeforeState (exampleMatching 5001 1000 1) with
  | .returns bcs => bcs
  | _ => exampleBodiesBeforeState

/-- A matching header numbered 1 whose parent hash is 5102. -/
def exampleEarlyChild : BREthereumBlockHeader := exampleMatching 5101 5102 1

/-- The matching header with hash 5102, numbered 2, a child of header 1 of the line. -/
def exampleLateParent : BREthereumBlockHeader := exampleMatching 5102 1001 2

/-- The engine created without saved headers that has received header 1 of the line and then
`exampleEarlyChild`, which is an orphan. -/
def exampleOutOfOrderBeforeState : BREthereumBCS :=
  match bcsHandleBlockHeaders [exampleLine 1, exampleEarlyChild]
      (bcsCreate exampleGenesis none) with
  | .returns bcs => bcs
  | _ => bcsCreate exampleGenesis none

/-- The engine `exampleOutOfOrderBeforeState` after it has received `exampleLateParent`. -/
def exampleOutOfOrderState : BREthereumBCS :=
  match bcsHandleBlockHeader exampleOutOfOrderBeforeState exampleLateParent with
  | .returns bcs => bcs
  | _ => exampleOutOfOrderBeforeState

/-! ## States of the reorganisation scenario -/

/-- The header numbered `n` of a second line that starts at the genesis header. -/
def exampleSide (n : Nat) : BREthereumBlockHeader :=
  exampleHeader (4100 + n) (if n = 1 then 1000 else 4100 + n - 1) n

/-- The engine created without saved headers that has received header 1 of the line and then
header 1 of the second line: the reorganisation has made header 1 of the line an orphan. -/
def exampleReorgState : BREthereumBCS :=
  match bcsHandleBlockHeaders [exampleLine 1, exampleSide 1] (bcsCreate exampleGenesis none) with
  | .returns bcs => bcs
  | _ => bcsCreate exampleGenesis none

/-- The engine `exampleReorgState` after it has received header 2 of the line, the child of the
orphan. -/
def exampleReorgChildState : BREthereumBCS :=
  match bcsHandleBlockHeader exampleReorgState (exampleLine 2) with
  | .returns bcs => bcs
  | _ => exampleReorgState

/-- The engine `exampleReorgState` after it has received the headers 2 to 12 of the second line:
the head is numbered 12. -/
def exampleReorgPurgedState : BREthereumBCS :=
  match bcsHandleBlockHeaders ((List.range 11).map fun n => exampleSide (n + 2))
      exampleReorgState with
  | .returns bcs => bcs
  | _ => exampleReorgState

/-! ## Included transactions and the numbers of their blocks -/

/-- The transaction is not stored as INCLUDED, or it is and the header set holds under its block
hash a header with its block number, or its block number is below the number of `chainTail`. -/
def transactionIncludedIsInBlock (headers : List BREthereumBlockHeader)
    (chainTail : Option BREthereumBlockHeader) (transaction : BREthereumTransaction) : Bool :=
  match transaction.status with
  | .INCLUDED _ blockHash blockNumber _ =>
    (match BRSetGet blockHeaderGetHash headers blockHash with
      | some header => header.number == blockNumber
      | none => false) ||
      match chainTail with
      | some chainTail => decide (blockNumber < chainTail.number)
      | none => false
  | _ => true

/-- Every transaction of the transaction set that is stored as INCLUDED has its block hash in the
header set, on a header with its block number, or a block number below the number of
`chainTail`. -/
def bcsIncludedInBlockOrBelowTail (bcs : BREthereumBCS) : Bool :=
  bcs.transactions.all (transactionIncludedIsInBlock bcs.headers bcs.chainTail)

/-- A status that is INCLUDED in a block of the header set reports the number of that block. -/
def transactionStatusReportsBlockNumber (headers : List BREthereumBlockHeader)
    (status : BREthereumTransactionStatus) : Bool :=
  match status with
  | .INCLUDED _ blockHash blockNumber _ =>
    match BRSetGet blockHeaderGetHash headers blockHash with
    | some header => header.number == blockNumber
    | none => true
  | _ => true

/-- The state `exampleLongState` after the transaction of the scenarios was submitted. -/
def exampleLongSubmittedState : BREthereumBCS :=
  bcsHandleSubmitTransaction exampleLongState exampleTransaction .LES_SUCCESS

/-- The state `exampleLongSubmittedState` after a status INCLUDED arrived for the transaction, for
header 5 of the line (hash 1005) with the block number 5. -/
def exampleLongIncludedState : BREthereumBCS :=
  match bcsHandleTransactionStatus exampleLongSubmittedState exampleTransaction.hash
      (.INCLUDED 21000 1005 5 0) with
  | .returns bcs => bcs
  | _ => exampleLongSubmittedState

/-- The state `exampleLongSubmittedState` after a status INCLUDED arrived for the transaction, for
header 5 of the line (hash 1005) with the block number 400, which is not the number of that
header. -/
def exampleLongMisreportedState : BREthereumBCS :=
  match bcsHandleTransactionStatus exampleLongSubmittedState exampleTransaction.hash
      (.INCLUDED 21000 1005 400 0) with
  | .returns bcs => bcs
  | _ => exampleLongSubmittedState

/-- A saved header numbered 700 whose parent hash is the hash of header 1 of the line. -/
def exampleFar : BREthereumBlockHeader := exampleHeader 7700 1001 700

/-- A header numbered 701 whose parent is `exampleFar`. -/
def exampleFarChild : BREthereumBlockHeader := exampleHeader 7701 7700 701

/-- The engine created with two saved headers, header 1 of the line and `exampleFar`, whose number
is not the number of its parent plus one; the transaction of the scenarios was submitted and then
reported as included in header 1 of the line (hash 1001), with the block number 1. -/
def exampleFarState : BREthereumBCS :=
  match bcsHandleTransactionStatus
      (bcsHandleSubmitTransaction (bcsCreate exampleGenesis (some [exampleLine 1, exampleFar]))
        exampleTransaction .LES_SUCCESS)
      exampleTransaction.hash (.INCLUDED 21000 1001 1 0) with
  | .returns bcs => bcs
  | _ => bcsCreate exampleGenesis (some [exampleLine 1, exampleFar])

/-- The engine `exampleFarState` after `exampleFarChild` arrived. -/
def exampleFarReclaimedState : BREthereumBCS :=
  match bcsHandleBlockHeader exampleFarState exampleFarChild with
  | .returns bcs => bcs
  | _ => exampleFarState

end BCS

/-!
# breadwallet-core, Ethereum light client: LES node

A shallow embedding of `ethereum/les/BREthereumNode.c` (one remote peer: its two routes, its
provisioners and its handshake) and theorems about it.  Functions carry the names of the C
functions they embed.

Conventions of the embedding:

* a node is a value; the pointer to a provisioner of the node is the index of the provisioner in
  `provisioners`;
* `size_t` and `uint64_t` values are natural numbers, both 64 bits wide, and the sums and
  differences that the source computes on them are reduced modulo `2 ^ 64`;
* what the socket, the coders and the tables of other files answer is an argument of the function
  that asks;
* a function that can stop on a failed `assert` returns an `Outcome`;
* calls that leave the node (socket writes, callbacks, thread cancellation) are appended to the
  `effects` field of the node, oldest first.
-/

namespace LES

open BCS

/-! ## Routes and route states -/

/-- A route to the remote peer, `BREthereumNodeEndpointRoute`. -/
inductive BREthereumNodeEndpointRoute where
  | NODE_ROUTE_UDP
  | NODE_ROUTE_TCP
  deriving DecidableEq, Repr

/-- An array indexed by route, such as `states[NUMBER_OF_NODE_ROUTES]`. -/
structure ByRoute (α : Type) where
  udp : α
  tcp : α
  deriving DecidableEq, Repr

/-- The element `array[route]`. -/
def ByRoute.get {α : Type} (array : ByRoute α) : BREthereumNodeEndpointRoute → α
  | .NODE_ROUTE_UDP => array.udp
  | .NODE_ROUTE_TCP => array.tcp

/-- The assignment `array[route] = value`. -/
def ByRoute.set {α : Type} (array : ByRoute α) (route : BREthereumNodeEndpointRoute)
    (value : α) : ByRoute α :=
  match route with
  | .NODE_ROUTE_UDP => { array with udp := value }
  | .NODE_ROUTE_TCP => { array with tcp := value }

/-- Kind of peer, `BREthereumNodeType`. -/
inductive BREthereumNodeType where
  | NODE_TYPE_GETH
  | NODE_TYPE_PARITY
  deriving DecidableEq, Repr

/-- Phase of a connecting route, `BREthereumNodeConnectType`. -/
inductive BREthereumNodeConnectType where
  | NODE_CONNECT_OPEN
  | NODE_CONNECT_AUTH
  | NODE_CONNECT_AUTH_ACK
  | NODE_CONNECT_HELLO
  | NODE_CONNECT_HELLO_ACK
  | NODE_CONNECT_STATUS
  | NODE_CONNECT_STATUS_ACK
  | NODE_CONNECT_PING
  | NODE_CONNECT_PING_ACK
  deriving DecidableEq, Repr

/-- Reason of a protocol error, `BREthereumNodeProtocolReason`, in the order of
`nodeProtocolReasonDescription` (lines 193-207). -/
inductive BREthereumNodeProtocolReason where
  | NODE_PROTOCOL_NONSTANDARD_PORT
  | NODE_PROTOCOL_UDP_PING_PONG_MISSED
  | NODE_PROTOCOL_UDP_EXCESSIVE_BYTE_COUNT
  | NODE_PROTOCOL_TCP_AUTHENTICATION
  | NODE_PROTOCOL_TCP_HELLO_MISSED
  | NODE_PROTOCOL_TCP_STATUS_MISSED
  | NODE_PROTOCOL_CAPABILITIES_MISMATCH
  | NODE_PROTOCOL_NETWORK_MISMATCH
  deriving DecidableEq, Repr

/-- Reason of a P2P disconnect, `BREthereumP2PDisconnectReason`, as its number on the wire. -/
abbrev BREthereumP2PDisconnectReason := Nat

/-- The reason `P2P_MESSAGE_DISCONNECT_REQUESTED`; the enumeration is declared outside these
sources and the node compares a reason with this one only. -/
def P2P_MESSAGE_DISCONNECT_REQUESTED : BREthereumP2PDisconnectReason := 0

/-- State of a route, `BREthereumNodeState`: the type with the member of the union that goes
with it. -/
inductive BREthereumNodeState where
  | NODE_AVAILABLE
  | NODE_CONNECTING (type : BREthereumNodeConnectType)
  | NODE_CONNECTED
  | NODE_EXHAUSTED (timestamp : Nat)
  | NODE_ERROR_UNIX (error : Int)
  | NODE_ERROR_DISCONNECT (reason : BREthereumP2PDisconnectReason)
  | NODE_ERROR_PROTOCOL (reason : BREthereumNodeProtocolReason)
  deriving DecidableEq, Repr

/-- The function `nodeStateCreateAvailable` (lines 143-146). -/
def nodeStateCreateAvailable : BREthereumNodeState := .NODE_AVAILABLE

/-- The function `nodeStateCreateConnecting` (lines 148-154). -/
def nodeStateCreateConnecting (type : BREthereumNodeConnectType) : BREthereumNodeState :=
  .NODE_CONNECTING type

/-- The function `nodeStateCreateConnected` (lines 156-159). -/
def nodeStateCreateConnected : BREthereumNodeState := .NODE_CONNECTED

/-- The function `nodeStateCreateErrorUnix` (lines 169-175). -/
def nodeStateCreateErrorUnix (error : Int) : BREthereumNodeState := .NODE_ERROR_UNIX error

/-- The function `nodeStateCreateErrorDisconnect` (lines 177-183). -/
def nodeStateCreateErrorDisconnect (reason : BREthereumP2PDisconnectReason) :
    BREthereumNodeState :=
  .NODE_ERROR_DISCONNECT reason

/-- The function `nodeStateCreateErrorProtocol` (lines 185-191). -/
def nodeStateCreateErrorProtocol (reason : BREthereumNodeProtocolReason) : BREthereumNodeState :=
  .NODE_ERROR_PROTOCOL reason

/-! ## Messages -/

/-- Family of a message, `BREthereumMessageIdentifier`. -/
inductive BREthereumMessageIdentifier where
  | MESSAGE_P2P
  | MESSAGE_DIS
  | MESSAGE_ETH
  | MESSAGE_LES
  | MESSAGE_PIP
  deriving DecidableEq, Repr

/-- A capability of a Hello message, `BREthereumP2PCapability`. -/
structure BREthereumP2PCapability where
  name : String
  version : Nat
  deriving DecidableEq, Repr

/-- The Hello message, `BREthereumP2PMessageHello`, with the field the node reads. -/
structure BREthereumP2PMessageHello where
  capabilities : List BREthereumP2PCapability
  deriving DecidableEq, Repr

/-- A P2P message, `BREthereumP2PMessage`. -/
inductive BREthereumP2PMessage where
  | P2P_MESSAGE_HELLO (hello : BREthereumP2PMessageHello)
  | P2P_MESSAGE_DISCONNECT (reason : BREthereumP2PDisconnectReason)
  | P2P_MESSAGE_PING
  | P2P_MESSAGE_PONG
  deriving DecidableEq, Repr

/-- A discovery message, `BREthereumDISMessage`.  A neighbor is taken as a number; the expiration
times, which the source reads off the clock, are left out. -/
inductive BREthereumDISMessage where
  | DIS_MESSAGE_PING (target hash : Nat)
  | DIS_MESSAGE_PONG (target hash : Nat)
  | DIS_MESSAGE_FIND_NEIGHBORS
  | DIS_MESSAGE_NEIGHBORS (neighbors : List Nat)
  deriving DecidableEq, Repr

/-- Kind of a LES message, `BREthereumLESMessageIdentifier`. -/
inductive BREthereumLESMessageIdentifier where
  | LES_MESSAGE_STATUS
  | LES_MESSAGE_ANNOUNCE
  | LES_MESSAGE_GET_BLOCK_HEADERS
  | LES_MESSAGE_BLOCK_HEADERS
  | LES_MESSAGE_GET_BLOCK_BODIES
  | LES_MESSAGE_BLOCK_BODIES
  | LES_MESSAGE_GET_RECEIPTS
  | LES_MESSAGE_RECEIPTS
  | LES_MESSAGE_GET_PROOFS
  | LES_MESSAGE_PROOFS
  | LES_MESSAGE_GET_CONTRACT_CODES
  | LES_MESSAGE_CONTRACT_CODES
  | LES_MESSAGE_SEND_TX
  | LES_MESSAGE_GET_HEADER_PROOFS
  | LES_MESSAGE_HEADER_PROOFS
  | LES_MESSAGE_GET_PROOFS_V2
  | LES_MESSAGE_PROOFS_V2
  | LES_MESSAGE_GET_HELPER_TRIE_PROOFS
  | LES_MESSAGE_HELPER_TRIE_PROOFS
  | LES_MESSAGE_SEND_TX2
  | LES_MESSAGE_GET_TX_STATUS
  | LES_MESSAGE_TX_STATUS
  deriving DecidableEq, Repr

/-- The status a peer reports of itself, as the LES and PIP status messages carry it. -/
structure BREthereumMessageStatus where
  protocolVersion : Nat
  chainId : Nat
  headNum : Nat
  headHash : BREthereumHash
  headTd : Nat
  genesisHash : BREthereumHash
  deriving DecidableEq, Repr

/-- The announcement of a new head, as the LES and PIP announce messages carry it. -/
structure BREthereumMessageAnnounce where
  headHash : BREthereumHash
  headNumber : Nat
  headTotalDifficulty : Nat
  reorgDepth : Nat
  deriving DecidableEq, Repr

/-- A LES message, `BREthereumLESMessage`: its kind, the request identifier that
`messageLESGetRequestId` reads, the credits that `messageLESGetCredits` reads, and the members
`status` and `announce` of its union; `content` stands for the rest of a response. -/
structure BREthereumLESMessage where
  identifier : BREthereumLESMessageIdentifier
  requestId : Nat
  credits : Nat
  status : BREthereumMessageStatus
  announce : BREthereumMessageAnnounce
  content : List Nat
  deriving DecidableEq, Repr

/-- Kind of a PIP message, `BREthereumPIPMessageType`. -/
inductive BREthereumPIPMessageType where
  | PIP_MESSAGE_STATUS
  | PIP_MESSAGE_ANNOUNCE
  | PIP_MESSAGE_REQUEST
  | PIP_MESSAGE_RESPONSE
  | PIP_MESSAGE_UPDATE_CREDIT_PARAMETERS
  | PIP_MESSAGE_ACKNOWLEDGE_UPDATE
  | PIP_MESSAGE_RELAY_TRANSACTIONS
  deriving DecidableEq, Repr

/-- A PIP message, `BREthereumPIPMessage`: its kind, the request identifier that
`messagePIPGetRequestId` reads, and the members `status` and `announce` of its union; `content`
stands for the rest of a response. -/
structure BREthereumPIPMessage where
  type : BREthereumPIPMessageType
  requestId : Nat
  status : BREthereumMessageStatus
  announce : BREthereumMessageAnnounce
  content : List Nat
  deriving DecidableEq, Repr

/-- A message, `BREthereumMessage`: the family with the member of the union that goes with it.
The node never builds an ETH message. -/
inductive BREthereumMessage where
  | p2p (message : BREthereumP2PMessage)
  | dis (message : BREthereumDISMessage)
  | eth
  | les (message : BREthereumLESMessage)
  | pip (message : BREthereumPIPMessage)
  deriving DecidableEq, Repr

/-- The field `identifier` of a message. -/
def BREthereumMessage.identifier : BREthereumMessage → BREthereumMessageIdentifier
  | .p2p _ => .MESSAGE_P2P
  | .dis _ => .MESSAGE_DIS
  | .eth => .MESSAGE_ETH
  | .les _ => .MESSAGE_LES
  | .pip _ => .MESSAGE_PIP

/-! ## Provisions -/

/-- Kind of a provision, `BREthereumProvisionType`. -/
inductive BREthereumProvisionType where
  | PROVISION_BLOCK_HEADERS
  | PROVISION_BLOCK_BODIES
  | PROVISION_TRANSACTION_RECEIPTS
  | PROVISION_ACCOUNTS
  | PROVISION_TRANSACTION_STATUSES
  | PROVISION_SUBMIT_TRANSACTION
  deriving DecidableEq, Repr

/-- A provision, `BREthereumProvision`: its identifier, its type, and of its union what the node
reads, which is the `limit` of a header request and the `hashes` of the requests for bodies,
receipts, accounts and statuses.  `responses` stands for what `provisionHandleMessage` gathers. -/
structure BREthereumProvision where
  identifier : Nat
  type : BREthereumProvisionType
  limit : Nat
  hashes : List BREthereumHash
  responses : List BREthereumMessage
  deriving DecidableEq, Repr

/-- Status of a provision result; the node reports successes only. -/
inductive BREthereumProvisionStatus where
  | PROVISION_SUCCESS
  | PROVISION_ERROR
  deriving DecidableEq, Repr

/-- The value handed to `callbackProvide`, `BREthereumProvisionResult`. -/
structure BREthereumProvisionResult where
  identifier : Nat
  type : BREthereumProvisionType
  status : BREthereumProvisionStatus
  provision : BREthereumProvision
  deriving DecidableEq, Repr

/-- A provisioner, `BREthereumNodeProvisioner` (lines 288-321).  The back pointer `node` is the
node that holds the provisioner; the creation time is left out. -/
structure BREthereumNodeProvisioner where
  provision : BREthereumProvision
  messageIdentifier : Nat
  messagesCount : Nat
  messageContentLimit : Nat
  messagesRemainingCount : Nat
  messagesReceivedCount : Nat
  messages : List BREthereumMessage
  deriving DecidableEq, Repr

/-- What the node takes from files that are not among these sources: the function
`provisionGetMessageLESIdentifier`, the field `limit` of the table `messageLESSpecs`, the answer
of `messageLESHasUse` for `LES_MESSAGE_USE_RESPONSE`, the function
`messageP2PHelloHasCapability`, and the functions `provisionCreateMessage` and
`provisionHandleMessage` with their arguments in the order of the source. -/
structure BREthereumNodeImports where
  provisionGetMessageLESIdentifier : BREthereumProvisionType → BREthereumLESMessageIdentifier
  messageLESSpecsLimit : BREthereumLESMessageIdentifier → Nat
  messageLESHasUseResponse : BREthereumLESMessageIdentifier → Bool
  messageP2PHelloHasCapability : BREthereumP2PMessageHello → BREthereumP2PCapability → Bool
  provisionCreateMessage :
    BREthereumProvision → BREthereumMessageIdentifier → Nat → Nat → Nat → BREthereumMessage
  provisionHandleMessage :
    BREthereumProvision → BREthereumMessage → Nat → Nat → BREthereumProvision

/-! ## The node -/

/-- An endpoint, `BREthereumNodeEndpoint`, with the fields the node reads: the ports, the sockets
by route (-1 when there is none), and the Hello and status messages. -/
structure BREthereumNodeEndpoint where
  portUDP : Nat
  portTCP : Nat
  sockets : ByRoute Int
  hello : BREthereumP2PMessage
  status : BREthereumMessage
  deriving DecidableEq, Repr

/-- A call that leaves the node. -/
inductive BREthereumNodeEffect where
  | nodeEndpointOpen (route : BREthereumNodeEndpointRoute)
  | nodeEndpointClose (route : BREthereumNodeEndpointRoute) (needShutdown : Bool)
  | nodeEndpointSendMessage (route : BREthereumNodeEndpointRoute) (message : BREthereumMessage)
  | nodeEndpointSendAuth (bytesCount : Nat)
  | nodeEndpointRecvData (route : BREthereumNodeEndpointRoute) (bytesCount : Nat)
  | messageDecode (bytesCount : Nat) (type : BREthereumMessageIdentifier)
      (subtype : Option Nat)
  | frameCoderInit
  | pthreadCancel (route : BREthereumNodeEndpointRoute)
  | callbackStatus (headHash : BREthereumHash) (headNum : Nat)
  | callbackAnnounce (announce : BREthereumMessageAnnounce)
  | callbackProvide (result : BREthereumProvisionResult)
  | callbackNeighbor (neighbor : Nat)
  | callbackState (route : BREthereumNodeEndpointRoute) (state : BREthereumNodeState)
  deriving DecidableEq, Repr

/-- The node, `struct BREthereumNodeRecord` (lines 450-510), with the fields the embedded
functions touch.  `localEndpoint` is the field `local`; `threads` tells by route whether
`threads[route]` holds a thread;
`messageIdOffset` is `coder.messageIdOffset`; `recvDataBufferCount` is
`recvDataBuffer.bytesCount`. -/
structure BREthereumNode where
  type : BREthereumNodeType
  states : ByRoute BREthereumNodeState
  localEndpoint : BREthereumNodeEndpoint
  remote : BREthereumNodeEndpoint
  credits : Nat
  messageIdOffset : Nat
  recvDataBufferCount : Nat
  messageIdentifier : Nat
  provisioners : List BREthereumNodeProvisioner
  threads : ByRoute Bool
  effects : List BREthereumNodeEffect
  deriving DecidableEq, Repr

/-! ## Provisioners -/

/-- The function `provisionerSendMessagesPending` (lines 323-326). -/
def provisionerSendMessagesPending (provisioner : BREthereumNodeProvisioner) : Bool :=
  decide (provisioner.messagesRemainingCount > 0)

/-- The function `provisionerRecvMessagesPending` (lines 328-331). -/
def provisionerRecvMessagesPending (provisioner : BREthereumNodeProvisioner) : Bool :=
  decide (provisioner.messagesReceivedCount < provisioner.messagesCount)

/-- The function `provisionerMessageOfInterest` (lines 333-338); the sum is a `uint64_t` sum. -/
def provisionerMessageOfInterest (provisioner : BREthereumNodeProvisioner)
    (messageIdentifier : Nat) : Bool :=
  decide (provisioner.messageIdentifier ≤ messageIdentifier) &&
    decide (messageIdentifier <
      u64Add provisioner.messageIdentifier provisioner.messagesCount)

/-- The function `provisionerGetCount` (lines 362-381). -/
def provisionerGetCount (provisioner : BREthereumNodeProvisioner) : Nat :=
  match provisioner.provision.type with
  | .PROVISION_BLOCK_HEADERS => provisioner.provision.limit
  | .PROVISION_BLOCK_BODIES => provisioner.provision.hashes.length
  | .PROVISION_TRANSACTION_RECEIPTS => provisioner.provision.hashes.length
  | .PROVISION_ACCOUNTS => provisioner.provision.hashes.length
  | .PROVISION_TRANSACTION_STATUSES => provisioner.provision.hashes.length
  | .PROVISION_SUBMIT_TRANSACTION => 2

/-- The function `provisionerGetMessageContentLimit` (lines 383-396), for a provisioner of a node
of the given type. -/
def provisionerGetMessageContentLimit (imports : BREthereumNodeImports)
    (type : BREthereumNodeType) (provisioner : BREthereumNodeProvisioner) : Nat :=
  match type with
  | .NODE_TYPE_GETH =>
    imports.messageLESSpecsLimit
      (imports.provisionGetMessageLESIdentifier provisioner.provision.type)
  | .NODE_TYPE_PARITY => 256

/-- The function `nodeGetThenIncrementMessageIdentifier` (lines 1020-1029): the identifier it
returns and the node it leaves. -/
def nodeGetThenIncrementMessageIdentifier (node : BREthereumNode) (byIncrement : Nat) :
    Nat × BREthereumNode :=
  (node.messageIdentifier,
    { node with messageIdentifier := u64Add node.messageIdentifier byIncrement })

/-- The function `provisionerEstablish` (lines 398-432): the provisioner and the node it leaves.
It stops on the `assert` when the content limit is 0. -/
def provisionerEstablish (imports : BREthereumNodeImports)
    (provisioner : BREthereumNodeProvisioner) (node : BREthereumNode) :
    Outcome (BREthereumNodeProvisioner × BREthereumNode) :=
  let messageContentLimit := provisionerGetMessageContentLimit imports node.type provisioner
  if messageContentLimit = 0 then .aborts
  else
    let messagesCount :=
      u64Sub (u64Add (provisionerGetCount provisioner) messageContentLimit) 1 /
        messageContentLimit
    let (messageIdentifier, node) := nodeGetThenIncrementMessageIdentifier node messagesCount
    .returns
      ({ provisioner with
          messageContentLimit := messageContentLimit
          messagesCount := messagesCount
          messageIdentifier := messageIdentifier
          messagesRemainingCount := messagesCount
          messagesReceivedCount :=
            if provisioner.provision.type = .PROVISION_SUBMIT_TRANSACTION then 1 else 0
          messages := (List.range messagesCount).map fun index =>
            imports.provisionCreateMessage provisioner.provision
              (if node.type = .NODE_TYPE_GETH then .MESSAGE_LES else .MESSAGE_PIP)
              messageContentLimit messageIdentifier index },
        node)

/-- The function `provisionerHandleMessage` (lines 434-444); the count is a `size_t`. -/
def provisionerHandleMessage (imports : BREthereumNodeImports)
    (provisioner : BREthereumNodeProvisioner) (message : BREthereumMessage) :
    BREthereumNodeProvisioner :=
  { provisioner with
    provision := imports.provisionHandleMessage provisioner.provision message
      provisioner.messageContentLimit provisioner.messageIdentifier
    messagesReceivedCount := u64Add provisioner.messagesReceivedCount 1 }

/-- The function `nodeHandleProvision` (lines 1008-1015): a provisioner with the provision and
zeros is added to the end of the list and established there. -/
def nodeHandleProvision (imports : BREthereumNodeImports) (node : BREthereumNode)
    (provision : BREthereumProvision) : Outcome BREthereumNode :=
  (provisionerEstablish imports
    { provision := provision, messageIdentifier := 0, messagesCount := 0,
      messageContentLimit := 0, messagesRemainingCount := 0, messagesReceivedCount := 0,
      messages := [] } node).andThen fun (provisioner, node) =>
    .returns { node with provisioners := node.provisioners ++ [provisioner] }

/-- A run of `nodeHandleProvision`, one call for each provision of the list in turn. -/
def nodeHandleProvisions (imports : BREthereumNodeImports) :
    List BREthereumProvision → BREthereumNode → Outcome BREthereumNode
  | [], node => .returns node
  | provision :: rest, node =>
    (nodeHandleProvision imports node provision).andThen fun node =>
      nodeHandleProvisions imports rest node

/-- The function `nodeHandleProvisionerMessage` (lines 708-734) for the provisioner at `index` of
the list: the provisioner handles the message; when it waits for no further message the result
is handed to `callbackProvide` and the provisioner is taken out of the list.  An `index` outside
the list is no pointer to a provisioner of the node. -/
def nodeHandleProvisionerMessage (imports : BREthereumNodeImports) (node : BREthereumNode)
    (index : Nat) (message : BREthereumMessage) : Outcome BREthereumNode :=
  match node.provisioners[index]? with
  | none => .aborts
  | some provisioner =>
    let provisioner := provisionerHandleMessage imports provisioner message
    let node := { node with provisioners := node.provisioners.set index provisioner }
    if provisionerRecvMessagesPending provisioner = false then
      .returns
        { node with
          effects := node.effects ++
            [BREthereumNodeEffect.callbackProvide
              { identifier := provisioner.provision.identifier
                type := provisioner.provision.type
                status := .PROVISION_SUCCESS
                provision := provisioner.provision }]
          provisioners := node.provisioners.eraseIdx index }
    else .returns node

/-! ## Creation, route states and disconnection -/

/-- Value of `DEFAULT_RECV_DATA_BUFFER_SIZE`. -/
def DEFAULT_RECV_DATA_BUFFER_SIZE : Nat := 1 * 1024 * 1024

/-- The function `nodeSetStateErrorProtocol` (lines 1122-1127). -/
def nodeSetStateErrorProtocol (node : BREthereumNode) (route : BREthereumNodeEndpointRoute)
    (reason : BREthereumNodeProtocolReason) : BREthereumNode :=
  { node with states := node.states.set route (nodeStateCreateErrorProtocol reason) }

/-- The function `nodeCreate` (lines 520-606) for the two endpoints; the network, the callbacks,
the buffers, the coders and the lock are outside the embedding. -/
def nodeCreate (remote localEndpoint : BREthereumNodeEndpoint) : BREthereumNode :=
  let node : BREthereumNode :=
    { type := .NODE_TYPE_GETH
      states := { udp := nodeStateCreateAvailable, tcp := nodeStateCreateAvailable }
      localEndpoint := localEndpoint
      remote := remote
      credits := 0
      messageIdOffset := 0
      recvDataBufferCount := DEFAULT_RECV_DATA_BUFFER_SIZE
      messageIdentifier := 0
      provisioners := []
      threads := { udp := false, tcp := false }
      effects := [BREthereumNodeEffect.frameCoderInit] }
  let node :=
    if remote.portTCP = 0 then
      nodeSetStateErrorProtocol node .NODE_ROUTE_TCP .NODE_PROTOCOL_NONSTANDARD_PORT
    else node
  if remote.portUDP = 0 then
    nodeSetStateErrorProtocol node .NODE_ROUTE_UDP .NODE_PROTOCOL_NONSTANDARD_PORT
  else node

/-- The function `nodeStateAnnounce` (lines 1085-1091). -/
def nodeStateAnnounce (node : BREthereumNode) (route : BREthereumNodeEndpointRoute)
    (state : BREthereumNodeState) : BREthereumNode :=
  { node with
    states := node.states.set route state
    effects := node.effects ++ [BREthereumNodeEffect.callbackState route state] }

/-- The function `nodeHasErrorState` (lines 1100-1114). -/
def nodeHasErrorState (node : BREthereumNode) (route : BREthereumNodeEndpointRoute) : Bool :=
  match node.states.get route with
  | .NODE_AVAILABLE => false
  | .NODE_CONNECTING _ => false
  | .NODE_CONNECTED => false
  | .NODE_EXHAUSTED _ => true
  | .NODE_ERROR_UNIX _ => true
  | .NODE_ERROR_DISCONNECT _ => true
  | .NODE_ERROR_PROTOCOL _ => true

/-- The function `nodeGetState` (lines 1116-1120). -/
def nodeGetState (node : BREthereumNode) (route : BREthereumNodeEndpointRoute) :
    BREthereumNodeState :=
  node.states.get route

/-- Modelled from the spec: `nodeEndpointClose` of `BREthereumNodeEndpoint.c`, which is not among
the sources.  The socket of the route is closed, after a shutdown when `needShutdown` is set, and
the endpoint holds no socket for the route afterwards. -/
def nodeEndpointClose (node : BREthereumNode) (route : BREthereumNodeEndpointRoute)
    (needShutdown : Bool) : BREthereumNode :=
  { node with
    remote := { node.remote with sockets := node.remote.sockets.set route (-1) }
    effects := node.effects ++ [BREthereumNodeEffect.nodeEndpointClose route needShutdown] }

/-- The function `nodeDisconnect` (lines 641-679). -/
def nodeDisconnect (node : BREthereumNode) (route : BREthereumNodeEndpointRoute)
    (reason : BREthereumP2PDisconnectReason) : BREthereumNode :=
  let node :=
    if node.threads.get route then
      { node with
        threads := node.threads.set route false
        effects := node.effects ++ [BREthereumNodeEffect.pthreadCancel route] }
    else node
  let node := nodeEndpointClose node route
    (decide (reason = P2P_MESSAGE_DISCONNECT_REQUESTED) && !nodeHasErrorState node route)
  match node.states.get route with
  | .NODE_ERROR_UNIX _ => node
  | .NODE_ERROR_DISCONNECT _ => node
  | .NODE_ERROR_PROTOCOL _ => node
  | .NODE_EXHAUSTED _ => node
  | .NODE_CONNECTING _ =>
    let state :=
      if reason = P2P_MESSAGE_DISCONNECT_REQUESTED then nodeStateCreateAvailable
      else nodeStateCreateErrorDisconnect reason
    { node with states := node.states.set route state }
  | .NODE_CONNECTED =>
    let state :=
      if reason = P2P_MESSAGE_DISCONNECT_REQUESTED then nodeStateCreateAvailable
      else nodeStateCreateErrorDisconnect reason
    { node with states := node.states.set route state }
  | .NODE_AVAILABLE => node

/-- The other route. -/
def BREthereumNodeEndpointRoute.other : BREthereumNodeEndpointRoute → BREthereumNodeEndpointRoute
  | .NODE_ROUTE_UDP => .NODE_ROUTE_TCP
  | .NODE_ROUTE_TCP => .NODE_ROUTE_UDP

/-! ## Sending and receiving -/

/-- The function `nodeSend` (lines 1716-1786): the node it leaves and whether it returns
`NODE_STATUS_SUCCESS`.  `error` is the answer of `nodeEndpointSendData` to the one write; the
encoding and the encryption of the message are outside the embedding.  It stops on the `assert`
when a discovery message goes to the TCP route or another message to the UDP route. -/
def nodeSend (node : BREthereumNode) (route : BREthereumNodeEndpointRoute)
    (message : BREthereumMessage) (error : Int) : Outcome (BREthereumNode × Bool) :=
  if (route = .NODE_ROUTE_UDP ∧ message.identifier = .MESSAGE_DIS) ∨
      (route ≠ .NODE_ROUTE_UDP ∧ message.identifier ≠ .MESSAGE_DIS) then
    let node :=
      { node with
        effects := node.effects ++ [BREthereumNodeEffect.nodeEndpointSendMessage route message] }
    if error = 0 then .returns (node, true)
    else .returns (nodeStateAnnounce node route (nodeStateCreateErrorUnix error), false)
  else .aborts

/-- The function `extractIdentifier` (lines 1061-1081): the family and the kind of the message
whose first byte is `value`. -/
def extractIdentifier (node : BREthereumNode) (value : Nat) :
    BREthereumMessageIdentifier × Nat :=
  if value < node.messageIdOffset ∨ node.messageIdOffset = 0 then
    (.MESSAGE_P2P, value - 0)
  else
    (match node.type with
      | .NODE_TYPE_GETH => .MESSAGE_LES
      | .NODE_TYPE_PARITY => .MESSAGE_PIP,
     value - node.messageIdOffset)

/-- What the socket and the coders answer during one `nodeRecv`: the answer of the first
`nodeEndpointRecvData`; the count of bytes of the datagram (UDP); the 32 bytes of the frame
header after `frameCoderDecryptHeader` and the answer of that function (TCP); the answer of the
second `nodeEndpointRecvData` (TCP); the first byte of the decrypted frame as `rlpDecodeUInt64`
reads it (TCP); and the function `messageDecode` on the bytes received, from the family and the
kind that it is asked for, where no kind stands for `MESSAGE_DIS_IDENTIFIER_ANY`. -/
structure BREthereumNodeRecvAnswers where
  error : Int
  bytesCount : Nat
  header : List Nat
  headerIsValid : Bool
  frameError : Int
  value : Nat
  messageDecode : BREthereumMessageIdentifier → Option Nat → BREthereumMessage

/-- The payload length that `nodeRecv` reads off the decrypted frame header (lines 1842-1844):
the bytes 0, 1 and 2 as a big-endian number. -/
def nodeRecv_headerCount (header : List Nat) : Nat :=
  (header.getD 2 0 % 256) ||| ((header.getD 1 0 % 256) <<< 8) |||
    ((header.getD 0 0 % 256) <<< 16)

/-- The count of bytes that `nodeRecv` reads for the frame (line 1847). -/
def nodeRecv_bytesCount (headerCount : Nat) : Nat :=
  u64Add (u64Add headerCount (u64Sub 16 (headerCount % 16) % 16)) 16

/-- The length of the message body that `nodeRecv` hands to the decoder (line 1888), a
`size_t`. -/
def nodeRecv_dataCount (headerCount : Nat) : Nat :=
  u64Sub headerCount 1

/-- The function `nodeRecvFailed` (lines 1790-1796). -/
def nodeRecvFailed (node : BREthereumNode) (route : BREthereumNodeEndpointRoute)
    (state : BREthereumNodeState) : BREthereumNode × Option BREthereumMessage :=
  (nodeStateAnnounce node route state, none)

/-- The function `nodeRecv` (lines 1798-1925): the node it leaves and the message of the result,
or no message for `NODE_STATUS_ERROR`.  It stops on the `assert` when the frame header is not
valid. -/
def nodeRecv (imports : BREthereumNodeImports) (node : BREthereumNode)
    (route : BREthereumNodeEndpointRoute) (answers : BREthereumNodeRecvAnswers) :
    Outcome (BREthereumNode × Option BREthereumMessage) :=
  match route with
  | .NODE_ROUTE_UDP =>
    let node :=
      { node with
        effects := node.effects ++ [BREthereumNodeEffect.nodeEndpointRecvData route 1500] }
    if answers.error ≠ 0 then
      .returns (nodeRecvFailed node .NODE_ROUTE_UDP (nodeStateCreateErrorUnix answers.error))
    else if answers.bytesCount > 1500 then
      .returns (nodeRecvFailed node .NODE_ROUTE_UDP
        (nodeStateCreateErrorProtocol .NODE_PROTOCOL_UDP_EXCESSIVE_BYTE_COUNT))
    else
      let node :=
        { node with
          effects := node.effects ++
            [BREthereumNodeEffect.messageDecode answers.bytesCount .MESSAGE_DIS none] }
      .returns (node, some (answers.messageDecode .MESSAGE_DIS none))
  | .NODE_ROUTE_TCP =>
    let node :=
      { node with
        effects := node.effects ++ [BREthereumNodeEffect.nodeEndpointRecvData route 32] }
    if answers.error ≠ 0 then
      .returns (nodeRecvFailed node .NODE_ROUTE_TCP (nodeStateCreateErrorUnix answers.error))
    else if answers.headerIsValid = false then .aborts
    else
      let headerCount := nodeRecv_headerCount answers.header
      let bytesCount := nodeRecv_bytesCount headerCount
      let node :=
        if bytesCount > node.recvDataBufferCount then
          { node with recvDataBufferCount := bytesCount }
        else node
      let node :=
        { node with
          effects := node.effects ++
            [BREthereumNodeEffect.nodeEndpointRecvData route bytesCount] }
      if answers.frameError ≠ 0 then
        .returns (nodeRecvFailed node .NODE_ROUTE_TCP
          (nodeStateCreateErrorUnix answers.frameError))
      else
        let value := answers.value % 256
        let (type, subtype) := extractIdentifier node value
        let node :=
          { node with
            effects := node.effects ++
              [BREthereumNodeEffect.messageDecode (nodeRecv_dataCount headerCount) type
                (some subtype)] }
        let message := answers.messageDecode type (some subtype)
        let node :=
          match message with
          | .les les =>
            if imports.messageLESHasUseResponse les.identifier then
              { node with credits := les.credits }
            else node
          | _ => node
        .returns (node, some message)

/-! ## Processing what was received -/

/-- The Pong message that answers a P2P Ping. -/
def messageP2PPong : BREthereumMessage := .p2p .P2P_MESSAGE_PONG

/-- The function `nodeProcessRecvP2P` (lines 736-765).  `error` is the answer of the socket to
the write of the Pong, when there is one. -/
def nodeProcessRecvP2P (node : BREthereumNode) (route : BREthereumNodeEndpointRoute)
    (message : BREthereumP2PMessage) (error : Int) : Outcome BREthereumNode :=
  if route ≠ .NODE_ROUTE_TCP then .aborts
  else
    match message with
    | .P2P_MESSAGE_DISCONNECT reason => .returns (nodeDisconnect node .NODE_ROUTE_TCP reason)
    | .P2P_MESSAGE_PING =>
      (nodeSend node .NODE_ROUTE_TCP messageP2PPong error).andThen fun (node, _) =>
        .returns node
    | .P2P_MESSAGE_PONG => .returns node
    | .P2P_MESSAGE_HELLO _ => .returns node

/-- The function `nodeProcessRecvDIS` (lines 767-804).  `error` is the answer of the socket to
the write of the Pong, when there is one. -/
def nodeProcessRecvDIS (node : BREthereumNode) (route : BREthereumNodeEndpointRoute)
    (message : BREthereumDISMessage) (error : Int) : Outcome BREthereumNode :=
  if route ≠ .NODE_ROUTE_UDP then .aborts
  else
    match message with
    | .DIS_MESSAGE_PING target hash =>
      (nodeSend node .NODE_ROUTE_UDP (.dis (.DIS_MESSAGE_PONG target hash)) error).andThen
        fun (node, _) => .returns node
    | .DIS_MESSAGE_NEIGHBORS neighbors =>
      .returns
        { node with
          effects := node.effects ++
            neighbors.map fun neighbor => BREthereumNodeEffect.callbackNeighbor neighbor }
    | .DIS_MESSAGE_PONG _ _ => .returns node
    | .DIS_MESSAGE_FIND_NEIGHBORS => .returns node

/-- The search of `nodeProcessRecvLES` and `nodeProcessRecvPIP` for the provisioner of a response
(lines 858-862 and 908-912): the index of the first provisioner of the list for which
`provisionerMessageOfInterest` holds. -/
def nodeFindProvisionerOfInterest :
    List BREthereumNodeProvisioner → Nat → Option Nat
  | [], _ => none
  | provisioner :: rest, requestId =>
    if provisionerMessageOfInterest provisioner requestId then some 0
    else (nodeFindProvisionerOfInterest rest requestId).map fun index => index + 1

/-- The function `nodeProcessRecvLES` (lines 806-873). -/
def nodeProcessRecvLES (imports : BREthereumNodeImports) (node : BREthereumNode)
    (_route : BREthereumNodeEndpointRoute) (message : BREthereumLESMessage) :
    Outcome BREthereumNode :=
  if node.type ≠ .NODE_TYPE_GETH then .aborts
  else
    match message.identifier with
    | .LES_MESSAGE_STATUS =>
      .returns
        { node with
          effects := node.effects ++
            [BREthereumNodeEffect.callbackStatus message.status.headHash
              message.status.headNum] }
    | .LES_MESSAGE_ANNOUNCE =>
      .returns
        { node with
          effects := node.effects ++ [BREthereumNodeEffect.callbackAnnounce message.announce] }
    | .LES_MESSAGE_GET_BLOCK_HEADERS => .returns node
    | .LES_MESSAGE_GET_BLOCK_BODIES => .returns node
    | .LES_MESSAGE_GET_RECEIPTS => .returns node
    | .LES_MESSAGE_GET_PROOFS => .returns node
    | .LES_MESSAGE_GET_CONTRACT_CODES => .returns node
    | .LES_MESSAGE_SEND_TX => .returns node
    | .LES_MESSAGE_GET_HEADER_PROOFS => .returns node
    | .LES_MESSAGE_GET_PROOFS_V2 => .returns node
    | .LES_MESSAGE_GET_HELPER_TRIE_PROOFS => .returns node
    | .LES_MESSAGE_SEND_TX2 => .returns node
    | .LES_MESSAGE_GET_TX_STATUS => .returns node
    | .LES_MESSAGE_CONTRACT_CODES => .returns node
    | .LES_MESSAGE_HEADER_PROOFS => .returns node
    | .LES_MESSAGE_HELPER_TRIE_PROOFS => .returns node
    | .LES_MESSAGE_BLOCK_HEADERS
    | .LES_MESSAGE_BLOCK_BODIES
    | .LES_MESSAGE_RECEIPTS
    | .LES_MESSAGE_PROOFS
    | .LES_MESSAGE_PROOFS_V2
    | .LES_MESSAGE_TX_STATUS =>
      match nodeFindProvisionerOfInterest node.provisioners message.requestId with
      | some index => nodeHandleProvisionerMessage imports node index (.les message)
      | none => .returns node

/-- The Acknowledge message that answers a PIP update of the credit parameters. -/
def messagePIPAcknowledgeUpdate : BREthereumMessage :=
  .pip
    { type := .PIP_MESSAGE_ACKNOWLEDGE_UPDATE, requestId := 0
      status :=
        { protocolVersion := 0, chainId := 0, headNum := 0, headHash := 0, headTd := 0,
          genesisHash := 0 }
      announce := { headHash := 0, headNumber := 0, headTotalDifficulty := 0, reorgDepth := 0 }
      content := [] }

/-- The function `nodeProcessRecvPIP` (lines 875-944).  `error` is the answer of the socket to
the write of the Acknowledge, when there is one. -/
def nodeProcessRecvPIP (imports : BREthereumNodeImports) (node : BREthereumNode)
    (_route : BREthereumNodeEndpointRoute) (message : BREthereumPIPMessage) (error : Int) :
    Outcome BREthereumNode :=
  if node.type ≠ .NODE_TYPE_PARITY then .aborts
  else
    match message.type with
    | .PIP_MESSAGE_STATUS =>
      .returns
        { node with
          effects := node.effects ++
            [BREthereumNodeEffect.callbackStatus message.status.headHash
              message.status.headNum] }
    | .PIP_MESSAGE_ANNOUNCE =>
      .returns
        { node with
          effects := node.effects ++ [BREthereumNodeEffect.callbackAnnounce message.announce] }
    | .PIP_MESSAGE_REQUEST => .returns node
    | .PIP_MESSAGE_RESPONSE =>
      match nodeFindProvisionerOfInterest node.provisioners message.requestId with
      | some index => nodeHandleProvisionerMessage imports node index (.pip message)
      | none => .returns node
    | .PIP_MESSAGE_UPDATE_CREDIT_PARAMETERS =>
      (nodeSend node .NODE_ROUTE_TCP messagePIPAcknowledgeUpdate error).andThen
        fun (node, _) => .returns node
    | .PIP_MESSAGE_ACKNOWLEDGE_UPDATE => .returns node
    | .PIP_MESSAGE_RELAY_TRANSACTIONS => .returns node

/-- The function `nodeProcessRecv` (lines 946-967).  `error` is the answer of the socket to the
write of the reply, when there is one. -/
def nodeProcessRecv (imports : BREthereumNodeImports) (node : BREthereumNode)
    (route : BREthereumNodeEndpointRoute) (message : BREthereumMessage) (error : Int) :
    Outcome BREthereumNode :=
  match message with
  | .p2p message => nodeProcessRecvP2P node route message error
  | .dis message => nodeProcessRecvDIS node route message error
  | .eth => .aborts
  | .les message => nodeProcessRecvLES imports node route message
  | .pip message => nodeProcessRecvPIP imports node route message error

/-! ## The duty of a tick -/

/-- The function `provisionerMessageSend` (lines 340-360) for the provisioner at `index` of the
list: the message at `messagesCount - messagesRemainingCount`, a `size_t` difference, goes
through `nodeSend` and `messagesRemainingCount` drops by one, whatever `nodeSend` answers.  An
`index` outside the list is no pointer to a provisioner, and a message index outside `messages`
reads outside the array. -/
def provisionerMessageSend (node : BREthereumNode) (index : Nat) (error : Int) :
    Outcome (BREthereumNode × Bool) :=
  match node.provisioners[index]? with
  | none => .aborts
  | some provisioner =>
    match provisioner.messages[
        u64Sub provisioner.messagesCount provisioner.messagesRemainingCount]? with
    | none => .aborts
    | some message =>
      (nodeSend node .NODE_ROUTE_TCP message error).andThen fun (node, status) =>
        .returns
          ({ node with
              provisioners := node.provisioners.set index
                { provisioner with
                  messagesRemainingCount := u64Sub provisioner.messagesRemainingCount 1 } },
            status)

/-- The search of `nodeProcessDescriptors` for a provisioner with a message to send (lines
985-986): the index of the first provisioner of the list for which
`provisionerSendMessagesPending` holds. -/
def nodeFindProvisionerSendPending : List BREthereumNodeProvisioner → Option Nat
  | [] => none
  | provisioner :: rest =>
    if provisionerSendMessagesPending provisioner then some 0
    else (nodeFindProvisionerSendPending rest).map fun index => index + 1

/-- What the socket and the coders answer during one `nodeProcessDescriptors`: the answer to the
write of the provisioner's message, the answers during `nodeRecv`, and the answer to the write of
the reply that the message received may ask for. -/
structure BREthereumNodeTickAnswers where
  sendError : Int
  recv : BREthereumNodeRecvAnswers
  replyError : Int

/-- The sending part of `nodeProcessDescriptors` (lines 982-991); `send` tells whether the socket
is in the set `send`. -/
def nodeProcessDescriptors_send (node : BREthereumNode) (route : BREthereumNodeEndpointRoute)
    (send : Bool) (error : Int) : Outcome BREthereumNode :=
  if send = true ∧ route = .NODE_ROUTE_TCP then
    match nodeFindProvisionerSendPending node.provisioners with
    | some index =>
      (provisionerMessageSend node index error).andThen fun (node, _) => .returns node
    | none => .returns node
  else .returns node

/-- The receiving part of `nodeProcessDescriptors` (lines 993-1005); `recv` tells whether the
socket is in the set `recv`.  It stops on the `assert` when `nodeRecv` answers
`NODE_STATUS_ERROR`. -/
def nodeProcessDescriptors_recv (imports : BREthereumNodeImports) (node : BREthereumNode)
    (route : BREthereumNodeEndpointRoute) (recv : Bool) (answers : BREthereumNodeTickAnswers) :
    Outcome BREthereumNode :=
  if recv = true then
    (nodeRecv imports node route answers.recv).andThen fun (node, result) =>
      match result with
      | some message => nodeProcessRecv imports node route message answers.replyError
      | none => .aborts
  else .returns node

/-- The function `nodeProcessDescriptors` (lines 969-1006); `recv` and `send` tell whether the
socket of the route is in the sets of the same names. -/
def nodeProcessDescriptors (imports : BREthereumNodeImports) (node : BREthereumNode)
    (route : BREthereumNodeEndpointRoute) (recv send : Bool)
    (answers : BREthereumNodeTickAnswers) : Outcome BREthereumNode :=
  if node.remote.sockets.get route = -1 then .returns node
  else if node.states.get route ≠ .NODE_CONNECTED then .returns node
  else
    (nodeProcessDescriptors_send node route send answers.sendError).andThen fun node =>
      nodeProcessDescriptors_recv imports node route recv answers

/-! ## The TCP handshake -/

/-- Value of `SIG_SIZE_BYTES`. -/
def SIG_SIZE_BYTES : Nat := 65

/-- Value of `PUBLIC_SIZE_BYTES`. -/
def PUBLIC_SIZE_BYTES : Nat := 64

/-- Value of `HEPUBLIC_BYTES`. -/
def HEPUBLIC_BYTES : Nat := 32

/-- Value of `NONCE_BYTES`. -/
def NONCE_BYTES : Nat := 32

/-- The constant `authBufLen` (line 63). -/
def authBufLen : Nat := SIG_SIZE_BYTES + HEPUBLIC_BYTES + PUBLIC_SIZE_BYTES + NONCE_BYTES + 1

/-- The constant `authCipherBufLen` (line 64). -/
def authCipherBufLen : Nat := authBufLen + 65 + 16 + 32

/-- The constant `ackBufLen` (line 66). -/
def ackBufLen : Nat := PUBLIC_SIZE_BYTES + NONCE_BYTES + 1

/-- The constant `ackCipherBufLen` (line 67). -/
def ackCipherBufLen : Nat := ackBufLen + 65 + 16 + 32

/-- The error number `ETIMEDOUT` of `errno.h`, a constant of the platform; 110 on Linux. -/
def ETIMEDOUT : Int := 110

/-- How a part of the connect thread ends: the thread is over (`nodeConnectExit` or a `return`),
the thread goes on with the next part, or it stops on a failed `assert`. -/
inductive BREthereumNodeConnect where
  | exits (node : BREthereumNode)
  | continues (node : BREthereumNode)
  | aborts
  deriving DecidableEq, Repr

/-- The next part runs when the thread goes on. -/
def BREthereumNodeConnect.andThen (step : BREthereumNodeConnect)
    (next : BREthereumNode → BREthereumNodeConnect) : BREthereumNodeConnect :=
  match step with
  | .continues node => next node
  | .exits node => .exits node
  | .aborts => .aborts

/-- The function `nodeConnectFailed` (lines 1243-1253), which ends the thread. -/
def nodeConnectFailed (node : BREthereumNode) (route : BREthereumNodeEndpointRoute)
    (state : BREthereumNodeState) : BREthereumNodeConnect :=
  .exits (nodeStateAnnounce (nodeEndpointClose node route false) route state)

/-- What `pselect` answers: its result and the `errno` it leaves. -/
structure BREthereumNodeSelectAnswers where
  result : Int
  errno : Int

/-- What the socket, the coders and the keys answer during the handshake of
`nodeThreadConnectTCP` up to the Hello of the remote: the answer of `nodeEndpointOpen` and the
socket it opens; the answer to the write of the auth; the answers of `pselect`, of
`nodeEndpointRecvData` and the count of bytes received for the auth-ack; the length that
`BRKeyECIESAES128SHA256Decrypt` answers in `_readAuthAckFromRecipient`; the answer to the write
of the Hello; and the answers of `pselect` and during `nodeRecv` for the Hello of the remote. -/
structure BREthereumNodeConnectAnswers where
  openError : Int
  socket : Int
  authSendError : Int
  ackSelect : BREthereumNodeSelectAnswers
  ackRecvError : Int
  ackCipherBufCount : Nat
  ackLength : Nat
  helloSendError : Int
  helloSelect : BREthereumNodeSelectAnswers
  helloRecv : BREthereumNodeRecvAnswers

/-- The function `_sendAuthInitiator` (lines 2009-2065): it fills the auth buffers, which are
outside the embedding, and returns 0. -/
def _sendAuthInitiator (_node : BREthereumNode) : Int := 0

/-- The function `_readAuthAckFromRecipient` (lines 2132-2158) on the length that the decryption
of the auth-ack answers; the nonce and the key of the remote, which it copies, are outside the
embedding. -/
def _readAuthAckFromRecipient (_node : BREthereumNode) (length : Nat) : Int :=
  if length ≠ ackBufLen then 1 else 0

/-- The state after a `pselect` that answers 0 or less (for example lines 1432-1434). -/
def nodeStateCreateErrorSelect (select : BREthereumNodeSelectAnswers) : BREthereumNodeState :=
  nodeStateCreateErrorUnix (if select.result = 0 then ETIMEDOUT else select.errno)

/-- The handshake of `nodeThreadConnectTCP` from the start to the frame coder (lines 1398-1453):
the route is opened, the auth is written and the auth-ack is read and checked. -/
def nodeThreadConnectTCP_auth (node : BREthereumNode) (answers : BREthereumNodeConnectAnswers) :
    BREthereumNodeConnect :=
  if node.states.get .NODE_ROUTE_TCP ≠ .NODE_AVAILABLE then .exits node
  else
    let node :=
      { node with
        states := node.states.set .NODE_ROUTE_TCP (nodeStateCreateConnecting .NODE_CONNECT_OPEN)
        effects := node.effects ++ [BREthereumNodeEffect.nodeEndpointOpen .NODE_ROUTE_TCP] }
    if answers.openError ≠ 0 then
      nodeConnectFailed node .NODE_ROUTE_TCP (nodeStateCreateErrorUnix answers.openError)
    else
      let node :=
        { node with
          remote :=
            { node.remote with
              sockets := node.remote.sockets.set .NODE_ROUTE_TCP answers.socket }
          states :=
            node.states.set .NODE_ROUTE_TCP (nodeStateCreateConnecting .NODE_CONNECT_AUTH) }
      if _sendAuthInitiator node ≠ 0 then
        nodeConnectFailed node .NODE_ROUTE_TCP
          (nodeStateCreateErrorProtocol .NODE_PROTOCOL_TCP_AUTHENTICATION)
      else
        let node :=
          { node with
            effects := node.effects ++
              [BREthereumNodeEffect.nodeEndpointSendAuth authCipherBufLen] }
        if answers.authSendError ≠ 0 then
          nodeConnectFailed node .NODE_ROUTE_TCP
            (nodeStateCreateErrorUnix answers.authSendError)
        else
          let node :=
            { node with
              states := node.states.set .NODE_ROUTE_TCP
                (nodeStateCreateConnecting .NODE_CONNECT_AUTH_ACK) }
          if answers.ackSelect.result ≤ 0 then
            nodeConnectFailed node .NODE_ROUTE_TCP
              (nodeStateCreateErrorSelect answers.ackSelect)
          else
            let node :=
              { node with
                effects := node.effects ++
                  [BREthereumNodeEffect.nodeEndpointRecvData .NODE_ROUTE_TCP ackCipherBufLen] }
            if answers.ackRecvError ≠ 0 then
              nodeConnectFailed node .NODE_ROUTE_TCP
                (nodeStateCreateErrorUnix answers.ackRecvError)
            else if answers.ackCipherBufCount ≠ ackCipherBufLen then
              nodeConnectFailed node .NODE_ROUTE_TCP
                (nodeStateCreateErrorProtocol .NODE_PROTOCOL_TCP_AUTHENTICATION)
            else if _readAuthAckFromRecipient node answers.ackLength ≠ 0 then
              nodeConnectFailed node .NODE_ROUTE_TCP
                (nodeStateCreateErrorProtocol .NODE_PROTOCOL_TCP_AUTHENTICATION)
            else
              .continues
                { node with
                  effects := node.effects ++ [BREthereumNodeEffect.frameCoderInit] }

/-- The handshake of `nodeThreadConnectTCP` from the Hello sent to the Hello received (lines
1455-1491). -/
def nodeThreadConnectTCP_hello (imports : BREthereumNodeImports) (node : BREthereumNode)
    (answers : BREthereumNodeConnectAnswers) : BREthereumNodeConnect :=
  let node :=
    { node with
      states := node.states.set .NODE_ROUTE_TCP (nodeStateCreateConnecting .NODE_CONNECT_HELLO) }
  match nodeSend node .NODE_ROUTE_TCP (.p2p node.localEndpoint.hello) answers.helloSendError with
  | .aborts => .aborts
  | .loops => .aborts
  | .returns (node, false) => .exits node
  | .returns (node, true) =>
    let node :=
      { node with
        states := node.states.set .NODE_ROUTE_TCP
          (nodeStateCreateConnecting .NODE_CONNECT_HELLO_ACK) }
    if answers.helloSelect.result ≤ 0 then
      nodeConnectFailed node .NODE_ROUTE_TCP (nodeStateCreateErrorSelect answers.helloSelect)
    else
      match nodeRecv imports node .NODE_ROUTE_TCP answers.helloRecv with
      | .aborts => .aborts
      | .loops => .aborts
      | .returns (node, none) => .exits node
      | .returns (node, some message) =>
        match message with
        | .p2p (.P2P_MESSAGE_DISCONNECT reason) =>
          nodeConnectFailed node .NODE_ROUTE_TCP (nodeStateCreateErrorDisconnect reason)
        | .p2p (.P2P_MESSAGE_HELLO hello) =>
          .continues
            { node with remote := { node.remote with hello := .P2P_MESSAGE_HELLO hello } }
        | _ =>
          nodeConnectFailed node .NODE_ROUTE_TCP
            (nodeStateCreateErrorProtocol .NODE_PROTOCOL_TCP_HELLO_MISSED)

/-- The function `updateLocalEndpointStatusMessage` (lines 1165-1194).  It stops on the `assert`
when the status message of the endpoint is no LES message. -/
def updateLocalEndpointStatusMessage (endpoint : BREthereumNodeEndpoint)
    (type : BREthereumNodeType) (protocolVersion : Nat) : Outcome BREthereumNodeEndpoint :=
  match endpoint.status with
  | .les message =>
    match type with
    | .NODE_TYPE_GETH =>
      .returns
        { endpoint with
          status := .les
            { message with
              status := { message.status with protocolVersion := protocolVersion } } }
    | .NODE_TYPE_PARITY =>
      .returns
        { endpoint with
          status := .pip
            { type := .PIP_MESSAGE_STATUS
              requestId := 0
              status :=
                { protocolVersion := protocolVersion
                  chainId := message.status.chainId
                  headNum := message.status.headNum
                  headHash := message.status.headHash
                  headTd := message.status.headTd
                  genesisHash := message.status.genesisHash }
              announce :=
                { headHash := 0, headNumber := 0, headTotalDifficulty := 0, reorgDepth := 0 }
              content := [] } }
  | _ => .aborts

/-- The member `u.hello` of a P2P message that is a Hello. -/
def messageP2PHello : BREthereumP2PMessage → Option BREthereumP2PMessageHello
  | .P2P_MESSAGE_HELLO hello => some hello
  | _ => none

/-- The count of the capabilities of the local Hello that the remote Hello has (lines
1497-1504). -/
def nodeThreadConnectTCP_capabilitiesMatchCount (imports : BREthereumNodeImports)
    (localHello remoteHello : BREthereumP2PMessageHello) : Nat :=
  (localHello.capabilities.filter fun capability =>
    imports.messageP2PHelloHasCapability remoteHello capability).length

/-- The handshake of `nodeThreadConnectTCP` from the Hello received to the offset of the message
identifiers (lines 1493-1542): the capabilities are matched, the type of the node is set and the
local status message is updated.  It stops on the `assert` when the capability that matches is
neither `les` nor `pip`; a Hello of an endpoint that is no Hello message is read through the
wrong member of the union. -/
def nodeThreadConnectTCP_capabilities (imports : BREthereumNodeImports) (node : BREthereumNode) :
    BREthereumNodeConnect :=
  match messageP2PHello node.localEndpoint.hello, messageP2PHello node.remote.hello with
  | some localHello, some remoteHello =>
    if nodeThreadConnectTCP_capabilitiesMatchCount imports localHello remoteHello ≠ 1 then
      nodeConnectFailed node .NODE_ROUTE_TCP
        (nodeStateCreateErrorProtocol .NODE_PROTOCOL_CAPABILITIES_MISMATCH)
    else
      match localHello.capabilities.find? fun capability =>
          imports.messageP2PHelloHasCapability remoteHello capability with
      | none => .aborts
      | some capability =>
        if capability.name = "les" then
          match updateLocalEndpointStatusMessage node.localEndpoint .NODE_TYPE_GETH
              capability.version with
          | .returns endpoint =>
            .continues
              { node with
                type := .NODE_TYPE_GETH, localEndpoint := endpoint, messageIdOffset := 0x10 }
          | _ => .aborts
        else if capability.name = "pip" then
          match updateLocalEndpointStatusMessage node.localEndpoint .NODE_TYPE_PARITY
              capability.version with
          | .returns endpoint =>
            .continues
              { node with
                type := .NODE_TYPE_PARITY, localEndpoint := endpoint, messageIdOffset := 0x10 }
          | _ => .aborts
        else .aborts
  | _, _ => .aborts

/-- The function `nodeThreadConnectTCP` from its start to the offset of the message identifiers
(lines 1382-1542); the exchange of the status messages that follows is outside the embedding. -/
def nodeThreadConnectTCP (imports : BREthereumNodeImports) (node : BREthereumNode)
    (answers : BREthereumNodeConnectAnswers) : BREthereumNodeConnect :=
  (nodeThreadConnectTCP_auth node answers).andThen fun node =>
    (nodeThreadConnectTCP_hello imports node answers).andThen fun node =>
      nodeThreadConnectTCP_capabilities imports node

/-! ## Properties and examples -/

/-- The request identifiers of the provisioners of the node are allotted in list order: the range
of a provisioner ends where or before the range of every later one starts, and every range ends
at or below the counter of the node. -/
def nodeRangesInOrder (node : BREthereumNode) : Prop :=
  node.provisioners.Pairwise
      (fun earlier later =>
        earlier.messageIdentifier + earlier.messagesCount ≤ later.messageIdentifier) ∧
    ∀ provisioner ∈ node.provisioners,
      provisioner.messageIdentifier + provisioner.messagesCount ≤ node.messageIdentifier

instance (node : BREthereumNode) : Decidable (nodeRangesInOrder node) := by
  unfold nodeRangesInOrder
  infer_instance

/-- The request identifier lies in the range of the provisioner, the sum taken in the natural
numbers. -/
def provisionerRangeHas (provisioner : BREthereumNodeProvisioner) (requestId : Nat) : Prop :=
  provisioner.messageIdentifier ≤ requestId ∧
    requestId < provisioner.messageIdentifier + provisioner.messagesCount

instance (provisioner : BREthereumNodeProvisioner) (requestId : Nat) :
    Decidable (provisionerRangeHas provisioner requestId) := by
  unfold provisionerRangeHas
  infer_instance

/-- An example of what the node imports: the limits 192, 32 and 128 for headers, bodies and
receipts and 64 for the other requests; the nine kinds of LES message that answer a request as
the responses; a Hello that has a capability when it lists one with the same name and version;
messages whose request identifier is the base identifier plus the index; and a provision that
gathers the messages handled. -/
def exampleImports : BREthereumNodeImports where
  provisionGetMessageLESIdentifier
    | .PROVISION_BLOCK_HEADERS => .LES_MESSAGE_GET_BLOCK_HEADERS
    | .PROVISION_BLOCK_BODIES => .LES_MESSAGE_GET_BLOCK_BODIES
    | .PROVISION_TRANSACTION_RECEIPTS => .LES_MESSAGE_GET_RECEIPTS
    | .PROVISION_ACCOUNTS => .LES_MESSAGE_GET_PROOFS_V2
    | .PROVISION_TRANSACTION_STATUSES => .LES_MESSAGE_GET_TX_STATUS
    | .PROVISION_SUBMIT_TRANSACTION => .LES_MESSAGE_SEND_TX2
  messageLESSpecsLimit
    | .LES_MESSAGE_GET_BLOCK_HEADERS => 192
    | .LES_MESSAGE_GET_BLOCK_BODIES => 32
    | .LES_MESSAGE_GET_RECEIPTS => 128
    | _ => 64
  messageLESHasUseResponse
    | .LES_MESSAGE_BLOCK_HEADERS => true
    | .LES_MESSAGE_BLOCK_BODIES => true
    | .LES_MESSAGE_RECEIPTS => true
    | .LES_MESSAGE_PROOFS => true
    | .LES_MESSAGE_CONTRACT_CODES => true
    | .LES_MESSAGE_HEADER_PROOFS => true
    | .LES_MESSAGE_PROOFS_V2 => true
    | .LES_MESSAGE_HELPER_TRIE_PROOFS => true
    | .LES_MESSAGE_TX_STATUS => true
    | _ => false
  messageP2PHelloHasCapability hello capability :=
    hello.capabilities.any fun offered =>
      offered.name == capability.name && offered.version == capability.version
  provisionCreateMessage provision family _ messageIdentifier index :=
    let status : BREthereumMessageStatus :=
      { protocolVersion := 0, chainId := 0, headNum := 0, headHash := 0, headTd := 0,
        genesisHash := 0 }
    let announce : BREthereumMessageAnnounce :=
      { headHash := 0, headNumber := 0, headTotalDifficulty := 0, reorgDepth := 0 }
    match family with
    | .MESSAGE_PIP =>
      .pip { type := .PIP_MESSAGE_REQUEST, requestId := messageIdentifier + index,
             status := status, announce := announce, content := [provision.identifier] }
    | _ =>
      .les { identifier := .LES_MESSAGE_GET_BLOCK_HEADERS,
             requestId := messageIdentifier + index, credits := 0, status := status,
             announce := announce, content := [provision.identifier] }
  provisionHandleMessage provision message _ _ :=
    { provision with responses := provision.responses ++ [message] }

/-- A status message content with every field 0 but the chain, which is 1. -/
def exampleStatus : BREthereumMessageStatus :=
  { protocolVersion := 0, chainId := 1, headNum := 0, headHash := 0, headTd := 0,
    genesisHash := 0 }

/-- An announcement with every field 0. -/
def exampleAnnounce : BREthereumMessageAnnounce :=
  { headHash := 0, headNumber := 0, headTotalDifficulty := 0, reorgDepth := 0 }

/-- The local endpoint of the examples: it advertises `les/2` and `pip/1` and holds a LES status
message. -/
def exampleLocal : BREthereumNodeEndpoint :=
  { portUDP := 30303, portTCP := 30303, sockets := { udp := -1, tcp := -1 }
    hello := .P2P_MESSAGE_HELLO
      { capabilities := [{ name := "les", version := 2 }, { name := "pip", version := 1 }] }
    status := .les
      { identifier := .LES_MESSAGE_STATUS, requestId := 0, credits := 0,
        status := exampleStatus, announce := exampleAnnounce, content := [] } }

/-- The remote endpoint of the examples before any handshake. -/
def exampleRemote : BREthereumNodeEndpoint :=
  { portUDP := 30303, portTCP := 30303, sockets := { udp := -1, tcp := -1 }
    hello := .P2P_MESSAGE_HELLO { capabilities := [] }
    status := .les
      { identifier := .LES_MESSAGE_STATUS, requestId := 0, credits := 0,
        status := exampleStatus, announce := exampleAnnounce, content := [] } }

/-- A request for 500 headers, provision 1. -/
def exampleHeadersProvision : BREthereumProvision :=
  { identifier := 1, type := .PROVISION_BLOCK_HEADERS, limit := 500, hashes := [],
    responses := [] }

/-- A request for the bodies of 10 blocks, provision 2. -/
def exampleBodiesProvision : BREthereumProvision :=
  { identifier := 2, type := .PROVISION_BLOCK_BODIES, limit := 0,
    hashes := [1, 2, 3, 4, 5, 6, 7, 8, 9, 10], responses := [] }

/-- The submission of a transaction, provision 3. -/
def exampleSubmitProvision : BREthereumProvision :=
  { identifier := 3, type := .PROVISION_SUBMIT_TRANSACTION, limit := 0, hashes := [],
    responses := [] }

/-- The node of the examples as `nodeCreate` leaves it. -/
def exampleNode : BREthereumNode := nodeCreate exampleRemote exampleLocal

/-- The node of the examples after the three provisions were handed to it in turn. -/
def exampleProvisionedNode : BREthereumNode :=
  match nodeHandleProvisions exampleImports
      [exampleHeadersProvision, exampleBodiesProvision, exampleSubmitProvision] exampleNode with
  | .returns node => node
  | _ => exampleNode

/-- The provisioner that `nodeHandleProvision` starts from for a provision: the provision and
zeros. -/
def exampleProvisioner (provision : BREthereumProvision) : BREthereumNodeProvisioner :=
  { provision := provision, messageIdentifier := 0, messagesCount := 0,
    messageContentLimit := 0, messagesRemainingCount := 0, messagesReceivedCount := 0,
    messages := [] }

/-- The node of the examples with the type PARITY. -/
def exampleParityNode : BREthereumNode := { exampleNode with type := .NODE_TYPE_PARITY }

/-- A response with the request identifier 3, which lies in the range of the second provisioner
of `exampleProvisionedNode`. -/
def exampleBodiesResponse : BREthereumMessage :=
  .les
    { identifier := .LES_MESSAGE_BLOCK_BODIES, requestId := 3, credits := 0
      status := exampleStatus, announce := exampleAnnounce, content := [] }

/-- A response with the request identifier 1, which lies in the range of the first provisioner
of `exampleProvisionedNode`. -/
def exampleHeadersResponse : BREthereumMessage :=
  .les
    { identifier := .LES_MESSAGE_BLOCK_HEADERS, requestId := 1, credits := 0
      status := exampleStatus, announce := exampleAnnounce, content := [] }

/-- The provisioner for the headers in `exampleProvisionedNode`, at index 0. -/
def exampleHeadersProvisioner : BREthereumNodeProvisioner :=
  exampleProvisionedNode.provisioners.getD 0 (exampleProvisioner exampleHeadersProvision)

/-- The provisioner for the bodies in `exampleProvisionedNode`, at index 1. -/
def exampleBodiesProvisioner : BREthereumNodeProvisioner :=
  exampleProvisionedNode.provisioners.getD 1 (exampleProvisioner exampleBodiesProvision)

/-- The node `exampleProvisionedNode` after the response for the bodies was handled. -/
def exampleCompletedNode : BREthereumNode :=
  match nodeHandleProvisionerMessage exampleImports exampleProvisionedNode 1
      exampleBodiesResponse with
  | .returns node => node
  | _ => exampleProvisionedNode

/-- The node `exampleProvisionedNode` after one response for the headers was handled. -/
def exampleWaitingNode : BREthereumNode :=
  match nodeHandleProvisionerMessage exampleImports exampleProvisionedNode 0
      exampleHeadersResponse with
  | .returns node => node
  | _ => exampleProvisionedNode

/-- The kinds of LES message for which `nodeProcessRecvLES` looks for a provisioner (lines
851-856). -/
def messageLESIsRouted : BREthereumLESMessageIdentifier → Bool
  | .LES_MESSAGE_BLOCK_HEADERS => true
  | .LES_MESSAGE_BLOCK_BODIES => true
  | .LES_MESSAGE_RECEIPTS => true
  | .LES_MESSAGE_PROOFS => true
  | .LES_MESSAGE_PROOFS_V2 => true
  | .LES_MESSAGE_TX_STATUS => true
  | _ => false

/-- The kinds of LES message that `nodeProcessRecvLES` logs as an unexpected response (lines
844-849). -/
def messageLESIsUnexpectedResponse : BREthereumLESMessageIdentifier → Bool
  | .LES_MESSAGE_CONTRACT_CODES => true
  | .LES_MESSAGE_HEADER_PROOFS => true
  | .LES_MESSAGE_HELPER_TRIE_PROOFS => true
  | _ => false

/-- A response of the kind `LES_MESSAGE_HEADER_PROOFS` with the request identifier 1, which lies
in the range of the first provisioner of `exampleProvisionedNode`. -/
def exampleHeaderProofsResponse : BREthereumLESMessage :=
  { identifier := .LES_MESSAGE_HEADER_PROOFS, requestId := 1, credits := 0
    status := exampleStatus, announce := exampleAnnounce, content := [] }

/-- A response of the kind `LES_MESSAGE_BLOCK_HEADERS` with the request identifier 7, which lies
in the range of no provisioner of `exampleProvisionedNode`. -/
def exampleLateResponse : BREthereumLESMessage :=
  { identifier := .LES_MESSAGE_BLOCK_HEADERS, requestId := 7, credits := 0
    status := exampleStatus, announce := exampleAnnounce, content := [] }

/-- The response `exampleBodiesResponse` as a LES message. -/
def exampleBodiesResponseLES : BREthereumLESMessage :=
  { identifier := .LES_MESSAGE_BLOCK_BODIES, requestId := 3, credits := 0
    status := exampleStatus, announce := exampleAnnounce, content := [] }

/-- The node `exampleProvisionedNode` with the TCP route connected over the socket 5 and the
message-identifier offset of a finished handshake. -/
def exampleConnectedNode : BREthereumNode :=
  { exampleProvisionedNode with
    states := { udp := .NODE_AVAILABLE, tcp := .NODE_CONNECTED }
    remote := { exampleRemote with sockets := { udp := -1, tcp := 5 } }
    messageIdOffset := 16 }

/-- A decoder for the examples: the P2P kind 2 is a Ping, the LES kind 5 is the response
`exampleBodiesResponse`, and everything else is a P2P Pong. -/
def exampleMessageDecode : BREthereumMessageIdentifier → Option Nat → BREthereumMessage
  | .MESSAGE_P2P, some 2 => .p2p .P2P_MESSAGE_PING
  | .MESSAGE_LES, some 5 => exampleBodiesResponse
  | _, _ => .p2p .P2P_MESSAGE_PONG

/-- The answers of a tick in which every write succeeds and a P2P Ping is read: a frame with one
byte of payload, the byte 2. -/
def examplePingAnswers : BREthereumNodeTickAnswers :=
  { sendError := 0
    recv :=
      { error := 0, bytesCount := 0, header := [0, 0, 1], headerIsValid := true,
        frameError := 0, value := 2, messageDecode := exampleMessageDecode }
    replyError := 0 }

/-- The answers of a tick in which every write succeeds and the response for the bodies is read:
the first byte of the frame is 21, the offset 16 plus the LES kind 5. -/
def exampleBodiesAnswers : BREthereumNodeTickAnswers :=
  { sendError := 0
    recv :=
      { error := 0, bytesCount := 0, header := [0, 0, 40], headerIsValid := true,
        frameError := 0, value := 21, messageDecode := exampleMessageDecode }
    replyError := 0 }

/-- The node after the tick on `exampleConnectedNode` with the socket in both sets and the
answers `examplePingAnswers`. -/
def examplePingTickNode : BREthereumNode :=
  match nodeProcessDescriptors exampleImports exampleConnectedNode .NODE_ROUTE_TCP true true
      examplePingAnswers with
  | .returns node => node
  | _ => exampleConnectedNode

/-- The node after the tick on `exampleConnectedNode` with the socket in both sets and the
answers `exampleBodiesAnswers`. -/
def exampleBodiesTickNode : BREthereumNode :=
  match nodeProcessDescriptors exampleImports exampleConnectedNode .NODE_ROUTE_TCP true true
      exampleBodiesAnswers with
  | .returns node => node
  | _ => exampleConnectedNode

/-- The node after the tick on `exampleConnectedNode` with the socket in the set `send` only. -/
def exampleSendTickNode : BREthereumNode :=
  match nodeProcessDescriptors exampleImports exampleConnectedNode .NODE_ROUTE_TCP false true
      examplePingAnswers with
  | .returns node => node
  | _ => exampleConnectedNode

/-- The writes of messages among the calls. -/
def nodeEffectsSends (effects : List BREthereumNodeEffect) : List BREthereumMessage :=
  effects.filterMap fun effect =>
    match effect with
    | .nodeEndpointSendMessage _ message => some message
    | _ => none

/-- A decoder for the handshake of the examples: the P2P kind 0 is a Hello that offers `eth/63`
and `les/2`, and everything else is a P2P Pong. -/
def exampleHelloDecode : BREthereumMessageIdentifier → Option Nat → BREthereumMessage
  | .MESSAGE_P2P, some 0 =>
    .p2p (.P2P_MESSAGE_HELLO
      { capabilities := [{ name := "eth", version := 63 }, { name := "les", version := 2 }] })
  | _, _ => .p2p .P2P_MESSAGE_PONG

/-- The answers of a handshake in which every call succeeds: the socket 5 is opened, the auth-ack
has `ackCipherBufLen` bytes and decrypts to `ackBufLen` bytes, and the Hello of the remote is
read from a frame whose first byte is 0. -/
def exampleConnectAnswers : BREthereumNodeConnectAnswers :=
  { openError := 0, socket := 5, authSendError := 0
    ackSelect := { result := 1, errno := 0 }
    ackRecvError := 0, ackCipherBufCount := ackCipherBufLen, ackLength := ackBufLen
    helloSendError := 0
    helloSelect := { result := 1, errno := 0 }
    helloRecv :=
      { error := 0, bytesCount := 0, header := [0, 0, 60], headerIsValid := true,
        frameError := 0, value := 0, messageDecode := exampleHelloDecode } }

/-- The answers `exampleConnectAnswers` with an auth-ack of 226 bytes. -/
def exampleLongAckAnswers : BREthereumNodeConnectAnswers :=
  { exampleConnectAnswers with ackCipherBufCount := 226 }

/-- The node of the examples with a remote Hello that offers `eth/63` and `les/2`, as it is after
the Hello of the remote was read. -/
def exampleHelloNode : BREthereumNode :=
  { exampleNode with
    states := { udp := .NODE_AVAILABLE, tcp := .NODE_CONNECTING .NODE_CONNECT_HELLO_ACK }
    remote :=
      { exampleRemote with
        sockets := { udp := -1, tcp := 5 }
        hello := .P2P_MESSAGE_HELLO
          { capabilities :=
              [{ name := "eth", version := 63 }, { name := "les", version := 2 }] } } }

/-- A local endpoint that advertises `eth/63` and `les/2`. -/
def exampleEthLocal : BREthereumNodeEndpoint :=
  { exampleLocal with
    hello := .P2P_MESSAGE_HELLO
      { capabilities := [{ name := "eth", version := 63 }, { name := "les", version := 2 }] } }

/-- A local endpoint that advertises `eth/63` only. -/
def exampleEthOnlyLocal : BREthereumNodeEndpoint :=
  { exampleLocal with
    hello := .P2P_MESSAGE_HELLO { capabilities := [{ name := "eth", version := 63 }] } }

/-- The node `exampleHelloNode` with the local endpoint `exampleEthOnlyLocal`: the one capability
that the two Hellos share is `eth/63`. -/
def exampleEthHelloNode : BREthereumNode :=
  { exampleHelloNode with localEndpoint := exampleEthOnlyLocal }

/-- The node of the examples with the local endpoint `exampleEthOnlyLocal`, before the
handshake. -/
def exampleEthNode : BREthereumNode := nodeCreate exampleRemote exampleEthOnlyLocal

/-! ## Frames of the examples -/

/-- The answers of a read in which the decrypted frame header announces a payload of no byte. -/
def exampleEmptyFrameAnswers : BREthereumNodeRecvAnswers :=
  { error := 0, bytesCount := 0, header := [0, 0, 0], headerIsValid := true,
    frameError := 0, value := 2, messageDecode := exampleMessageDecode }

/-- The node after `nodeRecv` on `exampleConnectedNode` with the answers
`exampleEmptyFrameAnswers`. -/
def exampleEmptyFrameNode : BREthereumNode :=
  match nodeRecv exampleImports exampleConnectedNode .NODE_ROUTE_TCP exampleEmptyFrameAnswers with
  | .returns (node, _) => node
  | _ => exampleConnectedNode

/-- The answers of a read in which the decrypted frame header starts with the bytes 1, 2 and 3 and
the frame holds a P2P Ping. -/
def exampleLongFrameAnswers : BREthereumNodeRecvAnswers :=
  { error := 0, bytesCount := 0, header := [1, 2, 3], headerIsValid := true,
    frameError := 0, value := 2, messageDecode := exampleMessageDecode }

/-! ## Responses of the examples -/

/-- Runs `nodeProcessRecvLES` on the messages of a list, one after the other. -/
def nodeProcessRecvLESAll (imports : BREthereumNodeImports)
    (route : BREthereumNodeEndpointRoute) :
    List BREthereumLESMessage → BREthereumNode → Outcome BREthereumNode
  | [], node => .returns node
  | message :: rest, node =>
    (nodeProcessRecvLES imports node route message).andThen fun node =>
      nodeProcessRecvLESAll imports route rest node

/-- The response `exampleHeadersResponse` as a LES message: the request identifier is 1, the
second of the three identifiers of the first provisioner of `exampleProvisionedNode`. -/
def exampleHeadersResponseLES : BREthereumLESMessage :=
  { identifier := .LES_MESSAGE_BLOCK_HEADERS, requestId := 1, credits := 0
    status := exampleStatus, announce := exampleAnnounce, content := [] }

/-- The node `exampleProvisionedNode` after it has received `exampleHeadersResponseLES` three
times. -/
def exampleRepeatedResponseNode : BREthereumNode :=
  match nodeProcessRecvLESAll exampleImports .NODE_ROUTE_TCP
      [exampleHeadersResponseLES, exampleHeadersResponseLES, exampleHeadersResponseLES]
      exampleProvisionedNode with
  | .returns node => node
  | _ => exampleProvisionedNode

/-! ## The encoding of a node state -/

/-- The type of a route state, `BREthereumNodeStateType`, in the order in which `nodeStateDescribe`
and `nodeStateEncode` list the types (lines 212-222 and 231-245); the enumeration itself is
declared outside these sources. -/
inductive BREthereumNodeStateType where
  | NODE_AVAILABLE
  | NODE_CONNECTING
  | NODE_CONNECTED
  | NODE_EXHAUSTED
  | NODE_ERROR_UNIX
  | NODE_ERROR_DISCONNECT
  | NODE_ERROR_PROTOCOL
  deriving DecidableEq, Repr

/-- The field `type` of a route state. -/
def BREthereumNodeState.type : BREthereumNodeState → BREthereumNodeStateType
  | .NODE_AVAILABLE => .NODE_AVAILABLE
  | .NODE_CONNECTING _ => .NODE_CONNECTING
  | .NODE_CONNECTED => .NODE_CONNECTED
  | .NODE_EXHAUSTED _ => .NODE_EXHAUSTED
  | .NODE_ERROR_UNIX _ => .NODE_ERROR_UNIX
  | .NODE_ERROR_DISCONNECT _ => .NODE_ERROR_DISCONNECT
  | .NODE_ERROR_PROTOCOL _ => .NODE_ERROR_PROTOCOL

/-- The number of a state type. -/
def nodeStateTypeNumber : BREthereumNodeStateType → Nat
  | .NODE_AVAILABLE => 0
  | .NODE_CONNECTING => 1
  | .NODE_CONNECTED => 2
  | .NODE_EXHAUSTED => 3
  | .NODE_ERROR_UNIX => 4
  | .NODE_ERROR_DISCONNECT => 5
  | .NODE_ERROR_PROTOCOL => 6

/-- The state type with a given number, if there is one. -/
def nodeStateTypeOfNumber : Nat → Option BREthereumNodeStateType
  | 0 => some .NODE_AVAILABLE
  | 1 => some .NODE_CONNECTING
  | 2 => some .NODE_CONNECTED
  | 3 => some .NODE_EXHAUSTED
  | 4 => some .NODE_ERROR_UNIX
  | 5 => some .NODE_ERROR_DISCONNECT
  | 6 => some .NODE_ERROR_PROTOCOL
  | _ => none

/-- The number of a protocol reason, its index in `nodeProtocolReasonDescription`. -/
def nodeProtocolReasonNumber : BREthereumNodeProtocolReason → Nat
  | .NODE_PROTOCOL_NONSTANDARD_PORT => 0
  | .NODE_PROTOCOL_UDP_PING_PONG_MISSED => 1
  | .NODE_PROTOCOL_UDP_EXCESSIVE_BYTE_COUNT => 2
  | .NODE_PROTOCOL_TCP_AUTHENTICATION => 3
  | .NODE_PROTOCOL_TCP_HELLO_MISSED => 4
  | .NODE_PROTOCOL_TCP_STATUS_MISSED => 5
  | .NODE_PROTOCOL_CAPABILITIES_MISMATCH => 6
  | .NODE_PROTOCOL_NETWORK_MISMATCH => 7

/-- The protocol reason with a given number, if there is one. -/
def nodeProtocolReasonOfNumber : Nat → Option BREthereumNodeProtocolReason
  | 0 => some .NODE_PROTOCOL_NONSTANDARD_PORT
  | 1 => some .NODE_PROTOCOL_UDP_PING_PONG_MISSED
  | 2 => some .NODE_PROTOCOL_UDP_EXCESSIVE_BYTE_COUNT
  | 3 => some .NODE_PROTOCOL_TCP_AUTHENTICATION
  | 4 => some .NODE_PROTOCOL_TCP_HELLO_MISSED
  | 5 => some .NODE_PROTOCOL_TCP_STATUS_MISSED
  | 6 => some .NODE_PROTOCOL_CAPABILITIES_MISMATCH
  | 7 => some .NODE_PROTOCOL_NETWORK_MISMATCH
  | _ => none

/-- The modulus of 32-bit arithmetic, `2 ^ 32`: an `int` and an enumeration take 32 bits. -/
def UINT32_MOD : Nat := 4294967296

/-- The conversion of an `int` to `uint64_t`: the value modulo `2 ^ 64`. -/
def uint64OfInt (value : Int) : Nat := (value % (UINT64_MOD : Int)).toNat

/-- The conversion `(int)` of a `uint64_t`: the low 32 bits as a number in two's complement. -/
def intOfUInt64 (value : Nat) : Int :=
  if value % UINT32_MOD < UINT32_MOD / 2 then ((value % UINT32_MOD : Nat) : Int)
  else ((value % UINT32_MOD : Nat) : Int) - (UINT32_MOD : Int)

/-- Modelled from the spec: an RLP item, `BRRlpItem` of `rlp/BRRlpCoder.c`, which is not among the
sources, as far as the state coder builds and reads items: an item that holds a number or a list
of items. -/
inductive BRRlpItem where
  | number (value : Nat)
  | list (items : List BRRlpItem)

/-- Modelled from the spec: `rlpEncodeUInt64`, the item that holds a `uint64_t`. -/
def rlpEncodeUInt64 (value : Nat) : BRRlpItem := .number (value % UINT64_MOD)

/-- Modelled from the spec: `rlpDecodeUInt64`, the number that an item holds; a list holds
none. -/
def rlpDecodeUInt64 : BRRlpItem → Outcome Nat
  | .number value => .returns value
  | .list _ => .aborts

/-- Modelled from the spec: `rlpEncodeList1`. -/
def rlpEncodeList1 (item : BRRlpItem) : BRRlpItem := .list [item]

/-- Modelled from the spec: `rlpEncodeList2`. -/
def rlpEncodeList2 (first second : BRRlpItem) : BRRlpItem := .list [first, second]

/-- Modelled from the spec: `rlpDecodeList`, the items of a list. -/
def rlpDecodeList : BRRlpItem → Outcome (List BRRlpItem)
  | .list items => .returns items
  | .number _ => .aborts

/-- The function `nodeStateCreate` (lines 138-141): the state of the type with every byte of the
union zero, which is the first connect type, the timestamp 0, the error 0 and the first
reasons. -/
def nodeStateCreate : BREthereumNodeStateType → BREthereumNodeState
  | .NODE_AVAILABLE => .NODE_AVAILABLE
  | .NODE_CONNECTING => .NODE_CONNECTING .NODE_CONNECT_OPEN
  | .NODE_CONNECTED => .NODE_CONNECTED
  | .NODE_EXHAUSTED => .NODE_EXHAUSTED 0
  | .NODE_ERROR_UNIX => .NODE_ERROR_UNIX 0
  | .NODE_ERROR_DISCONNECT => .NODE_ERROR_DISCONNECT 0
  | .NODE_ERROR_PROTOCOL => .NODE_ERROR_PROTOCOL .NODE_PROTOCOL_NONSTANDARD_PORT

/-- The function `nodeStateEncode` (lines 226-247). -/
def nodeStateEncode (state : BREthereumNodeState) : BRRlpItem :=
  let typeItem := rlpEncodeUInt64 (nodeStateTypeNumber state.type)
  match state with
  | .NODE_AVAILABLE => rlpEncodeList1 typeItem
  | .NODE_CONNECTING _ => rlpEncodeList1 typeItem
  | .NODE_CONNECTED => rlpEncodeList1 typeItem
  | .NODE_EXHAUSTED _ => rlpEncodeList1 typeItem
  | .NODE_ERROR_UNIX error => rlpEncodeList2 typeItem (rlpEncodeUInt64 (uint64OfInt error))
  | .NODE_ERROR_DISCONNECT reason => rlpEncodeList2 typeItem (rlpEncodeUInt64 reason)
  | .NODE_ERROR_PROTOCOL reason =>
    rlpEncodeList2 typeItem (rlpEncodeUInt64 (nodeProtocolReasonNumber reason))

/-- The second item of `nodeStateDecode`, `items[1]`, as a number; with one item only the read
is outside the array. -/
def nodeStateDecode_second (items : List BRRlpItem) : Outcome Nat :=
  match items[1]? with
  | none => .aborts
  | some second => rlpDecodeUInt64 second

/-- The function `nodeStateDecode` (lines 249-275).  It stops on the `assert` when the list has
neither one nor two items.  A number that names no state type runs off the end of the function
without a `return`, and a number that names no protocol reason gives a reason that the embedding
has no value for: for both the outcome is `aborts`. -/
def nodeStateDecode (item : BRRlpItem) : Outcome BREthereumNodeState :=
  (rlpDecodeList item).andThen fun items =>
    if items.length = 1 ∨ items.length = 2 then
      match items[0]? with
      | none => .aborts
      | some first =>
        (rlpDecodeUInt64 first).andThen fun number =>
          match nodeStateTypeOfNumber (number % UINT32_MOD) with
          | none => .aborts
          | some .NODE_AVAILABLE => .returns (nodeStateCreate .NODE_AVAILABLE)
          | some .NODE_CONNECTING => .returns (nodeStateCreate .NODE_CONNECTING)
          | some .NODE_CONNECTED => .returns (nodeStateCreate .NODE_CONNECTED)
          | some .NODE_EXHAUSTED => .returns (nodeStateCreate .NODE_EXHAUSTED)
          | some .NODE_ERROR_UNIX =>
            (nodeStateDecode_second items).andThen fun error =>
              .returns (nodeStateCreateErrorUnix (intOfUInt64 error))
          | some .NODE_ERROR_DISCONNECT =>
            (nodeStateDecode_second items).andThen fun reason =>
              .returns (nodeStateCreateErrorDisconnect (reason % UINT32_MOD))
          | some .NODE_ERROR_PROTOCOL =>
            (nodeStateDecode_second items).andThen fun reason =>
              match nodeProtocolReasonOfNumber (reason % UINT32_MOD) with
              | none => .aborts
              | some reason => .returns (nodeStateCreateErrorProtocol reason)
    else .aborts

/-- The members of the union of a state hold values of their C types: the error of
`NODE_ERROR_UNIX` is an `int` and the reason of `NODE_ERROR_DISCONNECT` the number of an
enumerator, both on 32 bits. -/
def nodeStateIsValue : BREthereumNodeState → Bool
  | .NODE_ERROR_UNIX error => decide (-2147483648 ≤ error ∧ error < 2147483648)
  | .NODE_ERROR_DISCONNECT reason => decide (reason < UINT32_MOD)
  | _ => true

/-- What the coder keeps of a state: the type, and for the three error types the error or the
reason; the connect type and the timestamp are those of `nodeStateCreate`. -/
def nodeStateEncoded : BREthereumNodeState → BREthereumNodeState
  | .NODE_CONNECTING _ => nodeStateCreate .NODE_CONNECTING
  | .NODE_EXHAUSTED _ => nodeStateCreate .NODE_EXHAUSTED
  | state => state

end LES

namespace BCS


/-! ## Machine integers -/

/-- Below `UINT64_MAX` the 64-bit sum `1 + n` is the sum of the natural numbers. -/
theorem u64Add_one (n : Nat) (h : n < UINT64_MAX) : u64Add 1 n = n + 1 := by
  unfold u64Add UINT64_MOD
  unfold UINT64_MAX at h
  omega

/-! ## Lookups in a set after it changed -/

theorem BRSetGet_map_same {α : Type} (key : α → BREthereumHash) (set : List α) (item : α)
    (h : set.any (fun member => key member == key item) = true) :
    List.find? (fun member => key member == key item)
      (set.map (fun member => if key member == key item then item else member)) = some item := by
  induction set with
  | nil => simp at h
  | cons member rest ih =>
    rw [List.map_cons]
    by_cases hm : key member = key item
    · rw [List.find?_cons_of_pos]
      · simp [hm]
      · simp [hm]
    · have hr : rest.any (fun member => key member == key item) = true := by
        simpa [List.any_cons, hm] using h
      rw [List.find?_cons_of_neg]
      · exact ih hr
      · simp [hm]

theorem BRSetGet_map_other {α : Type} (key : α → BREthereumHash) (set : List α) (item : α)
    (hash : BREthereumHash) (h : key item ≠ hash) :
    List.find? (fun member => key member == hash)
      (set.map (fun member => if key member == key item then item else member)) =
      List.find? (fun member => key member == hash) set := by
  induction set with
  | nil => simp
  | cons member rest ih =>
    rw [List.map_cons]
    by_cases hm : key member = key item
    · have hmh : ¬ key member = hash := by rw [hm]; exact h
      rw [List.find?_cons_of_neg, List.find?_cons_of_neg, ih]
      · simpa using hmh
      · simpa [hm] using h
    · by_cases hh : key member = hash
      · rw [List.find?_cons_of_pos, List.find?_cons_of_pos]
        · simp [hm]
        · simpa using hh
        · simpa [hm] using hh
      · rw [List.find?_cons_of_neg, List.find?_cons_of_neg, ih]
        · simpa using hh
        · simpa [hm] using hh

theorem BRSetGet_BRSetAdd {α : Type} (key : α → BREthereumHash) (set : List α) (item : α)
    (hash : BREthereumHash) :
    BRSetGet key (BRSetAdd key set item) hash =
      if key item = hash then some item else BRSetGet key set hash := by
  unfold BRSetAdd BRSetGet
  by_cases hany : set.any (fun member => key member == key item) = true
  · rw [if_pos hany]
    by_cases hk : key item = hash
    · rw [if_pos hk, ← hk]
      exact BRSetGet_map_same key set item hany
    · rw [if_neg hk]
      exact BRSetGet_map_other key set item hash hk
  · rw [if_neg hany, List.find?_append]
    have hnone : ∀ member ∈ set, ¬ key member = key item := by
      simpa using hany
    by_cases hk : key item = hash
    · have : List.find? (fun member => key member == hash) set = none := by
        rw [List.find?_eq_none]
        intro member hmem
        simpa [← hk] using hnone member hmem
      simp [this, hk]
    · simp [hk]

theorem BRSetGet_some_key {α : Type} (key : α → BREthereumHash) (set : List α)
    (hash : BREthereumHash) (item : α) (h : BRSetGet key set hash = some item) :
    key item = hash := by
  unfold BRSetGet at h
  simpa using List.find?_some h

theorem BRSetGet_some_mem {α : Type} (key : α → BREthereumHash) (set : List α)
    (hash : BREthereumHash) (item : α) (h : BRSetGet key set hash = some item) :
    item ∈ set := by
  unfold BRSetGet at h
  exact List.mem_of_find?_eq_some h

theorem BRSetGet_BRSetRemove {α : Type} (key : α → BREthereumHash) (set : List α)
    (removed hash : BREthereumHash) :
    BRSetGet key (BRSetRemove key set removed) hash =
      if removed = hash then none else BRSetGet key set hash := by
  unfold BRSetRemove BRSetGet
  induction set with
  | nil => simp
  | cons member rest ih =>
    by_cases hr : key member = removed
    · rw [List.filter_cons_of_neg (by simp [hr]), ih]
      by_cases hh : removed = hash
      · simp [hh]
      · rw [if_neg hh, if_neg hh, List.find?_cons_of_neg]
        simpa [hr] using hh
    · rw [List.filter_cons_of_pos (by simp [hr])]
      by_cases hm : key member = hash
      · rw [List.find?_cons_of_pos _ (by simp [hm]), List.find?_cons_of_pos _ (by simp [hm])]
        rw [if_neg]
        rw [← hm]; exact fun h => hr h.symm
      · rw [List.find?_cons_of_neg _ (by simp [hm]), List.find?_cons_of_neg _ (by simp [hm]), ih]

theorem BRSetAdd_keys_nodup {α : Type} (key : α → BREthereumHash) (set : List α) (item : α)
    (h : (set.map key).Nodup) : ((BRSetAdd key set item).map key).Nodup := by
  unfold BRSetAdd
  by_cases hany : set.any (fun member => key member == key item) = true
  · rw [if_pos hany]
    have hkeys : (set.map (fun member => if key member == key item then item else member)).map key
        = set.map key := by
      rw [List.map_map]
      apply List.map_congr_left
      intro member _
      by_cases hm : key member = key item
      · simp [hm]
      · simp [hm]
    rw [hkeys]
    exact h
  · rw [if_neg hany, List.map_append]
    have hnone : ∀ member ∈ set, ¬ key member = key item := by
      simpa using hany
    apply List.Nodup.append h (List.nodup_singleton _)
    intro hash hin hsingle
    rw [List.mem_singleton] at hsingle
    obtain ⟨member, hmem, hkey⟩ := List.mem_map.mp hin
    exact hnone member hmem (hkey.trans hsingle)

/-! ## What the sync functions leave alone -/

theorem bcsSyncContinue_frame (bcs : BREthereumBCS) (chainBlockNumber : Nat) :
    (bcsSyncContinue bcs chainBlockNumber).headers = bcs.headers ∧
    (bcsSyncContinue bcs chainBlockNumber).orphans = bcs.orphans ∧
    (bcsSyncContinue bcs chainBlockNumber).chain = bcs.chain ∧
    (bcsSyncContinue bcs chainBlockNumber).chainTail = bcs.chainTail ∧
    (bcsSyncContinue bcs chainBlockNumber).transactions = bcs.transactions ∧
    (bcsSyncContinue bcs chainBlockNumber).logs = bcs.logs ∧
    (bcsSyncContinue bcs chainBlockNumber).pendingTransactions = bcs.pendingTransactions ∧
    (bcsSyncContinue bcs chainBlockNumber).activeBlocks = bcs.activeBlocks ∧
    ((bcsSyncContinue bcs chainBlockNumber).effects = bcs.effects ∨
      ∃ blockStart blockCount, (bcsSyncContinue bcs chainBlockNumber).effects =
        bcs.effects ++ [BCSEffect.lesGetBlockHeaders blockStart blockCount]) := by
  unfold bcsSyncContinue bcsSyncSubmit
  simp only
  split
  · refine ⟨rfl, rfl, rfl, rfl, rfl, rfl, rfl, rfl, Or.inr ⟨_, _, rfl⟩⟩
  · exact ⟨rfl, rfl, rfl, rfl, rfl, rfl, rfl, rfl, Or.inl rfl⟩

theorem bcsSyncFrom_frame (bcs : BREthereumBCS) (chainBlockNumber : Nat) :
    (bcsSyncFrom bcs chainBlockNumber).headers = bcs.headers ∧
    (bcsSyncFrom bcs chainBlockNumber).orphans = bcs.orphans ∧
    (bcsSyncFrom bcs chainBlockNumber).chain = bcs.chain ∧
    (bcsSyncFrom bcs chainBlockNumber).chainTail = bcs.chainTail ∧
    (bcsSyncFrom bcs chainBlockNumber).transactions = bcs.transactions ∧
    (bcsSyncFrom bcs chainBlockNumber).logs = bcs.logs ∧
    (bcsSyncFrom bcs chainBlockNumber).pendingTransactions = bcs.pendingTransactions ∧
    (bcsSyncFrom bcs chainBlockNumber).activeBlocks = bcs.activeBlocks ∧
    ((bcsSyncFrom bcs chainBlockNumber).effects = bcs.effects ∨
      ∃ blockStart blockCount, (bcsSyncFrom bcs chainBlockNumber).effects =
        bcs.effects ++ [BCSEffect.lesGetBlockHeaders blockStart blockCount]) := by
  unfold bcsSyncFrom
  split
  · exact bcsSyncContinue_frame bcs chainBlockNumber
  · simp only [bcsSyncSubmit]
    split
    · refine ⟨rfl, rfl, rfl, rfl, rfl, rfl, rfl, rfl, Or.inr ⟨_, _, rfl⟩⟩
    · exact ⟨rfl, rfl, rfl, rfl, rfl, rfl, rfl, rfl, Or.inl rfl⟩

/-! ## Headers that are dropped, headers that become orphans -/

/-- C2, as stated, fails: the engine created without saved headers receives `exampleOrphan`
(number 5, parent unknown), which becomes an orphan, and then a new, valid header numbered 9 whose
parent is that orphan.  The parent is in the orphan set, yet the header is dropped for its block
number: it is in neither set afterwards and the state is unchanged. -/
theorem bcsHandleBlockHeader_orphan_parent_dropped :
    bcsHandleBlockHeader (bcsCreate exampleGenesis none) exampleOrphan =
        Outcome.returns exampleOrphanState ∧
      exampleOrphanState.chain = some exampleGenesis ∧
      BRSetGet blockHeaderGetHash exampleOrphanState.headers (exampleHeader 2001 2000 9).hash =
        none ∧
      (exampleHeader 2001 2000 9).isValid = true ∧
      BRSetGet blockHeaderGetHash exampleOrphanState.orphans
        (exampleHeader 2001 2000 9).parentHash = some exampleOrphan ∧
      bcsHandleBlockHeader exampleOrphanState (exampleHeader 2001 2000 9) =
        Outcome.returns exampleOrphanState ∧
      BRSetGet blockHeaderGetHash exampleOrphanState.orphans (exampleHeader 2001 2000 9).hash =
        none := by
  decide

/-- C2, amended: placement case 2 of `bcsHandleBlockHeader`.  For every new, valid header, with a
chain present, whose parent is absent from the header set, or is in the orphan set and has the
header's block number minus one, the handler returns the state in which the header is added to the
header set and to the orphan set and `bcsSyncFrom` has run with the block number of `chain`.
`chain` and `chainTail` are unchanged, the orphan set is the old one with the header added (no
orphan is chained or purged), transactions, pending list, logs and active blocks are unchanged, and
the only request that can be issued is the one header request of `bcsSyncFrom`. -/
theorem bcsHandleBlockHeader_makes_orphan (bcs : BREthereumBCS)
    (header chain : BREthereumBlockHeader)
    (hchain : bcs.chain = some chain)
    (hnew : BRSetGet blockHeaderGetHash bcs.headers header.hash = none)
    (hvalid : header.isValid = true)
    (hparent : BRSetGet blockHeaderGetHash bcs.headers header.parentHash = none ∨
      ∃ parent, BRSetGet blockHeaderGetHash bcs.headers header.parentHash = some parent ∧
        header.number = u64Add 1 parent.number ∧
        (BRSetGet blockHeaderGetHash bcs.orphans parent.hash).isSome = true) :
    ∃ bcs', bcsHandleBlockHeader bcs header = Outcome.returns bcs' ∧
      bcs' = bcsSyncFrom
        (bcsMakeOrphan { bcs with headers := BRSetAdd blockHeaderGetHash bcs.headers header }
          header) chain.number ∧
      bcs'.headers = BRSetAdd blockHeaderGetHash bcs.headers header ∧
      bcs'.orphans = BRSetAdd blockHeaderGetHash bcs.orphans header ∧
      bcs'.chain = bcs.chain ∧
      bcs'.chainTail = bcs.chainTail ∧
      bcs'.transactions = bcs.transactions ∧
      bcs'.pendingTransactions = bcs.pendingTransactions ∧
      bcs'.logs = bcs.logs ∧
      bcs'.activeBlocks = bcs.activeBlocks ∧
      (bcs'.effects = bcs.effects ∨
        ∃ blockStart blockCount,
          bcs'.effects = bcs.effects ++ [BCSEffect.lesGetBlockHeaders blockStart blockCount]) := by
  have hframe := bcsSyncFrom_frame
    (bcsMakeOrphan { bcs with headers := BRSetAdd blockHeaderGetHash bcs.headers header } header)
    chain.number
  obtain ⟨f1, f2, f3, f4, f5, f6, f7, f8, f9⟩ := hframe
  refine ⟨_, ?_, rfl, f1, f2, f3, f4, f5, f7, f6, f8, f9⟩
  unfold bcsHandleBlockHeader
  have hseen : ¬ (BRSetGet blockHeaderGetHash bcs.headers header.hash).isSome = true := by
    rw [hnew]; simp
  have hval : ¬ header.isValid = false := by rw [hvalid]; simp
  rw [if_neg hseen, if_neg hval]
  rcases hparent with hnone | ⟨parent, hsome, hnumber, horphan⟩
  · simp only [hnone, bcsHandleBlockHeader_inconsistent, bcsHandleBlockHeader_place, hchain]
    simp
  · have hcons : bcsHandleBlockHeader_inconsistent header (some parent) = false := by
      simp [bcsHandleBlockHeader_inconsistent, hnumber]
    simp only [hsome, hcons, bcsHandleBlockHeader_place, hchain]
    simp [horphan]

/-- The amended C2 at work: the engine created without saved headers receives `exampleOrphan`,
whose parent is unknown; the orphan joins both sets, the head stays the genesis header, and a sync
for the headers 1 to 4 is requested. -/
theorem bcsHandleBlockHeader_makes_orphan_witness :
    bcsHandleBlockHeader (bcsCreate exampleGenesis none) exampleOrphan =
        Outcome.returns exampleOrphanState ∧
      exampleOrphanState.headers = [exampleGenesis, exampleOrphan] ∧
      exampleOrphanState.orphans = [exampleOrphan] ∧
      exampleOrphanState.chain = some exampleGenesis ∧
      exampleOrphanState.effects = [BCSEffect.lesGetBlockHeaders 1 4] := by
  obtain ⟨bcs', hreturns, _, hheaders, horphans, hchain, _⟩ :=
    bcsHandleBlockHeader_makes_orphan (bcsCreate exampleGenesis none) exampleOrphan
      exampleGenesis (by decide) (by decide) (by decide) (Or.inl (by decide))
  have heval : bcsHandleBlockHeader (bcsCreate exampleGenesis none) exampleOrphan =
      Outcome.returns exampleOrphanState := by decide
  rw [heval] at hreturns
  cases hreturns
  exact ⟨heval, hheaders.trans (by decide), horphans.trans (by decide),
    hchain.trans (by decide), by decide⟩

/-! ## The walk over parent hashes -/

theorem parentWalk_succ (headers : List BREthereumBlockHeader) (fuel : Nat)
    (start stop : BREthereumBlockHeader) (path : List BREthereumBlockHeader)
    (h : parentWalk headers fuel start stop = some path) :
    parentWalk headers (fuel + 1) start stop = some path := by
  induction fuel generalizing start path with
  | zero => simp [parentWalk] at h
  | succ fuel ih =>
    rw [parentWalk] at h
    rw [parentWalk]
    by_cases hstop : stop = start
    · rw [if_pos hstop] at h ⊢
      exact h
    · rw [if_neg hstop] at h ⊢
      cases hget : BRSetGet blockHeaderGetHash headers start.parentHash with
      | none => rw [hget] at h; simp at h
      | some parent =>
        rw [hget] at h
        simp only at h ⊢
        cases hrest : parentWalk headers fuel parent stop with
        | none => rw [hrest] at h; simp at h
        | some rest =>
          rw [hrest] at h
          rw [ih parent rest hrest]
          exact h

theorem parentWalk_mono (headers : List BREthereumBlockHeader) (fuel more : Nat)
    (start stop : BREthereumBlockHeader) (path : List BREthereumBlockHeader)
    (h : parentWalk headers fuel start stop = some path) :
    parentWalk headers (fuel + more) start stop = some path := by
  induction more with
  | zero => exact h
  | succ more ih => exact parentWalk_succ headers (fuel + more) start stop path ih

theorem parentWalk_deterministic (headers : List BREthereumBlockHeader) (fuel fuel' : Nat)
    (start stop : BREthereumBlockHeader) (path path' : List BREthereumBlockHeader)
    (h : parentWalk headers fuel start stop = some path)
    (h' : parentWalk headers fuel' start stop = some path') : path = path' := by
  have h1 := parentWalk_mono headers fuel fuel' start stop path h
  have h2 := parentWalk_mono headers fuel' fuel start stop path' h'
  rw [Nat.add_comm] at h2
  rw [h1] at h2
  exact Option.some.inj h2

theorem parentWalk_least_fuel (headers : List BREthereumBlockHeader) (fuel : Nat)
    (start stop : BREthereumBlockHeader) (path : List BREthereumBlockHeader)
    (h : parentWalk headers fuel start stop = some path) :
    parentWalk headers (path.length + 1) start stop = some path := by
  induction fuel generalizing start path with
  | zero => simp [parentWalk] at h
  | succ fuel ih =>
    rw [parentWalk] at h
    by_cases hstop : stop = start
    · rw [if_pos hstop] at h
      cases h
      simp [parentWalk, hstop]
    · rw [if_neg hstop] at h
      cases hget : BRSetGet blockHeaderGetHash headers start.parentHash with
      | none => rw [hget] at h; simp at h
      | some parent =>
        rw [hget] at h
        simp only at h
        cases hrest : parentWalk headers fuel parent stop with
        | none => rw [hrest] at h; simp at h
        | some rest =>
          rw [hrest] at h
          cases h
          have := ih parent rest hrest
          rw [List.length_cons, parentWalk, if_neg hstop, hget]
          simp only
          rw [this]

theorem parentWalk_members (headers : List BREthereumBlockHeader) (fuel : Nat)
    (start stop : BREthereumBlockHeader) (path : List BREthereumBlockHeader)
    (h : parentWalk headers fuel start stop = some path) :
    ∀ header ∈ path, ∃ fuel' path', parentWalk headers fuel' header stop = some path' ∧
      path'.length ≤ path.length ∧ (header = start ∨ header ∈ headers) := by
  induction fuel generalizing start path with
  | zero => simp [parentWalk] at h
  | succ fuel ih =>
    rw [parentWalk] at h
    by_cases hstop : stop = start
    · rw [if_pos hstop] at h
      cases h
      simp
    · rw [if_neg hstop] at h
      cases hget : BRSetGet blockHeaderGetHash headers start.parentHash with
      | none => rw [hget] at h; simp at h
      | some parent =>
        rw [hget] at h
        simp only at h
        cases hrest : parentWalk headers fuel parent stop with
        | none => rw [hrest] at h; simp at h
        | some rest =>
          rw [hrest] at h
          cases h
          intro header hmem
          rcases List.mem_cons.mp hmem with hhead | htail
          · subst hhead
            refine ⟨fuel + 1, header :: rest, ?_, le_refl _, Or.inl rfl⟩
            rw [parentWalk, if_neg hstop, hget]
            simp only
            rw [hrest]
          · obtain ⟨fuel', path', hwalk, hlen, hwhere⟩ := ih parent rest hrest header htail
            refine ⟨fuel', path', hwalk, ?_, Or.inr ?_⟩
            · rw [List.length_cons]; omega
            · rcases hwhere with heq | hin
              · rw [heq]
                exact BRSetGet_some_mem blockHeaderGetHash headers start.parentHash parent hget
              · exact hin

theorem parentWalk_nodup (headers : List BREthereumBlockHeader) (fuel : Nat)
    (start stop : BREthereumBlockHeader) (path : List BREthereumBlockHeader)
    (h : parentWalk headers fuel start stop = some path) : path.Nodup := by
  induction fuel generalizing start path with
  | zero => simp [parentWalk] at h
  | succ fuel ih =>
    have hwhole := h
    rw [parentWalk] at h
    by_cases hstop : stop = start
    · rw [if_pos hstop] at h
      cases h
      exact List.nodup_nil
    · rw [if_neg hstop] at h
      cases hget : BRSetGet blockHeaderGetHash headers start.parentHash with
      | none => rw [hget] at h; simp at h
      | some parent =>
        rw [hget] at h
        simp only at h
        cases hrest : parentWalk headers fuel parent stop with
        | none => rw [hrest] at h; simp at h
        | some rest =>
          rw [hrest] at h
          cases h
          refine List.nodup_cons.mpr ⟨?_, ih parent rest hrest⟩
          intro hmem
          obtain ⟨fuel', path', hwalk, hlen, _⟩ :=
            parentWalk_members headers fuel parent stop rest hrest start hmem
          have := parentWalk_deterministic headers fuel' (fuel + 1) start stop path'
            (start :: rest) hwalk hwhole
          rw [this, List.length_cons] at hlen
          omega

theorem parentWalk_length_le (headers : List BREthereumBlockHeader) (fuel : Nat)
    (start stop : BREthereumBlockHeader) (path : List BREthereumBlockHeader)
    (h : parentWalk headers fuel start stop = some path) :
    path.length ≤ headers.length + 1 := by
  cases path with
  | nil => simp
  | cons first rest =>
    have hnodup := parentWalk_nodup headers fuel start stop (first :: rest) h
    have hrest : rest.Nodup := (List.nodup_cons.mp hnodup).2
    have hmem := parentWalk_members headers fuel start stop (first :: rest) h
    have hfirst : first = start := by
      cases fuel with
      | zero => simp [parentWalk] at h
      | succ fuel =>
        rw [parentWalk] at h
        by_cases hstop : stop = start
        · rw [if_pos hstop] at h; cases h
        · rw [if_neg hstop] at h
          cases hget : BRSetGet blockHeaderGetHash headers start.parentHash with
          | none => rw [hget] at h; simp at h
          | some parent =>
            rw [hget] at h
            simp only at h
            cases hrest : parentWalk headers fuel parent stop with
            | none => rw [hrest] at h; simp at h
            | some rest' =>
              rw [hrest] at h
              cases h
              rfl
    have hsub : rest ⊆ headers := by
      intro header hin
      obtain ⟨_, _, _, _, hwhere⟩ := hmem header (List.mem_cons_of_mem first hin)
      rcases hwhere with heq | hin'
      · exfalso
        rw [heq, ← hfirst] at hin
        exact (List.nodup_cons.mp hnodup).1 hin
      · exact hin'
    have := (List.Nodup.subperm hrest hsub).length_le
    rw [List.length_cons]
    omega

/-- A walk over parent hashes that reaches its goal does so within the fuel the handlers give
their walks: the headers it meets are pairwise different and, but for the first, members of the
header set. -/
theorem parentWalk_within_fuel (headers : List BREthereumBlockHeader) (fuel : Nat)
    (start stop : BREthereumBlockHeader) (path : List BREthereumBlockHeader)
    (h : parentWalk headers fuel start stop = some path) :
    parentWalk headers (headers.length + 2) start stop = some path := by
  have hlen := parentWalk_length_le headers fuel start stop path h
  have hleast := parentWalk_least_fuel headers fuel start stop path h
  have := parentWalk_mono headers (path.length + 1) (headers.length + 2 - (path.length + 1))
    start stop path hleast
  have heq : path.length + 1 + (headers.length + 2 - (path.length + 1)) = headers.length + 2 := by
    omega
  rw [heq] at this
  exact this

theorem parentWalk_BRSetAdd (headers : List BREthereumBlockHeader)
    (header : BREthereumBlockHeader)
    (hnew : BRSetGet blockHeaderGetHash headers header.hash = none) (fuel : Nat)
    (start stop : BREthereumBlockHeader) (path : List BREthereumBlockHeader)
    (h : parentWalk headers fuel start stop = some path) :
    parentWalk (BRSetAdd blockHeaderGetHash headers header) fuel start stop = some path := by
  induction fuel generalizing start path with
  | zero => simp [parentWalk] at h
  | succ fuel ih =>
    rw [parentWalk] at h
    rw [parentWalk]
    by_cases hstop : stop = start
    · rw [if_pos hstop] at h ⊢
      exact h
    · rw [if_neg hstop] at h ⊢
      cases hget : BRSetGet blockHeaderGetHash headers start.parentHash with
      | none => rw [hget] at h; simp at h
      | some parent =>
        rw [hget] at h
        simp only at h
        have hkey : ¬ blockHeaderGetHash header = start.parentHash := by
          intro heq
          have : header.hash = start.parentHash := heq
          rw [this, hget] at hnew
          simp at hnew
        rw [BRSetGet_BRSetAdd, if_neg hkey, hget]
        simp only
        cases hrest : parentWalk headers fuel parent stop with
        | none => rw [hrest] at h; simp at h
        | some rest =>
          rw [hrest] at h
          rw [ih parent rest hrest]
          exact h

/-! ## Placement case 3: the chain is extended -/

theorem bcsHandleBlockHeader_reorg_walk (fuel : Nat) (bcs : BREthereumBCS)
    (chain parent : BREthereumBlockHeader) (path : List BREthereumBlockHeader)
    (hchain : bcs.chain = some chain)
    (hwalk : parentWalk bcs.headers fuel chain parent = some path) :
    bcsHandleBlockHeader_reorg fuel bcs parent =
      Outcome.returns
        { bcs with
          chain := some parent
          orphans := path.foldl (BRSetAdd blockHeaderGetHash) bcs.orphans } := by
  induction fuel generalizing bcs chain path with
  | zero => simp [parentWalk] at hwalk
  | succ fuel ih =>
    rw [parentWalk] at hwalk
    rw [bcsHandleBlockHeader_reorg, hchain]
    simp only
    by_cases hstop : parent = chain
    · rw [if_pos hstop] at hwalk ⊢
      cases hwalk
      cases bcs
      simp only [List.foldl_nil] at hchain ⊢
      rw [hchain, hstop]
    · rw [if_neg hstop] at hwalk ⊢
      cases hget : BRSetGet blockHeaderGetHash bcs.headers chain.parentHash with
      | none => rw [hget] at hwalk; simp at hwalk
      | some next =>
        rw [hget] at hwalk
        simp only at hwalk
        cases hrest : parentWalk bcs.headers fuel next parent with
        | none => rw [hrest] at hwalk; simp at hwalk
        | some rest =>
          rw [hrest] at hwalk
          cases hwalk
          rw [ih { bcsMakeOrphan bcs chain with chain := some next } next rest rfl hrest]
          rfl

theorem BRSetGet_foldl_BRSetAdd_keeps (orphans path : List BREthereumBlockHeader)
    (hash : BREthereumHash)
    (h : (BRSetGet blockHeaderGetHash orphans hash).isSome = true) :
    (BRSetGet blockHeaderGetHash (path.foldl (BRSetAdd blockHeaderGetHash) orphans) hash).isSome
      = true := by
  induction path generalizing orphans with
  | nil => exact h
  | cons first rest ih =>
    rw [List.foldl_cons]
    apply ih
    rw [BRSetGet_BRSetAdd]
    split
    · rfl
    · exact h

theorem BRSetGet_foldl_BRSetAdd_member (orphans path : List BREthereumBlockHeader) :
    ∀ header ∈ path,
      (BRSetGet blockHeaderGetHash (path.foldl (BRSetAdd blockHeaderGetHash) orphans)
        header.hash).isSome = true := by
  induction path generalizing orphans with
  | nil => simp
  | cons first rest ih =>
    intro header hmem
    rw [List.foldl_cons]
    rcases List.mem_cons.mp hmem with hfirst | hrest
    · apply BRSetGet_foldl_BRSetAdd_keeps
      rw [BRSetGet_BRSetAdd, hfirst]
      simp [blockHeaderGetHash]
    · exact ih _ header hrest

/-- C1: placement case 3 of `bcsHandleBlockHeader` does not make every header head that meets the
conditions of the case.  In `examplePurgedState` (the engine created without saved headers that
received a stray header numbered 0 and then the headers 1 to 11 on top of the genesis header) the
stray header is in the header set and no longer in the orphan set, for `bcsPurgeOrphans` removed it
from the orphans only.  A new, valid header numbered 1 whose parent is the stray header meets all
the conditions, but the walk from the head never meets that parent: it makes an orphan of every
header of the chain, ends on a NULL `chain`, and the `assert` of line 630 stops the handler.  The
same happens in `exampleGapState` (created with the saved headers 1 and 3) to a new header numbered
1 on top of the genesis header: the walk from head 3 ends on the missing header 2. -/
theorem bcsHandleBlockHeader_parent_off_chain :
    bcsHandleBlockHeaders (exampleStray :: (List.range 11).map fun n => exampleLine (n + 1))
        (bcsCreate exampleGenesis none) = Outcome.returns examplePurgedState ∧
      BRSetGet blockHeaderGetHash examplePurgedState.headers (exampleHeader 60 50 1).hash = none ∧
      (exampleHeader 60 50 1).isValid = true ∧
      BRSetGet blockHeaderGetHash examplePurgedState.headers (exampleHeader 60 50 1).parentHash =
        some exampleStray ∧
      BRSetGet blockHeaderGetHash examplePurgedState.orphans exampleStray.hash = none ∧
      (exampleHeader 60 50 1).number = exampleStray.number + 1 ∧
      bcsHandleBlockHeader_extend
          { examplePurgedState with
            headers := BRSetAdd blockHeaderGetHash examplePurgedState.headers
              (exampleHeader 60 50 1) }
          (exampleHeader 60 50 1) exampleStray = Outcome.aborts ∧
      bcsHandleBlockHeader examplePurgedState (exampleHeader 60 50 1) = Outcome.aborts ∧
      BRSetGet blockHeaderGetHash exampleGapState.headers (exampleHeader 70 1000 1).hash = none ∧
      BRSetGet blockHeaderGetHash exampleGapState.headers (exampleHeader 70 1000 1).parentHash =
        some exampleGenesis ∧
      BRSetGet blockHeaderGetHash exampleGapState.orphans exampleGenesis.hash = none ∧
      bcsHandleBlockHeader exampleGapState (exampleHeader 70 1000 1) = Outcome.aborts := by
  decide

/-- Placement case 3 of `bcsHandleBlockHeader` when the parent is on the chain.  For every new,
valid header `header` whose parent `parent` is in the header set, is not in the orphan set, has the
header's block number minus one, and is met by the walk over parent hashes from the head `chain`,
the placement step returns; it puts every header of that walk from the old head back to, and
without, the parent into the orphan set (none when the parent is the old head), makes `header` the
head, adds it to the header set and leaves `chainTail` and all other fields unchanged; the handler
then goes on from that state.  In scenario S2 (chain G, A1, A2; B2 with parent A1 and then B3 with
parent B2 arrive) the handler ends with head B3, chain G, A1, B2, B3 and the orphan set of A2
alone; in scenario S1 (chain G; the headers 1 and 2 of the line arrive) it ends with head 2, tail
G, no orphans and no request. -/
theorem bcsHandleBlockHeader_extends_chain :
    (∀ (bcs : BREthereumBCS) (header parent chain : BREthereumBlockHeader)
        (path : List BREthereumBlockHeader) (fuel : Nat),
      bcs.chain = some chain →
      BRSetGet blockHeaderGetHash bcs.headers header.hash = none →
      header.isValid = true →
      BRSetGet blockHeaderGetHash bcs.headers header.parentHash = some parent →
      BRSetGet blockHeaderGetHash bcs.orphans parent.hash = none →
      header.number = u64Add 1 parent.number →
      parentWalk bcs.headers fuel chain parent = some path →
      ∃ placed,
        bcsHandleBlockHeader_extend
          { bcs with headers := BRSetAdd blockHeaderGetHash bcs.headers header } header parent =
          Outcome.returns placed ∧
        placed =
          { bcs with
            headers := BRSetAdd blockHeaderGetHash bcs.headers header
            chain := some header
            orphans := path.foldl (BRSetAdd blockHeaderGetHash) bcs.orphans } ∧
        (∀ walked ∈ path,
          (BRSetGet blockHeaderGetHash placed.orphans walked.hash).isSome = true) ∧
        (parent = chain → placed.orphans = bcs.orphans) ∧
        placed.chain = some header ∧
        placed.chainTail = bcs.chainTail ∧
        bcsHandleBlockHeader bcs header = bcsHandleBlockHeader_chained placed (some parent)) ∧
    (bcsHandleBlockHeaders [exampleA1, exampleA2] (bcsCreate exampleGenesis none) =
        Outcome.returns exampleForkState ∧
      bcsChainMembers exampleForkState = some [exampleA2, exampleA1, exampleGenesis] ∧
      exampleForkState.orphans = [] ∧
      ∃ bcs', bcsHandleBlockHeaders [exampleB2, exampleB3] exampleForkState =
          Outcome.returns bcs' ∧
        bcs'.chain = some exampleB3 ∧
        bcsChainMembers bcs' = some [exampleB3, exampleB2, exampleA1, exampleGenesis] ∧
        bcs'.orphans = [exampleA2]) ∧
    (bcsChainMembers (bcsCreate exampleGenesis none) = some [exampleGenesis] ∧
      ∃ bcs', bcsHandleBlockHeaders [exampleLine 1, exampleLine 2]
          (bcsCreate exampleGenesis none) = Outcome.returns bcs' ∧
        bcs'.chain = some (exampleLine 2) ∧
        bcs'.chainTail = some exampleGenesis ∧
        bcs'.orphans = [] ∧
        bcs'.effects = []) := by
  refine ⟨?_, ?_, ?_⟩
  · intro bcs header parent chain path fuel hchain hnew hvalid hparent hnotorphan hnumber hwalk
    have hwalk' := parentWalk_within_fuel _ _ _ _ _
      (parentWalk_BRSetAdd bcs.headers header hnew fuel chain parent path hwalk)
    have hreorg := bcsHandleBlockHeader_reorg_walk
      ((BRSetAdd blockHeaderGetHash bcs.headers header).length + 2)
      { bcs with headers := BRSetAdd blockHeaderGetHash bcs.headers header } chain parent path
      hchain hwalk'
    have hextend : bcsHandleBlockHeader_extend
        { bcs with headers := BRSetAdd blockHeaderGetHash bcs.headers header } header parent =
        Outcome.returns
          { bcs with
            headers := BRSetAdd blockHeaderGetHash bcs.headers header
            chain := some header
            orphans := path.foldl (BRSetAdd blockHeaderGetHash) bcs.orphans } := by
      unfold bcsHandleBlockHeader_extend
      rw [hreorg]
      rfl
    refine ⟨_, hextend, rfl, BRSetGet_foldl_BRSetAdd_member bcs.orphans path, ?_, rfl, rfl, ?_⟩
    · intro hsame
      cases fuel with
      | zero => simp [parentWalk] at hwalk
      | succ fuel =>
        rw [parentWalk, if_pos hsame] at hwalk
        cases hwalk
        rfl
    · unfold bcsHandleBlockHeader
      have hseen : ¬ (BRSetGet blockHeaderGetHash bcs.headers header.hash).isSome = true := by
        rw [hnew]; simp
      have hval : ¬ header.isValid = false := by rw [hvalid]; simp
      have hcons : bcsHandleBlockHeader_inconsistent header (some parent) = false := by
        simp [bcsHandleBlockHeader_inconsistent, hnumber]
      rw [if_neg hseen, if_neg hval]
      simp only [hparent, hcons, bcsHandleBlockHeader_place, hchain]
      have hno : ¬ (BRSetGet blockHeaderGetHash bcs.orphans parent.hash).isSome = true := by
        rw [hnotorphan]; simp
      simp only [Bool.false_eq_true, if_false, hno]
      have hextend' := hextend
      simp only [hchain] at hextend'
      rw [hextend']
      rfl
  · exact ⟨by decide, by decide, by decide, _, rfl, by decide, by decide, by decide⟩
  · exact ⟨by decide, _, rfl, by decide, by decide, by decide, by decide⟩

/-- The first step of scenario S2: on the chain G, A1, A2 the header B2 with
parent A1 arrives; the walk from the head A2 back to A1 meets A2 alone, which becomes the one
orphan, and B2 is the head. -/
theorem bcsHandleBlockHeader_extends_chain_witness :
    bcsHandleBlockHeader_extend
        { exampleForkState with
          headers := BRSetAdd blockHeaderGetHash exampleForkState.headers exampleB2 }
        exampleB2 exampleA1 =
      Outcome.returns
        { exampleForkState with
          headers := BRSetAdd blockHeaderGetHash exampleForkState.headers exampleB2
          chain := some exampleB2
          orphans :=
            [exampleA2].foldl (BRSetAdd blockHeaderGetHash) exampleForkState.orphans } := by
  obtain ⟨placed, hreturns, hplaced, _⟩ :=
    bcsHandleBlockHeader_extends_chain.1 exampleForkState exampleB2 exampleA1 exampleA2
      [exampleA2] 3 (by decide) (by decide) (by decide) (by decide) (by decide) (by decide)
      (by decide)
  rw [hreturns, hplaced]

/-! ## Invariants of the chain that the code does not keep -/

/-- C4: the chain-shape invariant does not hold after `bcsCreate`.  Called with an empty list of
saved headers, `bcsCreate` sets `chainTail` to NULL before a replay loop that then runs no round:
`chainTail` stays NULL, the invariant fails, and the first header that is chained stops the engine
on `blockHeaderGetNumber (bcs->chainTail)`; called with NULL it leaves the genesis header as head
and tail.  A handler breaks the invariant as well: the engine created without saved headers
receives a header numbered 5 whose parent is unknown and then that parent, numbered 1 on top of the
genesis header; the parent is chained, the orphan is adopted as head without a look at its number,
and the walk from the head numbered 5 reaches the tail numbered 0 in 2 steps. -/
theorem bcsCreate_empty_list_breaks_chain_shape :
    (bcsCreate exampleGenesis (some [])).chain = some exampleGenesis ∧
    (bcsCreate exampleGenesis (some [])).chainTail = none ∧
    bcsChainShape (bcsCreate exampleGenesis (some [])) = false ∧
    bcsHandleBlockHeader (bcsCreate exampleGenesis (some [])) (exampleLine 1) = Outcome.aborts ∧
    bcsChainShape (bcsCreate exampleGenesis none) = true ∧
    bcsHandleBlockHeaders [exampleMisnumbered, exampleLine 1] (bcsCreate exampleGenesis none) =
      Outcome.returns exampleMisnumberedState ∧
    exampleMisnumberedState.chain = some exampleMisnumbered ∧
    exampleMisnumberedState.chainTail = some exampleGenesis ∧
    bcsChainMembers exampleMisnumberedState =
      some [exampleMisnumbered, exampleLine 1, exampleGenesis] ∧
    bcsChainShape exampleMisnumberedState = false := by
  decide

/-- C5: a header can be on the chain and in the orphan set.  `bcsCreate` replays the saved headers
1 and 3 of the line without a look at their parents, so the chain has head 3 and tail 1 with
header 2 missing.  When header 2 arrives, its parent 1 is in the header set and is no orphan; the
reorganisation walk goes from head 3 to the header 2 that was just added to the header set, makes
both orphans, and the orphan 3 is chained again on top of 2.  The handler returns with the chain
3, 2, 1 and header 2 in the orphan set. -/
theorem bcsHandleBlockHeader_orphan_on_chain :
    exampleGapState.chain = some (exampleLine 3) ∧
    exampleGapState.chainTail = some (exampleLine 1) ∧
    exampleGapState.orphans = [] ∧
    bcsHandleBlockHeader exampleGapState (exampleLine 2) =
      Outcome.returns exampleGapFilledState ∧
    bcsChainMembers exampleGapFilledState =
      some [exampleLine 3, exampleLine 2, exampleLine 1] ∧
    BRSetGet blockHeaderGetHash exampleGapFilledState.orphans (exampleLine 2).hash =
      some (exampleLine 2) ∧
    bcsOrphanOnChain exampleGapFilledState = true := by
  decide

/-- C6, as stated, fails: the engine created without saved headers has received the headers 1 to
11 of the line, so the head is numbered 11, and then receives a header numbered 0 whose parent is
unknown.  The header becomes an orphan and the handler returns at once, without a purge: the
orphan set holds a header numbered 0, below 11 - 10. -/
theorem bcsHandleBlockHeader_leaves_stale_orphan :
    bcsHandleBlockHeaders ((List.range 11).map fun n => exampleLine (n + 1))
        (bcsCreate exampleGenesis none) = Outcome.returns exampleLineState ∧
    bcsStaleOrphan exampleLineState = false ∧
    bcsHandleBlockHeader exampleLineState exampleStray = Outcome.returns exampleStaleState ∧
    exampleStaleState.chain = some (exampleLine 11) ∧
    exampleStaleState.orphans = [exampleStray] ∧
    bcsStaleOrphan exampleStaleState = true := by
  decide

/-- C7: an orphan that `bcsPurgeOrphans` removes stays in the header set.  The engine created
without saved headers has received a stray header numbered 0 and the headers 1 to 10 of the line;
the stray header is an orphan and the partition holds.  Header 11 arrives and is chained, the
purge removes the stray header from the orphan set (and releases it), but not from the header
set: after the handler the stray header is in the header set, not in the orphan set and not on
the chain. -/
theorem bcsPurgeOrphans_keeps_header :
    bcsHandleBlockHeaders (exampleStray :: (List.range 10).map fun n => exampleLine (n + 1))
        (bcsCreate exampleGenesis none) = Outcome.returns exampleBeforePurgeState ∧
    bcsHeaderSetPartition exampleBeforePurgeState = true ∧
    BRSetGet blockHeaderGetHash exampleBeforePurgeState.orphans exampleStray.hash =
      some exampleStray ∧
    bcsHandleBlockHeader exampleBeforePurgeState (exampleLine 11) =
      Outcome.returns examplePurgedState ∧
    BRSetGet blockHeaderGetHash examplePurgedState.orphans exampleStray.hash = none ∧
    BRSetGet blockHeaderGetHash examplePurgedState.headers exampleStray.hash =
      some exampleStray ∧
    bcsChainMembers examplePurgedState =
      some (((List.range 11).map fun n => exampleLine (11 - n)) ++ [exampleGenesis]) ∧
    exampleStray ∉ ((List.range 11).map fun n => exampleLine (11 - n)) ++ [exampleGenesis] ∧
    bcsHeaderSetPartition examplePurgedState = false := by
  decide

/-! ## What the stages of `bcsHandleBlockHeader` leave alone -/

theorem bcsPurgeOrphansLoop_frame (fuel : Nat) (bcs : BREthereumBCS) (blockNumber : Nat) :
    (bcsPurgeOrphansLoop fuel bcs blockNumber).chain = bcs.chain ∧
    (bcsPurgeOrphansLoop fuel bcs blockNumber).chainTail = bcs.chainTail ∧
    (bcsPurgeOrphansLoop fuel bcs blockNumber).headers = bcs.headers ∧
    (bcsPurgeOrphansLoop fuel bcs blockNumber).transactions = bcs.transactions ∧
    (bcsPurgeOrphansLoop fuel bcs blockNumber).pendingTransactions = bcs.pendingTransactions := by
  induction fuel generalizing bcs with
  | zero => exact ⟨rfl, rfl, rfl, rfl, rfl⟩
  | succ fuel ih =>
    rw [bcsPurgeOrphansLoop]
    split
    · exact ⟨rfl, rfl, rfl, rfl, rfl⟩
    · rename_i orphan _
      exact ih { bcs with orphans := BRSetRemove blockHeaderGetHash bcs.orphans orphan.hash }

theorem BRSetRemove_length_lt (orphans : List BREthereumBlockHeader)
    (orphan : BREthereumBlockHeader) (hmem : orphan ∈ orphans) :
    (BRSetRemove blockHeaderGetHash orphans orphan.hash).length < orphans.length := by
  unfold BRSetRemove
  induction orphans with
  | nil => simp at hmem
  | cons first rest ih =>
    by_cases hfirst : blockHeaderGetHash first = orphan.hash
    · rw [List.filter_cons_of_neg (by simp [hfirst])]
      have := List.length_filter_le (fun member => !(blockHeaderGetHash member == orphan.hash)) rest
      rw [List.length_cons]
      omega
    · rw [List.filter_cons_of_pos (by simp [hfirst])]
      have hrest : orphan ∈ rest := by
        rcases List.mem_cons.mp hmem with heq | hin
        · exact absurd (by rw [heq]; rfl) hfirst
        · exact hin
      have := ih hrest
      simp only [List.length_cons]
      omega

theorem bcsPurgeOrphansLoop_purges (fuel : Nat) (bcs : BREthereumBCS) (blockNumber : Nat)
    (hfuel : bcs.orphans.length ≤ fuel) :
    ∀ orphan ∈ (bcsPurgeOrphansLoop fuel bcs blockNumber).orphans,
      ¬ orphan.number < blockNumber := by
  induction fuel generalizing bcs with
  | zero =>
    intro orphan hmem
    have hnil : bcs.orphans = [] := List.length_eq_zero.mp (Nat.le_zero.mp hfuel)
    rw [bcsPurgeOrphansLoop, hnil] at hmem
    simp at hmem
  | succ fuel ih =>
    rw [bcsPurgeOrphansLoop]
    cases hfind : bcs.orphans.find? (fun orphan => decide (orphan.number < blockNumber)) with
    | none =>
      intro orphan hmem
      have := List.find?_eq_none.mp hfind orphan hmem
      simpa using this
    | some found =>
      simp only
      apply ih
      have hmem : found ∈ bcs.orphans := List.mem_of_find?_eq_some hfind
      have := BRSetRemove_length_lt bcs.orphans found hmem
      show (BRSetRemove blockHeaderGetHash bcs.orphans found.hash).length ≤ fuel
      omega

theorem bcsPurgeOrphans_frame (bcs : BREthereumBCS) (blockNumber : Nat) :
    (bcsPurgeOrphans bcs blockNumber).chain = bcs.chain ∧
    (bcsPurgeOrphans bcs blockNumber).chainTail = bcs.chainTail ∧
    (bcsPurgeOrphans bcs blockNumber).headers = bcs.headers ∧
    (bcsPurgeOrphans bcs blockNumber).transactions = bcs.transactions ∧
    (bcsPurgeOrphans bcs blockNumber).pendingTransactions = bcs.pendingTransactions := by
  unfold bcsPurgeOrphans
  split
  · exact ⟨rfl, rfl, rfl, rfl, rfl⟩
  · exact bcsPurgeOrphansLoop_frame _ _ _

theorem bcsPurgeOrphans_purges (bcs : BREthereumBCS) (blockNumber : Nat) :
    ∀ orphan ∈ (bcsPurgeOrphans bcs blockNumber).orphans,
      ¬ orphan.number < blockNumber - BCS_ORPHAN_AGE_OFFSET := by
  unfold bcsPurgeOrphans
  split
  · intro orphan _
    rename_i hsmall
    omega
  · exact bcsPurgeOrphansLoop_purges _ _ _ (le_refl _)

theorem bcsChainOrphansLoop_returns (fuel : Nat) (bcs : BREthereumBCS)
    (chain : BREthereumBlockHeader) (hchain : bcs.chain = some chain) :
    ∃ bcs' chain', bcsChainOrphansLoop fuel bcs = Outcome.returns bcs' ∧
      bcs'.chain = some chain' ∧
      bcs'.chainTail = bcs.chainTail ∧
      bcs'.headers = bcs.headers ∧
      bcs'.transactions = bcs.transactions ∧
      bcs'.pendingTransactions = bcs.pendingTransactions := by
  induction fuel generalizing bcs chain with
  | zero => exact ⟨bcs, chain, rfl, hchain, rfl, rfl, rfl, rfl⟩
  | succ fuel ih =>
    rw [bcsChainOrphansLoop]
    split
    · exact ⟨bcs, chain, rfl, hchain, rfl, rfl, rfl, rfl⟩
    · rw [hchain]
      simp only
      split
      · exact ⟨bcs, chain, rfl, hchain, rfl, rfl, rfl, rfl⟩
      · rename_i orphan _
        exact ih
          { bcs with
            chain := some orphan
            orphans := BRSetRemove blockHeaderGetHash bcs.orphans orphan.hash } orphan rfl

theorem bcsStaleOrphan_eq_false (bcs : BREthereumBCS) (chain : BREthereumBlockHeader)
    (hchain : bcs.chain = some chain)
    (h : ∀ orphan ∈ bcs.orphans, ¬ orphan.number < chain.number - BCS_ORPHAN_AGE_OFFSET) :
    bcsStaleOrphan bcs = false := by
  unfold bcsStaleOrphan
  rw [hchain]
  simp only [List.any_eq_false, decide_eq_true_eq]
  exact h

theorem bcsChainThenPurgeOrphans_returns (bcs : BREthereumBCS) (chain : BREthereumBlockHeader)
    (hchain : bcs.chain = some chain) :
    ∃ bcs' chain', bcsChainThenPurgeOrphans bcs = Outcome.returns bcs' ∧
      bcs'.chain = some chain' ∧
      (∀ orphan ∈ bcs'.orphans, ¬ orphan.number < chain'.number - BCS_ORPHAN_AGE_OFFSET) ∧
      bcs'.chainTail = bcs.chainTail ∧
      bcs'.headers = bcs.headers ∧
      bcs'.transactions = bcs.transactions ∧
      bcs'.pendingTransactions = bcs.pendingTransactions := by
  obtain ⟨chained, chain', hloop, hchain', htail, hheaders, htxs, hpending⟩ :=
    bcsChainOrphansLoop_returns bcs.orphans.length bcs chain hchain
  obtain ⟨f1, f2, f3, f4, f5⟩ := bcsPurgeOrphans_frame chained chain'.number
  refine ⟨bcsPurgeOrphans chained chain'.number, chain', ?_, ?_,
    bcsPurgeOrphans_purges chained chain'.number, ?_, ?_, ?_, ?_⟩
  · unfold bcsChainThenPurgeOrphans bcsChainOrphans
    rw [hloop]
    simp only [Outcome.andThen, hchain']
  · rw [f1, hchain']
  · rw [f2, htail]
  · rw [f3, hheaders]
  · rw [f4, htxs]
  · rw [f5, hpending]

theorem bcsHandleTransactionStatus_pending_frame (bcs : BREthereumBCS)
    (transactionHash : BREthereumHash) (isInChain isAnError : Bool) :
    (bcsHandleTransactionStatus_pending bcs transactionHash isInChain isAnError).chain =
      bcs.chain ∧
    (bcsHandleTransactionStatus_pending bcs transactionHash isInChain isAnError).chainTail =
      bcs.chainTail ∧
    (bcsHandleTransactionStatus_pending bcs transactionHash isInChain isAnError).headers =
      bcs.headers ∧
    (bcsHandleTransactionStatus_pending bcs transactionHash isInChain isAnError).orphans =
      bcs.orphans ∧
    (bcsHandleTransactionStatus_pending bcs transactionHash isInChain isAnError).transactions =
      bcs.transactions ∧
    (bcsHandleTransactionStatus_pending bcs transactionHash isInChain isAnError).effects =
      bcs.effects ∧
    (bcsHandleTransactionStatus_pending bcs transactionHash isInChain isAnError).logs =
      bcs.logs := by
  unfold bcsHandleTransactionStatus_pending
  split
  · split <;> exact ⟨rfl, rfl, rfl, rfl, rfl, rfl, rfl⟩
  · split <;> exact ⟨rfl, rfl, rfl, rfl, rfl, rfl, rfl⟩

theorem bcsHandleTransactionStatus_frame (bcs : BREthereumBCS)
    (transactionHash : BREthereumHash) (status : BREthereumTransactionStatus)
    (bcs' : BREthereumBCS)
    (h : bcsHandleTransactionStatus bcs transactionHash status = Outcome.returns bcs') :
    bcs'.chain = bcs.chain ∧ bcs'.chainTail = bcs.chainTail ∧ bcs'.headers = bcs.headers ∧
      bcs'.orphans = bcs.orphans ∧ bcs'.logs = bcs.logs := by
  unfold bcsHandleTransactionStatus at h
  cases hget : BRSetGet transactionGetHash bcs.transactions transactionHash with
  | none =>
    rw [hget] at h
    cases h
    exact ⟨rfl, rfl, rfl, rfl, rfl⟩
  | some transaction =>
    rw [hget] at h
    simp only at h
    generalize bcsHandleTransactionStatus_switch bcs _ = switched at h
    cases switched with
    | aborts => simp [Outcome.andThen] at h
    | loops => simp [Outcome.andThen] at h
    | returns result =>
      obtain ⟨newStatus, isInChain, isAnError⟩ := result
      obtain ⟨f1, f2, f3, f4, _, _, f7⟩ :=
        bcsHandleTransactionStatus_pending_frame bcs transactionHash isInChain isAnError
      simp only [Outcome.andThen] at h
      split at h
      · cases h
        exact ⟨f1, f2, f3, f4, f7⟩
      · cases h
        exact ⟨f1, f2, f3, f4, f7⟩

theorem bcsHandleBlockHeader_transactions_frame (transactions : List BREthereumTransaction)
    (bcs bcs' : BREthereumBCS)
    (h : bcsHandleBlockHeader_transactions transactions bcs = Outcome.returns bcs') :
    bcs'.chain = bcs.chain ∧ bcs'.chainTail = bcs.chainTail ∧ bcs'.headers = bcs.headers ∧
      bcs'.orphans = bcs.orphans ∧ bcs'.logs = bcs.logs := by
  induction transactions generalizing bcs with
  | nil =>
    rw [bcsHandleBlockHeader_transactions] at h
    cases h
    exact ⟨rfl, rfl, rfl, rfl, rfl⟩
  | cons tx rest ih =>
    rw [bcsHandleBlockHeader_transactions] at h
    generalize hstep :
      (match tx.status with
        | .INCLUDED _ blockHash _ _ =>
          if (BRSetGet blockHeaderGetHash bcs.orphans blockHash).isSome then
            bcsHandleTransactionStatus bcs tx.hash .PENDING
          else Outcome.returns bcs
        | _ => Outcome.returns bcs) = step at h
    cases step with
    | aborts => simp [Outcome.andThen] at h
    | loops => simp [Outcome.andThen] at h
    | returns next =>
      simp only [Outcome.andThen] at h
      obtain ⟨g1, g2, g3, g4, g5⟩ := ih next h
      have hnext : next.chain = bcs.chain ∧ next.chainTail = bcs.chainTail ∧
          next.headers = bcs.headers ∧ next.orphans = bcs.orphans ∧ next.logs = bcs.logs := by
        split at hstep
        · split at hstep
          · exact bcsHandleTransactionStatus_frame _ _ _ _ hstep
          · cases hstep
            exact ⟨rfl, rfl, rfl, rfl, rfl⟩
        · cases hstep
          exact ⟨rfl, rfl, rfl, rfl, rfl⟩
      obtain ⟨n1, n2, n3, n4, n5⟩ := hnext
      exact ⟨g1.trans n1, g2.trans n2, g3.trans n3, g4.trans n4, g5.trans n5⟩

theorem bcsHandleBlockHeader_requestBodies_frame (neededHeaders : List BREthereumBlockHeader)
    (bcs : BREthereumBCS) :
    (bcsHandleBlockHeader_requestBodies neededHeaders bcs).chain = bcs.chain ∧
    (bcsHandleBlockHeader_requestBodies neededHeaders bcs).chainTail = bcs.chainTail ∧
    (bcsHandleBlockHeader_requestBodies neededHeaders bcs).headers = bcs.headers ∧
    (bcsHandleBlockHeader_requestBodies neededHeaders bcs).orphans = bcs.orphans ∧
    (bcsHandleBlockHeader_requestBodies neededHeaders bcs).transactions = bcs.transactions ∧
    (bcsHandleBlockHeader_requestBodies neededHeaders bcs).pendingTransactions =
      bcs.pendingTransactions := by
  induction neededHeaders generalizing bcs with
  | nil => exact ⟨rfl, rfl, rfl, rfl, rfl, rfl⟩
  | cons needed rest ih =>
    rw [bcsHandleBlockHeader_requestBodies]
    exact ih _

theorem bcsReclaimAndSaveBlocksIfAppropriate_walk_frame (fuel : Nat) (bcs : BREthereumBCS)
    (header : Option BREthereumBlockHeader) (reclaimFromBlockNumber : Nat)
    (bcs' : BREthereumBCS)
    (h : bcsReclaimAndSaveBlocksIfAppropriate_walk fuel bcs header reclaimFromBlockNumber =
      Outcome.returns bcs') :
    bcs'.chain = bcs.chain ∧ bcs'.orphans = bcs.orphans ∧
      bcs'.transactions = bcs.transactions ∧
      bcs'.pendingTransactions = bcs.pendingTransactions := by
  induction fuel generalizing bcs header with
  | zero => simp [bcsReclaimAndSaveBlocksIfAppropriate_walk] at h
  | succ fuel ih =>
    cases header with
    | none =>
      rw [bcsReclaimAndSaveBlocksIfAppropriate_walk] at h
      cases h
      exact ⟨rfl, rfl, rfl, rfl⟩
    | some header =>
      rw [bcsReclaimAndSaveBlocksIfAppropriate_walk] at h
      obtain ⟨g1, g2, g3, g4⟩ := ih _ _ h
      refine ⟨g1.trans ?_, g2.trans ?_, g3.trans ?_, g4.trans ?_⟩ <;>
        (split <;> [rfl; (split <;> rfl)])

theorem bcsReclaimAndSaveBlocksIfAppropriate_frame (bcs bcs' : BREthereumBCS)
    (h : bcsReclaimAndSaveBlocksIfAppropriate bcs = Outcome.returns bcs') :
    bcs'.chain = bcs.chain ∧ bcs'.orphans = bcs.orphans ∧
      bcs'.transactions = bcs.transactions ∧
      bcs'.pendingTransactions = bcs.pendingTransactions := by
  unfold bcsReclaimAndSaveBlocksIfAppropriate at h
  split at h
  · cases h
  · split at h
    · cases h
    · simp only at h
      split at h
      · exact bcsReclaimAndSaveBlocksIfAppropriate_walk_frame _ _ _ _ _ h
      · cases h
        exact ⟨rfl, rfl, rfl, rfl⟩

/-! ## Transactions of orphaned blocks -/

theorem bcsLookupPendingTransactionIn_eq_none (pending : List BREthereumHash)
    (hash : BREthereumHash) :
    bcsLookupPendingTransactionIn pending hash = none ↔ hash ∉ pending := by
  induction pending with
  | nil => simp [bcsLookupPendingTransactionIn]
  | cons entry rest ih =>
    rw [bcsLookupPendingTransactionIn]
    by_cases hentry : entry = hash
    · simp [hentry]
    · have hne : (entry == hash) = false := by simpa using hentry
      rw [hne]
      simp only [Bool.false_eq_true, if_false, List.mem_cons, not_or]
      cases hrest : bcsLookupPendingTransactionIn rest hash with
      | none =>
        rw [hrest] at ih
        simp only [true_iff]
        exact ⟨fun h => hentry h.symm, ih.mp rfl⟩
      | some index =>
        rw [hrest] at ih
        constructor
        · intro h
          cases h
        · intro hnot
          have := ih.mpr hnot.2
          cases this

theorem bcsLookupPendingTransactionIn_erase (pending : List BREthereumHash)
    (hash : BREthereumHash) :
    (match bcsLookupPendingTransactionIn pending hash with
      | some index => pending.eraseIdx index
      | none => pending) = pending.erase hash := by
  induction pending with
  | nil => simp [bcsLookupPendingTransactionIn]
  | cons entry rest ih =>
    rw [bcsLookupPendingTransactionIn, List.erase_cons]
    by_cases hentry : (entry == hash) = true
    · rw [if_pos hentry, if_pos hentry]
      rfl
    · rw [if_neg hentry, if_neg hentry]
      cases hrest : bcsLookupPendingTransactionIn rest hash with
      | none =>
        rw [hrest] at ih
        simp only at ih ⊢
        rw [← ih]
      | some index =>
        rw [hrest] at ih
        simp only at ih ⊢
        rw [List.eraseIdx_cons_succ, ih]

theorem bcsHandleTransactionStatus_pending_eq (bcs : BREthereumBCS)
    (transactionHash : BREthereumHash) (isInChain isAnError : Bool) :
    bcsHandleTransactionStatus_pending bcs transactionHash isInChain isAnError =
      { bcs with
        pendingTransactions :=
          if isInChain = true ∨ isAnError = true then
            bcs.pendingTransactions.erase transactionHash
          else if transactionHash ∈ bcs.pendingTransactions then bcs.pendingTransactions
          else bcs.pendingTransactions ++ [transactionHash] } := by
  have herase := bcsLookupPendingTransactionIn_erase bcs.pendingTransactions transactionHash
  have hnone := bcsLookupPendingTransactionIn_eq_none bcs.pendingTransactions transactionHash
  unfold bcsHandleTransactionStatus_pending bcsLookupPendingTransaction
  by_cases hremove : isInChain = true ∨ isAnError = true
  · rw [if_pos hremove, if_pos hremove, ← herase]
    cases bcsLookupPendingTransactionIn bcs.pendingTransactions transactionHash <;> rfl
  · rw [if_neg hremove, if_neg hremove]
    by_cases hmem : transactionHash ∈ bcs.pendingTransactions
    · have : ¬ (bcsLookupPendingTransactionIn bcs.pendingTransactions transactionHash).isNone
          = true := by
        rw [Option.isNone_iff_eq_none, hnone]
        exact fun h => h hmem
      rw [if_neg this, if_pos hmem]
    · have : (bcsLookupPendingTransactionIn bcs.pendingTransactions transactionHash).isNone
          = true := by
        rw [Option.isNone_iff_eq_none, hnone]
        exact hmem
      rw [if_pos this, if_neg hmem]

theorem bcsHandleBlockHeader_transactions_step (bcs : BREthereumBCS)
    (tx : BREthereumTransaction) :
    (match tx.status with
      | .INCLUDED _ blockHash _ _ =>
        if (BRSetGet blockHeaderGetHash bcs.orphans blockHash).isSome then
          bcsHandleTransactionStatus bcs tx.hash .PENDING
        else Outcome.returns bcs
      | _ => Outcome.returns bcs) =
      if transactionIsOrphaned bcs.orphans tx = true then
        bcsHandleTransactionStatus bcs tx.hash .PENDING
      else Outcome.returns bcs := by
  unfold transactionIsOrphaned
  cases tx.status <;> simp

theorem bcsHandleTransactionStatus_pending_of_included (bcs : BREthereumBCS)
    (tx : BREthereumTransaction)
    (hget : BRSetGet transactionGetHash bcs.transactions tx.hash = some tx)
    (hincluded : transactionIsOrphaned bcs.orphans tx = true) :
    ∃ out, bcsHandleTransactionStatus bcs tx.hash .PENDING = Outcome.returns out ∧
      out.orphans = bcs.orphans ∧
      out.transactions = transactionSetStatus bcs.transactions tx .SUBMITTED ∧
      tx.hash ∈ out.pendingTransactions ∧
      (∀ hash ∈ bcs.pendingTransactions, hash ∈ out.pendingTransactions) := by
  obtain ⟨txHash, txStatus⟩ := tx
  unfold transactionIsOrphaned at hincluded
  cases txStatus with
  | INCLUDED gasUsed blockHash blockNumber transactionIndex =>
    simp only at hget
    unfold bcsHandleTransactionStatus
    rw [hget]
    simp only [bcsHandleTransactionStatus_switch, Outcome.andThen, transactionStatusEqual,
      bcsHandleTransactionStatus_pending, bcsLookupPendingTransaction, reduceCtorEq, if_false,
      decide_False, Bool.false_eq_true, or_self, if_true]
    cases hlookup : bcsLookupPendingTransactionIn bcs.pendingTransactions txHash with
    | none =>
      refine ⟨_, rfl, rfl, rfl, ?_, ?_⟩
      · simp
      · intro hash hmem
        simp [hmem]
    | some index =>
      refine ⟨_, rfl, rfl, rfl, ?_, ?_⟩
      · simp only [Option.isNone_some, Bool.false_eq_true, if_false]
        by_contra hnot
        have := (bcsLookupPendingTransactionIn_eq_none bcs.pendingTransactions txHash).mpr hnot
        rw [hlookup] at this
        simp at this
      · intro hash hmem
        simpa using hmem
  | UNKNOWN => simp at hincluded
  | CREATED => simp at hincluded
  | SIGNED => simp at hincluded
  | SUBMITTED => simp at hincluded
  | QUEUED => simp at hincluded
  | PENDING => simp at hincluded
  | ERRORED reason => simp at hincluded

theorem bcsHandleBlockHeader_transactions_spec (transactions : List BREthereumTransaction)
    (bcs : BREthereumBCS)
    (hnodup : (transactions.map transactionGetHash).Nodup)
    (hstored : ∀ tx ∈ transactions,
      BRSetGet transactionGetHash bcs.transactions tx.hash = some tx) :
    ∃ out, bcsHandleBlockHeader_transactions transactions bcs = Outcome.returns out ∧
      out.orphans = bcs.orphans ∧
      (∀ hash ∈ bcs.pendingTransactions, hash ∈ out.pendingTransactions) ∧
      (∀ hash, hash ∉ transactions.map transactionGetHash →
        BRSetGet transactionGetHash out.transactions hash =
          BRSetGet transactionGetHash bcs.transactions hash) ∧
      (∀ tx ∈ transactions, transactionIsOrphaned bcs.orphans tx = true →
        tx.hash ∈ out.pendingTransactions ∧
        BRSetGet transactionGetHash out.transactions tx.hash =
          some { tx with status := .SUBMITTED }) ∧
      (∀ tx ∈ transactions, transactionIsOrphaned bcs.orphans tx = false →
        BRSetGet transactionGetHash out.transactions tx.hash = some tx) := by
  induction transactions generalizing bcs with
  | nil =>
    refine ⟨bcs, rfl, rfl, fun _ h => h, fun _ _ => rfl, ?_, ?_⟩ <;> simp
  | cons tx rest ih =>
    rw [bcsHandleBlockHeader_transactions, bcsHandleBlockHeader_transactions_step]
    have hnodup' : (rest.map transactionGetHash).Nodup := by
      rw [List.map_cons] at hnodup
      exact (List.nodup_cons.mp hnodup).2
    have hfresh : tx.hash ∉ rest.map transactionGetHash := by
      rw [List.map_cons] at hnodup
      exact (List.nodup_cons.mp hnodup).1
    have hother : ∀ other ∈ rest, ¬ tx.hash = other.hash := by
      intro other hmem heq
      apply hfresh
      rw [heq]
      exact List.mem_map_of_mem transactionGetHash hmem
    by_cases horphaned : transactionIsOrphaned bcs.orphans tx = true
    · rw [if_pos horphaned]
      obtain ⟨next, hnext, horphans, htxs, hpending, hkeep⟩ :=
        bcsHandleTransactionStatus_pending_of_included bcs tx
          (hstored tx (List.mem_cons_self tx rest)) horphaned
      rw [hnext]
      simp only [Outcome.andThen]
      have hstored' : ∀ other ∈ rest,
          BRSetGet transactionGetHash next.transactions other.hash = some other := by
        intro other hmem
        rw [htxs, transactionSetStatus, BRSetGet_BRSetAdd]
        exact (if_neg (hother other hmem)).trans (hstored other (List.mem_cons_of_mem tx hmem))
      obtain ⟨out, hout, o1, o2, o3, o4, o5⟩ := ih next hnodup' hstored'
      refine ⟨out, hout, o1.trans horphans, fun hash h => o2 hash (hkeep hash h), ?_, ?_, ?_⟩
      · intro hash hnot
        have hne : ¬ tx.hash = hash := by
          intro heq
          apply hnot
          rw [List.map_cons, ← heq]
          exact List.mem_cons_self _ _
        have hnot' : hash ∉ rest.map transactionGetHash := by
          intro hin
          apply hnot
          rw [List.map_cons]
          exact List.mem_cons_of_mem _ hin
        rw [o3 hash hnot', htxs, transactionSetStatus, BRSetGet_BRSetAdd]
        exact if_neg hne
      · intro other hmem horph
        rcases List.mem_cons.mp hmem with heq | hin
        · subst heq
          refine ⟨o2 _ hpending, ?_⟩
          rw [o3 other.hash hfresh, htxs, transactionSetStatus, BRSetGet_BRSetAdd]
          simp [transactionGetHash]
        · rw [← horphans] at horph
          exact o4 other hin horph
      · intro other hmem horph
        rcases List.mem_cons.mp hmem with heq | hin
        · subst heq
          rw [horphaned] at horph
          cases horph
        · rw [← horphans] at horph
          exact o5 other hin horph
    · rw [if_neg horphaned]
      simp only [Outcome.andThen]
      obtain ⟨out, hout, o1, o2, o3, o4, o5⟩ := ih bcs hnodup'
        (fun other hmem => hstored other (List.mem_cons_of_mem tx hmem))
      refine ⟨out, hout, o1, o2, ?_, ?_, ?_⟩
      · intro hash hnot
        apply o3
        intro hin
        apply hnot
        rw [List.map_cons]
        exact List.mem_cons_of_mem _ hin
      · intro other hmem horph
        rcases List.mem_cons.mp hmem with heq | hin
        · subst heq
          exact absurd horph horphaned
        · exact o4 other hin horph
      · intro other hmem horph
        rcases List.mem_cons.mp hmem with heq | hin
        · subst heq
          rw [o3 other.hash hfresh]
          exact hstored other (List.mem_cons_self other rest)
        · exact o5 other hin horph

theorem BRSetGet_of_mem_nodup (transactions : List BREthereumTransaction)
    (hnodup : (transactions.map transactionGetHash).Nodup) :
    ∀ tx ∈ transactions, BRSetGet transactionGetHash transactions tx.hash = some tx := by
  induction transactions with
  | nil => simp
  | cons first rest ih =>
    rw [List.map_cons] at hnodup
    obtain ⟨hfresh, hrest⟩ := List.nodup_cons.mp hnodup
    intro tx hmem
    unfold BRSetGet
    rcases List.mem_cons.mp hmem with heq | hin
    · subst heq
      rw [List.find?_cons_of_pos]
      simp [transactionGetHash]
    · have hne : ¬ transactionGetHash first = tx.hash := by
        intro heq
        apply hfresh
        rw [heq]
        exact List.mem_map_of_mem transactionGetHash hin
      rw [List.find?_cons_of_neg _ (by simpa using hne)]
      exact ih hrest tx hin

theorem bcsHandleBlockHeader_reorg_frame (fuel : Nat) (bcs : BREthereumBCS)
    (headerParent : BREthereumBlockHeader) (bcs' : BREthereumBCS)
    (h : bcsHandleBlockHeader_reorg fuel bcs headerParent = Outcome.returns bcs') :
    bcs'.transactions = bcs.transactions ∧
      bcs'.pendingTransactions = bcs.pendingTransactions := by
  induction fuel generalizing bcs with
  | zero => simp [bcsHandleBlockHeader_reorg] at h
  | succ fuel ih =>
    rw [bcsHandleBlockHeader_reorg] at h
    cases hchain : bcs.chain with
    | none =>
      rw [hchain] at h
      cases h
      exact ⟨rfl, rfl⟩
    | some chain =>
      rw [hchain] at h
      simp only at h
      split at h
      · cases h
        exact ⟨rfl, rfl⟩
      · exact ih { bcsMakeOrphan bcs chain with
          chain := BRSetGet blockHeaderGetHash bcs.headers chain.parentHash } h

theorem bcsHandleBlockHeader_extend_frame (bcs : BREthereumBCS)
    (header headerParent : BREthereumBlockHeader) (bcs' : BREthereumBCS)
    (h : bcsHandleBlockHeader_extend bcs header headerParent = Outcome.returns bcs') :
    bcs'.chain = some header ∧ bcs'.transactions = bcs.transactions ∧
      bcs'.pendingTransactions = bcs.pendingTransactions := by
  unfold bcsHandleBlockHeader_extend at h
  cases hreorg : bcsHandleBlockHeader_reorg (bcs.headers.length + 2) bcs headerParent with
  | aborts => rw [hreorg] at h; simp [Outcome.andThen] at h
  | loops => rw [hreorg] at h; simp [Outcome.andThen] at h
  | returns walked =>
    rw [hreorg] at h
    simp only [Outcome.andThen] at h
    obtain ⟨f1, f2⟩ := bcsHandleBlockHeader_reorg_frame _ _ _ _ hreorg
    split at h
    · cases h
    · cases h
      exact ⟨rfl, f1, f2⟩

/-- A header that `bcsHandleBlockHeader` places on the chain goes through
`bcsHandleBlockHeader_chained`, from a state with a head and the transactions and pending list the
handler was given. -/
theorem bcsHandleBlockHeader_placed_inv (bcs : BREthereumBCS) (header : BREthereumBlockHeader)
    (bcs' : BREthereumBCS)
    (hchains : headerGoesOnChain bcs header = true)
    (h : bcsHandleBlockHeader bcs header = Outcome.returns bcs') :
    ∃ placed headerParent,
      bcsHandleBlockHeader_chained placed headerParent = Outcome.returns bcs' ∧
      placed.chain = some header ∧
      placed.transactions = bcs.transactions ∧
      placed.pendingTransactions = bcs.pendingTransactions := by
  unfold headerGoesOnChain at hchains
  simp only [Bool.and_eq_true, Bool.not_eq_true', Bool.or_eq_true, Option.isNone_iff_eq_none]
    at hchains
  obtain ⟨⟨⟨hnew, hvalid⟩, hcons⟩, hplace⟩ := hchains
  unfold bcsHandleBlockHeader at h
  have hseen : ¬ (BRSetGet blockHeaderGetHash bcs.headers header.hash).isSome = true := by
    rw [hnew]; simp
  have hval : ¬ header.isValid = false := by rw [hvalid]; simp
  rw [if_neg hseen, if_neg hval] at h
  simp only [hcons, Bool.false_eq_true, if_false] at h
  unfold bcsHandleBlockHeader_place at h
  cases hchain : bcs.chain with
  | none =>
    simp only [hchain] at h
    exact ⟨_, _, h, rfl, rfl, rfl⟩
  | some chain =>
    simp only [hchain] at h
    rcases hplace with hnone | hparent
    · rw [hchain] at hnone
      cases hnone
    · cases hget : BRSetGet blockHeaderGetHash bcs.headers header.parentHash with
      | none => rw [hget] at hparent; simp at hparent
      | some parent =>
        rw [hget] at hparent h
        simp only at hparent h
        have hno : ¬ (BRSetGet blockHeaderGetHash bcs.orphans parent.hash).isSome = true := by
          intro hs
          cases hq : BRSetGet blockHeaderGetHash bcs.orphans parent.hash <;>
            rw [hq] at hparent hs <;> simp at hparent hs
        rw [if_neg hno] at h
        cases hextend : bcsHandleBlockHeader_extend
            { bcs with
              chain := some chain
              headers := BRSetAdd blockHeaderGetHash bcs.headers header } header parent with
        | aborts => rw [hextend] at h; simp [Outcome.andThen] at h
        | loops => rw [hextend] at h; simp [Outcome.andThen] at h
        | returns placed =>
          rw [hextend] at h
          simp only [Outcome.andThen] at h
          obtain ⟨f1, f2, f3⟩ := bcsHandleBlockHeader_extend_frame _ _ _ _ hextend
          exact ⟨placed, some parent, h, f1, f2, f3⟩

/-- What happens inside `bcsHandleBlockHeader_chained` when it returns: the orphans are chained
and purged, the transactions are looked at, and nothing after that touches the head, the orphan
set, the transactions or the pending list. -/
theorem bcsHandleBlockHeader_chained_inv (placed : BREthereumBCS)
    (headerParent : Option BREthereumBlockHeader) (bcs' : BREthereumBCS)
    (chain : BREthereumBlockHeader) (hchain : placed.chain = some chain)
    (h : bcsHandleBlockHeader_chained placed headerParent = Outcome.returns bcs') :
    ∃ purged chain' examined,
      bcsChainThenPurgeOrphans placed = Outcome.returns purged ∧
      purged.chain = some chain' ∧
      (∀ orphan ∈ purged.orphans, ¬ orphan.number < chain'.number - BCS_ORPHAN_AGE_OFFSET) ∧
      purged.transactions = placed.transactions ∧
      purged.pendingTransactions = placed.pendingTransactions ∧
      bcsHandleBlockHeader_transactions purged.transactions purged = Outcome.returns examined ∧
      bcs'.chain = purged.chain ∧
      bcs'.orphans = purged.orphans ∧
      bcs'.transactions = examined.transactions ∧
      bcs'.pendingTransactions = examined.pendingTransactions := by
  obtain ⟨purged, chain', hpurge, hchain', hstale, _, _, htxs, hpending⟩ :=
    bcsChainThenPurgeOrphans_returns placed chain hchain
  unfold bcsHandleBlockHeader_chained at h
  rw [hpurge] at h
  simp only [Outcome.andThen] at h
  cases hexamine : bcsHandleBlockHeader_transactions purged.transactions purged with
  | aborts => rw [hexamine] at h; simp at h
  | loops => rw [hexamine] at h; simp at h
  | returns examined =>
    rw [hexamine] at h
    simp only at h
    obtain ⟨e1, _, _, e4, _⟩ := bcsHandleBlockHeader_transactions_frame _ _ _ hexamine
    cases hlogs : bcsHandleBlockHeader_logs examined with
    | aborts => rw [hlogs] at h; simp at h
    | loops => rw [hlogs] at h; simp at h
    | returns logged =>
      rw [hlogs] at h
      simp only at h
      have hsame : logged = examined := by
        unfold bcsHandleBlockHeader_logs at hlogs
        split at hlogs
        · cases hlogs; rfl
        · cases hlogs
      rw [hsame] at h
      cases hneeded : bcsHandleBlockHeader_neededHeaders (examined.headers.length + 2) examined
          examined.chain headerParent [] with
      | aborts => rw [hneeded] at h; simp at h
      | loops => rw [hneeded] at h; simp at h
      | returns neededHeaders =>
        rw [hneeded] at h
        simp only at h
        obtain ⟨r1, _, _, r4, r5, r6⟩ :=
          bcsHandleBlockHeader_requestBodies_frame neededHeaders examined
        cases hreclaim : bcsReclaimAndSaveBlocksIfAppropriate
            (bcsHandleBlockHeader_requestBodies neededHeaders examined) with
        | aborts => rw [hreclaim] at h; simp at h
        | loops => rw [hreclaim] at h; simp at h
        | returns reclaimed =>
          rw [hreclaim] at h
          simp only at h
          obtain ⟨c1, c2, c3, c4⟩ := bcsReclaimAndSaveBlocksIfAppropriate_frame _ _ hreclaim
          split at h
          · cases h
          · rename_i last hlast
            cases h
            obtain ⟨s1, s2, s3, _, s5, _, s7, _, _⟩ :=
              bcsSyncContinue_frame reclaimed last.number
            refine ⟨purged, chain', examined, hpurge, hchain', hstale, htxs, hpending, hexamine,
              ?_, ?_, ?_, ?_⟩
            · rw [s3, c1, r1, e1]
            · rw [s2, c2, r4, e4]
            · rw [s5, c3, r5]
            · rw [s7, c4, r6]

/-! ## The transaction set stays a set

The theorems on the transaction set ask that its members have pairwise different hashes.  The set
is empty after `bcsCreate`, and the handlers that write to it keep the hashes different. -/

theorem bcsCreate_transactions (genesis : BREthereumBlockHeader)
    (headers : Option (List BREthereumBlockHeader)) :
    (bcsCreate genesis headers).transactions = [] := by
  have hreplay : ∀ (saved : List BREthereumBlockHeader) (bcs : BREthereumBCS),
      (bcsCreateReplay saved bcs).transactions = bcs.transactions := by
    intro saved
    induction saved with
    | nil => intro bcs; rfl
    | cons header rest ih =>
      intro bcs
      unfold bcsCreateReplay
      simp only
      split
      · exact ih bcs
      · exact ih _
  cases headers with
  | none => rfl
  | some saved => exact hreplay saved _

theorem bcsHandleSubmitTransaction_keys_nodup (bcs : BREthereumBCS)
    (transaction : BREthereumTransaction) (lesStatus : BREthereumLESStatus)
    (h : (bcs.transactions.map transactionGetHash).Nodup) :
    ((bcsHandleSubmitTransaction bcs transaction lesStatus).transactions.map
      transactionGetHash).Nodup := by
  unfold bcsHandleSubmitTransaction
  cases lesStatus <;> exact BRSetAdd_keys_nodup transactionGetHash bcs.transactions transaction h

theorem bcsHandleTransactionStatus_keys_nodup (bcs : BREthereumBCS)
    (transactionHash : BREthereumHash) (status : BREthereumTransactionStatus)
    (bcs' : BREthereumBCS)
    (hreturns : bcsHandleTransactionStatus bcs transactionHash status = Outcome.returns bcs')
    (h : (bcs.transactions.map transactionGetHash).Nodup) :
    (bcs'.transactions.map transactionGetHash).Nodup := by
  unfold bcsHandleTransactionStatus at hreturns
  cases hget : BRSetGet transactionGetHash bcs.transactions transactionHash with
  | none =>
    rw [hget] at hreturns
    cases hreturns
    exact h
  | some transaction =>
    rw [hget] at hreturns
    simp only at hreturns
    generalize bcsHandleTransactionStatus_switch bcs _ = switched at hreturns
    cases switched with
    | aborts => simp [Outcome.andThen] at hreturns
    | loops => simp [Outcome.andThen] at hreturns
    | returns result =>
      obtain ⟨newStatus, isInChain, isAnError⟩ := result
      simp only [Outcome.andThen, bcsHandleTransactionStatus_pending_eq] at hreturns
      split at hreturns
      · cases hreturns
        exact BRSetAdd_keys_nodup transactionGetHash bcs.transactions _ h
      · cases hreturns
        exact h

theorem bcsHandleBlockHeader_transactions_keys_nodup
    (transactions : List BREthereumTransaction) (bcs bcs' : BREthereumBCS)
    (hreturns : bcsHandleBlockHeader_transactions transactions bcs = Outcome.returns bcs')
    (h : (bcs.transactions.map transactionGetHash).Nodup) :
    (bcs'.transactions.map transactionGetHash).Nodup := by
  induction transactions generalizing bcs with
  | nil =>
    rw [bcsHandleBlockHeader_transactions] at hreturns
    cases hreturns
    exact h
  | cons tx rest ih =>
    rw [bcsHandleBlockHeader_transactions, bcsHandleBlockHeader_transactions_step] at hreturns
    by_cases horphaned : transactionIsOrphaned bcs.orphans tx = true
    · rw [if_pos horphaned] at hreturns
      cases hstep : bcsHandleTransactionStatus bcs tx.hash .PENDING with
      | aborts => rw [hstep] at hreturns; simp [Outcome.andThen] at hreturns
      | loops => rw [hstep] at hreturns; simp [Outcome.andThen] at hreturns
      | returns next =>
        rw [hstep] at hreturns
        exact ih next hreturns (bcsHandleTransactionStatus_keys_nodup _ _ _ _ hstep h)
    · rw [if_neg horphaned] at hreturns
      exact ih bcs hreturns h

theorem bcsHandleBlockHeader_keys_nodup (bcs : BREthereumBCS) (header : BREthereumBlockHeader)
    (bcs' : BREthereumBCS)
    (hreturns : bcsHandleBlockHeader bcs header = Outcome.returns bcs')
    (h : (bcs.transactions.map transactionGetHash).Nodup) :
    (bcs'.transactions.map transactionGetHash).Nodup := by
  by_cases hchains : headerGoesOnChain bcs header = true
  · obtain ⟨placed, headerParent, hchained, hhead, htxs, _⟩ :=
      bcsHandleBlockHeader_placed_inv bcs header bcs' hchains hreturns
    obtain ⟨purged, chain', examined, _, _, _, hptxs, _, hexamine, _, _, ht, _⟩ :=
      bcsHandleBlockHeader_chained_inv placed headerParent bcs' header hhead hchained
    rw [ht]
    apply bcsHandleBlockHeader_transactions_keys_nodup _ _ _ hexamine
    rw [hptxs, htxs]
    exact h
  · have hsame : bcs'.transactions = bcs.transactions := by
      unfold bcsHandleBlockHeader at hreturns
      split at hreturns
      · cases hreturns; rfl
      · split at hreturns
        · cases hreturns; rfl
        · rename_i hseen hvalid
          simp only at hreturns
          split at hreturns
          · cases hreturns; rfl
          · rename_i hcons
            unfold bcsHandleBlockHeader_place at hreturns
            cases hchain : bcs.chain with
            | none =>
              exfalso
              apply hchains
              unfold headerGoesOnChain
              simp only [hchain, Option.isNone_none, Bool.true_or, Bool.and_true,
                Bool.and_eq_true, Bool.not_eq_true', Option.isNone_iff_eq_none]
              refine ⟨⟨?_, ?_⟩, ?_⟩
              · cases hq : BRSetGet blockHeaderGetHash bcs.headers header.hash with
                | none => rfl
                | some found => rw [hq] at hseen; simp at hseen
              · simpa using hvalid
              · simpa using hcons
            | some chain =>
              simp only [hchain] at hreturns
              cases hget : BRSetGet blockHeaderGetHash bcs.headers header.parentHash with
              | none =>
                rw [hget] at hreturns
                simp only at hreturns
                cases hreturns
                exact (bcsSyncFrom_frame _ _).2.2.2.2.1
              | some parent =>
                rw [hget] at hreturns
                simp only at hreturns
                split at hreturns
                · cases hreturns
                  exact (bcsSyncFrom_frame _ _).2.2.2.2.1
                · rename_i hnotorphan
                  exfalso
                  apply hchains
                  unfold headerGoesOnChain
                  rw [hget] at hcons
                  simp only [hget, Bool.and_eq_true, Bool.not_eq_true', Bool.or_eq_true,
                    Option.isNone_iff_eq_none]
                  refine ⟨⟨⟨?_, ?_⟩, ?_⟩, Or.inr ?_⟩
                  · cases hq : BRSetGet blockHeaderGetHash bcs.headers header.hash with
                    | none => rfl
                    | some found => rw [hq] at hseen; simp at hseen
                  · simpa using hvalid
                  · simpa using hcons
                  · cases hq : BRSetGet blockHeaderGetHash bcs.orphans parent.hash with
                    | none => rfl
                    | some found =>
                      exfalso
                      apply hnotorphan
                      show (BRSetGet blockHeaderGetHash bcs.orphans parent.hash).isSome = true
                      rw [hq]
                      rfl
    rw [hsame]
    exact h

/-! ## When `bcsHandleBlockHeader` returns -/

theorem bcsHandleTransactionStatus_PENDING_returns (bcs : BREthereumBCS)
    (transactionHash : BREthereumHash) :
    ∃ bcs', bcsHandleTransactionStatus bcs transactionHash .PENDING = Outcome.returns bcs' := by
  unfold bcsHandleTransactionStatus
  cases hget : BRSetGet transactionGetHash bcs.transactions transactionHash with
  | none => exact ⟨bcs, rfl⟩
  | some transaction =>
    obtain ⟨txHash, txStatus⟩ := transaction
    cases txStatus <;>
      simp only [reduceCtorEq, if_false, bcsHandleTransactionStatus_switch, Outcome.andThen] <;>
      split <;> exact ⟨_, rfl⟩

theorem BRSetGet_transactionSetStatus_isSome (transactions : List BREthereumTransaction)
    (transaction : BREthereumTransaction) (status : BREthereumTransactionStatus)
    (hash : BREthereumHash)
    (h : (BRSetGet transactionGetHash transactions hash).isSome = true) :
    (BRSetGet transactionGetHash (transactionSetStatus transactions transaction status)
      hash).isSome = true := by
  unfold transactionSetStatus
  rw [BRSetGet_BRSetAdd]
  split
  · rfl
  · exact h

theorem bcsHandleTransactionStatus_keeps_keys (bcs : BREthereumBCS)
    (transactionHash : BREthereumHash) (status : BREthereumTransactionStatus)
    (bcs' : BREthereumBCS)
    (hreturns : bcsHandleTransactionStatus bcs transactionHash status = Outcome.returns bcs')
    (hash : BREthereumHash)
    (h : (BRSetGet transactionGetHash bcs.transactions hash).isSome = true) :
    (BRSetGet transactionGetHash bcs'.transactions hash).isSome = true := by
  unfold bcsHandleTransactionStatus at hreturns
  cases hget : BRSetGet transactionGetHash bcs.transactions transactionHash with
  | none =>
    rw [hget] at hreturns
    cases hreturns
    exact h
  | some transaction =>
    rw [hget] at hreturns
    simp only at hreturns
    generalize bcsHandleTransactionStatus_switch bcs _ = switched at hreturns
    cases switched with
    | aborts => simp [Outcome.andThen] at hreturns
    | loops => simp [Outcome.andThen] at hreturns
    | returns result =>
      obtain ⟨newStatus, isInChain, isAnError⟩ := result
      simp only [Outcome.andThen, bcsHandleTransactionStatus_pending_eq] at hreturns
      split at hreturns
      · cases hreturns
        exact BRSetGet_transactionSetStatus_isSome _ _ _ _ h
      · cases hreturns
        exact h

theorem bcsHandleBlockHeader_transactions_returns (transactions : List BREthereumTransaction)
    (bcs : BREthereumBCS) :
    ∃ bcs', bcsHandleBlockHeader_transactions transactions bcs = Outcome.returns bcs' ∧
      ∀ hash, (BRSetGet transactionGetHash bcs.transactions hash).isSome = true →
        (BRSetGet transactionGetHash bcs'.transactions hash).isSome = true := by
  induction transactions generalizing bcs with
  | nil => exact ⟨bcs, rfl, fun _ h => h⟩
  | cons tx rest ih =>
    rw [bcsHandleBlockHeader_transactions, bcsHandleBlockHeader_transactions_step]
    by_cases horphaned : transactionIsOrphaned bcs.orphans tx = true
    · rw [if_pos horphaned]
      obtain ⟨next, hnext⟩ := bcsHandleTransactionStatus_PENDING_returns bcs tx.hash
      rw [hnext]
      obtain ⟨out, hout, hkeys⟩ := ih next
      exact ⟨out, hout, fun hash h =>
        hkeys hash (bcsHandleTransactionStatus_keeps_keys _ _ _ _ hnext hash h)⟩
    · rw [if_neg horphaned]
      exact ih bcs

theorem parentWalk_stored (headers : List BREthereumBlockHeader) (fuel : Nat)
    (start stop : BREthereumBlockHeader) (path : List BREthereumBlockHeader)
    (hwalk : parentWalk headers fuel start stop = some path)
    (hstart : BRSetGet blockHeaderGetHash headers start.hash = some start) :
    ∀ header ∈ path, BRSetGet blockHeaderGetHash headers header.hash = some header := by
  induction fuel generalizing start path with
  | zero => simp [parentWalk] at hwalk
  | succ fuel ih =>
    rw [parentWalk] at hwalk
    by_cases hstop : stop = start
    · rw [if_pos hstop] at hwalk
      cases hwalk
      simp
    · rw [if_neg hstop] at hwalk
      cases hget : BRSetGet blockHeaderGetHash headers start.parentHash with
      | none => rw [hget] at hwalk; simp at hwalk
      | some parent =>
        rw [hget] at hwalk
        simp only at hwalk
        cases hrest : parentWalk headers fuel parent stop with
        | none => rw [hrest] at hwalk; simp at hwalk
        | some rest =>
          rw [hrest] at hwalk
          cases hwalk
          have hparent : BRSetGet blockHeaderGetHash headers parent.hash = some parent := by
            have hkey : parent.hash = start.parentHash :=
              BRSetGet_some_key blockHeaderGetHash headers _ parent hget
            rw [hkey]
            exact hget
          intro header hmem
          rcases List.mem_cons.mp hmem with heq | hin
          · rw [heq]; exact hstart
          · exact ih parent rest hrest hparent header hin

theorem mem_BRSetAdd {α : Type} (key : α → BREthereumHash) (set : List α) (item member : α)
    (h : member ∈ BRSetAdd key set item) : member ∈ set ∨ member = item := by
  unfold BRSetAdd at h
  split at h
  · obtain ⟨original, horiginal, heq⟩ := List.mem_map.mp h
    by_cases hkey : (key original == key item) = true
    · rw [if_pos hkey] at heq
      exact Or.inr heq.symm
    · rw [if_neg hkey] at heq
      rw [← heq]
      exact Or.inl horiginal
  · rcases List.mem_append.mp h with hin | hlast
    · exact Or.inl hin
    · exact Or.inr (List.mem_singleton.mp hlast)

theorem mem_foldl_BRSetAdd (orphans path : List BREthereumBlockHeader)
    (member : BREthereumBlockHeader)
    (h : member ∈ path.foldl (BRSetAdd blockHeaderGetHash) orphans) :
    member ∈ orphans ∨ member ∈ path := by
  induction path generalizing orphans with
  | nil => exact Or.inl h
  | cons first rest ih =>
    rw [List.foldl_cons] at h
    rcases ih _ h with hin | hrest
    · rcases mem_BRSetAdd blockHeaderGetHash orphans first member hin with hold | hnew
      · exact Or.inl hold
      · exact Or.inr (by rw [hnew]; exact List.mem_cons_self _ _)
    · exact Or.inr (List.mem_cons_of_mem _ hrest)

theorem mem_BRSetRemove {α : Type} (key : α → BREthereumHash) (set : List α)
    (hash : BREthereumHash) (member : α) (h : member ∈ BRSetRemove key set hash) :
    member ∈ set := by
  unfold BRSetRemove at h
  exact List.mem_of_mem_filter h

/-- The loop of `bcsChainOrphans`, from a head that is stored in the header set and from which the
walk over parent hashes meets `stop`, with orphans that are stored in the header set: it returns,
the new head is the old head or one of the orphans, and the walk from it meets `stop` as well. -/
theorem bcsChainOrphansLoop_walk (fuel : Nat) (bcs : BREthereumBCS)
    (chain stop : BREthereumBlockHeader) (walkFuel : Nat) (path : List BREthereumBlockHeader)
    (hchain : bcs.chain = some chain)
    (hhead : BRSetGet blockHeaderGetHash bcs.headers chain.hash = some chain)
    (horphans : ∀ orphan ∈ bcs.orphans,
      BRSetGet blockHeaderGetHash bcs.headers orphan.hash = some orphan)
    (hwalk : parentWalk bcs.headers walkFuel chain stop = some path) :
    ∃ bcs' chain' walkFuel' path',
      bcsChainOrphansLoop fuel bcs = Outcome.returns bcs' ∧
      bcs'.chain = some chain' ∧
      (chain' = chain ∨ chain' ∈ bcs.orphans) ∧
      parentWalk bcs.headers walkFuel' chain' stop = some path' ∧
      bcs'.headers = bcs.headers ∧
      bcs'.chainTail = bcs.chainTail ∧
      bcs'.transactions = bcs.transactions ∧
      bcs'.logs = bcs.logs := by
  induction fuel generalizing bcs chain walkFuel path with
  | zero =>
    exact ⟨bcs, chain, walkFuel, path, rfl, hchain, Or.inl rfl, hwalk, rfl, rfl, rfl, rfl⟩
  | succ fuel ih =>
    rw [bcsChainOrphansLoop]
    split
    · exact ⟨bcs, chain, walkFuel, path, rfl, hchain, Or.inl rfl, hwalk, rfl, rfl, rfl, rfl⟩
    · rw [hchain]
      simp only
      cases hfind : bcs.orphans.find? (fun orphan => chain.hash == orphan.parentHash) with
      | none =>
        exact ⟨bcs, chain, walkFuel, path, rfl, hchain, Or.inl rfl, hwalk, rfl, rfl, rfl, rfl⟩
      | some orphan =>
        simp only
        have hmem : orphan ∈ bcs.orphans := List.mem_of_find?_eq_some hfind
        have hlink : chain.hash = orphan.parentHash := by
          simpa using List.find?_some hfind
        have hwalk' : ∃ walkFuel' path',
            parentWalk bcs.headers walkFuel' orphan stop = some path' := by
          by_cases hstop : stop = orphan
          · exact ⟨1, [], by rw [parentWalk, if_pos hstop]⟩
          · refine ⟨walkFuel + 1, orphan :: path, ?_⟩
            rw [parentWalk, if_neg hstop, ← hlink, hhead]
            simp only
            rw [hwalk]
        obtain ⟨walkFuel', path', hwalk''⟩ := hwalk'
        obtain ⟨bcs', chain', f, p, hloop, hc, hwhere, hw, hh, ht, htx, hl⟩ :=
          ih { bcs with
              chain := some orphan
              orphans := BRSetRemove blockHeaderGetHash bcs.orphans orphan.hash }
            orphan walkFuel' path' rfl (horphans orphan hmem)
            (fun other hin => horphans other (mem_BRSetRemove _ _ _ _ hin)) hwalk''
        refine ⟨bcs', chain', f, p, hloop, hc, ?_, hw, hh, ht, htx, hl⟩
        rcases hwhere with heq | hin
        · exact Or.inr (by rw [heq]; exact hmem)
        · exact Or.inr (mem_BRSetRemove _ _ _ _ hin)

theorem bcsHandleBlockHeader_neededHeaders_returns (fuel : Nat) (bcs : BREthereumBCS)
    (start stop : BREthereumBlockHeader) (path neededHeaders : List BREthereumBlockHeader)
    (hwalk : parentWalk bcs.headers fuel start stop = some path) :
    ∃ found, bcsHandleBlockHeader_neededHeaders fuel bcs (some start) (some stop) neededHeaders =
      Outcome.returns found := by
  induction fuel generalizing start path neededHeaders with
  | zero => simp [parentWalk] at hwalk
  | succ fuel ih =>
    rw [parentWalk] at hwalk
    rw [bcsHandleBlockHeader_neededHeaders]
    by_cases hstop : stop = start
    · have : (some start : Option BREthereumBlockHeader) = some stop := by rw [hstop]
      rw [if_pos this]
      exact ⟨_, rfl⟩
    · have : ¬ (some start : Option BREthereumBlockHeader) = some stop := by
        intro heq
        exact hstop (Option.some.inj heq).symm
      rw [if_neg this]
      rw [if_neg hstop] at hwalk
      cases hget : BRSetGet blockHeaderGetHash bcs.headers start.parentHash with
      | none => rw [hget] at hwalk; simp at hwalk
      | some parent =>
        rw [hget] at hwalk
        simp only at hwalk ⊢
        cases hrest : parentWalk bcs.headers fuel parent stop with
        | none => rw [hrest] at hwalk; simp at hwalk
        | some rest => exact ih parent rest _ hrest

theorem bcsPurgeOrphans_logs (bcs : BREthereumBCS) (blockNumber : Nat) :
    (bcsPurgeOrphans bcs blockNumber).logs = bcs.logs := by
  have hloop : ∀ (fuel : Nat) (bcs : BREthereumBCS) (number : Nat),
      (bcsPurgeOrphansLoop fuel bcs number).logs = bcs.logs := by
    intro fuel
    induction fuel with
    | zero => intro bcs number; rfl
    | succ fuel ih =>
      intro bcs number
      rw [bcsPurgeOrphansLoop]
      split
      · rfl
      · exact ih _ _
  unfold bcsPurgeOrphans
  split
  · rfl
  · exact hloop _ _ _

/-- Placement case 3 of `bcsHandleBlockHeader` returns.  The engine has a head and a tail, the
head and the orphans are stored in the header set, the hash of every log is the hash of a stored
transaction, and no header is 600 or more block numbers above the tail, so that no reclamation is
due.  Then for every new, valid header whose parent is in the header set, is not in the orphan set,
has the header's block number minus one and is met by the walk over parent hashes from the head,
the handler returns. -/
theorem bcsHandleBlockHeader_returns (bcs : BREthereumBCS)
    (header parent chain chainTail : BREthereumBlockHeader)
    (path : List BREthereumBlockHeader) (fuel : Nat)
    (hchain : bcs.chain = some chain)
    (htail : bcs.chainTail = some chainTail)
    (hnew : BRSetGet blockHeaderGetHash bcs.headers header.hash = none)
    (hvalid : header.isValid = true)
    (hparent : BRSetGet blockHeaderGetHash bcs.headers header.parentHash = some parent)
    (hnotorphan : BRSetGet blockHeaderGetHash bcs.orphans parent.hash = none)
    (hnumber : header.number = u64Add 1 parent.number)
    (hwalk : parentWalk bcs.headers fuel chain parent = some path)
    (hhead : BRSetGet blockHeaderGetHash bcs.headers chain.hash = some chain)
    (horphans : ∀ orphan ∈ bcs.orphans,
      BRSetGet blockHeaderGetHash bcs.headers orphan.hash = some orphan)
    (hlogs : ∀ log ∈ bcs.logs,
      (BRSetGet transactionGetHash bcs.transactions log.hash).isSome = true)
    (hshort : ∀ known ∈ header :: bcs.headers,
      u64Sub known.number chainTail.number < 2 * BCS_SAVE_BLOCKS_COUNT) :
    ∃ bcs', bcsHandleBlockHeader bcs header = Outcome.returns bcs' := by
  obtain ⟨placed, _, hplaced, _, _, _, _, hhandler⟩ :=
    bcsHandleBlockHeader_extends_chain.1 bcs header parent chain path fuel hchain hnew hvalid
      hparent hnotorphan hnumber hwalk
  rw [hhandler]
  -- lookups in the header set with the new header
  have hlookup : ∀ known : BREthereumBlockHeader,
      BRSetGet blockHeaderGetHash bcs.headers known.hash = some known →
      BRSetGet blockHeaderGetHash (BRSetAdd blockHeaderGetHash bcs.headers header) known.hash =
        some known := by
    intro known hknown
    rw [BRSetGet_BRSetAdd]
    have hne : ¬ blockHeaderGetHash header = known.hash := by
      intro heq
      have : header.hash = known.hash := heq
      rw [this, hknown] at hnew
      cases hnew
    rw [if_neg hne]
    exact hknown
  have hpathStored := parentWalk_stored bcs.headers fuel chain parent path hwalk hhead
  have hplacedOrphans : ∀ orphan ∈ placed.orphans,
      BRSetGet blockHeaderGetHash bcs.headers orphan.hash = some orphan := by
    intro orphan hmem
    rw [hplaced] at hmem
    rcases mem_foldl_BRSetAdd bcs.orphans path orphan hmem with hold | hwalked
    · exact horphans orphan hold
    · exact hpathStored orphan hwalked
  have hparentKey : ¬ blockHeaderGetHash header = header.parentHash := by
    intro heq
    have : header.hash = header.parentHash := heq
    rw [this, hparent] at hnew
    cases hnew
  have hparentNe : ¬ parent = header := by
    intro heq
    have hkey := BRSetGet_some_key blockHeaderGetHash bcs.headers _ parent hparent
    apply hparentKey
    rw [← hkey, heq]
  have hfirstWalk : parentWalk placed.headers 2 header parent = some [header] := by
    rw [hplaced]
    simp only [parentWalk]
    rw [if_neg hparentNe, BRSetGet_BRSetAdd, if_neg hparentKey, hparent]
    simp
  -- chain the orphans
  obtain ⟨adopted, chain', walkFuel, path', hloop, hadopted, hwhere, hwalk', ah, at', atx,
      al⟩ :=
    bcsChainOrphansLoop_walk placed.orphans.length placed header parent 2 [header]
      (by rw [hplaced]) (by rw [hplaced]; simp [BRSetGet_BRSetAdd, blockHeaderGetHash])
      (fun orphan hmem => by
        have := hlookup orphan (hplacedOrphans orphan hmem)
        rw [hplaced]
        exact this)
      hfirstWalk
  obtain ⟨p1, p2, p3, p4, _⟩ := bcsPurgeOrphans_frame adopted chain'.number
  have p5 := bcsPurgeOrphans_logs adopted chain'.number
  have hpurge : bcsChainThenPurgeOrphans placed =
      Outcome.returns (bcsPurgeOrphans adopted chain'.number) := by
    unfold bcsChainThenPurgeOrphans bcsChainOrphans
    rw [hloop]
    simp only [Outcome.andThen, hadopted]
  -- look at the transactions
  obtain ⟨examined, hexamined, hkeys⟩ :=
    bcsHandleBlockHeader_transactions_returns
      (bcsPurgeOrphans adopted chain'.number).transactions (bcsPurgeOrphans adopted chain'.number)
  obtain ⟨e1, e2, e3, _, e5⟩ := bcsHandleBlockHeader_transactions_frame _ _ _ hexamined
  have hheaders : examined.headers = placed.headers := by rw [e3, p3, ah]
  have hexaminedChain : examined.chain = some chain' := by rw [e1, p1, hadopted]
  have hexaminedTail : examined.chainTail = some chainTail := by
    rw [e2, p2, at', hplaced]
    exact htail
  -- the logs
  have hlogsOk : bcsHandleBlockHeader_logs examined = Outcome.returns examined := by
    unfold bcsHandleBlockHeader_logs
    have hall : (examined.logs.all fun log =>
        (BRSetGet transactionGetHash examined.transactions log.hash).isSome) = true := by
      rw [List.all_eq_true]
      intro log hmem
      apply hkeys
      rw [p4, atx, hplaced]
      apply hlogs
      rw [e5, p5, al, hplaced] at hmem
      exact hmem
    rw [if_pos hall]
  -- the needed headers
  have hwalkExamined : parentWalk examined.headers (examined.headers.length + 2) chain' parent =
      some path' := by
    rw [hheaders]
    exact parentWalk_within_fuel _ _ _ _ _ hwalk'
  obtain ⟨found, hfound⟩ := bcsHandleBlockHeader_neededHeaders_returns
    (examined.headers.length + 2) examined chain' parent path' [] hwalkExamined
  obtain ⟨r1, r2, _, _, _, _⟩ := bcsHandleBlockHeader_requestBodies_frame found examined
  -- no reclamation
  have hknown : chain' ∈ header :: bcs.headers := by
    rcases hwhere with heq | hin
    · rw [heq]
      exact List.mem_cons_self _ _
    · exact List.mem_cons_of_mem _
        (BRSetGet_some_mem blockHeaderGetHash bcs.headers _ chain' (hplacedOrphans chain' hin))
  have hreclaim : bcsReclaimAndSaveBlocksIfAppropriate
      (bcsHandleBlockHeader_requestBodies found examined) =
      Outcome.returns (bcsHandleBlockHeader_requestBodies found examined) := by
    unfold bcsReclaimAndSaveBlocksIfAppropriate
    rw [r1, r2, hexaminedChain, hexaminedTail]
    simp only
    have := hshort chain' hknown
    rw [if_neg (by omega)]
  refine ⟨bcsSyncContinue (bcsHandleBlockHeader_requestBodies found examined) chain'.number, ?_⟩
  unfold bcsHandleBlockHeader_chained
  rw [hpurge]
  simp only [Outcome.andThen]
  rw [hexamined]
  simp only
  rw [hlogsOk]
  simp only
  rw [hexaminedChain, hfound]
  simp only
  rw [hreclaim]
  simp only
  rw [r1, hexaminedChain]

/-- A header that goes on the chain of an engine that is ready for it: the handler returns. -/
theorem bcsHandleBlockHeader_returns_of_ready (bcs : BREthereumBCS)
    (header : BREthereumBlockHeader)
    (hchains : headerGoesOnChain bcs header = true)
    (hready : bcsReadyToChain bcs header = true) :
    ∃ bcs', bcsHandleBlockHeader bcs header = Outcome.returns bcs' := by
  unfold bcsReadyToChain at hready
  cases hchain : bcs.chain with
  | none => rw [hchain] at hready; simp at hready
  | some chain =>
    cases htail : bcs.chainTail with
    | none => rw [hchain, htail] at hready; simp at hready
    | some chainTail =>
      cases hparent : BRSetGet blockHeaderGetHash bcs.headers header.parentHash with
      | none => rw [hchain, htail, hparent] at hready; simp at hready
      | some parent =>
        rw [hchain, htail, hparent] at hready
        simp only [Bool.and_eq_true, beq_iff_eq, List.all_eq_true, decide_eq_true_eq] at hready
        obtain ⟨⟨⟨⟨hhead, horphans⟩, hlogs⟩, hshort⟩, hwalk⟩ := hready
        unfold headerGoesOnChain at hchains
        rw [hparent, hchain] at hchains
        simp only [Bool.and_eq_true, Bool.not_eq_true', Bool.or_eq_true,
          Option.isNone_iff_eq_none, Option.isNone_some, Bool.false_eq_true, false_or]
          at hchains
        obtain ⟨⟨⟨hnew, hvalid⟩, hcons⟩, hnotorphan⟩ := hchains
        have hnumber : header.number = u64Add 1 parent.number := by
          unfold bcsHandleBlockHeader_inconsistent at hcons
          simpa using hcons
        cases hpath : parentWalk bcs.headers (bcs.headers.length + 2) chain parent with
        | none => rw [hpath] at hwalk; simp at hwalk
        | some path =>
          exact bcsHandleBlockHeader_returns bcs header parent chain chainTail path
            (bcs.headers.length + 2) hchain htail hnew hvalid hparent hnotorphan hnumber hpath
            hhead horphans hlogs hshort

/-- C6, amended: the stale-orphan invariant holds where `bcsHandleBlockHeader` chains a header.
`bcsChainThenPurgeOrphans` returns from every state with a head and leaves no orphan with a number
below `chain.number - 10`.  Whenever `bcsHandleBlockHeader` places a header on the chain (placement
case 1 or 3) and returns, the state it returns has no such orphan; and it does return, with such a
state, when the engine is ready for the header (`bcsReadyToChain`).  The orphan path (case 2)
returns without a purge. -/
theorem bcsHandleBlockHeader_chained_purges_stale_orphans :
    (∀ (bcs : BREthereumBCS) (chain : BREthereumBlockHeader), bcs.chain = some chain →
      ∃ purged, bcsChainThenPurgeOrphans bcs = Outcome.returns purged ∧
        bcsStaleOrphan purged = false) ∧
    (∀ (bcs : BREthereumBCS) (header : BREthereumBlockHeader) (bcs' : BREthereumBCS),
      headerGoesOnChain bcs header = true →
      bcsHandleBlockHeader bcs header = Outcome.returns bcs' →
      bcsStaleOrphan bcs' = false) ∧
    (∀ (bcs : BREthereumBCS) (header : BREthereumBlockHeader),
      headerGoesOnChain bcs header = true →
      bcsReadyToChain bcs header = true →
      ∃ bcs', bcsHandleBlockHeader bcs header = Outcome.returns bcs' ∧
        bcsStaleOrphan bcs' = false) := by
  have hreturned : ∀ (bcs : BREthereumBCS) (header : BREthereumBlockHeader)
      (bcs' : BREthereumBCS), headerGoesOnChain bcs header = true →
      bcsHandleBlockHeader bcs header = Outcome.returns bcs' →
      bcsStaleOrphan bcs' = false := by
    intro bcs header bcs' hchains hreturns
    obtain ⟨placed, headerParent, hchained, hhead, _, _⟩ :=
      bcsHandleBlockHeader_placed_inv bcs header bcs' hchains hreturns
    obtain ⟨purged, chain', examined, _, hchain', hstale, _, _, _, hc, ho, _, _⟩ :=
      bcsHandleBlockHeader_chained_inv placed headerParent bcs' header hhead hchained
    apply bcsStaleOrphan_eq_false bcs' chain' (hc.trans hchain')
    rw [ho]
    exact hstale
  refine ⟨?_, hreturned, ?_⟩
  · intro bcs chain hchain
    obtain ⟨purged, chain', hpurge, hchain', hstale, _⟩ :=
      bcsChainThenPurgeOrphans_returns bcs chain hchain
    exact ⟨purged, hpurge, bcsStaleOrphan_eq_false purged chain' hchain' hstale⟩
  · intro bcs header hchains hready
    obtain ⟨bcs', hreturns⟩ := bcsHandleBlockHeader_returns_of_ready bcs header hchains hready
    exact ⟨bcs', hreturns, hreturned bcs header bcs' hchains hreturns⟩

/-- The amended C6 at work: in `exampleBeforePurgeState` the head is numbered 10 and a stray header
numbered 0 is an orphan; the engine is ready for header 11, which is chained; the handler returns
`examplePurgedState`, which has no stale orphan. -/
theorem bcsHandleBlockHeader_chained_purges_stale_orphans_witness :
    headerGoesOnChain exampleBeforePurgeState (exampleLine 11) = true ∧
      bcsReadyToChain exampleBeforePurgeState (exampleLine 11) = true ∧
      bcsHandleBlockHeader exampleBeforePurgeState (exampleLine 11) =
        Outcome.returns examplePurgedState ∧
      bcsStaleOrphan examplePurgedState = false := by
  obtain ⟨bcs', hreturns, hstale⟩ :=
    bcsHandleBlockHeader_chained_purges_stale_orphans.2.2 exampleBeforePurgeState
      (exampleLine 11) (by decide) (by decide)
  have heval : bcsHandleBlockHeader exampleBeforePurgeState (exampleLine 11) =
      Outcome.returns examplePurgedState := by decide
  rw [heval] at hreturns
  cases hreturns
  exact ⟨by decide, by decide, heval, hstale⟩

/-- C8: transactions of orphaned blocks return to pending.  The loop of `bcsHandleBlockHeader`
over the transaction set (whose members have pairwise different hashes) returns, leaves the orphan
set alone, and afterwards every transaction that was stored as INCLUDED with a block hash in the
orphan set has the stored status SUBMITTED and its hash in the pending list, and every other
transaction is stored as before.  The same holds of the state that `bcsHandleBlockHeader` returns
after it placed a header on the chain, with the orphan set of that state, which is the orphan set
the loop saw; and the handler does return, with such a state, when the engine is ready for the
header (`bcsReadyToChain`). -/
theorem bcsHandleBlockHeader_pends_orphaned_transactions :
    (∀ bcs : BREthereumBCS, (bcs.transactions.map transactionGetHash).Nodup →
      ∃ examined,
        bcsHandleBlockHeader_transactions bcs.transactions bcs = Outcome.returns examined ∧
        examined.orphans = bcs.orphans ∧
        ∀ tx ∈ bcs.transactions,
          (transactionIsOrphaned bcs.orphans tx = true →
            tx.hash ∈ examined.pendingTransactions ∧
            BRSetGet transactionGetHash examined.transactions tx.hash =
              some { tx with status := .SUBMITTED }) ∧
          (transactionIsOrphaned bcs.orphans tx = false →
            BRSetGet transactionGetHash examined.transactions tx.hash = some tx)) ∧
    (∀ (bcs : BREthereumBCS) (header : BREthereumBlockHeader) (bcs' : BREthereumBCS),
      (bcs.transactions.map transactionGetHash).Nodup →
      headerGoesOnChain bcs header = true →
      bcsHandleBlockHeader bcs header = Outcome.returns bcs' →
      ∀ tx ∈ bcs.transactions,
        (transactionIsOrphaned bcs'.orphans tx = true →
          tx.hash ∈ bcs'.pendingTransactions ∧
          BRSetGet transactionGetHash bcs'.transactions tx.hash =
            some { tx with status := .SUBMITTED }) ∧
        (transactionIsOrphaned bcs'.orphans tx = false →
          BRSetGet transactionGetHash bcs'.transactions tx.hash = some tx)) ∧
    (∀ (bcs : BREthereumBCS) (header : BREthereumBlockHeader),
      (bcs.transactions.map transactionGetHash).Nodup →
      headerGoesOnChain bcs header = true →
      bcsReadyToChain bcs header = true →
      ∃ bcs', bcsHandleBlockHeader bcs header = Outcome.returns bcs' ∧
        ∀ tx ∈ bcs.transactions,
          (transactionIsOrphaned bcs'.orphans tx = true →
            tx.hash ∈ bcs'.pendingTransactions ∧
            BRSetGet transactionGetHash bcs'.transactions tx.hash =
              some { tx with status := .SUBMITTED }) ∧
          (transactionIsOrphaned bcs'.orphans tx = false →
            BRSetGet transactionGetHash bcs'.transactions tx.hash = some tx)) := by
  have hreturned : ∀ (bcs : BREthereumBCS) (header : BREthereumBlockHeader)
      (bcs' : BREthereumBCS), (bcs.transactions.map transactionGetHash).Nodup →
      headerGoesOnChain bcs header = true →
      bcsHandleBlockHeader bcs header = Outcome.returns bcs' →
      ∀ tx ∈ bcs.transactions,
        (transactionIsOrphaned bcs'.orphans tx = true →
          tx.hash ∈ bcs'.pendingTransactions ∧
          BRSetGet transactionGetHash bcs'.transactions tx.hash =
            some { tx with status := .SUBMITTED }) ∧
        (transactionIsOrphaned bcs'.orphans tx = false →
          BRSetGet transactionGetHash bcs'.transactions tx.hash = some tx) := by
    intro bcs header bcs' hnodup hchains hreturns tx hmem
    obtain ⟨placed, headerParent, hchained, hhead, htxs, _⟩ :=
      bcsHandleBlockHeader_placed_inv bcs header bcs' hchains hreturns
    obtain ⟨purged, chain', examined, _, _, _, hptxs, _, hexamine, _, ho, ht, hp⟩ :=
      bcsHandleBlockHeader_chained_inv placed headerParent bcs' header hhead hchained
    have hsame : purged.transactions = bcs.transactions := hptxs.trans htxs
    have hnodup' : (purged.transactions.map transactionGetHash).Nodup := by
      rw [hsame]; exact hnodup
    obtain ⟨examined', hexamined', _, _, _, hyes, hno⟩ :=
      bcsHandleBlockHeader_transactions_spec purged.transactions purged hnodup'
        (BRSetGet_of_mem_nodup purged.transactions hnodup')
    rw [hexamine] at hexamined'
    cases hexamined'
    have hmem' : tx ∈ purged.transactions := by rw [hsame]; exact hmem
    rw [ho, ht, hp]
    exact ⟨hyes tx hmem', hno tx hmem'⟩
  refine ⟨?_, hreturned, ?_⟩
  · intro bcs hnodup
    obtain ⟨examined, hexamined, horphans, _, _, hyes, hno⟩ :=
      bcsHandleBlockHeader_transactions_spec bcs.transactions bcs hnodup
        (BRSetGet_of_mem_nodup bcs.transactions hnodup)
    exact ⟨examined, hexamined, horphans, fun tx hmem => ⟨hyes tx hmem, hno tx hmem⟩⟩
  · intro bcs header hnodup hchains hready
    obtain ⟨bcs', hreturns⟩ := bcsHandleBlockHeader_returns_of_ready bcs header hchains hready
    exact ⟨bcs', hreturns, hreturned bcs header bcs' hnodup hchains hreturns⟩

/-- Scenario S5 as a case of C8: the transaction is stored as included in block A2; the engine is
ready for header B2, which arrives and makes A2 an orphan; in the state the handler returns the
transaction is stored as SUBMITTED and its hash is in the pending list. -/
theorem bcsHandleBlockHeader_pends_orphaned_transactions_witness :
    bcsHandleTransactionStatus
        (bcsHandleSubmitTransaction exampleForkState exampleTransaction .LES_SUCCESS) 9000
        (.INCLUDED 21000 exampleA2.hash 2 0) = Outcome.returns exampleIncludedState ∧
      BRSetGet transactionGetHash exampleIncludedState.transactions 9000 =
        some { hash := 9000, status := .INCLUDED 21000 exampleA2.hash 2 0 } ∧
      exampleIncludedState.pendingTransactions = [] ∧
      headerGoesOnChain exampleIncludedState exampleB2 = true ∧
      bcsReadyToChain exampleIncludedState exampleB2 = true ∧
      bcsHandleBlockHeader exampleIncludedState exampleB2 =
        Outcome.returns exampleReorganisedState ∧
      exampleReorganisedState.orphans = [exampleA2] ∧
      (9000 ∈ exampleReorganisedState.pendingTransactions ∧
        BRSetGet transactionGetHash exampleReorganisedState.transactions 9000 =
          some { hash := 9000, status := .SUBMITTED }) := by
  obtain ⟨bcs', hreturns, hpends⟩ :=
    bcsHandleBlockHeader_pends_orphaned_transactions.2.2 exampleIncludedState exampleB2
      (by decide) (by decide) (by decide)
  have heval : bcsHandleBlockHeader exampleIncludedState exampleB2 =
      Outcome.returns exampleReorganisedState := by decide
  rw [heval] at hreturns
  cases hreturns
  exact ⟨by decide, by decide, by decide, by decide, by decide, heval, by decide,
    (hpends { hash := 9000, status := .INCLUDED 21000 exampleA2.hash 2 0 } (by decide)).1
      (by decide)⟩

/-! ## The status of a transaction -/

/-- C9, as stated, fails: the engine was created with one saved header numbered 100, which is head
and tail, and the transaction 9000 was submitted.  A status INCLUDED arrives with block number 5
and a block hash that is in no set.  The block hash is not a header of the header set, yet
`bcsChainHasBlock` answers true for a block number below the number of `chainTail`: the
transaction is stored as INCLUDED and leaves the pending list. -/
theorem bcsHandleTransactionStatus_included_below_tail :
    exampleSavedState.chain = some exampleSaved ∧
      exampleSavedState.chainTail = some exampleSaved ∧
      BRSetGet transactionGetHash exampleSavedState.transactions 9000 =
        some exampleTransaction ∧
      exampleSavedState.pendingTransactions = [9000] ∧
      BRSetGet blockHeaderGetHash exampleSavedState.headers 7777 = none ∧
      bcsHandleTransactionStatus exampleSavedState 9000 (.INCLUDED 21000 7777 5 0) =
        Outcome.returns exampleBelowTailState ∧
      BRSetGet transactionGetHash exampleBelowTailState.transactions 9000 =
        some { hash := 9000, status := .INCLUDED 21000 7777 5 0 } ∧
      exampleBelowTailState.pendingTransactions = [] := by
  decide

/-- C9, amended: the status INCLUDED.  For a transaction of the transaction set whose stored status
is not ERRORED, in an engine with a head and a tail, `bcsHandleTransactionStatus` with a status
INCLUDED returns.  When the block number is below the number of `chainTail`, or is at most the
number of `chain` while the block hash is not in the orphan set and is in the header set, the
transaction is stored with that INCLUDED status and the first entry with its hash is removed from
the pending list.  Otherwise it is stored as SUBMITTED and its hash is in the pending list: the
list is unchanged when the hash was in it and has the hash as new last entry when not. -/
theorem bcsHandleTransactionStatus_included (bcs : BREthereumBCS) (hash : BREthereumHash)
    (tx : BREthereumTransaction) (chain chainTail : BREthereumBlockHeader)
    (gasUsed : Nat) (blockHash : BREthereumHash) (blockNumber transactionIndex : Nat)
    (hget : BRSetGet transactionGetHash bcs.transactions hash = some tx)
    (hstatus : ∀ reason, tx.status ≠ .ERRORED reason)
    (hchain : bcs.chain = some chain) (htail : bcs.chainTail = some chainTail) :
    ∃ bcs',
      bcsHandleTransactionStatus bcs hash
          (.INCLUDED gasUsed blockHash blockNumber transactionIndex) = Outcome.returns bcs' ∧
      ((blockNumber < chainTail.number ∨
          (blockNumber ≤ chain.number ∧
            BRSetGet blockHeaderGetHash bcs.orphans blockHash = none ∧
            (BRSetGet blockHeaderGetHash bcs.headers blockHash).isSome = true)) →
        BRSetGet transactionGetHash bcs'.transactions hash =
          some { tx with
            status := .INCLUDED gasUsed blockHash blockNumber transactionIndex } ∧
        bcs'.pendingTransactions = bcs.pendingTransactions.erase hash) ∧
      (¬ (blockNumber < chainTail.number ∨
          (blockNumber ≤ chain.number ∧
            BRSetGet blockHeaderGetHash bcs.orphans blockHash = none ∧
            (BRSetGet blockHeaderGetHash bcs.headers blockHash).isSome = true)) →
        BRSetGet transactionGetHash bcs'.transactions hash =
          some { tx with status := .SUBMITTED } ∧
        hash ∈ bcs'.pendingTransactions ∧
        bcs'.pendingTransactions =
          if hash ∈ bcs.pendingTransactions then bcs.pendingTransactions
          else bcs.pendingTransactions ++ [hash]) := by
  have hkey : tx.hash = hash := BRSetGet_some_key transactionGetHash _ _ _ hget
  obtain ⟨txHash, txStatus⟩ := tx
  simp only at hkey hstatus
  subst hkey
  have hkept : (match txStatus with
      | .ERRORED _ => txStatus
      | _ => BREthereumTransactionStatus.INCLUDED gasUsed blockHash blockNumber transactionIndex) =
      .INCLUDED gasUsed blockHash blockNumber transactionIndex := by
    cases txStatus <;> first | rfl | exact absurd rfl (hstatus _)
  unfold bcsHandleTransactionStatus
  rw [hget]
  simp only [hkept, reduceCtorEq, if_false, bcsHandleTransactionStatus_switch]
  by_cases hin : blockNumber < chainTail.number ∨
      (blockNumber ≤ chain.number ∧
        BRSetGet blockHeaderGetHash bcs.orphans blockHash = none ∧
        (BRSetGet blockHeaderGetHash bcs.headers blockHash).isSome = true)
  · have hhas : bcsChainHasBlock bcs blockHash blockNumber = Outcome.returns true := by
      unfold bcsChainHasBlock
      rw [htail, hchain]
      simp only
      by_cases hlow : blockNumber < chainTail.number
      · rw [if_pos hlow]
      · rw [if_neg hlow]
        rcases hin with h | ⟨h1, h2, h3⟩
        · exact absurd h hlow
        · simp [h1, h2, h3]
    simp only [hhas, Outcome.andThen, if_true, bcsHandleTransactionStatus_pending_eq, true_or,
      transactionStatusEqual]
    by_cases hsame : BREthereumTransactionStatus.INCLUDED gasUsed blockHash blockNumber
        transactionIndex = txStatus
    · simp only [hsame, decide_True, Bool.true_eq_false, if_false]
      exact ⟨_, rfl, fun _ => ⟨hget, rfl⟩, fun hnot => absurd hin hnot⟩
    · simp only [hsame, decide_False, if_true]
      refine ⟨_, rfl, fun _ => ⟨?_, rfl⟩, fun hnot => absurd hin hnot⟩
      simp only [transactionSetStatus, BRSetGet_BRSetAdd, transactionGetHash, if_true]
  · have hhas : bcsChainHasBlock bcs blockHash blockNumber = Outcome.returns false := by
      unfold bcsChainHasBlock
      rw [htail, hchain]
      simp only
      have hlow : ¬ blockNumber < chainTail.number := fun h => hin (Or.inl h)
      rw [if_neg hlow]
      congr 1
      by_contra hne
      apply hin
      right
      have htrue : (decide (blockNumber ≤ chain.number) &&
          (BRSetGet blockHeaderGetHash bcs.orphans blockHash).isNone &&
          (BRSetGet blockHeaderGetHash bcs.headers blockHash).isSome) = true := by
        rw [← Bool.not_eq_false]
        exact hne
      simp only [Bool.and_eq_true, decide_eq_true_eq, Option.isNone_iff_eq_none] at htrue
      exact ⟨htrue.1.1, htrue.1.2, htrue.2⟩
    simp only [hhas, Outcome.andThen, Bool.false_eq_true, if_false,
      bcsHandleTransactionStatus_pending_eq, or_self, transactionStatusEqual]
    have hmember : txHash ∈ (if txHash ∈ bcs.pendingTransactions then bcs.pendingTransactions
        else bcs.pendingTransactions ++ [txHash]) := by
      by_cases hmem : txHash ∈ bcs.pendingTransactions
      · rw [if_pos hmem]; exact hmem
      · rw [if_neg hmem]; simp
    by_cases hsame : BREthereumTransactionStatus.SUBMITTED = txStatus
    · simp only [hsame, decide_True, Bool.true_eq_false, if_false]
      exact ⟨_, rfl, fun hyes => absurd hyes hin, fun _ => ⟨hsame ▸ hget, hmember, rfl⟩⟩
    · simp only [hsame, decide_False, if_true]
      refine ⟨_, rfl, fun hyes => absurd hyes hin, fun _ => ⟨?_, hmember, rfl⟩⟩
      simp only [transactionSetStatus, BRSetGet_BRSetAdd, transactionGetHash, if_true]

/-- The amended C9 in scenario S5: on the chain G, A1, A2 the submitted transaction is reported as
included in block A2, number 2; A2 is in the header set and no orphan and 2 is at most the number
of the head, so the transaction is stored as INCLUDED and leaves the pending list. -/
theorem bcsHandleTransactionStatus_included_witness :
    bcsHandleTransactionStatus
        (bcsHandleSubmitTransaction exampleForkState exampleTransaction .LES_SUCCESS) 9000
        (.INCLUDED 21000 exampleA2.hash 2 0) = Outcome.returns exampleIncludedState ∧
      BRSetGet transactionGetHash exampleIncludedState.transactions 9000 =
        some { exampleTransaction with status := .INCLUDED 21000 exampleA2.hash 2 0 } ∧
      exampleIncludedState.pendingTransactions =
        (bcsHandleSubmitTransaction exampleForkState exampleTransaction
          .LES_SUCCESS).pendingTransactions.erase 9000 := by
  obtain ⟨bcs', hreturns, hyes, _⟩ :=
    bcsHandleTransactionStatus_included
      (bcsHandleSubmitTransaction exampleForkState exampleTransaction .LES_SUCCESS) 9000
      exampleTransaction exampleA2 exampleGenesis 21000 exampleA2.hash 2 0 (by decide)
      (fun _ h => BREthereumTransactionStatus.noConfusion h) (by decide) (by decide)
  have heval : bcsHandleTransactionStatus
      (bcsHandleSubmitTransaction exampleForkState exampleTransaction .LES_SUCCESS) 9000
      (.INCLUDED 21000 exampleA2.hash 2 0) = Outcome.returns exampleIncludedState := by decide
  rw [heval] at hreturns
  cases hreturns
  exact ⟨heval, hyes (by decide)⟩

/-- C10: ERRORED is terminal.  For every transaction of the transaction set whose stored status is
ERRORED and every received status, `bcsHandleTransactionStatus` returns the state it was given but
for the pending list, from which the first entry with the transaction hash is removed: the
transaction set, and with it the stored status with its reason, is unchanged, no callback or
request is added, and a hash that was not in the pending list is not in it afterwards. -/
theorem bcsHandleTransactionStatus_errored_is_terminal (bcs : BREthereumBCS)
    (hash : BREthereumHash) (tx : BREthereumTransaction) (reason : String)
    (status : BREthereumTransactionStatus)
    (hget : BRSetGet transactionGetHash bcs.transactions hash = some tx)
    (hstatus : tx.status = .ERRORED reason) :
    bcsHandleTransactionStatus bcs hash status =
        Outcome.returns
          { bcs with pendingTransactions := bcs.pendingTransactions.erase hash } ∧
      BRSetGet transactionGetHash
          ({ bcs with pendingTransactions := bcs.pendingTransactions.erase hash } :
            BREthereumBCS).transactions hash = some tx ∧
      ({ bcs with pendingTransactions := bcs.pendingTransactions.erase hash } :
        BREthereumBCS).effects = bcs.effects ∧
      (hash ∉ bcs.pendingTransactions →
        hash ∉ ({ bcs with pendingTransactions := bcs.pendingTransactions.erase hash } :
          BREthereumBCS).pendingTransactions) := by
  refine ⟨?_, hget, rfl, fun hnot hmem => hnot (List.mem_of_mem_erase hmem)⟩
  obtain ⟨txHash, txStatus⟩ := tx
  simp only at hstatus
  subst hstatus
  unfold bcsHandleTransactionStatus
  rw [hget]
  simp only [reduceCtorEq, if_false, bcsHandleTransactionStatus_switch, Outcome.andThen,
    bcsHandleTransactionStatus_pending_eq, transactionStatusEqual, decide_True,
    Bool.true_eq_false, or_true, if_true]

/-- C10 at work: in `exampleErroredState` the transaction 9000 is stored as ERRORED and is not
pending; a status INCLUDED for it arrives and the handler returns the very same state. -/
theorem bcsHandleTransactionStatus_errored_is_terminal_witness :
    bcsHandleTransactionStatus
        (bcsHandleSubmitTransaction (bcsCreate exampleGenesis none) exampleTransaction
          .LES_UNKNOWN_ERROR)
        9000 (.ERRORED "LES Submit Failed") = Outcome.returns exampleErroredState ∧
      BRSetGet transactionGetHash exampleErroredState.transactions 9000 =
        some { hash := 9000, status := .ERRORED "LES Submit Failed" } ∧
      exampleErroredState.pendingTransactions = [] ∧
      bcsHandleTransactionStatus exampleErroredState 9000
          (.INCLUDED 21000 exampleGenesis.hash 0 0) =
        Outcome.returns
          { exampleErroredState with
            pendingTransactions := exampleErroredState.pendingTransactions.erase 9000 } ∧
      { exampleErroredState with
          pendingTransactions := exampleErroredState.pendingTransactions.erase 9000 } =
        exampleErroredState :=
  ⟨by decide, by decide, by decide,
    (bcsHandleTransactionStatus_errored_is_terminal exampleErroredState 9000
      { hash := 9000, status := .ERRORED "LES Submit Failed" } "LES Submit Failed"
      (.INCLUDED 21000 exampleGenesis.hash 0 0) (by decide) rfl).1,
    by decide⟩


/-! ## The normalized status, the stored status and the pending list -/

theorem bcsHandleTransactionStatus_switch_terminal (bcs : BREthereumBCS)
    (status newStatus : BREthereumTransactionStatus) (isInChain isAnError : Bool)
    (h : bcsHandleTransactionStatus_switch bcs status =
      Outcome.returns (newStatus, isInChain, isAnError)) :
    ((isInChain = true ∨ isAnError = true) ↔ transactionStatusIsTerminal newStatus = true) ∧
      transactionStatusIsStored newStatus = true ∧
      (∀ gasUsed blockHash blockNumber transactionIndex,
        newStatus = .INCLUDED gasUsed blockHash blockNumber transactionIndex →
          bcsChainHasBlock bcs blockHash blockNumber = Outcome.returns true) := by
  cases status with
  | INCLUDED gasUsed blockHash blockNumber transactionIndex =>
    simp only [bcsHandleTransactionStatus_switch] at h
    cases hhas : bcsChainHasBlock bcs blockHash blockNumber with
    | aborts => rw [hhas] at h; simp [Outcome.andThen] at h
    | loops => rw [hhas] at h; simp [Outcome.andThen] at h
    | returns isIn =>
      rw [hhas] at h
      cases isIn with
      | true =>
        simp only [Outcome.andThen, if_true, Outcome.returns.injEq, Prod.mk.injEq] at h
        obtain ⟨h1, h2, h3⟩ := h
        subst h1 h2 h3
        refine ⟨by simp [transactionStatusIsTerminal], rfl, ?_⟩
        intro g b n i heq
        cases heq
        exact hhas
      | false =>
        simp only [Outcome.andThen, Bool.false_eq_true, if_false, Outcome.returns.injEq,
          Prod.mk.injEq] at h
        obtain ⟨h1, h2, h3⟩ := h
        subst h1 h2 h3
        refine ⟨by simp [transactionStatusIsTerminal], rfl, ?_⟩
        intro g b n i heq
        cases heq
  | UNKNOWN =>
    simp only [bcsHandleTransactionStatus_switch, Outcome.returns.injEq, Prod.mk.injEq] at h
    obtain ⟨h1, h2, h3⟩ := h
    subst h1 h2 h3
    exact ⟨by simp [transactionStatusIsTerminal], rfl, fun _ _ _ _ heq => by cases heq⟩
  | CREATED =>
    simp only [bcsHandleTransactionStatus_switch, Outcome.returns.injEq, Prod.mk.injEq] at h
    obtain ⟨h1, h2, h3⟩ := h
    subst h1 h2 h3
    exact ⟨by simp [transactionStatusIsTerminal], rfl, fun _ _ _ _ heq => by cases heq⟩
  | SIGNED =>
    simp only [bcsHandleTransactionStatus_switch, Outcome.returns.injEq, Prod.mk.injEq] at h
    obtain ⟨h1, h2, h3⟩ := h
    subst h1 h2 h3
    exact ⟨by simp [transactionStatusIsTerminal], rfl, fun _ _ _ _ heq => by cases heq⟩
  | SUBMITTED =>
    simp only [bcsHandleTransactionStatus_switch, Outcome.returns.injEq, Prod.mk.injEq] at h
    obtain ⟨h1, h2, h3⟩ := h
    subst h1 h2 h3
    exact ⟨by simp [transactionStatusIsTerminal], rfl, fun _ _ _ _ heq => by cases heq⟩
  | QUEUED =>
    simp only [bcsHandleTransactionStatus_switch, Outcome.returns.injEq, Prod.mk.injEq] at h
    obtain ⟨h1, h2, h3⟩ := h
    subst h1 h2 h3
    exact ⟨by simp [transactionStatusIsTerminal], rfl, fun _ _ _ _ heq => by cases heq⟩
  | PENDING =>
    simp only [bcsHandleTransactionStatus_switch, Outcome.returns.injEq, Prod.mk.injEq] at h
    obtain ⟨h1, h2, h3⟩ := h
    subst h1 h2 h3
    exact ⟨by simp [transactionStatusIsTerminal], rfl, fun _ _ _ _ heq => by cases heq⟩
  | ERRORED reason =>
    simp only [bcsHandleTransactionStatus_switch, Outcome.returns.injEq, Prod.mk.injEq] at h
    obtain ⟨h1, h2, h3⟩ := h
    subst h1 h2 h3
    exact ⟨by simp [transactionStatusIsTerminal], rfl, fun _ _ _ _ heq => by cases heq⟩

theorem bcsHandleTransactionStatus_switch_returns (bcs : BREthereumBCS)
    (status : BREthereumTransactionStatus)
    (hchain : bcs.chain.isSome = true) (htail : bcs.chainTail.isSome = true) :
    ∃ result, bcsHandleTransactionStatus_switch bcs status = Outcome.returns result := by
  cases status with
  | INCLUDED gasUsed blockHash blockNumber transactionIndex =>
    obtain ⟨chain, hc⟩ := Option.isSome_iff_exists.mp hchain
    obtain ⟨chainTail, ht⟩ := Option.isSome_iff_exists.mp htail
    simp only [bcsHandleTransactionStatus_switch, bcsChainHasBlock, hc, ht]
    split
    · simp only [Outcome.andThen, if_true]
      exact ⟨_, rfl⟩
    · simp only [Outcome.andThen]
      split <;> exact ⟨_, rfl⟩
  | UNKNOWN => exact ⟨_, rfl⟩
  | CREATED => exact ⟨_, rfl⟩
  | SIGNED => exact ⟨_, rfl⟩
  | SUBMITTED => exact ⟨_, rfl⟩
  | QUEUED => exact ⟨_, rfl⟩
  | PENDING => exact ⟨_, rfl⟩
  | ERRORED reason => exact ⟨_, rfl⟩

theorem bcsHandleTransactionStatus_normalized_returns (bcs : BREthereumBCS)
    (oldStatus status : BREthereumTransactionStatus)
    (hchain : bcs.chain.isSome = true) (htail : bcs.chainTail.isSome = true) :
    ∃ normalized,
      bcsHandleTransactionStatus_normalized bcs oldStatus status =
        Outcome.returns normalized := by
  unfold bcsHandleTransactionStatus_normalized
  simp only
  obtain ⟨result, hresult⟩ := bcsHandleTransactionStatus_switch_returns bcs
    (if (match oldStatus with
        | .ERRORED _ => oldStatus
        | _ => status) = .UNKNOWN then oldStatus
      else
        match oldStatus with
        | .ERRORED _ => oldStatus
        | _ => status) hchain htail
  rw [hresult]
  exact ⟨_, rfl⟩

/-- The pending list that `bcsHandleTransactionStatus` leaves for a normalized status. -/
theorem bcsHandleTransactionStatus_of_normalized (bcs : BREthereumBCS) (hash : BREthereumHash)
    (tx : BREthereumTransaction) (status normalized : BREthereumTransactionStatus)
    (hget : BRSetGet transactionGetHash bcs.transactions hash = some tx)
    (hnormalized : bcsHandleTransactionStatus_normalized bcs tx.status status =
      Outcome.returns normalized) :
    bcsHandleTransactionStatus bcs hash status =
      Outcome.returns
        (if normalized = tx.status then
          { bcs with
            pendingTransactions :=
              if transactionStatusIsTerminal normalized = true then
                bcs.pendingTransactions.erase hash
              else if hash ∈ bcs.pendingTransactions then bcs.pendingTransactions
              else bcs.pendingTransactions ++ [hash] }
        else
          { bcs with
            pendingTransactions :=
              if transactionStatusIsTerminal normalized = true then
                bcs.pendingTransactions.erase hash
              else if hash ∈ bcs.pendingTransactions then bcs.pendingTransactions
              else bcs.pendingTransactions ++ [hash]
            transactions := transactionSetStatus bcs.transactions tx normalized
            effects := bcs.effects ++
              [BCSEffect.transactionCallback { tx with status := normalized }] }) := by
  unfold bcsHandleTransactionStatus_normalized at hnormalized
  unfold bcsHandleTransactionStatus
  rw [hget]
  simp only at hnormalized ⊢
  generalize hswitch : bcsHandleTransactionStatus_switch bcs _ = switched at hnormalized ⊢
  cases switched with
  | aborts => simp [Outcome.andThen] at hnormalized
  | loops => simp [Outcome.andThen] at hnormalized
  | returns result =>
    obtain ⟨newStatus, isInChain, isAnError⟩ := result
    simp only [Outcome.andThen, Outcome.returns.injEq] at hnormalized
    subst hnormalized
    obtain ⟨hterminal, _, _⟩ :=
      bcsHandleTransactionStatus_switch_terminal bcs _ _ _ _ hswitch
    simp only [Outcome.andThen, bcsHandleTransactionStatus_pending_eq, transactionStatusEqual]
    by_cases hsame : newStatus = tx.status
    · simp only [hsame, decide_True, Bool.true_eq_false, if_false, if_true]
      rw [hsame] at hterminal
      by_cases hremove : isInChain = true ∨ isAnError = true
      · rw [if_pos hremove, if_pos (hterminal.mp hremove)]
      · rw [if_neg hremove, if_neg (fun h => hremove (hterminal.mpr h))]
    · simp only [hsame, decide_False, if_true, if_false]
      by_cases hremove : isInChain = true ∨ isAnError = true
      · rw [if_pos hremove, if_pos (hterminal.mp hremove)]
      · rw [if_neg hremove, if_neg (fun h => hremove (hterminal.mpr h))]

theorem bcsHandleTransactionStatus_normalized_inv (bcs : BREthereumBCS)
    (oldStatus status normalized : BREthereumTransactionStatus)
    (h : bcsHandleTransactionStatus_normalized bcs oldStatus status =
      Outcome.returns normalized) :
    transactionStatusIsStored normalized = true ∧
      ∀ gasUsed blockHash blockNumber transactionIndex,
        normalized = .INCLUDED gasUsed blockHash blockNumber transactionIndex →
          bcsChainHasBlock bcs blockHash blockNumber = Outcome.returns true := by
  unfold bcsHandleTransactionStatus_normalized at h
  simp only at h
  generalize hswitch : bcsHandleTransactionStatus_switch bcs _ = switched at h
  cases switched with
  | aborts => simp [Outcome.andThen] at h
  | loops => simp [Outcome.andThen] at h
  | returns result =>
    obtain ⟨newStatus, isInChain, isAnError⟩ := result
    simp only [Outcome.andThen, Outcome.returns.injEq] at h
    subst h
    exact (bcsHandleTransactionStatus_switch_terminal bcs _ _ _ _ hswitch).2

theorem bcsHandleTransactionStatus_returns_normalized (bcs : BREthereumBCS)
    (hash : BREthereumHash) (tx : BREthereumTransaction) (status : BREthereumTransactionStatus)
    (bcs' : BREthereumBCS)
    (hget : BRSetGet transactionGetHash bcs.transactions hash = some tx)
    (h : bcsHandleTransactionStatus bcs hash status = Outcome.returns bcs') :
    ∃ normalized,
      bcsHandleTransactionStatus_normalized bcs tx.status status =
        Outcome.returns normalized := by
  unfold bcsHandleTransactionStatus at h
  unfold bcsHandleTransactionStatus_normalized
  rw [hget] at h
  simp only at h ⊢
  generalize bcsHandleTransactionStatus_switch bcs _ = switched at h ⊢
  cases switched with
  | aborts => simp [Outcome.andThen] at h
  | loops => simp [Outcome.andThen] at h
  | returns result => exact ⟨_, rfl⟩

theorem filter_bne_erase (pending : List BREthereumHash) (hash : BREthereumHash) :
    (pending.erase hash).filter (fun entry => entry != hash) =
      pending.filter (fun entry => entry != hash) := by
  induction pending with
  | nil => rfl
  | cons entry rest ih =>
    rw [List.erase_cons]
    by_cases hentry : (entry == hash) = true
    · rw [if_pos hentry, List.filter_cons_of_neg]
      simpa using hentry
    · rw [if_neg hentry, List.filter_cons_of_pos (by simpa using hentry),
        List.filter_cons_of_pos (by simpa using hentry), ih]

/-- C11: status update and notification.  For a transaction of the transaction set with stored
status S0 and a received status S, the normalized status is the one the handler compares with S0
(lines 900-949).  It is computed whenever the engine has a head and a tail.  When it differs from
S0 the handler returns a state in which the transaction is stored with the normalized status,
every other transaction is as before, and the list of calls has grown by exactly one transaction
callback, for that transaction with the normalized status.  When it equals S0 the transaction set
and the list of calls are as before.  QUEUED and PENDING are normalized to SUBMITTED (for S0 other
than ERRORED, which is C10), and a received UNKNOWN is normalized as S0 itself is. -/
theorem bcsHandleTransactionStatus_stores_and_reports_change (bcs : BREthereumBCS)
    (hash : BREthereumHash) (tx : BREthereumTransaction) (status : BREthereumTransactionStatus)
    (hget : BRSetGet transactionGetHash bcs.transactions hash = some tx) :
    (bcs.chain.isSome = true → bcs.chainTail.isSome = true →
      ∃ normalized,
        bcsHandleTransactionStatus_normalized bcs tx.status status =
          Outcome.returns normalized) ∧
    (∀ normalized,
      bcsHandleTransactionStatus_normalized bcs tx.status status = Outcome.returns normalized →
      ∃ bcs',
        bcsHandleTransactionStatus bcs hash status = Outcome.returns bcs' ∧
        (normalized ≠ tx.status →
          BRSetGet transactionGetHash bcs'.transactions hash =
            some { tx with status := normalized } ∧
          (∀ other, other ≠ hash →
            BRSetGet transactionGetHash bcs'.transactions other =
              BRSetGet transactionGetHash bcs.transactions other) ∧
          bcs'.effects = bcs.effects ++
            [BCSEffect.transactionCallback { tx with status := normalized }]) ∧
        (normalized = tx.status →
          bcs'.transactions = bcs.transactions ∧ bcs'.effects = bcs.effects)) ∧
    ((∀ reason, tx.status ≠ .ERRORED reason) → (status = .QUEUED ∨ status = .PENDING) →
      bcsHandleTransactionStatus_normalized bcs tx.status status =
        Outcome.returns .SUBMITTED) ∧
    (status = .UNKNOWN →
      bcsHandleTransactionStatus_normalized bcs tx.status status =
        bcsHandleTransactionStatus_normalized bcs tx.status tx.status) := by
  have hkey : tx.hash = hash := BRSetGet_some_key transactionGetHash _ _ _ hget
  refine ⟨fun hchain htail =>
    bcsHandleTransactionStatus_normalized_returns bcs tx.status status hchain htail, ?_, ?_, ?_⟩
  · intro normalized hnormalized
    refine ⟨_, bcsHandleTransactionStatus_of_normalized bcs hash tx status normalized hget
      hnormalized, ?_, ?_⟩
    · intro hne
      rw [if_neg hne]
      refine ⟨?_, ?_, rfl⟩
      · simp only [transactionSetStatus, BRSetGet_BRSetAdd, transactionGetHash]
        rw [if_pos hkey]
      · intro other hother
        simp only [transactionSetStatus, BRSetGet_BRSetAdd, transactionGetHash]
        rw [if_neg]
        rw [hkey]
        exact fun h => hother h.symm
    · intro hsame
      rw [if_pos hsame]
      exact ⟨rfl, rfl⟩
  · intro hstatus hqueued
    obtain ⟨txHash, txStatus⟩ := tx
    simp only at hstatus ⊢
    unfold bcsHandleTransactionStatus_normalized
    rcases hqueued with h | h <;> subst h <;> cases txStatus <;>
      first
        | rfl
        | exact absurd rfl (hstatus _)
  · intro hunknown
    subst hunknown
    obtain ⟨txHash, txStatus⟩ := tx
    unfold bcsHandleTransactionStatus_normalized
    cases txStatus <;> rfl

/-- C11 at work: in `exampleSubmittedState` the transaction 9000 is stored as CREATED.  A status
QUEUED arrives: the normalized status SUBMITTED differs, it is stored and one callback is made.  A
status PENDING arrives next: the normalized status SUBMITTED is the stored one, and the handler
returns the state it was given. -/
theorem bcsHandleTransactionStatus_stores_and_reports_change_witness :
    bcsHandleTransactionStatus exampleSubmittedState 9000 .QUEUED =
        Outcome.returns exampleQueuedState ∧
      BRSetGet transactionGetHash exampleQueuedState.transactions 9000 =
        some { exampleTransaction with status := .SUBMITTED } ∧
      exampleQueuedState.effects = exampleSubmittedState.effects ++
        [BCSEffect.transactionCallback { exampleTransaction with status := .SUBMITTED }] ∧
      bcsHandleTransactionStatus exampleQueuedState 9000 .PENDING =
        Outcome.returns exampleQueuedState := by
  obtain ⟨bcs', hreturns, hchanged, _⟩ :=
    (bcsHandleTransactionStatus_stores_and_reports_change exampleSubmittedState 9000
      exampleTransaction .QUEUED (by decide)).2.1 .SUBMITTED (by decide)
  have heval : bcsHandleTransactionStatus exampleSubmittedState 9000 .QUEUED =
      Outcome.returns exampleQueuedState := by decide
  rw [heval] at hreturns
  cases hreturns
  obtain ⟨hstored, _, heffects⟩ :=
    hchanged (fun h => BREthereumTransactionStatus.noConfusion h)
  exact ⟨heval, hstored, heffects, by decide⟩

/-- C12: the pending list.  For a transaction of the transaction set the handler returns whenever
the normalized status is computed, which it is in an engine with a head and a tail.  When the
normalized status is INCLUDED (the block is then in the chain for `bcsChainHasBlock`) or ERRORED,
the first entry with the hash is removed from the pending list: the hash has one occurrence less,
and a list without the hash is unchanged.  For every other normalized status the hash is in the
pending list afterwards: the list is unchanged when the hash was in it, and has the hash as new
last entry when it was not.  In both cases the entries with other hashes are the same, in the same
order. -/
theorem bcsHandleTransactionStatus_updates_pending (bcs : BREthereumBCS)
    (hash : BREthereumHash) (tx : BREthereumTransaction) (status : BREthereumTransactionStatus)
    (hget : BRSetGet transactionGetHash bcs.transactions hash = some tx) :
    (bcs.chain.isSome = true → bcs.chainTail.isSome = true →
      ∃ normalized,
        bcsHandleTransactionStatus_normalized bcs tx.status status =
          Outcome.returns normalized) ∧
    (∀ normalized,
      bcsHandleTransactionStatus_normalized bcs tx.status status = Outcome.returns normalized →
      ∃ bcs',
        bcsHandleTransactionStatus bcs hash status = Outcome.returns bcs' ∧
        (transactionStatusIsTerminal normalized = true →
          bcs'.pendingTransactions = bcs.pendingTransactions.erase hash ∧
          bcs'.pendingTransactions.count hash = bcs.pendingTransactions.count hash - 1 ∧
          (hash ∉ bcs.pendingTransactions →
            bcs'.pendingTransactions = bcs.pendingTransactions)) ∧
        (transactionStatusIsTerminal normalized = false →
          hash ∈ bcs'.pendingTransactions ∧
          bcs'.pendingTransactions =
            if hash ∈ bcs.pendingTransactions then bcs.pendingTransactions
            else bcs.pendingTransactions ++ [hash]) ∧
        bcs'.pendingTransactions.filter (fun entry => entry != hash) =
          bcs.pendingTransactions.filter (fun entry => entry != hash) ∧
        (∀ gasUsed blockHash blockNumber transactionIndex,
          normalized = .INCLUDED gasUsed blockHash blockNumber transactionIndex →
            bcsChainHasBlock bcs blockHash blockNumber = Outcome.returns true)) := by
  refine ⟨fun hchain htail =>
    bcsHandleTransactionStatus_normalized_returns bcs tx.status status hchain htail, ?_⟩
  intro normalized hnormalized
  have hpending : ∀ out : BREthereumBCS,
      out = (if normalized = tx.status then
          { bcs with
            pendingTransactions :=
              if transactionStatusIsTerminal normalized = true then
                bcs.pendingTransactions.erase hash
              else if hash ∈ bcs.pendingTransactions then bcs.pendingTransactions
              else bcs.pendingTransactions ++ [hash] }
        else
          { bcs with
            pendingTransactions :=
              if transactionStatusIsTerminal normalized = true then
                bcs.pendingTransactions.erase hash
              else if hash ∈ bcs.pendingTransactions then bcs.pendingTransactions
              else bcs.pendingTransactions ++ [hash]
            transactions := transactionSetStatus bcs.transactions tx normalized
            effects := bcs.effects ++
              [BCSEffect.transactionCallback { tx with status := normalized }] }) →
      out.pendingTransactions =
        if transactionStatusIsTerminal normalized = true then
          bcs.pendingTransactions.erase hash
        else if hash ∈ bcs.pendingTransactions then bcs.pendingTransactions
        else bcs.pendingTransactions ++ [hash] := by
    intro out hout
    subst hout
    split <;> rfl
  refine ⟨_, bcsHandleTransactionStatus_of_normalized bcs hash tx status normalized hget
    hnormalized, ?_, ?_, ?_, (bcsHandleTransactionStatus_normalized_inv _ _ _ _ hnormalized).2⟩
  · intro hterminal
    rw [hpending _ rfl, if_pos hterminal]
    exact ⟨rfl, List.count_erase_self _ _, fun hnot => List.erase_of_not_mem hnot⟩
  · intro hterminal
    have hnot : ¬ transactionStatusIsTerminal normalized = true := by
      rw [hterminal]; simp
    rw [hpending _ rfl, if_neg hnot]
    refine ⟨?_, rfl⟩
    by_cases hmem : hash ∈ bcs.pendingTransactions
    · rw [if_pos hmem]; exact hmem
    · rw [if_neg hmem]; simp
  · rw [hpending _ rfl]
    by_cases hterminal : transactionStatusIsTerminal normalized = true
    · rw [if_pos hterminal]
      exact filter_bne_erase _ _
    · rw [if_neg hterminal]
      by_cases hmem : hash ∈ bcs.pendingTransactions
      · rw [if_pos hmem]
      · rw [if_neg hmem, List.filter_append]
        simp

/-- C12 at work: in `exampleSubmittedState` the pending list is `[9000]`.  A status QUEUED leaves
it as it is; a status INCLUDED in block A2, which is on the chain, empties it. -/
theorem bcsHandleTransactionStatus_updates_pending_witness :
    exampleSubmittedState.pendingTransactions = [9000] ∧
      bcsHandleTransactionStatus exampleSubmittedState 9000 .QUEUED =
        Outcome.returns exampleQueuedState ∧
      exampleQueuedState.pendingTransactions = [9000] ∧
      bcsHandleTransactionStatus exampleSubmittedState 9000
          (.INCLUDED 21000 exampleA2.hash 2 0) = Outcome.returns exampleIncludedState ∧
      exampleIncludedState.pendingTransactions =
        exampleSubmittedState.pendingTransactions.erase 9000 ∧
      exampleIncludedState.pendingTransactions = [] := by
  obtain ⟨bcs', hreturns, hterminal, _⟩ :=
    (bcsHandleTransactionStatus_updates_pending exampleSubmittedState 9000
      exampleTransaction (.INCLUDED 21000 exampleA2.hash 2 0) (by decide)).2
      (.INCLUDED 21000 exampleA2.hash 2 0) (by decide)
  have heval : bcsHandleTransactionStatus exampleSubmittedState 9000
      (.INCLUDED 21000 exampleA2.hash 2 0) = Outcome.returns exampleIncludedState := by decide
  rw [heval] at hreturns
  cases hreturns
  exact ⟨by decide, by decide, by decide, heval, (hterminal rfl).1, by decide⟩

/-- C15: UNKNOWN is never stored.  For a transaction of the transaction set, with any stored
status and any received status, `bcsHandleTransactionStatus` returns in an engine with a head and
a tail, and whenever it returns the transaction is stored under its hash with a status that is
CREATED, SIGNED, SUBMITTED, INCLUDED or ERRORED: not UNKNOWN, not QUEUED and not PENDING, also when
the stored status was one of these three before. -/
theorem bcsHandleTransactionStatus_never_stores_unknown (bcs : BREthereumBCS)
    (hash : BREthereumHash) (tx : BREthereumTransaction) (status : BREthereumTransactionStatus)
    (hget : BRSetGet transactionGetHash bcs.transactions hash = some tx) :
    (bcs.chain.isSome = true → bcs.chainTail.isSome = true →
      ∃ bcs', bcsHandleTransactionStatus bcs hash status = Outcome.returns bcs') ∧
    (∀ bcs', bcsHandleTransactionStatus bcs hash status = Outcome.returns bcs' →
      ∃ stored,
        BRSetGet transactionGetHash bcs'.transactions hash = some stored ∧
        stored.hash = hash ∧
        transactionStatusIsStored stored.status = true ∧
        stored.status ≠ .UNKNOWN ∧ stored.status ≠ .QUEUED ∧
        stored.status ≠ .PENDING) := by
  have hkey : tx.hash = hash := BRSetGet_some_key transactionGetHash _ _ _ hget
  have hnot : ∀ s : BREthereumTransactionStatus, transactionStatusIsStored s = true →
      s ≠ .UNKNOWN ∧ s ≠ .QUEUED ∧ s ≠ .PENDING := by
    intro s hs
    cases s <;> simp [transactionStatusIsStored] at hs ⊢
  constructor
  · intro hchain htail
    obtain ⟨normalized, hnormalized⟩ :=
      bcsHandleTransactionStatus_normalized_returns bcs tx.status status hchain htail
    exact ⟨_, bcsHandleTransactionStatus_of_normalized bcs hash tx status normalized hget
      hnormalized⟩
  · intro bcs' hreturns
    obtain ⟨normalized, hnormalized⟩ :=
      bcsHandleTransactionStatus_returns_normalized bcs hash tx status bcs' hget hreturns
    have hstored := (bcsHandleTransactionStatus_normalized_inv _ _ _ _ hnormalized).1
    rw [bcsHandleTransactionStatus_of_normalized bcs hash tx status normalized hget
      hnormalized] at hreturns
    cases hreturns
    by_cases hsame : normalized = tx.status
    · rw [if_pos hsame]
      rw [hsame] at hstored
      exact ⟨tx, hget, hkey, hstored, hnot _ hstored⟩
    · rw [if_neg hsame]
      refine ⟨{ tx with status := normalized }, ?_, hkey, hstored, hnot _ hstored⟩
      simp only [transactionSetStatus, BRSetGet_BRSetAdd, transactionGetHash]
      rw [if_pos hkey]

/-- C15 at work: the transaction 9001 was submitted with the status UNKNOWN and is stored with it
by `bcsHandleSubmitTransaction`.  A status UNKNOWN arrives for it: the handler stores SIGNED. -/
theorem bcsHandleTransactionStatus_never_stores_unknown_witness :
    BRSetGet transactionGetHash exampleUnknownState.transactions 9001 =
        some exampleUnknownTransaction ∧
      bcsHandleTransactionStatus exampleUnknownState 9001 .UNKNOWN =
        Outcome.returns exampleUnknownReportedState ∧
      BRSetGet transactionGetHash exampleUnknownReportedState.transactions 9001 =
        some { hash := 9001, status := .SIGNED } ∧
      transactionStatusIsStored BREthereumTransactionStatus.SIGNED = true := by
  have heval : bcsHandleTransactionStatus exampleUnknownState 9001 .UNKNOWN =
      Outcome.returns exampleUnknownReportedState := by decide
  obtain ⟨stored, hstored, _, hkind, _⟩ :=
    (bcsHandleTransactionStatus_never_stores_unknown exampleUnknownState 9001
      exampleUnknownTransaction .UNKNOWN (by decide)).2 exampleUnknownReportedState heval
  have hvalue : BRSetGet transactionGetHash exampleUnknownReportedState.transactions 9001 =
      some { hash := 9001, status := .SIGNED } := by decide
  rw [hvalue] at hstored
  cases hstored
  exact ⟨by decide, heval, hvalue, hkind⟩

/-! ## The pending list in the states the handlers reach -/

/-- C13, failing input: the engine is created without saved headers, the transaction 9000 is
submitted twice and a status ERRORED arrives for it.  `bcsHandleSubmitTransaction` appends the hash
to the pending list at each submission, `bcsHandleTransactionStatus` removes one entry: the
transaction is stored as ERRORED and its hash is still in the pending list.  The same happens with
a status INCLUDED in block A2 on the chain G, A1, A2: the transaction is stored as INCLUDED in a
block of the chain, with a block number that is at most the number of the head, and its hash is
still pending. -/
theorem bcsHandleSubmitTransaction_twice_keeps_terminal_pending :
    bcsHandleEvents exampleResubmitEvents (bcsCreate exampleGenesis none) =
        Outcome.returns exampleErroredPendingState ∧
      BRSetGet transactionGetHash exampleErroredPendingState.transactions 9000 =
        some { hash := 9000, status := .ERRORED "nonce too low" } ∧
      exampleErroredPendingState.pendingTransactions = [9000] ∧
      bcsTerminalIsPending exampleErroredPendingState = true ∧
      bcsHandleEvents exampleResubmitIncludedEvents (bcsCreate exampleGenesis none) =
        Outcome.returns exampleIncludedPendingState ∧
      BRSetGet transactionGetHash exampleIncludedPendingState.transactions 9000 =
        some { hash := 9000, status := .INCLUDED 21000 exampleA2.hash 2 0 } ∧
      bcsChainMembers exampleIncludedPendingState =
        some [exampleA2, exampleA1, exampleGenesis] ∧
      exampleIncludedPendingState.chain = some exampleA2 ∧
      exampleIncludedPendingState.pendingTransactions = [9000] ∧
      bcsTerminalIsPending exampleIncludedPendingState = true := by
  decide

/-- C14, failing input: the engine is created without saved headers and the transaction 9000 is
submitted twice.  `bcsHandleSubmitTransaction` appends the hash to the pending list without
looking for it: the pending list holds the hash twice, while the transaction set holds the
transaction once. -/
theorem bcsHandleSubmitTransaction_twice_duplicates_pending :
    bcsHandleEvents (exampleResubmitEvents.take 2) (bcsCreate exampleGenesis none) =
        Outcome.returns exampleSubmittedTwiceState ∧
      exampleSubmittedTwiceState.pendingTransactions = [9000, 9000] ∧
      ¬ exampleSubmittedTwiceState.pendingTransactions.Nodup ∧
      exampleSubmittedTwiceState.transactions = [exampleTransaction] := by
  decide

/-- What `bcsHandleTransactionStatus` does keep: a pending list without a repeated hash has none
afterwards, and when the normalized status is INCLUDED or ERRORED the hash of the transaction is
not in it any more. -/
theorem bcsHandleTransactionStatus_pending_nodup (bcs : BREthereumBCS) (hash : BREthereumHash)
    (status : BREthereumTransactionStatus) (bcs' : BREthereumBCS)
    (hnodup : bcs.pendingTransactions.Nodup)
    (hreturns : bcsHandleTransactionStatus bcs hash status = Outcome.returns bcs') :
    bcs'.pendingTransactions.Nodup ∧
      ∀ tx normalized, BRSetGet transactionGetHash bcs.transactions hash = some tx →
        bcsHandleTransactionStatus_normalized bcs tx.status status =
          Outcome.returns normalized →
        transactionStatusIsTerminal normalized = true → hash ∉ bcs'.pendingTransactions := by
  cases hget : BRSetGet transactionGetHash bcs.transactions hash with
  | none =>
    unfold bcsHandleTransactionStatus at hreturns
    rw [hget] at hreturns
    cases hreturns
    exact ⟨hnodup, fun _ _ h => by cases h⟩
  | some tx =>
    obtain ⟨normalized, hnormalized⟩ :=
      bcsHandleTransactionStatus_returns_normalized bcs hash tx status bcs' hget hreturns
    rw [bcsHandleTransactionStatus_of_normalized bcs hash tx status normalized hget
      hnormalized] at hreturns
    have hpending : bcs'.pendingTransactions =
        if transactionStatusIsTerminal normalized = true then
          bcs.pendingTransactions.erase hash
        else if hash ∈ bcs.pendingTransactions then bcs.pendingTransactions
        else bcs.pendingTransactions ++ [hash] := by
      cases hreturns
      split <;> rfl
    rw [hpending]
    constructor
    · by_cases hterminal : transactionStatusIsTerminal normalized = true
      · rw [if_pos hterminal]
        exact hnodup.erase hash
      · rw [if_neg hterminal]
        by_cases hmem : hash ∈ bcs.pendingTransactions
        · rw [if_pos hmem]
          exact hnodup
        · rw [if_neg hmem]
          apply List.Nodup.append hnodup (List.nodup_singleton _)
          intro entry hin hlast
          rw [List.mem_singleton] at hlast
          exact hmem (hlast ▸ hin)
    · intro tx' normalized' htx' hnormalized' hterminal
      cases htx'
      rw [hnormalized] at hnormalized'
      cases hnormalized'
      rw [if_pos hterminal]
      exact fun hmem => (List.Nodup.mem_erase_iff hnodup).mp hmem |>.1 rfl

/-! ## What the handlers do to the transaction set and the pending list -/

theorem bcsCreate_pendingTransactions (genesis : BREthereumBlockHeader)
    (headers : Option (List BREthereumBlockHeader)) :
    (bcsCreate genesis headers).pendingTransactions = [] := by
  have hreplay : ∀ (saved : List BREthereumBlockHeader) (bcs : BREthereumBCS),
      (bcsCreateReplay saved bcs).pendingTransactions = bcs.pendingTransactions := by
    intro saved
    induction saved with
    | nil => intro bcs; rfl
    | cons header rest ih =>
      intro bcs
      unfold bcsCreateReplay
      simp only
      split
      · exact ih bcs
      · exact ih _
  cases headers with
  | none => rfl
  | some saved => exact hreplay saved _

/-- The transaction set and the pending list after `bcsHandleBlockHeader`: they are the ones the
handler was given, or the ones that the loop over the transactions leaves when it starts from
them. -/
theorem bcsHandleBlockHeader_pending_inv (bcs : BREthereumBCS) (header : BREthereumBlockHeader)
    (bcs' : BREthereumBCS)
    (hreturns : bcsHandleBlockHeader bcs header = Outcome.returns bcs') :
    (bcs'.transactions = bcs.transactions ∧
      bcs'.pendingTransactions = bcs.pendingTransactions) ∨
    ∃ purged examined,
      purged.transactions = bcs.transactions ∧
      purged.pendingTransactions = bcs.pendingTransactions ∧
      bcsHandleBlockHeader_transactions purged.transactions purged = Outcome.returns examined ∧
      bcs'.transactions = examined.transactions ∧
      bcs'.pendingTransactions = examined.pendingTransactions := by
  by_cases hchains : headerGoesOnChain bcs header = true
  · right
    obtain ⟨placed, headerParent, hchained, hhead, htxs, hpend⟩ :=
      bcsHandleBlockHeader_placed_inv bcs header bcs' hchains hreturns
    obtain ⟨purged, chain', examined, _, _, _, hptxs, hppend, hexamine, _, _, ht, hp⟩ :=
      bcsHandleBlockHeader_chained_inv placed headerParent bcs' header hhead hchained
    exact ⟨purged, examined, hptxs.trans htxs, hppend.trans hpend, hexamine, ht, hp⟩
  · left
    unfold bcsHandleBlockHeader at hreturns
    split at hreturns
    · cases hreturns; exact ⟨rfl, rfl⟩
    · split at hreturns
      · cases hreturns; exact ⟨rfl, rfl⟩
      · rename_i hseen hvalid
        simp only at hreturns
        split at hreturns
        · cases hreturns; exact ⟨rfl, rfl⟩
        · rename_i hcons
          unfold bcsHandleBlockHeader_place at hreturns
          cases hchain : bcs.chain with
          | none =>
            exfalso
            apply hchains
            unfold headerGoesOnChain
            simp only [hchain, Option.isNone_none, Bool.true_or, Bool.and_true,
              Bool.and_eq_true, Bool.not_eq_true', Option.isNone_iff_eq_none]
            refine ⟨⟨?_, ?_⟩, ?_⟩
            · cases hq : BRSetGet blockHeaderGetHash bcs.headers header.hash with
              | none => rfl
              | some found => rw [hq] at hseen; simp at hseen
            · simpa using hvalid
            · simpa using hcons
          | some chain =>
            simp only [hchain] at hreturns
            cases hget : BRSetGet blockHeaderGetHash bcs.headers header.parentHash with
            | none =>
              rw [hget] at hreturns
              simp only at hreturns
              cases hreturns
              exact ⟨(bcsSyncFrom_frame _ _).2.2.2.2.1, (bcsSyncFrom_frame _ _).2.2.2.2.2.2.1⟩
            | some parent =>
              rw [hget] at hreturns
              simp only at hreturns
              split at hreturns
              · cases hreturns
                exact ⟨(bcsSyncFrom_frame _ _).2.2.2.2.1,
                  (bcsSyncFrom_frame _ _).2.2.2.2.2.2.1⟩
              · rename_i hnotorphan
                exfalso
                apply hchains
                unfold headerGoesOnChain
                rw [hget] at hcons
                simp only [hget, Bool.and_eq_true, Bool.not_eq_true', Bool.or_eq_true,
                  Option.isNone_iff_eq_none]
                refine ⟨⟨⟨?_, ?_⟩, ?_⟩, Or.inr ?_⟩
                · cases hq : BRSetGet blockHeaderGetHash bcs.headers header.hash with
                  | none => rfl
                  | some found => rw [hq] at hseen; simp at hseen
                · simpa using hvalid
                · simpa using hcons
                · cases hq : BRSetGet blockHeaderGetHash bcs.orphans parent.hash with
                  | none => rfl
                  | some found =>
                    exfalso
                    apply hnotorphan
                    show (BRSetGet blockHeaderGetHash bcs.orphans parent.hash).isSome = true
                    rw [hq]
                    rfl

/-- A property of the transaction set and the pending list that `bcsHandleTransactionStatus` keeps
is kept by the loop over the transactions in `bcsHandleBlockHeader`. -/
theorem bcsHandleBlockHeader_transactions_keeps
    (inv : List BREthereumTransaction → List BREthereumHash → Prop)
    (hstatus : ∀ (bcs : BREthereumBCS) (hash : BREthereumHash)
      (status : BREthereumTransactionStatus) (bcs' : BREthereumBCS),
      inv bcs.transactions bcs.pendingTransactions →
      bcsHandleTransactionStatus bcs hash status = Outcome.returns bcs' →
      inv bcs'.transactions bcs'.pendingTransactions)
    (transactions : List BREthereumTransaction) (bcs bcs' : BREthereumBCS)
    (hinv : inv bcs.transactions bcs.pendingTransactions)
    (hreturns : bcsHandleBlockHeader_transactions transactions bcs = Outcome.returns bcs') :
    inv bcs'.transactions bcs'.pendingTransactions := by
  induction transactions generalizing bcs with
  | nil =>
    rw [bcsHandleBlockHeader_transactions] at hreturns
    cases hreturns
    exact hinv
  | cons tx rest ih =>
    rw [bcsHandleBlockHeader_transactions, bcsHandleBlockHeader_transactions_step] at hreturns
    by_cases horphaned : transactionIsOrphaned bcs.orphans tx = true
    · rw [if_pos horphaned] at hreturns
      cases hstep : bcsHandleTransactionStatus bcs tx.hash .PENDING with
      | aborts => rw [hstep] at hreturns; simp [Outcome.andThen] at hreturns
      | loops => rw [hstep] at hreturns; simp [Outcome.andThen] at hreturns
      | returns next =>
        rw [hstep] at hreturns
        exact ih next (hstatus _ _ _ _ hinv hstep) hreturns
    · rw [if_neg horphaned] at hreturns
      exact ih bcs hinv hreturns

/-- A property of the transaction set and the pending list that `bcsHandleTransactionStatus` keeps
is kept by `bcsHandleBlockHeader`. -/
theorem bcsHandleBlockHeader_keeps
    (inv : List BREthereumTransaction → List BREthereumHash → Prop)
    (hstatus : ∀ (bcs : BREthereumBCS) (hash : BREthereumHash)
      (status : BREthereumTransactionStatus) (bcs' : BREthereumBCS),
      inv bcs.transactions bcs.pendingTransactions →
      bcsHandleTransactionStatus bcs hash status = Outcome.returns bcs' →
      inv bcs'.transactions bcs'.pendingTransactions)
    (bcs : BREthereumBCS) (header : BREthereumBlockHeader) (bcs' : BREthereumBCS)
    (hinv : inv bcs.transactions bcs.pendingTransactions)
    (hreturns : bcsHandleBlockHeader bcs header = Outcome.returns bcs') :
    inv bcs'.transactions bcs'.pendingTransactions := by
  rcases bcsHandleBlockHeader_pending_inv bcs header bcs' hreturns with
    ⟨ht, hp⟩ | ⟨purged, examined, hpt, hpp, hexamine, ht, hp⟩
  · rw [ht, hp]
    exact hinv
  · rw [ht, hp]
    apply bcsHandleBlockHeader_transactions_keeps inv hstatus _ purged examined _ hexamine
    rw [hpt, hpp]
    exact hinv

/-- The pending list holds hashes of stored transactions: kept by `bcsHandleTransactionStatus`. -/
theorem bcsHandleTransactionStatus_pending_known (bcs : BREthereumBCS) (hash : BREthereumHash)
    (status : BREthereumTransactionStatus) (bcs' : BREthereumBCS)
    (hinv : ∀ entry ∈ bcs.pendingTransactions,
      (BRSetGet transactionGetHash bcs.transactions entry).isSome = true)
    (hreturns : bcsHandleTransactionStatus bcs hash status = Outcome.returns bcs') :
    ∀ entry ∈ bcs'.pendingTransactions,
      (BRSetGet transactionGetHash bcs'.transactions entry).isSome = true := by
  cases hget : BRSetGet transactionGetHash bcs.transactions hash with
  | none =>
    unfold bcsHandleTransactionStatus at hreturns
    rw [hget] at hreturns
    cases hreturns
    exact hinv
  | some tx =>
    obtain ⟨normalized, hnormalized⟩ :=
      bcsHandleTransactionStatus_returns_normalized bcs hash tx status bcs' hget hreturns
    have hkeys := bcsHandleTransactionStatus_keeps_keys bcs hash status bcs' hreturns
    rw [bcsHandleTransactionStatus_of_normalized bcs hash tx status normalized hget
      hnormalized] at hreturns
    have hpending : bcs'.pendingTransactions =
        if transactionStatusIsTerminal normalized = true then
          bcs.pendingTransactions.erase hash
        else if hash ∈ bcs.pendingTransactions then bcs.pendingTransactions
        else bcs.pendingTransactions ++ [hash] := by
      cases hreturns
      split <;> rfl
    intro entry hentry
    rw [hpending] at hentry
    by_cases hterminal : transactionStatusIsTerminal normalized = true
    · rw [if_pos hterminal] at hentry
      exact hkeys entry (hinv entry (List.mem_of_mem_erase hentry))
    · rw [if_neg hterminal] at hentry
      by_cases hmem : hash ∈ bcs.pendingTransactions
      · rw [if_pos hmem] at hentry
        exact hkeys entry (hinv entry hentry)
      · rw [if_neg hmem] at hentry
        rcases List.mem_append.mp hentry with h | h
        · exact hkeys entry (hinv entry h)
        · rw [List.mem_singleton] at h
          subst h
          apply hkeys
          rw [hget]
          rfl

/-- The pending list holds hashes of stored transactions: kept by every event. -/
theorem bcsHandleEvent_pending_known (bcs : BREthereumBCS) (event : BCSEvent)
    (bcs' : BREthereumBCS)
    (hinv : ∀ entry ∈ bcs.pendingTransactions,
      (BRSetGet transactionGetHash bcs.transactions entry).isSome = true)
    (hreturns : bcsHandleEvent bcs event = Outcome.returns bcs') :
    ∀ entry ∈ bcs'.pendingTransactions,
      (BRSetGet transactionGetHash bcs'.transactions entry).isSome = true := by
  cases event with
  | announce headNumber =>
    simp only [bcsHandleEvent, Outcome.returns.injEq] at hreturns
    subst hreturns
    exact hinv
  | submitTransaction transaction lesStatus =>
    simp only [bcsHandleEvent, Outcome.returns.injEq] at hreturns
    subst hreturns
    have hfields : (bcsHandleSubmitTransaction bcs transaction lesStatus).pendingTransactions =
          bcs.pendingTransactions ++ [transaction.hash] ∧
        (bcsHandleSubmitTransaction bcs transaction lesStatus).transactions =
          BRSetAdd transactionGetHash bcs.transactions transaction := by
      unfold bcsHandleSubmitTransaction
      cases lesStatus <;> exact ⟨rfl, rfl⟩
    rw [hfields.1, hfields.2]
    intro entry hentry
    rw [BRSetGet_BRSetAdd]
    by_cases hkey : transactionGetHash transaction = entry
    · rw [if_pos hkey]
      rfl
    · rw [if_neg hkey]
      rcases List.mem_append.mp hentry with h | h
      · exact hinv entry h
      · rw [List.mem_singleton] at h
        exact absurd h.symm hkey
  | transactionStatus transactionHash status =>
    exact bcsHandleTransactionStatus_pending_known bcs transactionHash status bcs' hinv hreturns
  | blockHeader header =>
    exact bcsHandleBlockHeader_keeps
      (fun transactions pending => ∀ entry ∈ pending,
        (BRSetGet transactionGetHash transactions entry).isSome = true)
      (fun s hash status s' hs hr =>
        bcsHandleTransactionStatus_pending_known s hash status s' hs hr)
      bcs header bcs' hinv hreturns

theorem bcsHandleEvents_pending_known (events : List BCSEvent) (bcs bcs' : BREthereumBCS)
    (hinv : ∀ entry ∈ bcs.pendingTransactions,
      (BRSetGet transactionGetHash bcs.transactions entry).isSome = true)
    (hreturns : bcsHandleEvents events bcs = Outcome.returns bcs') :
    ∀ entry ∈ bcs'.pendingTransactions,
      (BRSetGet transactionGetHash bcs'.transactions entry).isSome = true := by
  induction events generalizing bcs with
  | nil =>
    rw [bcsHandleEvents] at hreturns
    cases hreturns
    exact hinv
  | cons event rest ih =>
    rw [bcsHandleEvents] at hreturns
    cases hstep : bcsHandleEvent bcs event with
    | aborts => rw [hstep] at hreturns; simp [Outcome.andThen] at hreturns
    | loops => rw [hstep] at hreturns; simp [Outcome.andThen] at hreturns
    | returns next =>
      rw [hstep] at hreturns
      exact ih next (bcsHandleEvent_pending_known bcs event next hinv hstep) hreturns

/-- C17: pending entries are known transactions.  In every state that the handlers
`bcsHandleAnnounce`, `bcsHandleSubmitTransaction`, `bcsHandleTransactionStatus` and
`bcsHandleBlockHeader` reach from `bcsCreate`, for every genesis header, every saved-headers
argument and every list of events, each hash of the pending list is the hash of a transaction of
the transaction set.  In every state whatsoever, `bcsHandleTransactionStatus` for a hash that no
transaction of the set has returns the state it was given, and a `BRSetAdd` to the transaction set
that leaves the pending list alone, which is all that the other handlers of the file do to the two
(line 809), keeps the property. -/
theorem bcsHandleEvents_pending_are_known (genesis : BREthereumBlockHeader)
    (headers : Option (List BREthereumBlockHeader)) (events : List BCSEvent)
    (bcs : BREthereumBCS)
    (hreached : bcsHandleEvents events (bcsCreate genesis headers) = Outcome.returns bcs) :
    bcsPendingAreKnown bcs = true ∧
      (∀ hash ∈ bcs.pendingTransactions,
        ∃ transaction,
          BRSetGet transactionGetHash bcs.transactions hash = some transaction ∧
          transaction ∈ bcs.transactions ∧ transaction.hash = hash) ∧
      (∀ (any : BREthereumBCS) (hash : BREthereumHash) (status : BREthereumTransactionStatus),
        BRSetGet transactionGetHash any.transactions hash = none →
          bcsHandleTransactionStatus any hash status = Outcome.returns any) ∧
      (∀ (any : BREthereumBCS) (transaction : BREthereumTransaction),
        bcsPendingAreKnown any = true →
          bcsPendingAreKnown
            { any with
              transactions := BRSetAdd transactionGetHash any.transactions transaction } =
            true) := by
  have hknown := bcsHandleEvents_pending_known events (bcsCreate genesis headers) bcs
    (by
      rw [bcsCreate_pendingTransactions]
      intro entry hentry
      cases hentry)
    hreached
  refine ⟨?_, ?_, ?_, ?_⟩
  · unfold bcsPendingAreKnown
    rw [List.all_eq_true]
    exact hknown
  · intro hash hmem
    obtain ⟨transaction, htx⟩ := Option.isSome_iff_exists.mp (hknown hash hmem)
    exact ⟨transaction, htx, BRSetGet_some_mem _ _ _ _ htx, BRSetGet_some_key _ _ _ _ htx⟩
  · intro any hash status hnone
    unfold bcsHandleTransactionStatus
    rw [hnone]
  · intro any transaction hany
    unfold bcsPendingAreKnown at hany ⊢
    rw [List.all_eq_true] at hany ⊢
    intro entry hentry
    simp only [BRSetGet_BRSetAdd]
    split
    · rfl
    · exact hany entry hentry

/-- C17 at work: after the events of `exampleResubmitIncludedEvents` the pending list is `[9000]`
and 9000 is the hash of the stored transaction; a status for the hash 9001, which no stored
transaction has, changes nothing. -/
theorem bcsHandleEvents_pending_are_known_witness :
    bcsHandleEvents exampleResubmitIncludedEvents (bcsCreate exampleGenesis none) =
        Outcome.returns exampleIncludedPendingState ∧
      exampleIncludedPendingState.pendingTransactions = [9000] ∧
      bcsPendingAreKnown exampleIncludedPendingState = true ∧
      bcsHandleTransactionStatus exampleIncludedPendingState 9001 .PENDING =
        Outcome.returns exampleIncludedPendingState :=
  have hreached : bcsHandleEvents exampleResubmitIncludedEvents (bcsCreate exampleGenesis none) =
      Outcome.returns exampleIncludedPendingState := by decide
  have h := bcsHandleEvents_pending_are_known exampleGenesis none exampleResubmitIncludedEvents
    exampleIncludedPendingState hreached
  ⟨hreached, by decide, h.1, h.2.2.1 exampleIncludedPendingState 9001 .PENDING (by decide)⟩

/-! ## The header set and the tail through `bcsHandleBlockHeader` -/

theorem bcsHandleBlockHeader_reorg_headers (fuel : Nat) (bcs : BREthereumBCS)
    (headerParent : BREthereumBlockHeader) (bcs' : BREthereumBCS)
    (h : bcsHandleBlockHeader_reorg fuel bcs headerParent = Outcome.returns bcs') :
    bcs'.headers = bcs.headers ∧ bcs'.chainTail = bcs.chainTail := by
  induction fuel generalizing bcs with
  | zero => simp [bcsHandleBlockHeader_reorg] at h
  | succ fuel ih =>
    rw [bcsHandleBlockHeader_reorg] at h
    cases hchain : bcs.chain with
    | none =>
      rw [hchain] at h
      cases h
      exact ⟨rfl, rfl⟩
    | some chain =>
      rw [hchain] at h
      simp only at h
      split at h
      · cases h
        exact ⟨rfl, rfl⟩
      · exact ih { bcsMakeOrphan bcs chain with
          chain := BRSetGet blockHeaderGetHash bcs.headers chain.parentHash } h

theorem bcsHandleBlockHeader_extend_headers (bcs : BREthereumBCS)
    (header headerParent : BREthereumBlockHeader) (bcs' : BREthereumBCS)
    (h : bcsHandleBlockHeader_extend bcs header headerParent = Outcome.returns bcs') :
    bcs'.headers = bcs.headers ∧ bcs'.chainTail = bcs.chainTail := by
  unfold bcsHandleBlockHeader_extend at h
  cases hreorg : bcsHandleBlockHeader_reorg (bcs.headers.length + 2) bcs headerParent with
  | aborts => rw [hreorg] at h; simp [Outcome.andThen] at h
  | loops => rw [hreorg] at h; simp [Outcome.andThen] at h
  | returns walked =>
    rw [hreorg] at h
    simp only [Outcome.andThen] at h
    obtain ⟨f1, f2⟩ := bcsHandleBlockHeader_reorg_headers _ _ _ _ hreorg
    split at h
    · cases h
    · cases h
      exact ⟨f1, f2⟩

/-- When `bcsReclaimAndSaveBlocksIfAppropriate` returns there are a head and a tail, and the state
is unchanged when the head is less than 600 above the tail. -/
theorem bcsReclaimAndSaveBlocksIfAppropriate_not_due (bcs bcs' : BREthereumBCS)
    (h : bcsReclaimAndSaveBlocksIfAppropriate bcs = Outcome.returns bcs') :
    ∃ chain chainTail, bcs.chain = some chain ∧ bcs.chainTail = some chainTail ∧
      (u64Sub chain.number chainTail.number < 600 → bcs' = bcs) := by
  unfold bcsReclaimAndSaveBlocksIfAppropriate at h
  cases hchain : bcs.chain with
  | none => rw [hchain] at h; cases h
  | some chain =>
    cases htail : bcs.chainTail with
    | none => rw [hchain, htail] at h; cases h
    | some chainTail =>
      refine ⟨chain, chainTail, rfl, rfl, ?_⟩
      intro hshort
      rw [hchain, htail] at h
      simp only at h
      rw [if_neg (by unfold BCS_SAVE_BLOCKS_COUNT; omega)] at h
      cases h
      rfl

/-- What happens to the header set, the tail and the transactions inside
`bcsHandleBlockHeader_chained` when it returns. -/
theorem bcsHandleBlockHeader_chained_fields (placed : BREthereumBCS)
    (headerParent : Option BREthereumBlockHeader) (bcs' : BREthereumBCS)
    (chain : BREthereumBlockHeader) (hchain : placed.chain = some chain)
    (h : bcsHandleBlockHeader_chained placed headerParent = Outcome.returns bcs') :
    ∃ purged examined before after,
      purged.transactions = placed.transactions ∧
      purged.headers = placed.headers ∧
      purged.chainTail = placed.chainTail ∧
      bcsHandleBlockHeader_transactions purged.transactions purged =
        Outcome.returns examined ∧
      before.transactions = examined.transactions ∧
      before.headers = placed.headers ∧
      before.chainTail = placed.chainTail ∧
      bcsReclaimAndSaveBlocksIfAppropriate before = Outcome.returns after ∧
      bcs'.transactions = after.transactions ∧
      bcs'.headers = after.headers ∧
      bcs'.chainTail = after.chainTail ∧
      bcs'.chain = after.chain := by
  obtain ⟨purged, chain', hpurge, _, _, ptail, pheaders, ptxs, _⟩ :=
    bcsChainThenPurgeOrphans_returns placed chain hchain
  unfold bcsHandleBlockHeader_chained at h
  rw [hpurge] at h
  simp only [Outcome.andThen] at h
  cases hexamine : bcsHandleBlockHeader_transactions purged.transactions purged with
  | aborts => rw [hexamine] at h; simp at h
  | loops => rw [hexamine] at h; simp at h
  | returns examined =>
    rw [hexamine] at h
    simp only at h
    obtain ⟨_, e2, e3, _, _⟩ := bcsHandleBlockHeader_transactions_frame _ _ _ hexamine
    cases hlogs : bcsHandleBlockHeader_logs examined with
    | aborts => rw [hlogs] at h; simp at h
    | loops => rw [hlogs] at h; simp at h
    | returns logged =>
      rw [hlogs] at h
      simp only at h
      have hsame : logged = examined := by
        unfold bcsHandleBlockHeader_logs at hlogs
        split at hlogs
        · cases hlogs; rfl
        · cases hlogs
      rw [hsame] at h
      cases hneeded : bcsHandleBlockHeader_neededHeaders (examined.headers.length + 2) examined
          examined.chain headerParent [] with
      | aborts => rw [hneeded] at h; simp at h
      | loops => rw [hneeded] at h; simp at h
      | returns neededHeaders =>
        rw [hneeded] at h
        simp only at h
        obtain ⟨_, r2, r3, _, r5, _⟩ :=
          bcsHandleBlockHeader_requestBodies_frame neededHeaders examined
        cases hreclaim : bcsReclaimAndSaveBlocksIfAppropriate
            (bcsHandleBlockHeader_requestBodies neededHeaders examined) with
        | aborts => rw [hreclaim] at h; simp at h
        | loops => rw [hreclaim] at h; simp at h
        | returns reclaimed =>
          rw [hreclaim] at h
          simp only at h
          split at h
          · cases h
          · rename_i last hlast
            cases h
            obtain ⟨s1, _, s3, s4, s5, _, _, _, _⟩ :=
              bcsSyncContinue_frame reclaimed last.number
            exact ⟨purged, examined, bcsHandleBlockHeader_requestBodies neededHeaders examined,
              reclaimed, ptxs, pheaders, ptail, hexamine, r5, (r3.trans e3).trans pheaders,
              (r2.trans e2).trans ptail, hreclaim, s5, s1, s4, s3⟩

/-- What `bcsHandleBlockHeader` does to the header set, the tail and the transactions: it returns
the state it was given; or it adds the header to the header set and touches neither the tail nor
the transactions (the header becomes an orphan); or it goes through
`bcsHandleBlockHeader_chained` from a state with the header in the header set. -/
theorem bcsHandleBlockHeader_fields (bcs : BREthereumBCS) (header : BREthereumBlockHeader)
    (bcs' : BREthereumBCS) (chain : BREthereumBlockHeader) (hchain : bcs.chain = some chain)
    (hreturns : bcsHandleBlockHeader bcs header = Outcome.returns bcs') :
    bcs' = bcs ∨
    (bcs'.transactions = bcs.transactions ∧ bcs'.chainTail = bcs.chainTail ∧
      bcs'.headers = BRSetAdd blockHeaderGetHash bcs.headers header) ∨
    ∃ placed headerParent,
      bcsHandleBlockHeader_chained placed headerParent = Outcome.returns bcs' ∧
      placed.chain = some header ∧
      placed.transactions = bcs.transactions ∧
      placed.chainTail = bcs.chainTail ∧
      placed.headers = BRSetAdd blockHeaderGetHash bcs.headers header := by
  unfold bcsHandleBlockHeader at hreturns
  split at hreturns
  · cases hreturns; exact Or.inl rfl
  · split at hreturns
    · cases hreturns; exact Or.inl rfl
    · simp only at hreturns
      split at hreturns
      · cases hreturns; exact Or.inl rfl
      · unfold bcsHandleBlockHeader_place at hreturns
        simp only [hchain] at hreturns
        cases hget : BRSetGet blockHeaderGetHash bcs.headers header.parentHash with
        | none =>
          rw [hget] at hreturns
          simp only at hreturns
          cases hreturns
          exact Or.inr (Or.inl ⟨(bcsSyncFrom_frame _ _).2.2.2.2.1,
            (bcsSyncFrom_frame _ _).2.2.2.1, (bcsSyncFrom_frame _ _).1⟩)
        | some parent =>
          rw [hget] at hreturns
          simp only at hreturns
          split at hreturns
          · cases hreturns
            exact Or.inr (Or.inl ⟨(bcsSyncFrom_frame _ _).2.2.2.2.1,
              (bcsSyncFrom_frame _ _).2.2.2.1, (bcsSyncFrom_frame _ _).1⟩)
          · cases hextend : bcsHandleBlockHeader_extend
                { bcs with chain := some chain,
                           headers := BRSetAdd blockHeaderGetHash bcs.headers header }
                header parent with
            | aborts => rw [hextend] at hreturns; simp [Outcome.andThen] at hreturns
            | loops => rw [hextend] at hreturns; simp [Outcome.andThen] at hreturns
            | returns placed =>
              rw [hextend] at hreturns
              simp only [Outcome.andThen] at hreturns
              obtain ⟨f1, f2, _⟩ := bcsHandleBlockHeader_extend_frame _ _ _ _ hextend
              obtain ⟨g1, g2⟩ := bcsHandleBlockHeader_extend_headers _ _ _ _ hextend
              exact Or.inr (Or.inr ⟨placed, some parent, hreturns, f1, f2, g2, g1⟩)

/-! ## Included transactions and the header set -/

theorem bcsChainHasBlock_true (bcs : BREthereumBCS) (blockHash : BREthereumHash)
    (blockNumber : Nat)
    (h : bcsChainHasBlock bcs blockHash blockNumber = Outcome.returns true) :
    ((BRSetGet blockHeaderGetHash bcs.headers blockHash).isSome ||
      match bcs.chainTail with
      | some chainTail => decide (blockNumber < chainTail.number)
      | none => false) = true := by
  unfold bcsChainHasBlock at h
  cases htail : bcs.chainTail with
  | none => rw [htail] at h; cases h
  | some chainTail =>
    rw [htail] at h
    simp only at h ⊢
    by_cases hlow : blockNumber < chainTail.number
    · simp [hlow]
    · rw [if_neg hlow] at h
      cases hchain : bcs.chain with
      | none => rw [hchain] at h; cases h
      | some chain =>
        rw [hchain] at h
        simp only [Outcome.returns.injEq, Bool.and_eq_true] at h
        simp [h.2]

/-! ## The start of a sync -/

theorem foldl_orphan_minimum (orphans : List BREthereumBlockHeader) (start : Nat) :
    orphans.foldl (fun number orphan => if orphan.number < number then orphan.number else number)
        start ≤ start ∧
      (∀ orphan ∈ orphans,
        orphans.foldl
          (fun number orphan => if orphan.number < number then orphan.number else number)
          start ≤ orphan.number) ∧
      (orphans.foldl
          (fun number orphan => if orphan.number < number then orphan.number else number)
          start = start ∨
        ∃ orphan ∈ orphans, orphan.number =
          orphans.foldl
            (fun number orphan => if orphan.number < number then orphan.number else number)
            start) := by
  induction orphans generalizing start with
  | nil => exact ⟨le_refl _, fun _ h => absurd h (List.not_mem_nil _), Or.inl rfl⟩
  | cons first rest ih =>
    rw [List.foldl_cons]
    obtain ⟨hle, hall, hsome⟩ := ih (if first.number < start then first.number else start)
    have hstep : (if first.number < start then first.number else start) ≤ start ∧
        (if first.number < start then first.number else start) ≤ first.number := by
      split <;> omega
    refine ⟨le_trans hle hstep.1, ?_, ?_⟩
    · intro orphan hmem
      rcases List.mem_cons.mp hmem with heq | hin
      · rw [heq]
        exact le_trans hle hstep.2
      · exact hall orphan hin
    · rcases hsome with heq | ⟨orphan, hmem, hnumber⟩
      · by_cases hlt : first.number < start
        · rw [if_pos hlt] at heq
          right
          refine ⟨first, List.mem_cons_self _ _, ?_⟩
          rw [if_pos hlt]
          exact heq.symm
        · rw [if_neg hlt] at heq
          left
          rw [if_neg hlt]
          exact heq
      · exact Or.inr ⟨orphan, List.mem_cons_of_mem _ hmem, hnumber⟩

/-- C18, as stated, fails: the head is at 50 and the one orphan has the block number
`2 ^ 64 - 1`.  The orphan set is not empty and its minimum is above 51, yet
`bcsGetOrphanBlockNumberMinimum` answers `UINT64_MAX`, which `bcsSyncFrom` reads as "no orphan":
no sync field changes and nothing is requested.  The handler reaches this state when the header
arrives. -/
theorem bcsSyncFrom_last_number_starts_no_sync :
    exampleLastNumberOrphanState.orphans = [exampleLastNumber] ∧
      exampleLastNumberOrphanState.syncActive = false ∧
      exampleLastNumberOrphanState.chain = some exampleSavedFifty ∧
      exampleLastNumber.number = 18446744073709551615 ∧
      bcsGetOrphanBlockNumberMinimum exampleLastNumberOrphanState = 18446744073709551615 ∧
      bcsSyncFrom exampleLastNumberOrphanState 50 = exampleLastNumberOrphanState ∧
      exampleLastNumberOrphanState.effects = [] ∧
      bcsHandleBlockHeader exampleHeadFiftyState exampleLastNumber =
        Outcome.returns exampleLastNumberOrphanState := by
  decide

/-- C18, amended: the start of a sync.  `m` is the answer of `bcsGetOrphanBlockNumberMinimum`: at
most `2 ^ 64 - 1`, at most the number of every orphan, and the number of an orphan unless it is
`2 ^ 64 - 1`.  With `syncActive` false, `m` other than `2 ^ 64 - 1` and `c + 1 < m`,
`bcsSyncFrom (c)` sets `syncActive`, `syncTail = c + 1`, `syncHead = m` and
`syncNext = c + min (m - c - 1, 100)` and adds exactly one request, for `min (m - c - 1, 100)`
headers from `c + 1`; every other field is as before.  The same holds with the sums and the
difference taken on 64 bits when only `(c + 1) mod 2 ^ 64 < m`.  With `m = 2 ^ 64 - 1`, which an
empty orphan set gives, or `m` at most `(c + 1) mod 2 ^ 64`, it returns the state it was given. -/
theorem bcsSyncFrom_starts_sync (bcs : BREthereumBCS) (c : Nat)
    (hactive : bcs.syncActive = false) :
    bcsGetOrphanBlockNumberMinimum bcs ≤ UINT64_MAX ∧
    (∀ orphan ∈ bcs.orphans, bcsGetOrphanBlockNumberMinimum bcs ≤ orphan.number) ∧
    (bcsGetOrphanBlockNumberMinimum bcs ≠ UINT64_MAX →
      ∃ orphan ∈ bcs.orphans, orphan.number = bcsGetOrphanBlockNumberMinimum bcs) ∧
    (bcs.orphans = [] → bcsGetOrphanBlockNumberMinimum bcs = UINT64_MAX) ∧
    (bcsGetOrphanBlockNumberMinimum bcs ≠ UINT64_MAX →
      c + 1 < bcsGetOrphanBlockNumberMinimum bcs →
      bcsSyncFrom bcs c =
        { bcs with
          syncActive := true
          syncTail := c + 1
          syncHead := bcsGetOrphanBlockNumberMinimum bcs
          syncNext := c + min (bcsGetOrphanBlockNumberMinimum bcs - c - 1) 100
          effects := bcs.effects ++
            [BCSEffect.lesGetBlockHeaders (c + 1)
              (min (bcsGetOrphanBlockNumberMinimum bcs - c - 1) 100)] }) ∧
    (bcsGetOrphanBlockNumberMinimum bcs ≠ UINT64_MAX →
      u64Add c 1 < bcsGetOrphanBlockNumberMinimum bcs →
      bcsSyncFrom bcs c =
        { bcs with
          syncActive := true
          syncTail := u64Add c 1
          syncHead := bcsGetOrphanBlockNumberMinimum bcs
          syncNext :=
            u64Add c (min (u64Sub (bcsGetOrphanBlockNumberMinimum bcs) (u64Add c 1)) 100)
          effects := bcs.effects ++
            [BCSEffect.lesGetBlockHeaders (u64Add c 1)
              (min (u64Sub (bcsGetOrphanBlockNumberMinimum bcs) (u64Add c 1)) 100)] }) ∧
    ((bcsGetOrphanBlockNumberMinimum bcs = UINT64_MAX ∨
        bcsGetOrphanBlockNumberMinimum bcs ≤ u64Add c 1) →
      bcsSyncFrom bcs c = bcs) := by
  obtain ⟨hmax, hall, hsome⟩ := foldl_orphan_minimum bcs.orphans UINT64_MAX
  have hgeneral : bcsGetOrphanBlockNumberMinimum bcs ≠ UINT64_MAX →
      u64Add c 1 < bcsGetOrphanBlockNumberMinimum bcs →
      bcsSyncFrom bcs c =
        { bcs with
          syncActive := true
          syncTail := u64Add c 1
          syncHead := bcsGetOrphanBlockNumberMinimum bcs
          syncNext :=
            u64Add c (min (u64Sub (bcsGetOrphanBlockNumberMinimum bcs) (u64Add c 1)) 100)
          effects := bcs.effects ++
            [BCSEffect.lesGetBlockHeaders (u64Add c 1)
              (min (u64Sub (bcsGetOrphanBlockNumberMinimum bcs) (u64Add c 1)) 100)] } := by
    intro hne hlt
    unfold bcsSyncFrom
    rw [if_neg (by rw [hactive]; simp)]
    simp only
    rw [if_pos ⟨fun h => hne h.symm, hlt⟩]
    unfold bcsSyncSubmit BCS_SYNC_BLOCKS_COUNT
    by_cases hbig : u64Sub (bcsGetOrphanBlockNumberMinimum bcs) (u64Add c 1) > 100
    · rw [if_pos hbig, Nat.min_eq_right (Nat.le_of_lt hbig)]
    · rw [if_neg hbig, Nat.min_eq_left (Nat.le_of_not_lt hbig)]
  refine ⟨hmax, hall, ?_, ?_, ?_, hgeneral, ?_⟩
  · intro hne
    rcases hsome with heq | hfound
    · exact absurd heq hne
    · exact hfound
  · intro hempty
    unfold bcsGetOrphanBlockNumberMinimum
    rw [hempty]
    rfl
  · intro hne hlt
    have hm : bcsGetOrphanBlockNumberMinimum bcs ≤ 18446744073709551615 := hmax
    have hadd : u64Add c 1 = c + 1 := by
      unfold u64Add UINT64_MOD
      omega
    have hsub : u64Sub (bcsGetOrphanBlockNumberMinimum bcs) (c + 1) =
        bcsGetOrphanBlockNumberMinimum bcs - c - 1 := by
      unfold u64Sub UINT64_MOD
      omega
    have hnext : u64Add c (min (bcsGetOrphanBlockNumberMinimum bcs - c - 1) 100) =
        c + min (bcsGetOrphanBlockNumberMinimum bcs - c - 1) 100 := by
      unfold u64Add UINT64_MOD
      omega
    rw [hgeneral hne (by rw [hadd]; exact hlt), hadd, hsub, hnext]
  · intro hnot
    unfold bcsSyncFrom
    rw [if_neg (by rw [hactive]; simp)]
    simp only
    rw [if_neg]
    rintro ⟨hne, hlt⟩
    rcases hnot with heq | hle
    · exact hne heq.symm
    · omega

/-- The amended C18 in scenario S4: the head is at 50 and the announced header numbered 500 is the
one orphan.  `bcsSyncFrom (50)` sets `syncActive`, `syncTail = 51`, `syncHead = 500` and
`syncNext = 150` and requests 100 headers from 51; the handler does so when the header arrives
after the announce. -/
theorem bcsSyncFrom_starts_sync_witness :
    exampleAnnouncedOrphanState.syncActive = false ∧
      exampleAnnouncedOrphanState.orphans = [exampleAnnounced] ∧
      bcsGetOrphanBlockNumberMinimum exampleAnnouncedOrphanState = 500 ∧
      bcsSyncFrom exampleAnnouncedOrphanState 50 = exampleSyncingState ∧
      exampleSyncingState.syncActive = true ∧
      exampleSyncingState.syncTail = 51 ∧
      exampleSyncingState.syncHead = 500 ∧
      exampleSyncingState.syncNext = 150 ∧
      exampleSyncingState.effects = [BCSEffect.lesGetBlockHeaders 51 100] ∧
      bcsHandleBlockHeader exampleHeadFiftyState exampleAnnounced =
        Outcome.returns exampleSyncingState :=
  have hmin : bcsGetOrphanBlockNumberMinimum exampleAnnouncedOrphanState = 500 := by decide
  ⟨by decide, by decide, hmin,
    ((bcsSyncFrom_starts_sync exampleAnnouncedOrphanState 50 (by decide)).2.2.2.2.1
      (by decide) (by decide)).trans (by decide),
    by decide, by decide, by decide, by decide, by decide, by decide⟩

/-! ## The replay of the saved headers -/

/-- C20, failing inputs.  `bcsCreate` replays the saved headers in the order of the array: the sort
is a TODO (line 150), a header is skipped only when the next one has its block number (lines
155-157), and no parent hash is looked at (line 159).  With the saved headers 2 and 1, in this
order, `chainTail` is header 2 and `chain` is header 1: the tail has the larger number.  With two
headers numbered 1 that are not next to each other, both are inserted.  With the saved headers 1
and 3, both are kept and the parent hash of header 3 is not the hash of header 1.  Only when the
two headers with one number are next to each other is the last one kept alone. -/
theorem bcsCreate_replays_in_array_order :
    exampleUnsortedState.chainTail = some (exampleLine 2) ∧
      exampleUnsortedState.chain = some (exampleLine 1) ∧
      (exampleLine 1).number < (exampleLine 2).number ∧
      exampleRepeatedNumberState.headers =
        [exampleGenesis, exampleLine 1, exampleLine 2, exampleOtherOne] ∧
      (exampleLine 1).number = exampleOtherOne.number ∧
      exampleLine 1 ≠ exampleOtherOne ∧
      exampleGapState.headers = [exampleGenesis, exampleLine 1, exampleLine 3] ∧
      exampleGapState.chainTail = some (exampleLine 1) ∧
      exampleGapState.chain = some (exampleLine 3) ∧
      (exampleLine 3).parentHash ≠ (exampleLine 1).hash ∧
      exampleAdjacentNumberState.headers = [exampleGenesis, exampleOtherOne] ∧
      exampleAdjacentNumberState.chainTail = some exampleOtherOne ∧
      exampleAdjacentNumberState.chain = some exampleOtherOne := by
  decide

/-! ## Reclamation -/

theorem bcsReclaimAndSaveBlocksIfAppropriate_walk_succ (fuel : Nat) (bcs : BREthereumBCS)
    (header : BREthereumBlockHeader) (reclaimFromBlockNumber : Nat) :
    bcsReclaimAndSaveBlocksIfAppropriate_walk (fuel + 1) bcs (some header)
        reclaimFromBlockNumber =
      bcsReclaimAndSaveBlocksIfAppropriate_walk fuel
        (bcsReclaimAndSaveBlocksIfAppropriate_round reclaimFromBlockNumber bcs header)
        (BRSetGet blockHeaderGetHash
          (bcsReclaimAndSaveBlocksIfAppropriate_round reclaimFromBlockNumber bcs header).headers
          header.parentHash)
        reclaimFromBlockNumber := by
  rw [bcsReclaimAndSaveBlocksIfAppropriate_walk]
  rfl

/-- A lookup in the header set after one round of the reclamation walk. -/
theorem bcsReclaimAndSaveBlocksIfAppropriate_round_get (reclaimFromBlockNumber : Nat)
    (bcs : BREthereumBCS) (header : BREthereumBlockHeader) (hash : BREthereumHash) :
    BRSetGet blockHeaderGetHash
        (bcsReclaimAndSaveBlocksIfAppropriate_round reclaimFromBlockNumber bcs header).headers
        hash =
      if header.number < reclaimFromBlockNumber ∧ header.hash = hash then none
      else BRSetGet blockHeaderGetHash bcs.headers hash := by
  unfold bcsReclaimAndSaveBlocksIfAppropriate_round
  by_cases heq : header.number = reclaimFromBlockNumber
  · rw [if_pos heq, if_neg]
    omega
  · rw [if_neg heq]
    by_cases hlt : header.number < reclaimFromBlockNumber
    · rw [if_pos hlt]
      simp only [bcsReclaimBlock, BRSetGet_BRSetRemove, hlt, true_and]
    · rw [if_neg hlt, if_neg]
      exact fun h => hlt h.1

/-- The reclamation walk along a path of parents that ends: it returns what the rounds leave, one
round per header of the path. -/
theorem bcsReclaimAndSaveBlocksIfAppropriate_walk_path (reclaimFromBlockNumber : Nat)
    (stored : List BREthereumBlockHeader) (rest : List BREthereumBlockHeader) :
    ∀ (header : BREthereumBlockHeader) (bcs : BREthereumBCS) (fuel : Nat),
      parentWalkEnds stored header rest →
      (∀ member ∈ header :: rest,
        BRSetGet blockHeaderGetHash bcs.headers member.parentHash =
          BRSetGet blockHeaderGetHash stored member.parentHash) →
      (header :: rest).Pairwise (fun above below => below.parentHash ≠ above.hash) →
      (∀ member ∈ header :: rest, member.parentHash ≠ member.hash) →
      rest.length + 2 ≤ fuel →
      bcsReclaimAndSaveBlocksIfAppropriate_walk fuel bcs (some header) reclaimFromBlockNumber =
        Outcome.returns
          ((header :: rest).foldl
            (bcsReclaimAndSaveBlocksIfAppropriate_round reclaimFromBlockNumber) bcs) := by
  induction rest with
  | nil =>
    intro header bcs fuel hends hagree _ hself hfuel
    obtain ⟨fuel, rfl⟩ : ∃ f, fuel = f + 2 := ⟨fuel - 2, by simp at hfuel; omega⟩
    rw [bcsReclaimAndSaveBlocksIfAppropriate_walk_succ,
      bcsReclaimAndSaveBlocksIfAppropriate_round_get, if_neg, hagree header (by simp)]
    · cases hends with
      | last _ hparent =>
        rw [hparent, bcsReclaimAndSaveBlocksIfAppropriate_walk]
        rfl
    · exact fun h => hself header (by simp) h.2.symm
  | cons parent rest ih =>
    intro header bcs fuel hends hagree hpair hself hfuel
    obtain ⟨fuel, rfl⟩ : ∃ f, fuel = f + 1 := ⟨fuel - 1, by simp at hfuel; omega⟩
    obtain ⟨hparent, hrest⟩ : BRSetGet blockHeaderGetHash stored header.parentHash =
        some parent ∧ parentWalkEnds stored parent rest := by
      cases hends with
      | step _ _ _ hparent hrest => exact ⟨hparent, hrest⟩
    rw [bcsReclaimAndSaveBlocksIfAppropriate_walk_succ,
      bcsReclaimAndSaveBlocksIfAppropriate_round_get, if_neg, hagree header (by simp), hparent]
    · rw [List.foldl_cons]
      apply ih parent _ fuel hrest
      · intro member hmem
        rw [bcsReclaimAndSaveBlocksIfAppropriate_round_get, if_neg]
        · exact hagree member (List.mem_cons_of_mem _ hmem)
        · intro h
          exact (List.rel_of_pairwise_cons hpair hmem) h.2.symm
      · exact (List.pairwise_cons.mp hpair).2
      · exact fun member hmem => hself member (List.mem_cons_of_mem _ hmem)
      · simp only [List.length_cons] at hfuel ⊢
        omega
    · exact fun h => hself header (by simp) h.2.symm

/-- The fields that the rounds of the reclamation walk leave alone. -/
theorem bcsReclaimAndSaveBlocksIfAppropriate_rounds_frame (reclaimFromBlockNumber : Nat)
    (path : List BREthereumBlockHeader) (bcs : BREthereumBCS) :
    (path.foldl (bcsReclaimAndSaveBlocksIfAppropriate_round reclaimFromBlockNumber)
        bcs).chain = bcs.chain ∧
    (path.foldl (bcsReclaimAndSaveBlocksIfAppropriate_round reclaimFromBlockNumber)
        bcs).orphans = bcs.orphans ∧
    (path.foldl (bcsReclaimAndSaveBlocksIfAppropriate_round reclaimFromBlockNumber)
        bcs).transactions = bcs.transactions ∧
    (path.foldl (bcsReclaimAndSaveBlocksIfAppropriate_round reclaimFromBlockNumber)
        bcs).pendingTransactions = bcs.pendingTransactions ∧
    (path.foldl (bcsReclaimAndSaveBlocksIfAppropriate_round reclaimFromBlockNumber)
        bcs).effects = bcs.effects ∧
    (path.foldl (bcsReclaimAndSaveBlocksIfAppropriate_round reclaimFromBlockNumber)
        bcs).activeBlocks = bcs.activeBlocks := by
  induction path generalizing bcs with
  | nil => exact ⟨rfl, rfl, rfl, rfl, rfl, rfl⟩
  | cons header rest ih =>
    rw [List.foldl_cons]
    obtain ⟨h1, h2, h3, h4, h5, h6⟩ :=
      ih (bcsReclaimAndSaveBlocksIfAppropriate_round reclaimFromBlockNumber bcs header)
    have hround :
        (bcsReclaimAndSaveBlocksIfAppropriate_round reclaimFromBlockNumber bcs header).chain =
          bcs.chain ∧
        (bcsReclaimAndSaveBlocksIfAppropriate_round reclaimFromBlockNumber bcs header).orphans =
          bcs.orphans ∧
        (bcsReclaimAndSaveBlocksIfAppropriate_round reclaimFromBlockNumber bcs
          header).transactions = bcs.transactions ∧
        (bcsReclaimAndSaveBlocksIfAppropriate_round reclaimFromBlockNumber bcs
          header).pendingTransactions = bcs.pendingTransactions ∧
        (bcsReclaimAndSaveBlocksIfAppropriate_round reclaimFromBlockNumber bcs
          header).effects = bcs.effects ∧
        (bcsReclaimAndSaveBlocksIfAppropriate_round reclaimFromBlockNumber bcs
          header).activeBlocks = bcs.activeBlocks := by
      unfold bcsReclaimAndSaveBlocksIfAppropriate_round
      split
      · exact ⟨rfl, rfl, rfl, rfl, rfl, rfl⟩
      · split <;> exact ⟨rfl, rfl, rfl, rfl, rfl, rfl⟩
    exact ⟨h1.trans hround.1, h2.trans hround.2.1, h3.trans hround.2.2.1,
      h4.trans hround.2.2.2.1, h5.trans hround.2.2.2.2.1, h6.trans hround.2.2.2.2.2⟩

/-- A lookup in the header set after the rounds of the reclamation walk: the hashes of the headers
of the path with a number below `reclaimFromBlockNumber` are gone, the others are as before. -/
theorem bcsReclaimAndSaveBlocksIfAppropriate_rounds_get (reclaimFromBlockNumber : Nat)
    (path : List BREthereumBlockHeader) (bcs : BREthereumBCS) (hash : BREthereumHash) :
    BRSetGet blockHeaderGetHash
        (path.foldl (bcsReclaimAndSaveBlocksIfAppropriate_round reclaimFromBlockNumber)
          bcs).headers hash =
      if ∃ member ∈ path, member.number < reclaimFromBlockNumber ∧ member.hash = hash then
        none
      else BRSetGet blockHeaderGetHash bcs.headers hash := by
  induction path generalizing bcs with
  | nil => simp
  | cons header rest ih =>
    rw [List.foldl_cons, ih, bcsReclaimAndSaveBlocksIfAppropriate_round_get]
    by_cases hrest :
        ∃ member ∈ rest, member.number < reclaimFromBlockNumber ∧ member.hash = hash
    · rw [if_pos hrest, if_pos]
      obtain ⟨member, hmem, hm⟩ := hrest
      exact ⟨member, List.mem_cons_of_mem _ hmem, hm⟩
    · rw [if_neg hrest]
      by_cases hfirst : header.number < reclaimFromBlockNumber ∧ header.hash = hash
      · rw [if_pos hfirst, if_pos]
        exact ⟨header, List.mem_cons_self _ _, hfirst⟩
      · rw [if_neg hfirst, if_neg]
        rintro ⟨member, hmem, hm⟩
        rcases List.mem_cons.mp hmem with heq | hin
        · exact hfirst (heq ▸ hm)
        · exact hrest ⟨member, hin, hm⟩

/-- The tail after the rounds of the reclamation walk over a path with pairwise different block
numbers: the header of the path numbered `reclaimFromBlockNumber`, or the old tail if there is
none. -/
theorem bcsReclaimAndSaveBlocksIfAppropriate_rounds_tail (reclaimFromBlockNumber : Nat)
    (path : List BREthereumBlockHeader) (bcs : BREthereumBCS)
    (hnumbers : path.Pairwise (fun above below => below.number < above.number)) :
    (∀ member ∈ path, member.number = reclaimFromBlockNumber →
      (path.foldl (bcsReclaimAndSaveBlocksIfAppropriate_round reclaimFromBlockNumber)
        bcs).chainTail = some member) ∧
    ((∀ member ∈ path, member.number ≠ reclaimFromBlockNumber) →
      (path.foldl (bcsReclaimAndSaveBlocksIfAppropriate_round reclaimFromBlockNumber)
        bcs).chainTail = bcs.chainTail) := by
  induction path generalizing bcs with
  | nil => exact ⟨fun _ h => absurd h (List.not_mem_nil _), fun _ => rfl⟩
  | cons header rest ih =>
    rw [List.foldl_cons]
    obtain ⟨hfirst, hrest⟩ := List.pairwise_cons.mp hnumbers
    obtain ⟨hfound, hnone⟩ :=
      ih (bcsReclaimAndSaveBlocksIfAppropriate_round reclaimFromBlockNumber bcs header) hrest
    constructor
    · intro member hmem hnumber
      rcases List.mem_cons.mp hmem with heq | hin
      · subst heq
        rw [hnone]
        · unfold bcsReclaimAndSaveBlocksIfAppropriate_round
          rw [if_pos hnumber]
        · intro other hother
          have := hfirst other hother
          omega
      · exact hfound member hin hnumber
    · intro hall
      rw [hnone (fun member hmem => hall member (List.mem_cons_of_mem _ hmem))]
      unfold bcsReclaimAndSaveBlocksIfAppropriate_round
      rw [if_neg (hall header (List.mem_cons_self _ _))]
      split <;> rfl

theorem BRSetGet_some_stored (headers : List BREthereumBlockHeader) (hash : BREthereumHash)
    (header : BREthereumBlockHeader)
    (h : BRSetGet blockHeaderGetHash headers hash = some header) :
    BRSetGet blockHeaderGetHash headers header.hash = some header := by
  have hkey : header.hash = hash := BRSetGet_some_key blockHeaderGetHash headers hash header h
  rw [hkey]
  exact h

theorem bcsNumbersFollowParents_iff (bcs : BREthereumBCS) :
    bcsNumbersFollowParents bcs = true ↔
      ∀ header ∈ bcs.headers, ∀ parent,
        BRSetGet blockHeaderGetHash bcs.headers header.parentHash = some parent →
          header.number = parent.number + 1 := by
  unfold bcsNumbersFollowParents
  rw [List.all_eq_true]
  constructor
  · intro h header hmem parent hget
    have := h header hmem
    rw [hget] at this
    simpa using this
  · intro h header hmem
    cases hget : BRSetGet blockHeaderGetHash bcs.headers header.parentHash with
    | none => rfl
    | some parent => simpa using h header hmem parent hget

/-- In a header set in which the numbers follow the parents, the walk over parent hashes from a
stored header ends, and the numbers on it go down by one at each step. -/
theorem parentWalkEnds_exists (stored : List BREthereumBlockHeader)
    (hfollow : ∀ header ∈ stored, ∀ parent,
      BRSetGet blockHeaderGetHash stored header.parentHash = some parent →
        header.number = parent.number + 1) :
    ∀ (n : Nat) (header : BREthereumBlockHeader), header.number = n → header ∈ stored →
      ∃ rest, parentWalkEnds stored header rest ∧
        List.Chain (fun above below => above.number = below.number + 1) header rest ∧
        ∀ member ∈ rest, BRSetGet blockHeaderGetHash stored member.hash = some member := by
  intro n
  induction n with
  | zero =>
    intro header hnumber hmem
    cases hget : BRSetGet blockHeaderGetHash stored header.parentHash with
    | none =>
      exact ⟨[], parentWalkEnds.last _ hget, List.Chain.nil,
        fun _ h => absurd h (List.not_mem_nil _)⟩
    | some parent =>
      have := hfollow header hmem parent hget
      omega
  | succ n ih =>
    intro header hnumber hmem
    cases hget : BRSetGet blockHeaderGetHash stored header.parentHash with
    | none =>
      exact ⟨[], parentWalkEnds.last _ hget, List.Chain.nil,
        fun _ h => absurd h (List.not_mem_nil _)⟩
    | some parent =>
      have hparent := hfollow header hmem parent hget
      obtain ⟨rest, hends, hchain, hstored⟩ := ih parent (by omega)
        (BRSetGet_some_mem blockHeaderGetHash stored _ _ hget)
      refine ⟨parent :: rest, parentWalkEnds.step _ _ _ hget hends,
        List.Chain.cons hparent hchain, ?_⟩
      intro member hin
      rcases List.mem_cons.mp hin with heq | hin'
      · rw [heq]
        exact BRSetGet_some_stored stored _ _ hget
      · exact hstored member hin'

theorem chain_numbers_pairwise (rest : List BREthereumBlockHeader) :
    ∀ header : BREthereumBlockHeader,
      List.Chain (fun above below => above.number = below.number + 1) header rest →
      (header :: rest).Pairwise (fun above below => below.number < above.number) := by
  induction rest with
  | nil => intro header _; simp
  | cons parent rest ih =>
    intro header hchain
    obtain ⟨hstep, hrest⟩ := List.chain_cons.mp hchain
    have hpair := ih parent hrest
    refine List.pairwise_cons.mpr ⟨?_, hpair⟩
    intro member hmem
    rcases List.mem_cons.mp hmem with heq | hin
    · rw [heq]; omega
    · have := List.rel_of_pairwise_cons hpair hin
      omega

theorem chain_numbers_between (rest : List BREthereumBlockHeader) :
    ∀ header : BREthereumBlockHeader,
      List.Chain (fun above below => above.number = below.number + 1) header rest →
      ∀ member ∈ header :: rest, ∀ n, member.number ≤ n → n ≤ header.number →
        ∃ found ∈ header :: rest, found.number = n := by
  induction rest with
  | nil =>
    intro header _ member hmem n hlow hhigh
    rw [List.mem_singleton] at hmem
    subst hmem
    exact ⟨member, List.mem_singleton.mpr rfl, by omega⟩
  | cons parent rest ih =>
    intro header hchain member hmem n hlow hhigh
    obtain ⟨hstep, hrest⟩ := List.chain_cons.mp hchain
    by_cases htop : n = header.number
    · exact ⟨header, List.mem_cons_self _ _, htop.symm⟩
    · rcases List.mem_cons.mp hmem with heq | hin
      · rw [heq] at hlow
        omega
      · obtain ⟨found, hfound, hnumber⟩ := ih parent hrest member hin n hlow (by omega)
        exact ⟨found, List.mem_cons_of_mem _ hfound, hnumber⟩

/-- The headers of a walk from `start` to `stop` are the first headers of the walk from `start`
that goes on until a parent is missing. -/
theorem parentWalk_initial_of_ends (stored : List BREthereumBlockHeader) (fuel : Nat) :
    ∀ (start stop : BREthereumBlockHeader) (path rest : List BREthereumBlockHeader),
      parentWalk stored fuel start stop = some path →
      parentWalkEnds stored start rest →
      ∃ below, start :: rest = path ++ stop :: below := by
  induction fuel with
  | zero =>
    intro start stop path rest h _
    simp [parentWalk] at h
  | succ fuel ih =>
    intro start stop path rest h hends
    rw [parentWalk] at h
    by_cases hstop : stop = start
    · rw [if_pos hstop] at h
      cases h
      exact ⟨rest, by rw [hstop]; rfl⟩
    · rw [if_neg hstop] at h
      cases hget : BRSetGet blockHeaderGetHash stored start.parentHash with
      | none => rw [hget] at h; simp at h
      | some parent =>
        rw [hget] at h
        simp only at h
        cases hwalk : parentWalk stored fuel parent stop with
        | none => rw [hwalk] at h; simp at h
        | some path' =>
          rw [hwalk] at h
          cases h
          cases hends with
          | last _ hparent =>
            rw [hget] at hparent
            cases hparent
          | step _ next rest' hparent hends' =>
            rw [hget] at hparent
            cases hparent
            obtain ⟨below, hbelow⟩ := ih parent stop path' rest' hwalk hends'
            exact ⟨below, by rw [hbelow]; rfl⟩

/-- C19, amended: reclamation.  In an engine with a head and a tail,
`bcsReclaimAndSaveBlocksIfAppropriate` returns the state it was given when the head is less than 600
block numbers above the tail (the difference as the source computes it, on 64 bits).  When the head
is 600 or more above the tail, the walk over parent hashes from the head reaches the tail, the head
is stored in the header set and every stored header with a stored parent has the parent's number
plus one, it returns a state in which `chainTail` is the header of the chain numbered
`chain.number - 300`, every header of the chain with a smaller number is gone from the header set,
every header of the chain with that number or a larger one is stored as before, and the head, the
orphans, the transactions, the pending list and the list of calls are unchanged. -/
theorem bcsReclaimAndSaveBlocksIfAppropriate_reclaims (bcs : BREthereumBCS)
    (chain chainTail : BREthereumBlockHeader)
    (hchain : bcs.chain = some chain) (htail : bcs.chainTail = some chainTail) :
    (u64Sub chain.number chainTail.number < 600 →
      bcsReclaimAndSaveBlocksIfAppropriate bcs = Outcome.returns bcs) ∧
    (∀ members,
      600 ≤ u64Sub chain.number chainTail.number →
      chain.number < UINT64_MOD →
      bcsChainMembers bcs = some members →
      bcsNumbersFollowParents bcs = true →
      BRSetGet blockHeaderGetHash bcs.headers chain.hash = some chain →
      ∃ bcs' newTail,
        bcsReclaimAndSaveBlocksIfAppropriate bcs = Outcome.returns bcs' ∧
        bcs'.chainTail = some newTail ∧
        newTail ∈ members ∧
        newTail.number = chain.number - 300 ∧
        (∀ member ∈ members, member.number < chain.number - 300 →
          BRSetGet blockHeaderGetHash bcs'.headers member.hash = none) ∧
        (∀ member ∈ members, chain.number - 300 ≤ member.number →
          BRSetGet blockHeaderGetHash bcs'.headers member.hash = some member) ∧
        bcs'.chain = some chain ∧
        bcs'.orphans = bcs.orphans ∧
        bcs'.transactions = bcs.transactions ∧
        bcs'.pendingTransactions = bcs.pendingTransactions ∧
        bcs'.effects = bcs.effects) := by
  constructor
  · intro hshort
    unfold bcsReclaimAndSaveBlocksIfAppropriate
    rw [hchain, htail]
    simp only
    rw [if_neg]
    unfold BCS_SAVE_BLOCKS_COUNT
    omega
  · intro members hlong hnumber hmembers hfollows hstored
    have hfollow := (bcsNumbersFollowParents_iff bcs).mp hfollows
    have hchainMem : chain ∈ bcs.headers := BRSetGet_some_mem _ _ _ _ hstored
    obtain ⟨rest, hends, hnumbers, hrestStored⟩ :=
      parentWalkEnds_exists bcs.headers hfollow chain.number chain rfl hchainMem
    have hpair := chain_numbers_pairwise rest chain hnumbers
    have hallStored : ∀ member ∈ chain :: rest,
        BRSetGet blockHeaderGetHash bcs.headers member.hash = some member := by
      intro member hmem
      rcases List.mem_cons.mp hmem with heq | hin
      · rw [heq]; exact hstored
      · exact hrestStored member hin
    -- the members of the chain are the first headers of the path
    unfold bcsChainMembers at hmembers
    rw [hchain, htail] at hmembers
    simp only at hmembers
    cases hwalk : parentWalk bcs.headers (bcs.headers.length + 2) chain chainTail with
    | none => rw [hwalk] at hmembers; simp at hmembers
    | some path =>
      rw [hwalk] at hmembers
      simp only [Option.some.injEq] at hmembers
      obtain ⟨below, hsplit⟩ :=
        parentWalk_initial_of_ends bcs.headers _ chain chainTail path rest hwalk hends
      have hmemPath : ∀ member, member ∈ members → member ∈ chain :: rest := by
        intro member hmem
        rw [← hmembers] at hmem
        rw [hsplit]
        rcases List.mem_append.mp hmem with h | h
        · exact List.mem_append_left _ h
        · rw [List.mem_singleton] at h
          rw [h]
          exact List.mem_append_right _ (List.mem_cons_self _ _)
      have htailMem : chainTail ∈ chain :: rest := by
        rw [hsplit]
        exact List.mem_append_right _ (List.mem_cons_self _ _)
      have htailLe : chainTail.number ≤ chain.number := by
        rcases List.mem_cons.mp htailMem with heq | hin
        · rw [heq]
        · exact Nat.le_of_lt (List.rel_of_pairwise_cons hpair hin)
      have hdiff : u64Sub chain.number chainTail.number = chain.number - chainTail.number := by
        unfold u64Sub
        unfold UINT64_MOD at hnumber ⊢
        omega
      rw [hdiff] at hlong
      have hfrom : u64Sub chain.number BCS_SAVE_BLOCKS_COUNT = chain.number - 300 := by
        unfold u64Sub BCS_SAVE_BLOCKS_COUNT
        unfold UINT64_MOD at hnumber ⊢
        omega
      -- the header numbered `chain.number - 300` is on the chain
      obtain ⟨newTail, hnewMem, hnewNumber⟩ :=
        chain_numbers_between rest chain hnumbers chainTail htailMem (chain.number - 300)
          (by omega) (by omega)
      have hnewMember : newTail ∈ members := by
        rw [← hmembers]
        rw [hsplit] at hnewMem hpair
        rcases List.mem_append.mp hnewMem with h | h
        · exact List.mem_append_left _ h
        · rcases List.mem_cons.mp h with heq | hin
          · rw [heq]; simp
          · exfalso
            have := List.rel_of_pairwise_cons (List.pairwise_append.mp hpair).2.1 hin
            omega
      -- the walk is the sequence of its rounds
      have hcycle : (chain :: rest).Pairwise
          (fun above below => below.parentHash ≠ above.hash) := by
        apply List.Pairwise.imp_of_mem _ hpair
        intro above below habove hbelow hlt heq
        have hget : BRSetGet blockHeaderGetHash bcs.headers below.parentHash = some above := by
          rw [heq]
          exact hallStored above habove
        have := hfollow below (BRSetGet_some_mem _ _ _ _ (hallStored below hbelow)) above hget
        omega
      have hself : ∀ member ∈ chain :: rest, member.parentHash ≠ member.hash := by
        intro member hmem heq
        have hget : BRSetGet blockHeaderGetHash bcs.headers member.parentHash = some member := by
          rw [heq]
          exact hallStored member hmem
        have := hfollow member (BRSetGet_some_mem _ _ _ _ (hallStored member hmem)) member hget
        omega
      have hlength : (chain :: rest).length ≤ bcs.headers.length := by
        have hnodup : (chain :: rest).Nodup := by
          apply List.Pairwise.imp _ hpair
          intro above below hlt heq
          rw [heq] at hlt
          omega
        have hsub : chain :: rest ⊆ bcs.headers := fun member hmem =>
          BRSetGet_some_mem _ _ _ _ (hallStored member hmem)
        exact (List.Nodup.subperm hnodup hsub).length_le
      have hwalked := bcsReclaimAndSaveBlocksIfAppropriate_walk_path (chain.number - 300)
        bcs.headers rest chain bcs (2 * bcs.headers.length + 2) hends (fun _ _ => rfl) hcycle
        hself (by simp only [List.length_cons] at hlength; omega)
      obtain ⟨f1, f2, f3, f4, f5, _⟩ :=
        bcsReclaimAndSaveBlocksIfAppropriate_rounds_frame (chain.number - 300) (chain :: rest)
          bcs
      refine ⟨_, newTail, ?_, ?_, hnewMember, hnewNumber, ?_, ?_, f1.trans hchain, f2, f3, f4,
        f5⟩
      · unfold bcsReclaimAndSaveBlocksIfAppropriate
        rw [hchain, htail]
        simp only
        rw [if_pos (by rw [hdiff]; unfold BCS_SAVE_BLOCKS_COUNT; omega), hfrom]
        exact hwalked
      · exact (bcsReclaimAndSaveBlocksIfAppropriate_rounds_tail (chain.number - 300)
          (chain :: rest) bcs hpair).1 newTail hnewMem hnewNumber
      · intro member hmem hlow
        rw [bcsReclaimAndSaveBlocksIfAppropriate_rounds_get, if_pos]
        exact ⟨member, hmemPath member hmem, hlow, rfl⟩
      · intro member hmem hhigh
        rw [bcsReclaimAndSaveBlocksIfAppropriate_rounds_get, if_neg]
        · exact hallStored member (hmemPath member hmem)
        · rintro ⟨other, hother, hlow, hhash⟩
          have h1 := hallStored other hother
          have h2 := hallStored member (hmemPath member hmem)
          rw [hhash, h2] at h1
          cases h1
          omega

/-! ## Reclamation on the line of 601 headers -/

theorem exampleLine_fields (n : Nat) :
    (exampleLine n).hash = 1000 + n ∧ (exampleLine n).parentHash = 1000 + n - 1 ∧
      (exampleLine n).number = n :=
  ⟨rfl, rfl, rfl⟩

theorem BRSetGet_exampleLineHeaders (count : Nat) (hash : Nat) :
    BRSetGet blockHeaderGetHash (exampleLineHeaders count) hash =
      if 1000 ≤ hash ∧ hash < 1000 + count then some (exampleLine (hash - 1000)) else none := by
  induction count with
  | zero =>
    have hnot : ¬ (1000 ≤ hash ∧ hash < 1000 + 0) := by omega
    rw [if_neg hnot]
    rfl
  | succ count ih =>
    unfold exampleLineHeaders BRSetGet at ih ⊢
    rw [List.range_succ, List.map_append, List.find?_append, ih]
    by_cases hin : 1000 ≤ hash ∧ hash < 1000 + count
    · have hin' : 1000 ≤ hash ∧ hash < 1000 + (count + 1) := by omega
      rw [if_pos hin, if_pos hin']
      rfl
    · rw [if_neg hin]
      by_cases hlast : hash = 1000 + count
      · have hin' : 1000 ≤ hash ∧ hash < 1000 + (count + 1) := by omega
        rw [if_pos hin']
        subst hlast
        have hsub : 1000 + count - 1000 = count := by omega
        rw [hsub]
        simp only [List.map_cons, List.map_nil, Option.none_or]
        rw [List.find?_cons_of_pos]
        simp only [blockHeaderGetHash, (exampleLine_fields count).1, beq_self_eq_true]
      · have hin' : ¬ (1000 ≤ hash ∧ hash < 1000 + (count + 1)) := by omega
        rw [if_neg hin']
        simp only [List.map_cons, List.map_nil, Option.none_or]
        have hne : ¬ ((blockHeaderGetHash (exampleLine count) == hash) = true) := by
          rw [beq_iff_eq]
          show ¬ ((1000 + count : Nat) = hash)
          omega
        rw [List.find?_cons_of_neg, List.find?_nil]
        exact hne

theorem BRSetGet_exampleLine (stored : List BREthereumBlockHeader) (count : Nat)
    (hstored : stored = exampleLineHeaders count ∨
      stored = exampleBelow :: exampleLineHeaders count)
    (n : Nat) (hn : n < count) :
    BRSetGet blockHeaderGetHash stored (1000 + n) = some (exampleLine n) := by
  have hline : BRSetGet blockHeaderGetHash (exampleLineHeaders count) (1000 + n) =
      some (exampleLine n) := by
    have hin : 1000 ≤ 1000 + n ∧ 1000 + n < 1000 + count := by omega
    have hsub : 1000 + n - 1000 = n := by omega
    rw [BRSetGet_exampleLineHeaders, if_pos hin, hsub]
  rcases hstored with h | h
  · rw [h]; exact hline
  · rw [h]
    unfold BRSetGet at hline ⊢
    have hne : ¬ ((blockHeaderGetHash exampleBelow == 1000 + n) = true) := by
      rw [beq_iff_eq]
      show ¬ ((999 : Nat) = 1000 + n)
      omega
    rw [List.find?_cons_of_neg]
    · exact hline
    · exact hne

theorem exampleLine_ne (n m : Nat) (h : n ≠ m) : exampleLine n ≠ exampleLine m := by
  intro heq
  have : (exampleLine n).number = (exampleLine m).number := by rw [heq]
  exact h this

/-- The walk over parent hashes from header `n` of the line down to header 0. -/
theorem parentWalk_exampleLine (stored : List BREthereumBlockHeader) (count : Nat)
    (hstored : stored = exampleLineHeaders count ∨
      stored = exampleBelow :: exampleLineHeaders count) :
    ∀ (n fuel : Nat), n < count → n + 1 ≤ fuel →
      parentWalk stored fuel (exampleLine n) (exampleLine 0) =
        some ((List.range n).reverse.map (fun i => exampleLine (i + 1))) := by
  intro n
  induction n with
  | zero =>
    intro fuel _ hfuel
    obtain ⟨fuel, rfl⟩ : ∃ f, fuel = f + 1 := ⟨fuel - 1, by omega⟩
    rw [parentWalk, if_pos rfl]
    rfl
  | succ n ih =>
    intro fuel hn hfuel
    obtain ⟨fuel, rfl⟩ : ∃ f, fuel = f + 1 := ⟨fuel - 1, by omega⟩
    rw [parentWalk, if_neg (exampleLine_ne 0 (n + 1) (by omega))]
    have hparent : (exampleLine (n + 1)).parentHash = 1000 + n := by
      show (1000 + (n + 1) - 1 : Nat) = 1000 + n
      omega
    rw [hparent, BRSetGet_exampleLine stored count hstored n (by omega)]
    simp only
    have hn' : n < count := by omega
    have hfuel' : n + 1 ≤ fuel := by omega
    rw [ih fuel hn' hfuel', List.range_succ, List.reverse_append]
    rfl

theorem bcsChainMembers_exampleLine (bcs : BREthereumBCS)
    (hstored : bcs.headers = exampleLineHeaders 601 ∨
      bcs.headers = exampleBelow :: exampleLineHeaders 601)
    (hchain : bcs.chain = some (exampleLine 600))
    (htail : bcs.chainTail = some (exampleLine 0)) :
    bcsChainMembers bcs = some (exampleLineMembers 600) ∧ bcsChainShape bcs = true := by
  have hfuel : 600 + 1 ≤ bcs.headers.length + 2 := by
    rcases hstored with h | h <;> rw [h] <;>
      simp only [exampleLineHeaders, List.length_cons, List.length_map, List.length_range] <;>
      omega
  have hwalk := parentWalk_exampleLine bcs.headers 601 hstored 600 (bcs.headers.length + 2)
    (by omega) hfuel
  unfold bcsChainMembers bcsChainShape
  rw [hchain, htail]
  simp only [hwalk]
  constructor
  · rfl
  · simp only [List.length_map, List.length_reverse, List.length_range,
      (exampleLine_fields 0).2.2, (exampleLine_fields 600).2.2]
    rfl

theorem mem_exampleLineMembers (count : Nat) (member : BREthereumBlockHeader) :
    member ∈ exampleLineMembers count ↔ ∃ n, n ≤ count ∧ member = exampleLine n := by
  unfold exampleLineMembers
  simp only [List.mem_append, List.mem_map, List.mem_reverse, List.mem_range,
    List.mem_singleton]
  constructor
  · rintro (⟨i, hi, heq⟩ | heq)
    · exact ⟨i + 1, by omega, heq.symm⟩
    · exact ⟨0, by omega, heq⟩
  · rintro ⟨n, hn, heq⟩
    cases n with
    | zero => exact Or.inr heq
    | succ i => exact Or.inl ⟨i, by omega, heq.symm⟩

theorem exampleLongState_headers : exampleLongState.headers = exampleLineHeaders 601 := by
  simp only [exampleLongState]

theorem exampleLongState_chain : exampleLongState.chain = some (exampleLine 600) := by
  simp only [exampleLongState]

theorem exampleLongState_chainTail : exampleLongState.chainTail = some (exampleLine 0) :=
  rfl

theorem bcsNumbersFollowParents_exampleLongState :
    bcsNumbersFollowParents exampleLongState = true := by
  rw [bcsNumbersFollowParents_iff]
  intro header hmem parent hget
  have hheaders : exampleLongState.headers = exampleLineHeaders 601 :=
    exampleLongState_headers
  rw [hheaders] at hmem hget
  unfold exampleLineHeaders at hmem
  obtain ⟨n, hn, heq⟩ := List.mem_map.mp hmem
  rw [List.mem_range] at hn
  subst heq
  rw [BRSetGet_exampleLineHeaders] at hget
  have hparent : (exampleLine n).parentHash = 1000 + n - 1 := rfl
  rw [hparent] at hget
  by_cases hin : 1000 ≤ 1000 + n - 1 ∧ 1000 + n - 1 < 1000 + 601
  · rw [if_pos hin] at hget
    rw [← Option.some.inj hget, (exampleLine_fields n).2.2, (exampleLine_fields _).2.2]
    omega
  · rw [if_neg hin] at hget
    cases hget

/-- The amended C19 at work: the header set holds the headers 0 to 600 of the line, the tail is
header 0 and the head is header 600, so that the chain is the whole line and the numbers follow the
parents.  The reclamation returns; it makes header 300 the tail, removes the headers 0 to 299 from
the header set (0 and 299 are looked up) and keeps the headers 300 to 600 (300 and 600 are looked
up); the head is header 600 as before. -/
theorem bcsReclaimAndSaveBlocksIfAppropriate_reclaims_witness :
    exampleLongState.chain = some (exampleLine 600) ∧
    exampleLongState.chainTail = some (exampleLine 0) ∧
    bcsChainMembers exampleLongState = some (exampleLineMembers 600) ∧
    bcsNumbersFollowParents exampleLongState = true ∧
    match bcsReclaimAndSaveBlocksIfAppropriate exampleLongState with
    | .returns bcs' =>
      bcs'.chainTail = some (exampleLine 300) ∧
      BRSetGet blockHeaderGetHash bcs'.headers (exampleLine 0).hash = none ∧
      BRSetGet blockHeaderGetHash bcs'.headers (exampleLine 299).hash = none ∧
      BRSetGet blockHeaderGetHash bcs'.headers (exampleLine 300).hash =
        some (exampleLine 300) ∧
      BRSetGet blockHeaderGetHash bcs'.headers (exampleLine 600).hash =
        some (exampleLine 600) ∧
      bcs'.chain = some (exampleLine 600)
    | _ => False := by
  have hlong : 600 ≤ u64Sub (exampleLine 600).number (exampleLine 0).number := by
    rw [(exampleLine_fields 600).2.2, (exampleLine_fields 0).2.2]
    unfold u64Sub UINT64_MOD
    omega
  have hsmall : (exampleLine 600).number < UINT64_MOD := by
    rw [(exampleLine_fields 600).2.2]
    unfold UINT64_MOD
    omega
  have hmembers := (bcsChainMembers_exampleLine exampleLongState
    (Or.inl exampleLongState_headers) exampleLongState_chain exampleLongState_chainTail).1
  obtain ⟨bcs', newTail, hreturns, htail, hmember, hnumber, hgone, hkept, hchain, _⟩ :=
    (bcsReclaimAndSaveBlocksIfAppropriate_reclaims exampleLongState (exampleLine 600)
      (exampleLine 0) exampleLongState_chain exampleLongState_chainTail).2
      (exampleLineMembers 600) hlong hsmall hmembers bcsNumbersFollowParents_exampleLongState
      (BRSetGet_exampleLine exampleLongState.headers 601 (Or.inl exampleLongState_headers) 600
        (by omega))
  have hnew : newTail = exampleLine 300 := by
    obtain ⟨n, _, heq⟩ := (mem_exampleLineMembers 600 newTail).mp hmember
    subst heq
    rw [(exampleLine_fields n).2.2, (exampleLine_fields 600).2.2] at hnumber
    have : n = 300 := by omega
    rw [this]
  have hmem : ∀ n, n ≤ 600 → exampleLine n ∈ exampleLineMembers 600 := fun n hn =>
    (mem_exampleLineMembers 600 _).mpr ⟨n, hn, rfl⟩
  refine ⟨exampleLongState_chain, exampleLongState_chainTail, hmembers,
    bcsNumbersFollowParents_exampleLongState, ?_⟩
  rw [hreturns]
  refine ⟨by rw [htail, hnew], ?_, ?_, ?_, ?_, hchain⟩
  · exact hgone _ (hmem 0 (by omega))
      (by rw [(exampleLine_fields 0).2.2, (exampleLine_fields 600).2.2]; omega)
  · exact hgone _ (hmem 299 (by omega))
      (by rw [(exampleLine_fields 299).2.2, (exampleLine_fields 600).2.2]; omega)
  · exact hkept _ (hmem 300 (by omega))
      (by rw [(exampleLine_fields 300).2.2, (exampleLine_fields 600).2.2])
  · exact hkept _ (hmem 600 (by omega))
      (by rw [(exampleLine_fields 600).2.2]; omega)

/-! ## Reclamation when a header below the tail has the number of the new tail -/

/-- The reclamation of an engine whose head is 600 or more above the tail, as the rounds along the
path of parents from the head. -/
theorem bcsReclaimAndSaveBlocksIfAppropriate_rounds (bcs : BREthereumBCS)
    (chain chainTail : BREthereumBlockHeader) (rest : List BREthereumBlockHeader)
    (hchain : bcs.chain = some chain) (htail : bcs.chainTail = some chainTail)
    (hlong : 600 ≤ u64Sub chain.number chainTail.number)
    (hends : parentWalkEnds bcs.headers chain rest)
    (hcycle : (chain :: rest).Pairwise (fun above below => below.parentHash ≠ above.hash))
    (hself : ∀ member ∈ chain :: rest, member.parentHash ≠ member.hash)
    (hlength : rest.length ≤ 2 * bcs.headers.length) :
    bcsReclaimAndSaveBlocksIfAppropriate bcs =
      Outcome.returns
        ((chain :: rest).foldl
          (bcsReclaimAndSaveBlocksIfAppropriate_round
            (u64Sub chain.number BCS_SAVE_BLOCKS_COUNT)) bcs) := by
  unfold bcsReclaimAndSaveBlocksIfAppropriate
  rw [hchain, htail]
  simp only
  rw [if_pos (by unfold BCS_SAVE_BLOCKS_COUNT; omega)]
  exact bcsReclaimAndSaveBlocksIfAppropriate_walk_path _ bcs.headers rest chain bcs
    (2 * bcs.headers.length + 2) hends (fun _ _ => rfl) hcycle hself (by omega)

theorem hash_order (a b c : Nat) :
    (a < 1000 + c → a < 1000 + (c + 1)) ∧ (a < b → b < c → a ≠ c) ∧
      (a < b → a ≠ b) :=
  ⟨fun h => by omega, fun h1 h2 => by omega, fun h => by omega⟩

theorem exampleDeepState_headers :
    exampleDeepState.headers = exampleBelow :: exampleLineHeaders 601 := by
  simp only [exampleDeepState]

theorem exampleDeepState_chain : exampleDeepState.chain = some (exampleLine 600) := by
  simp only [exampleDeepState]

theorem exampleDeepState_chainTail : exampleDeepState.chainTail = some (exampleLine 0) :=
  rfl

theorem exampleBelow_fields :
    exampleBelow.hash = 999 ∧ exampleBelow.parentHash = 998 ∧ exampleBelow.number = 300 :=
  ⟨rfl, rfl, rfl⟩

theorem exampleDeepPath_succ (count : Nat) :
    exampleDeepPath (count + 1) = exampleLine count :: exampleDeepPath count := by
  unfold exampleDeepPath
  rw [List.range_succ, List.reverse_append]
  rfl

theorem mem_exampleDeepPath (count : Nat) (member : BREthereumBlockHeader) :
    member ∈ exampleDeepPath count ↔
      (∃ n, n < count ∧ member = exampleLine n) ∨ member = exampleBelow := by
  unfold exampleDeepPath
  simp only [List.mem_append, List.mem_map, List.mem_reverse, List.mem_range,
    List.mem_singleton]
  constructor
  · rintro (⟨n, hn, heq⟩ | heq)
    · exact Or.inl ⟨n, hn, heq.symm⟩
    · exact Or.inr heq
  · rintro (⟨n, hn, heq⟩ | heq)
    · exact Or.inl ⟨n, hn, heq.symm⟩
    · exact Or.inr heq

theorem parentWalkEnds_exampleDeepPath (count : Nat) (n : Nat) (hn : n < count) :
    parentWalkEnds (exampleBelow :: exampleLineHeaders count) (exampleLine n)
      (exampleDeepPath n) := by
  induction n with
  | zero =>
    have hpath : exampleDeepPath 0 = [exampleBelow] := rfl
    rw [hpath]
    apply parentWalkEnds.step
    · unfold BRSetGet
      rw [List.find?_cons_of_pos]
      rfl
    · apply parentWalkEnds.last
      have hne : ¬ ((blockHeaderGetHash exampleBelow == exampleBelow.parentHash) = true) := by
        rw [beq_iff_eq]
        show ¬ ((999 : Nat) = 998)
        omega
      unfold BRSetGet
      rw [List.find?_cons_of_neg]
      · have hnot : ¬ (1000 ≤ 998 ∧ 998 < 1000 + count) := by omega
        have := BRSetGet_exampleLineHeaders count 998
        rw [if_neg hnot] at this
        exact this
      · exact hne
  | succ n ih =>
    rw [exampleDeepPath_succ]
    have hparent : (exampleLine (n + 1)).parentHash = 1000 + n := by
      show (1000 + (n + 1) - 1 : Nat) = 1000 + n
      omega
    apply parentWalkEnds.step
    · rw [hparent]
      exact BRSetGet_exampleLine _ count (Or.inr rfl) n (by omega)
    · exact ih (by omega)

theorem exampleDeepPath_hashes (count : Nat) :
    (exampleDeepPath count).Pairwise (fun above below => below.hash < above.hash) ∧
      ∀ member ∈ exampleDeepPath count,
        member.hash < 1000 + count ∧ member.parentHash < member.hash := by
  induction count with
  | zero =>
    have hpath : exampleDeepPath 0 = [exampleBelow] := rfl
    rw [hpath]
    refine ⟨List.pairwise_singleton _ _, ?_⟩
    intro member hmem
    rw [List.mem_singleton] at hmem
    subst hmem
    constructor
    · show (999 : Nat) < 1000 + 0
      omega
    · show (998 : Nat) < 999
      omega
  | succ count ih =>
    rw [exampleDeepPath_succ]
    obtain ⟨hpair, hall⟩ := ih
    constructor
    · refine List.pairwise_cons.mpr ⟨?_, hpair⟩
      intro member hmem
      exact (hall member hmem).1
    · intro member hmem
      rcases List.mem_cons.mp hmem with heq | hin
      · subst heq
        constructor
        · show (1000 + count : Nat) < 1000 + (count + 1)
          omega
        · show (1000 + count - 1 : Nat) < 1000 + count
          omega
      · obtain ⟨h1, h2⟩ := hall member hin
        refine ⟨?_, h2⟩
        exact (hash_order member.hash 0 count).1 h1

/-- A state whose head is header 600 of the line and whose tail is `exampleBelow`, with the
headers 300 to 600 stored and header 299 gone: the walk from the head does not reach the tail. -/
theorem bcsChainShape_exampleBelow (bcs : BREthereumBCS)
    (hchain : bcs.chain = some (exampleLine 600)) (htail : bcs.chainTail = some exampleBelow)
    (hkept : ∀ n : Nat, 300 ≤ n → n ≤ 600 →
      BRSetGet blockHeaderGetHash bcs.headers (1000 + n) = some (exampleLine n))
    (hgone : BRSetGet blockHeaderGetHash bcs.headers (1000 + 299) = none) :
    bcsChainShape bcs = false ∧ bcsChainMembers bcs = none := by
  have hwalk : ∀ (d n fuel : Nat), n = 300 + d → n ≤ 600 →
      parentWalk bcs.headers fuel (exampleLine n) exampleBelow = none := by
    intro d
    induction d with
    | zero =>
      intro n fuel hn _
      have h300 : n = 300 := by omega
      subst h300
      cases fuel with
      | zero => rfl
      | succ fuel =>
        have hne : ¬ exampleBelow = exampleLine 300 := by
          intro heq
          have : exampleBelow.hash = (exampleLine 300).hash := by rw [heq]
          have hnat : (999 : Nat) = 1000 + 300 := this
          omega
        have hparent : (exampleLine 300).parentHash = 1000 + 299 := rfl
        rw [parentWalk, if_neg hne, hparent, hgone]
    | succ d ih =>
      intro n fuel hn hle
      cases fuel with
      | zero => rfl
      | succ fuel =>
        have hne : ¬ exampleBelow = exampleLine n := by
          intro heq
          have : exampleBelow.hash = (exampleLine n).hash := by rw [heq]
          have hnat : (999 : Nat) = 1000 + n := this
          omega
        have hparent : (exampleLine n).parentHash = 1000 + (300 + d) := by
          show (1000 + n - 1 : Nat) = 1000 + (300 + d)
          omega
        have hlow : 300 ≤ 300 + d := by omega
        have hhigh : 300 + d ≤ 600 := by omega
        rw [parentWalk, if_neg hne, hparent, hkept (300 + d) hlow hhigh]
        simp only
        rw [ih (300 + d) fuel rfl hhigh]
  have hnone := hwalk 300 600 (bcs.headers.length + 2) rfl (le_refl _)
  constructor
  · unfold bcsChainShape
    rw [hchain, htail]
    simp only [hnone]
  · unfold bcsChainMembers
    rw [hchain, htail]
    simp only [hnone]

/-- C19, as stated, fails: the header set holds the headers 0 to 600 of the line and, below
header 0, a header numbered 300 whose hash is the parent hash of header 0.  The tail is header 0
and the head is header 600: the walk from the head reaches the tail in 600 steps, the chain-shape
invariant holds, and header 300 is the header of the chain numbered `600 - 300`.  The walk of the
reclamation does not stop at the old tail: it goes on to the header below it, which has the number
300 too, and makes it the tail.  After the reclamation `chainTail` is a header that is not on the
chain, the headers 0 to 299 through which the walk reached it are gone, and the chain-shape
invariant is lost. -/
theorem bcsReclaimAndSaveBlocksIfAppropriate_tail_off_chain :
    exampleDeepState.chain = some (exampleLine 600) ∧
    exampleDeepState.chainTail = some (exampleLine 0) ∧
    bcsChainShape exampleDeepState = true ∧
    bcsChainMembers exampleDeepState = some (exampleLineMembers 600) ∧
    600 ≤ u64Sub (exampleLine 600).number (exampleLine 0).number ∧
    exampleLine 300 ∈ exampleLineMembers 600 ∧
    (exampleLine 300).number = (exampleLine 600).number - 300 ∧
    exampleBelow ∉ exampleLineMembers 600 ∧
    match bcsReclaimAndSaveBlocksIfAppropriate exampleDeepState with
    | .returns bcs' =>
      bcs'.chainTail = some exampleBelow ∧
      bcs'.chain = some (exampleLine 600) ∧
      BRSetGet blockHeaderGetHash bcs'.headers (exampleLine 300).hash =
        some (exampleLine 300) ∧
      BRSetGet blockHeaderGetHash bcs'.headers (exampleLine 299).hash = none ∧
      BRSetGet blockHeaderGetHash bcs'.headers exampleBelow.hash = some exampleBelow ∧
      bcsChainShape bcs' = false
    | _ => False := by
  have hlong : 600 ≤ u64Sub (exampleLine 600).number (exampleLine 0).number := by
    rw [(exampleLine_fields 600).2.2, (exampleLine_fields 0).2.2]
    unfold u64Sub UINT64_MOD
    omega
  have hfrom : u64Sub (exampleLine 600).number BCS_SAVE_BLOCKS_COUNT = 300 := by
    rw [(exampleLine_fields 600).2.2]
    unfold u64Sub UINT64_MOD BCS_SAVE_BLOCKS_COUNT
    omega
  obtain ⟨hmembers, hshape⟩ := bcsChainMembers_exampleLine exampleDeepState
    (Or.inr exampleDeepState_headers) exampleDeepState_chain exampleDeepState_chainTail
  obtain ⟨hpair, hall⟩ := exampleDeepPath_hashes 601
  rw [exampleDeepPath_succ] at hpair hall
  have hends : parentWalkEnds exampleDeepState.headers (exampleLine 600)
      (exampleDeepPath 600) := by
    rw [exampleDeepState_headers]
    exact parentWalkEnds_exampleDeepPath 601 600 (by omega)
  have hcycle : (exampleLine 600 :: exampleDeepPath 600).Pairwise
      (fun above below => below.parentHash ≠ above.hash) := by
    apply List.Pairwise.imp_of_mem _ hpair
    intro above below _ hbelow hlt heq
    exact (hash_order below.parentHash below.hash above.hash).2.1 (hall below hbelow).2 hlt heq
  have hself : ∀ member ∈ exampleLine 600 :: exampleDeepPath 600,
      member.parentHash ≠ member.hash := by
    intro member hmem heq
    exact (hash_order member.parentHash member.hash 0).2.2 (hall member hmem).2 heq
  have hlength : (exampleDeepPath 600).length ≤ 2 * exampleDeepState.headers.length := by
    rw [exampleDeepState_headers]
    simp only [exampleDeepPath, exampleLineHeaders, List.length_append, List.length_map,
      List.length_reverse, List.length_range, List.length_cons, List.length_nil]
    omega
  have hrounds := bcsReclaimAndSaveBlocksIfAppropriate_rounds exampleDeepState
    (exampleLine 600) (exampleLine 0) (exampleDeepPath 600) exampleDeepState_chain
    exampleDeepState_chainTail hlong hends hcycle hself hlength
  rw [hfrom] at hrounds
  have hsplit : exampleLine 600 :: exampleDeepPath 600 =
      (List.range 601).reverse.map exampleLine ++ [exampleBelow] := by
    rw [← exampleDeepPath_succ]
    rfl
  have hmemLine : ∀ n, n ≤ 600 →
      exampleLine n ∈ exampleLine 600 :: exampleDeepPath 600 := by
    intro n hn
    rw [← exampleDeepPath_succ]
    exact (mem_exampleDeepPath 601 _).mpr (Or.inl ⟨n, by omega, rfl⟩)
  refine ⟨exampleDeepState_chain, exampleDeepState_chainTail, hshape, hmembers, hlong,
    (mem_exampleLineMembers 600 _).mpr ⟨300, by omega, rfl⟩, rfl, ?_, ?_⟩
  · intro hmem
    obtain ⟨n, _, heq⟩ := (mem_exampleLineMembers 600 _).mp hmem
    have : exampleBelow.hash = (exampleLine n).hash := by rw [heq]
    rw [exampleBelow_fields.1, (exampleLine_fields n).1] at this
    have hnat : (999 : Nat) = 1000 + n := this
    omega
  · rw [hrounds]
    simp only
    obtain ⟨f1, _, _, _, _, _⟩ :=
      bcsReclaimAndSaveBlocksIfAppropriate_rounds_frame 300
        (exampleLine 600 :: exampleDeepPath 600) exampleDeepState
    have htail' : ((exampleLine 600 :: exampleDeepPath 600).foldl
        (bcsReclaimAndSaveBlocksIfAppropriate_round 300) exampleDeepState).chainTail =
        some exampleBelow := by
      rw [hsplit, List.foldl_append]
      simp only [List.foldl_cons, List.foldl_nil]
      unfold bcsReclaimAndSaveBlocksIfAppropriate_round
      rw [if_pos exampleBelow_fields.2.2]
    have hkept : ∀ n : Nat, 300 ≤ n → n ≤ 600 →
        BRSetGet blockHeaderGetHash ((exampleLine 600 :: exampleDeepPath 600).foldl
          (bcsReclaimAndSaveBlocksIfAppropriate_round 300) exampleDeepState).headers
          (1000 + n) = some (exampleLine n) := by
      intro n hlow hhigh
      have hn : n < 601 := by omega
      rw [bcsReclaimAndSaveBlocksIfAppropriate_rounds_get, if_neg]
      · rw [exampleDeepState_headers]
        exact BRSetGet_exampleLine _ 601 (Or.inr rfl) n hn
      · rintro ⟨member, hmem, hless, hhash⟩
        rw [← exampleDeepPath_succ] at hmem
        rcases (mem_exampleDeepPath 601 member).mp hmem with ⟨m, _, heq⟩ | heq
        · subst heq
          rw [(exampleLine_fields m).2.2] at hless
          rw [(exampleLine_fields m).1] at hhash
          have hnat : (1000 + m : Nat) = 1000 + n := hhash
          omega
        · subst heq
          rw [exampleBelow_fields.2.2] at hless
          omega
    have hgone : BRSetGet blockHeaderGetHash ((exampleLine 600 :: exampleDeepPath 600).foldl
        (bcsReclaimAndSaveBlocksIfAppropriate_round 300) exampleDeepState).headers
        (1000 + 299) = none := by
      have hnumber : (exampleLine 299).number < 300 := by
        rw [(exampleLine_fields 299).2.2]
        omega
      rw [bcsReclaimAndSaveBlocksIfAppropriate_rounds_get, if_pos]
      exact ⟨exampleLine 299, hmemLine 299 (by omega), hnumber, rfl⟩
    refine ⟨htail', f1.trans exampleDeepState_chain, hkept 300 (le_refl _) (by omega), hgone,
      ?_, (bcsChainShape_exampleBelow _ (f1.trans exampleDeepState_chain) htail' hkept
        hgone).1⟩
    rw [bcsReclaimAndSaveBlocksIfAppropriate_rounds_get, if_neg]
    · rw [exampleDeepState_headers]
      unfold BRSetGet
      rw [List.find?_cons_of_pos]
      rfl
    · rintro ⟨member, hmem, hlow, hhash⟩
      rw [← exampleDeepPath_succ] at hmem
      rcases (mem_exampleDeepPath 601 member).mp hmem with ⟨n, _, heq⟩ | heq
      · subst heq
        rw [(exampleLine_fields n).1, exampleBelow_fields.1] at hhash
        have hnat : (1000 + n : Nat) = 999 := hhash
        omega
      · subst heq
        rw [exampleBelow_fields.2.2] at hlow
        omega

/-! ## Submitting a transaction -/

/-- C21: submit transaction.  `bcsHandleSubmitTransaction` appends the hash of the transaction to
the end of the pending list; puts the transaction into the transaction set, where a lookup of its
hash now finds it and a lookup of any other hash finds what it found before; and hands the
transaction to LES once.  The list of calls grows by that one submission alone when LES answers
`LES_SUCCESS`, and by the submission followed by one `bcsSignalTransactionStatus` with the hash of
the transaction and the status ERRORED "LES Submit Failed" when LES answers `LES_UNKNOWN_ERROR` or
`LES_NETWORK_UNREACHABLE`; so a status is signalled if and only if the answer is one of these
two.  Head, tail, header set and orphans are untouched. -/
theorem bcsHandleSubmitTransaction_submits (bcs : BREthereumBCS)
    (transaction : BREthereumTransaction) (lesStatus : BREthereumLESStatus) :
    (bcsHandleSubmitTransaction bcs transaction lesStatus).pendingTransactions =
        bcs.pendingTransactions ++ [transaction.hash] ∧
      (bcsHandleSubmitTransaction bcs transaction lesStatus).transactions =
        BRSetAdd transactionGetHash bcs.transactions transaction ∧
      BRSetGet transactionGetHash
        (bcsHandleSubmitTransaction bcs transaction lesStatus).transactions transaction.hash =
        some transaction ∧
      (∀ hash : BREthereumHash, hash ≠ transaction.hash →
        BRSetGet transactionGetHash
          (bcsHandleSubmitTransaction bcs transaction lesStatus).transactions hash =
          BRSetGet transactionGetHash bcs.transactions hash) ∧
      (bcsHandleSubmitTransaction bcs transaction lesStatus).effects =
        bcs.effects ++ BCSEffect.lesSubmitTransaction transaction ::
          (if lesStatus = .LES_UNKNOWN_ERROR ∨ lesStatus = .LES_NETWORK_UNREACHABLE then
            [BCSEffect.bcsSignalTransactionStatus transaction.hash
              (.ERRORED "LES Submit Failed")]
          else []) ∧
      ((∃ hash status, BCSEffect.bcsSignalTransactionStatus hash status ∈
          ((bcsHandleSubmitTransaction bcs transaction lesStatus).effects.drop
            bcs.effects.length)) ↔
        (lesStatus = .LES_UNKNOWN_ERROR ∨ lesStatus = .LES_NETWORK_UNREACHABLE)) ∧
      (lesStatus = .LES_SUCCESS →
        (bcsHandleSubmitTransaction bcs transaction lesStatus).effects =
          bcs.effects ++ [BCSEffect.lesSubmitTransaction transaction]) ∧
      (bcsHandleSubmitTransaction bcs transaction lesStatus).chain = bcs.chain ∧
      (bcsHandleSubmitTransaction bcs transaction lesStatus).chainTail = bcs.chainTail ∧
      (bcsHandleSubmitTransaction bcs transaction lesStatus).headers = bcs.headers ∧
      (bcsHandleSubmitTransaction bcs transaction lesStatus).orphans = bcs.orphans := by
  have htxs : (bcsHandleSubmitTransaction bcs transaction lesStatus).transactions =
      BRSetAdd transactionGetHash bcs.transactions transaction := by
    cases lesStatus <;> rfl
  have heffects : (bcsHandleSubmitTransaction bcs transaction lesStatus).effects =
      bcs.effects ++ BCSEffect.lesSubmitTransaction transaction ::
        (if lesStatus = .LES_UNKNOWN_ERROR ∨ lesStatus = .LES_NETWORK_UNREACHABLE then
          [BCSEffect.bcsSignalTransactionStatus transaction.hash
            (.ERRORED "LES Submit Failed")]
        else []) := by
    cases lesStatus <;> simp [bcsHandleSubmitTransaction]
  refine ⟨by cases lesStatus <;> rfl, htxs, ?_, ?_, heffects, ?_, ?_,
    by cases lesStatus <;> rfl, by cases lesStatus <;> rfl, by cases lesStatus <;> rfl,
    by cases lesStatus <;> rfl⟩
  · rw [htxs, BRSetGet_BRSetAdd]
    simp [transactionGetHash]
  · intro hash hne
    rw [htxs, BRSetGet_BRSetAdd]
    rw [if_neg]
    intro heq
    exact hne (by simpa [transactionGetHash] using heq.symm)
  · rw [heffects, List.drop_left]
    cases lesStatus <;> simp
  · intro hsuccess
    rw [heffects, hsuccess]
    simp

/-! ## The purge of orphans as a filter -/

theorem BRSetRemove_nodup (orphans : List BREthereumBlockHeader) (hash : BREthereumHash)
    (hset : (orphans.map blockHeaderGetHash).Nodup) :
    ((BRSetRemove blockHeaderGetHash orphans hash).map blockHeaderGetHash).Nodup := by
  unfold BRSetRemove
  exact List.Nodup.sublist ((List.filter_sublist orphans).map blockHeaderGetHash) hset

theorem BRSetRemove_eq_filter (orphans : List BREthereumBlockHeader)
    (orphan : BREthereumBlockHeader) (hset : (orphans.map blockHeaderGetHash).Nodup)
    (hmem : orphan ∈ orphans) :
    BRSetRemove blockHeaderGetHash orphans orphan.hash =
      orphans.filter (fun member => decide (member ≠ orphan)) := by
  unfold BRSetRemove
  apply List.filter_congr
  intro member hin
  by_cases heq : member = orphan
  · rw [heq]
    simp [blockHeaderGetHash]
  · have hne : blockHeaderGetHash member ≠ orphan.hash := by
      intro hhash
      exact heq (List.inj_on_of_nodup_map hset hin hmem hhash)
    simp [hne, heq]

theorem bcsPurgeOrphansLoop_eq (fuel : Nat) (bcs : BREthereumBCS) (blockNumber : Nat)
    (hfuel : bcs.orphans.length ≤ fuel)
    (hset : (bcs.orphans.map blockHeaderGetHash).Nodup) :
    bcsPurgeOrphansLoop fuel bcs blockNumber =
      { bcs with
        orphans := bcs.orphans.filter (fun orphan => decide (blockNumber ≤ orphan.number)) } := by
  induction fuel generalizing bcs with
  | zero =>
    have hnil : bcs.orphans = [] := List.length_eq_zero.mp (Nat.le_zero.mp hfuel)
    rw [bcsPurgeOrphansLoop, hnil, List.filter_nil, ← hnil]
  | succ fuel ih =>
    rw [bcsPurgeOrphansLoop]
    cases hfind : bcs.orphans.find? (fun orphan => decide (orphan.number < blockNumber)) with
    | none =>
      simp only
      have hall : bcs.orphans.filter (fun orphan => decide (blockNumber ≤ orphan.number)) =
          bcs.orphans := by
        apply List.filter_eq_self.mpr
        intro orphan hmem
        have := List.find?_eq_none.mp hfind orphan hmem
        simpa using this
      rw [hall]
    | some found =>
      simp only
      have hmem : found ∈ bcs.orphans := List.mem_of_find?_eq_some hfind
      have hstale : found.number < blockNumber := by
        simpa using List.find?_some hfind
      have hlen := BRSetRemove_length_lt bcs.orphans found hmem
      rw [ih _ (by show (BRSetRemove blockHeaderGetHash bcs.orphans found.hash).length ≤ fuel
                   omega)
        (BRSetRemove_nodup bcs.orphans found.hash hset)]
      simp only [BRSetRemove_eq_filter bcs.orphans found hset hmem, List.filter_filter]
      congr 1
      apply List.filter_congr
      intro member _
      by_cases heq : member = found
      · rw [heq]
        simp
        omega
      · simp [heq]

theorem bcsPurgeOrphansLoop_fuel (fuel more : Nat) (bcs : BREthereumBCS) (blockNumber : Nat)
    (hfuel : bcs.orphans.length ≤ fuel) (hmore : bcs.orphans.length ≤ more) :
    bcsPurgeOrphansLoop fuel bcs blockNumber = bcsPurgeOrphansLoop more bcs blockNumber := by
  induction fuel generalizing more bcs with
  | zero =>
    have hnil : bcs.orphans = [] := List.length_eq_zero.mp (Nat.le_zero.mp hfuel)
    cases more with
    | zero => rfl
    | succ more => rw [bcsPurgeOrphansLoop, bcsPurgeOrphansLoop, hnil]; rfl
  | succ fuel ih =>
    cases more with
    | zero =>
      have hnil : bcs.orphans = [] := List.length_eq_zero.mp (Nat.le_zero.mp hmore)
      rw [bcsPurgeOrphansLoop, bcsPurgeOrphansLoop, hnil]
      rfl
    | succ more =>
      rw [bcsPurgeOrphansLoop, bcsPurgeOrphansLoop]
      cases hfind : bcs.orphans.find? (fun orphan => decide (orphan.number < blockNumber)) with
      | none => rfl
      | some found =>
        simp only
        have hmem : found ∈ bcs.orphans := List.mem_of_find?_eq_some hfind
        have hlen := BRSetRemove_length_lt bcs.orphans found hmem
        exact ih more _
          (by show (BRSetRemove blockHeaderGetHash bcs.orphans found.hash).length ≤ fuel
              omega)
          (by show (BRSetRemove blockHeaderGetHash bcs.orphans found.hash).length ≤ more
              omega)

/-- C32: `bcsPurgeOrphans` on an orphan set (a set keyed by hash: no two members share a hash).
For `blockNumber ≤ 10` the engine is left as it was.  For `blockNumber > 10` the function ends,
with any bound on the rounds of its loop that is at least the number of orphans, and leaves the
engine with exactly the orphans whose number is at least `blockNumber - 10`, in their order:
every orphan numbered below `blockNumber - 10` is gone and every other orphan is kept; no other
field changes. -/
theorem bcsPurgeOrphans_removes_exactly (bcs : BREthereumBCS) (blockNumber : Nat)
    (hset : (bcs.orphans.map blockHeaderGetHash).Nodup) :
    (blockNumber ≤ 10 → bcsPurgeOrphans bcs blockNumber = bcs) ∧
    (10 < blockNumber →
      bcsPurgeOrphans bcs blockNumber =
        { bcs with
          orphans := bcs.orphans.filter (fun orphan => decide (blockNumber - 10 ≤ orphan.number)) } ∧
      (∀ fuel, bcs.orphans.length ≤ fuel →
        bcsPurgeOrphansLoop fuel bcs (blockNumber - 10) = bcsPurgeOrphans bcs blockNumber) ∧
      (∀ orphan ∈ bcs.orphans, orphan.number < blockNumber - 10 →
        orphan ∉ (bcsPurgeOrphans bcs blockNumber).orphans) ∧
      (∀ orphan ∈ bcs.orphans, blockNumber - 10 ≤ orphan.number →
        orphan ∈ (bcsPurgeOrphans bcs blockNumber).orphans)) := by
  constructor
  · intro hsmall
    unfold bcsPurgeOrphans
    rw [if_pos (by show blockNumber ≤ 10; exact hsmall)]
  · intro hlarge
    have hnot : ¬ blockNumber ≤ BCS_ORPHAN_AGE_OFFSET := by
      show ¬ blockNumber ≤ 10
      omega
    have heq : bcsPurgeOrphans bcs blockNumber =
        { bcs with
          orphans :=
            bcs.orphans.filter (fun orphan => decide (blockNumber - 10 ≤ orphan.number)) } := by
      unfold bcsPurgeOrphans
      rw [if_neg hnot]
      exact bcsPurgeOrphansLoop_eq _ bcs (blockNumber - 10) (le_refl _) hset
    refine ⟨heq, ?_, ?_, ?_⟩
    · intro fuel hfuel
      rw [bcsPurgeOrphansLoop_fuel fuel bcs.orphans.length bcs _ hfuel (le_refl _)]
      unfold bcsPurgeOrphans
      rw [if_neg hnot]
      rfl
    · intro orphan _ hstale
      rw [heq]
      intro hin
      have := (List.mem_filter.mp hin).2
      simp only [decide_eq_true_eq] at this
      omega
    · intro orphan hmem hkept
      rw [heq]
      exact List.mem_filter.mpr ⟨hmem, by simpa using hkept⟩

/-- The purge of `bcsPurgeOrphans_removes_exactly` at work on orphans numbered 85, 86 and 90: with
block number 96 the orphan numbered 85 is removed (85 < 96 - 10) and the two others are kept, and
with block number 10 nothing is removed. -/
theorem bcsPurgeOrphans_removes_exactly_witness :
    (exampleOldOrphansState.orphans.map blockHeaderGetHash).Nodup ∧
    bcsPurgeOrphans exampleOldOrphansState 96 =
      { exampleOldOrphansState with
        orphans := [exampleHeader 2086 2185 86, exampleHeader 2090 2089 90] } ∧
    bcsPurgeOrphans exampleOldOrphansState 10 = exampleOldOrphansState :=
  ⟨by decide,
   ((bcsPurgeOrphans_removes_exactly exampleOldOrphansState 96 (by decide)).2
      (by decide)).1.trans (by decide),
   (bcsPurgeOrphans_removes_exactly exampleOldOrphansState 10 (by decide)).1 (by decide)⟩

/-! ## The chaining of orphans as a sequence of adoptions -/

theorem bcsChainOrphansLoop_fuel (fuel more : Nat) (bcs : BREthereumBCS)
    (hfuel : bcs.orphans.length ≤ fuel) (hmore : bcs.orphans.length ≤ more) :
    bcsChainOrphansLoop fuel bcs = bcsChainOrphansLoop more bcs := by
  induction fuel generalizing more bcs with
  | zero =>
    have hnil : bcs.orphans = [] := List.length_eq_zero.mp (Nat.le_zero.mp hfuel)
    cases more with
    | zero => rfl
    | succ more => rw [bcsChainOrphansLoop, bcsChainOrphansLoop, hnil]
  | succ fuel ih =>
    cases more with
    | zero =>
      have hnil : bcs.orphans = [] := List.length_eq_zero.mp (Nat.le_zero.mp hmore)
      rw [bcsChainOrphansLoop, bcsChainOrphansLoop, hnil]
    | succ more =>
      rw [bcsChainOrphansLoop, bcsChainOrphansLoop]
      cases horphans : bcs.orphans with
      | nil => rfl
      | cons first rest =>
        simp only
        cases hchain : bcs.chain with
        | none => rfl
        | some chain =>
          simp only
          cases hfind : (first :: rest).find? (fun orphan => chain.hash == orphan.parentHash) with
          | none => rfl
          | some found =>
            simp only
            have hmem : found ∈ bcs.orphans := by
              rw [horphans]
              exact List.mem_of_find?_eq_some hfind
            have hlen := BRSetRemove_length_lt bcs.orphans found hmem
            rw [horphans] at hlen hfuel hmore
            exact ih more _
              (by show (BRSetRemove blockHeaderGetHash (first :: rest) found.hash).length ≤ fuel
                  omega)
              (by show (BRSetRemove blockHeaderGetHash (first :: rest) found.hash).length ≤ more
                  omega)

theorem bcsChainOrphansLoop_adopts (fuel : Nat) (bcs : BREthereumBCS)
    (chain : BREthereumBlockHeader) (hchain : bcs.chain = some chain)
    (hfuel : bcs.orphans.length ≤ fuel)
    (hset : (bcs.orphans.map blockHeaderGetHash).Nodup) :
    ∃ adopted head,
      bcsChainOrphansLoop fuel bcs = Outcome.returns
        { bcs with
          chain := some head
          orphans := bcs.orphans.filter (fun orphan => decide (orphan ∉ adopted)) } ∧
      (chain :: adopted).getLast? = some head ∧
      List.Chain (fun previous next => next.parentHash = previous.hash) chain adopted ∧
      (∀ orphan ∈ adopted, orphan ∈ bcs.orphans) ∧
      (∀ orphan ∈ bcs.orphans, orphan ∉ adopted → orphan.parentHash ≠ head.hash) := by
  induction fuel generalizing bcs chain with
  | zero =>
    have hnil : bcs.orphans = [] := List.length_eq_zero.mp (Nat.le_zero.mp hfuel)
    refine ⟨[], chain, ?_, rfl, List.Chain.nil, ?_, ?_⟩
    · rw [bcsChainOrphansLoop, hnil, List.filter_nil, ← hnil, ← hchain]
    · intro orphan hin
      simp at hin
    · intro orphan hin
      rw [hnil] at hin
      simp at hin
  | succ fuel ih =>
    rw [bcsChainOrphansLoop]
    cases horphans : bcs.orphans with
    | nil =>
      refine ⟨[], chain, ?_, rfl, List.Chain.nil, ?_, ?_⟩
      · simp only [List.filter_nil]
        rw [← horphans, ← hchain]
      · intro orphan hin
        simp at hin
      · intro orphan hin
        simp at hin
    | cons first rest =>
      simp only
      rw [hchain]
      simp only
      cases hfind : (first :: rest).find? (fun orphan => chain.hash == orphan.parentHash) with
      | none =>
        refine ⟨[], chain, ?_, rfl, List.Chain.nil, ?_, ?_⟩
        · simp only [List.not_mem_nil, not_false_eq_true, decide_True, List.filter_true]
          rw [← horphans, ← hchain]
        · intro orphan hin
          simp at hin
        · intro orphan hin _ hlink
          have := List.find?_eq_none.mp hfind orphan hin
          simp only [beq_iff_eq] at this
          exact this hlink.symm
      | some found =>
        simp only
        rw [← horphans] at hfind ⊢
        have hmem : found ∈ bcs.orphans := List.mem_of_find?_eq_some hfind
        have hlink : chain.hash = found.parentHash := by
          simpa using List.find?_some hfind
        have hlen := BRSetRemove_length_lt bcs.orphans found hmem
        obtain ⟨adopted, head, hloop, hlast, hlinks, hfrom, hfixed⟩ :=
          ih { bcs with
              chain := some found
              orphans := BRSetRemove blockHeaderGetHash bcs.orphans found.hash }
            found rfl
            (by show (BRSetRemove blockHeaderGetHash bcs.orphans found.hash).length ≤ fuel
                omega)
            (BRSetRemove_nodup bcs.orphans found.hash hset)
        have hremoved := BRSetRemove_eq_filter bcs.orphans found hset hmem
        refine ⟨found :: adopted, head, ?_, ?_, ?_, ?_, ?_⟩
        · rw [hloop]
          simp only [hremoved, List.filter_filter]
          congr 2
          apply List.filter_congr
          intro member _
          by_cases heq : member = found
          · simp [heq]
          · simp [heq]
        · rw [List.getLast?_cons_cons]
          exact hlast
        · exact List.Chain.cons hlink.symm hlinks
        · intro orphan hin
          rcases List.mem_cons.mp hin with heq | hrest
          · rw [heq]
            exact hmem
          · have := hfrom orphan hrest
            exact mem_BRSetRemove _ _ _ _ this
        · intro orphan hin hnot
          have hne : orphan ≠ found := fun heq => hnot (by rw [heq]; exact List.mem_cons_self _ _)
          have hrest : orphan ∉ adopted := fun h => hnot (List.mem_cons_of_mem _ h)
          apply hfixed orphan _ hrest
          show orphan ∈ BRSetRemove blockHeaderGetHash bcs.orphans found.hash
          rw [hremoved]
          exact List.mem_filter.mpr ⟨hin, by simpa using hne⟩

/-- C31: `bcsChainOrphans` on an engine with a head and an orphan set (a set keyed by hash: no two
members share a hash).  The function returns, with any bound on the rounds of its loop that is at
least the number of orphans.  On return no orphan has the hash of the head as its parent hash.
The headers it adopted as head, in the order of adoption, each have the hash of the head they
replaced as parent hash, were orphans before and are orphans no more; the last one is the new
head (the old head when none was adopted).  The orphans it did not adopt are the orphan set it
leaves, in their order, and no field other than `chain` and `orphans` changes. -/
theorem bcsChainOrphans_reaches_fixed_point (bcs : BREthereumBCS) (chain : BREthereumBlockHeader)
    (hchain : bcs.chain = some chain)
    (hset : (bcs.orphans.map blockHeaderGetHash).Nodup) :
    ∃ adopted head bcs',
      bcsChainOrphans bcs = Outcome.returns bcs' ∧
      (∀ fuel, bcs.orphans.length ≤ fuel → bcsChainOrphansLoop fuel bcs = Outcome.returns bcs') ∧
      bcs' =
        { bcs with
          chain := some head
          orphans := bcs.orphans.filter (fun orphan => decide (orphan ∉ adopted)) } ∧
      (chain :: adopted).getLast? = some head ∧
      (∀ orphan ∈ bcs'.orphans, orphan.parentHash ≠ head.hash) ∧
      List.Chain (fun previous next => next.parentHash = previous.hash) chain adopted ∧
      (∀ orphan ∈ adopted, orphan ∈ bcs.orphans ∧ orphan ∉ bcs'.orphans) ∧
      (∀ orphan ∈ bcs.orphans, orphan ∉ adopted → orphan ∈ bcs'.orphans) := by
  obtain ⟨adopted, head, hloop, hlast, hlinks, hfrom, hfixed⟩ :=
    bcsChainOrphansLoop_adopts bcs.orphans.length bcs chain hchain (le_refl _) hset
  refine ⟨adopted, head, _, hloop, ?_, rfl, hlast, ?_, hlinks, ?_, ?_⟩
  · intro fuel hfuel
    rw [bcsChainOrphansLoop_fuel fuel bcs.orphans.length bcs hfuel (le_refl _)]
    exact hloop
  · intro orphan hin
    have hmem := List.mem_filter.mp hin
    exact hfixed orphan hmem.1 (by simpa using hmem.2)
  · intro orphan hin
    refine ⟨hfrom orphan hin, ?_⟩
    intro hkept
    have := (List.mem_filter.mp hkept).2
    simp only [decide_eq_true_eq] at this
    exact this hin
  · intro orphan hin hnot
    exact List.mem_filter.mpr ⟨hin, by simpa using hnot⟩

/-- The chaining of `bcsChainOrphans_reaches_fixed_point` at work on the genesis header as head and
three orphans: the child 3501 of the genesis header and then its child 3502 are adopted, and
`exampleOrphan` stays the one orphan. -/
theorem bcsChainOrphans_reaches_fixed_point_witness :
    exampleChainableState.chain = some exampleGenesis ∧
    (exampleChainableState.orphans.map blockHeaderGetHash).Nodup ∧
    bcsChainOrphans exampleChainableState = Outcome.returns
      { exampleChainableState with
        chain := some (exampleHeader 3502 3501 2)
        orphans := [exampleOrphan] } ∧
    ∃ adopted head bcs',
      bcsChainOrphans exampleChainableState = Outcome.returns bcs' ∧
      (∀ fuel, exampleChainableState.orphans.length ≤ fuel →
        bcsChainOrphansLoop fuel exampleChainableState = Outcome.returns bcs') ∧
      bcs' =
        { exampleChainableState with
          chain := some head
          orphans :=
            exampleChainableState.orphans.filter (fun orphan => decide (orphan ∉ adopted)) } ∧
      (exampleGenesis :: adopted).getLast? = some head ∧
      (∀ orphan ∈ bcs'.orphans, orphan.parentHash ≠ head.hash) ∧
      List.Chain (fun previous next => next.parentHash = previous.hash) exampleGenesis adopted ∧
      (∀ orphan ∈ adopted, orphan ∈ exampleChainableState.orphans ∧ orphan ∉ bcs'.orphans) ∧
      (∀ orphan ∈ exampleChainableState.orphans, orphan ∉ adopted → orphan ∈ bcs'.orphans) :=
  ⟨rfl, by decide, by decide,
   bcsChainOrphans_reaches_fixed_point exampleChainableState exampleGenesis rfl (by decide)⟩

/-! ## The continuation of a sync -/

theorem bcsSyncContinue_inactive (bcs : BREthereumBCS) (c : Nat)
    (h : (bcs.syncActive && decide (c < bcs.syncHead)) = false) :
    bcsSyncContinue bcs c = { bcs with syncActive := false } := by
  unfold bcsSyncContinue
  simp only [h]
  rw [if_neg (by simp)]

theorem bcsSyncContinue_waits (bcs : BREthereumBCS) (c : Nat)
    (hactive : bcs.syncActive = true) (hhead : c < bcs.syncHead) (hnext : c < bcs.syncNext) :
    bcsSyncContinue bcs c = bcs := by
  unfold bcsSyncContinue
  have h : (bcs.syncActive && decide (c < bcs.syncHead)) = bcs.syncActive := by
    rw [hactive]
    simp [hhead]
  simp only [h]
  rw [if_neg (by omega)]

theorem bcsSyncContinue_submits (bcs : BREthereumBCS) (c : Nat)
    (hactive : bcs.syncActive = true) (hhead : c < bcs.syncHead) (hnext : bcs.syncNext ≤ c) :
    bcsSyncContinue bcs c =
      { bcs with
        syncNext := u64Add bcs.syncNext (min (u64Sub bcs.syncHead (u64Add c 1)) 100)
        effects := bcs.effects ++
          [BCSEffect.lesGetBlockHeaders (u64Add c 1)
            (min (u64Sub bcs.syncHead (u64Add c 1)) 100)] } := by
  unfold bcsSyncContinue
  have h : (bcs.syncActive && decide (c < bcs.syncHead)) = bcs.syncActive := by
    rw [hactive]
    simp [hhead]
  simp only [h]
  rw [if_pos ⟨hactive, hnext⟩]
  unfold bcsSyncSubmit BCS_SYNC_BLOCKS_COUNT
  by_cases hbig : u64Sub bcs.syncHead (u64Add c 1) > 100
  · rw [if_pos hbig, Nat.min_eq_right (Nat.le_of_lt hbig)]
  · rw [if_neg hbig, Nat.min_eq_left (Nat.le_of_not_lt hbig)]

/-- C33: `bcsSyncContinue (c)` on an engine whose `syncHead` is a 64-bit number.  When
`c ≥ syncHead` it clears `syncActive` and requests nothing.  When `syncActive` is set and
`syncNext ≤ c < syncHead` it adds exactly one request, for `min (syncHead - c - 1, 100)` headers
from `c + 1`, and adds that count to `syncNext`; no sum or difference wraps around.  When
`syncActive` is set and `c` is below `syncNext` (and below `syncHead`, the case of the first
sentence apart), or when `syncActive` is not set, it requests nothing and returns the engine it
was given. -/
theorem bcsSyncContinue_requests_next_batch (bcs : BREthereumBCS) (c : Nat)
    (hrange : bcs.syncHead < UINT64_MOD) :
    (bcs.syncHead ≤ c → bcsSyncContinue bcs c = { bcs with syncActive := false }) ∧
    (bcs.syncActive = true → bcs.syncNext ≤ c → c < bcs.syncHead →
      bcsSyncContinue bcs c =
        { bcs with
          syncNext := bcs.syncNext + min (bcs.syncHead - c - 1) 100
          effects := bcs.effects ++
            [BCSEffect.lesGetBlockHeaders (c + 1) (min (bcs.syncHead - c - 1) 100)] }) ∧
    (bcs.syncActive = true → c < bcs.syncNext → c < bcs.syncHead →
      bcsSyncContinue bcs c = bcs) ∧
    (bcs.syncActive = false → bcsSyncContinue bcs c = bcs) := by
  refine ⟨?_, ?_, ?_, ?_⟩
  · intro hdone
    apply bcsSyncContinue_inactive
    simp
    intro _
    exact hdone
  · intro hactive hnext hhead
    have hmod : bcs.syncHead < 18446744073709551616 := hrange
    have hadd : u64Add c 1 = c + 1 := by
      unfold u64Add UINT64_MOD
      omega
    have hsub : u64Sub bcs.syncHead (c + 1) = bcs.syncHead - c - 1 := by
      unfold u64Sub UINT64_MOD
      omega
    have hsum : u64Add bcs.syncNext (min (bcs.syncHead - c - 1) 100) =
        bcs.syncNext + min (bcs.syncHead - c - 1) 100 := by
      unfold u64Add UINT64_MOD
      omega
    rw [bcsSyncContinue_submits bcs c hactive hhead hnext, hadd, hsub, hsum]
  · intro hactive hnext hhead
    exact bcsSyncContinue_waits bcs c hactive hhead hnext
  · intro hactive
    have h := bcsSyncContinue_inactive bcs c (by rw [hactive]; rfl)
    rw [h, ← hactive]

/-- The continuation of `bcsSyncContinue_requests_next_batch` in the sync of scenario S4
(`syncHead = 500`, `syncNext = 150`): at head 150 the next request is for 100 headers from 151 and
`syncNext` becomes 250; at head 149 nothing is requested; at head 500 the sync is over. -/
theorem bcsSyncContinue_requests_next_batch_witness :
    exampleSyncingState.syncHead < UINT64_MOD ∧
    bcsSyncContinue exampleSyncingState 150 =
      { exampleSyncingState with
        syncNext := 250
        effects := [BCSEffect.lesGetBlockHeaders 51 100, BCSEffect.lesGetBlockHeaders 151 100] } ∧
    bcsSyncContinue exampleSyncingState 149 = exampleSyncingState ∧
    bcsSyncContinue exampleSyncingState 500 = { exampleSyncingState with syncActive := false } :=
  ⟨by decide,
   ((bcsSyncContinue_requests_next_batch exampleSyncingState 150 (by decide)).2.1
      rfl (by decide) (by decide)).trans (by decide),
   (bcsSyncContinue_requests_next_batch exampleSyncingState 149 (by decide)).2.2.1
      rfl (by decide) (by decide),
   (bcsSyncContinue_requests_next_batch exampleSyncingState 500 (by decide)).1 (by decide)⟩

/-- The request that starts a sync asks for between 1 and 100 headers: when `bcsSyncFrom` finds no
sync active, it either returns the engine it was given or adds one request with such a count. -/
theorem bcsSyncFrom_batch_size (bcs : BREthereumBCS) (c : Nat)
    (hactive : bcs.syncActive = false) :
    bcsSyncFrom bcs c = bcs ∨
    ∃ blockStart blockCount, 1 ≤ blockCount ∧ blockCount ≤ 100 ∧
      (bcsSyncFrom bcs c).effects =
        bcs.effects ++ [BCSEffect.lesGetBlockHeaders blockStart blockCount] := by
  obtain ⟨hmax, _, _⟩ := foldl_orphan_minimum bcs.orphans UINT64_MAX
  have hm : bcsGetOrphanBlockNumberMinimum bcs ≤ 18446744073709551615 := hmax
  unfold bcsSyncFrom
  rw [if_neg (by rw [hactive]; simp)]
  simp only
  by_cases hstart : UINT64_MAX ≠ bcsGetOrphanBlockNumberMinimum bcs ∧
      bcsGetOrphanBlockNumberMinimum bcs > u64Add c 1
  · rw [if_pos hstart]
    right
    have hlt : u64Add c 1 < bcsGetOrphanBlockNumberMinimum bcs := hstart.2
    have hsub : u64Sub (bcsGetOrphanBlockNumberMinimum bcs) (u64Add c 1) =
        bcsGetOrphanBlockNumberMinimum bcs - u64Add c 1 := by
      unfold u64Sub UINT64_MOD
      omega
    unfold bcsSyncSubmit BCS_SYNC_BLOCKS_COUNT
    by_cases hbig : u64Sub (bcsGetOrphanBlockNumberMinimum bcs) (u64Add c 1) > 100
    · rw [if_pos hbig]
      exact ⟨_, 100, by omega, le_refl _, rfl⟩
    · rw [if_neg hbig]
      exact ⟨_, _, by rw [hsub]; omega, Nat.le_of_not_lt hbig, rfl⟩
  · rw [if_neg hstart]
    left
    trivial

/-- C37 fails on the code: `bcsSyncContinue` asks for no header at all when it is called with the
chain block number `syncHead - 1`.  With a sync active and `syncNext ≤ c`, the request is for 0
headers from `c + 1` when `c + 1 = syncHead`, and for between 1 and 100 headers when
`c + 1 < syncHead`; the request that starts a sync in `bcsSyncFrom` is for between 1 and 100
headers, its test being `c + 1 < m`.  The engine reaches the call: created without saved headers
it receives a header numbered 3 whose parent is unknown, which starts a sync for the headers 1
and 2 (`syncHead = 3`, `syncNext = 2`); header 1 and then header 2 arrive and are chained, the
orphan is no child of header 2 and stays an orphan, and at head 2 `bcsSyncContinue` sends a
request for 0 headers from 3. -/
theorem bcsSyncContinue_requests_empty_batch :
    (∀ (bcs : BREthereumBCS) (c : Nat),
      bcs.syncActive = true → bcs.syncNext ≤ c → c + 1 = bcs.syncHead →
      bcs.syncHead < UINT64_MOD →
      bcsSyncContinue bcs c =
        { bcs with effects := bcs.effects ++ [BCSEffect.lesGetBlockHeaders (c + 1) 0] }) ∧
    (∀ (bcs : BREthereumBCS) (c : Nat),
      bcs.syncActive = true → bcs.syncNext ≤ c → c + 1 < bcs.syncHead →
      bcs.syncHead < UINT64_MOD →
      ∃ blockCount, 1 ≤ blockCount ∧ blockCount ≤ 100 ∧
        (bcsSyncContinue bcs c).effects =
          bcs.effects ++ [BCSEffect.lesGetBlockHeaders (c + 1) blockCount]) ∧
    (∀ (bcs : BREthereumBCS) (c : Nat),
      bcs.syncActive = false →
      bcsSyncFrom bcs c = bcs ∨
      ∃ blockStart blockCount, 1 ≤ blockCount ∧ blockCount ≤ 100 ∧
        (bcsSyncFrom bcs c).effects =
          bcs.effects ++ [BCSEffect.lesGetBlockHeaders blockStart blockCount]) ∧
    bcsHandleBlockHeaders [exampleTrueOrphan, exampleLine 1, exampleLine 2]
        (bcsCreate exampleGenesis none) = Outcome.returns exampleEmptyBatchState ∧
    exampleEmptyBatchState.chain = some (exampleLine 2) ∧
    exampleEmptyBatchState.orphans = [exampleTrueOrphan] ∧
    exampleEmptyBatchState.syncActive = true ∧
    exampleEmptyBatchState.syncHead = 3 ∧
    exampleEmptyBatchState.syncNext = 2 ∧
    exampleEmptyBatchState.effects =
      [BCSEffect.lesGetBlockHeaders 1 2, BCSEffect.lesGetBlockHeaders 3 0] := by
  refine ⟨?_, ?_, bcsSyncFrom_batch_size, by decide, by decide, by decide, by decide, by decide,
    by decide, by decide⟩
  · intro bcs c hactive hnext hlast hrange
    have hmod : bcs.syncHead < 18446744073709551616 := hrange
    have hadd : u64Add c 1 = c + 1 := by
      unfold u64Add UINT64_MOD
      omega
    have hsub : u64Sub bcs.syncHead (c + 1) = 0 := by
      unfold u64Sub UINT64_MOD
      omega
    have hsum : u64Add bcs.syncNext 0 = bcs.syncNext := by
      unfold u64Add UINT64_MOD
      omega
    rw [bcsSyncContinue_submits bcs c hactive (by omega) hnext, hadd, hsub, Nat.zero_min, hsum]
  · intro bcs c hactive hnext hmore hrange
    have hmod : bcs.syncHead < 18446744073709551616 := hrange
    have hadd : u64Add c 1 = c + 1 := by
      unfold u64Add UINT64_MOD
      omega
    have hsub : u64Sub bcs.syncHead (c + 1) = bcs.syncHead - c - 1 := by
      unfold u64Sub UINT64_MOD
      omega
    rw [bcsSyncContinue_submits bcs c hactive (by omega) hnext, hadd, hsub]
    exact ⟨min (bcs.syncHead - c - 1) 100, by omega, Nat.min_le_right _ _, rfl⟩

/-! ## Active blocks and body requests through the header handler -/

theorem bcsRequestedBodies_append (first second : List BCSEffect) :
    bcsRequestedBodies (first ++ second) =
      bcsRequestedBodies first ++ bcsRequestedBodies second := by
  unfold bcsRequestedBodies
  exact List.filterMap_append _ _ _

theorem bcsHandleTransactionStatus_bodies (bcs : BREthereumBCS)
    (transactionHash : BREthereumHash) (status : BREthereumTransactionStatus)
    (bcs' : BREthereumBCS)
    (h : bcsHandleTransactionStatus bcs transactionHash status = Outcome.returns bcs') :
    bcs'.activeBlocks = bcs.activeBlocks ∧
      bcsRequestedBodies bcs'.effects = bcsRequestedBodies bcs.effects := by
  unfold bcsHandleTransactionStatus at h
  cases hget : BRSetGet transactionGetHash bcs.transactions transactionHash with
  | none =>
    rw [hget] at h
    cases h
    exact ⟨rfl, rfl⟩
  | some transaction =>
    rw [hget] at h
    simp only at h
    generalize bcsHandleTransactionStatus_switch bcs _ = switched at h
    cases switched with
    | aborts => simp [Outcome.andThen] at h
    | loops => simp [Outcome.andThen] at h
    | returns result =>
      obtain ⟨newStatus, isInChain, isAnError⟩ := result
      have hpending :
          (bcsHandleTransactionStatus_pending bcs transactionHash isInChain isAnError).activeBlocks
              = bcs.activeBlocks ∧
            (bcsHandleTransactionStatus_pending bcs transactionHash isInChain isAnError).effects
              = bcs.effects := by
        unfold bcsHandleTransactionStatus_pending
        split
        · split <;> exact ⟨rfl, rfl⟩
        · split <;> exact ⟨rfl, rfl⟩
      simp only [Outcome.andThen] at h
      split at h
      · cases h
        refine ⟨hpending.1, ?_⟩
        show bcsRequestedBodies (_ ++ _) = _
        rw [bcsRequestedBodies_append, hpending.2]
        simp [bcsRequestedBodies]
      · cases h
        exact ⟨hpending.1, by rw [hpending.2]⟩

theorem bcsHandleBlockHeader_transactions_bodies (transactions : List BREthereumTransaction)
    (bcs bcs' : BREthereumBCS)
    (h : bcsHandleBlockHeader_transactions transactions bcs = Outcome.returns bcs') :
    bcs'.activeBlocks = bcs.activeBlocks ∧
      bcsRequestedBodies bcs'.effects = bcsRequestedBodies bcs.effects := by
  induction transactions generalizing bcs with
  | nil =>
    rw [bcsHandleBlockHeader_transactions] at h
    cases h
    exact ⟨rfl, rfl⟩
  | cons tx rest ih =>
    rw [bcsHandleBlockHeader_transactions] at h
    generalize hstep :
      (match tx.status with
        | .INCLUDED _ blockHash _ _ =>
          if (BRSetGet blockHeaderGetHash bcs.orphans blockHash).isSome then
            bcsHandleTransactionStatus bcs tx.hash .PENDING
          else Outcome.returns bcs
        | _ => Outcome.returns bcs) = step at h
    cases step with
    | aborts => simp [Outcome.andThen] at h
    | loops => simp [Outcome.andThen] at h
    | returns next =>
      simp only [Outcome.andThen] at h
      obtain ⟨g1, g2⟩ := ih next h
      have hnext : next.activeBlocks = bcs.activeBlocks ∧
          bcsRequestedBodies next.effects = bcsRequestedBodies bcs.effects := by
        split at hstep
        · split at hstep
          · exact bcsHandleTransactionStatus_bodies _ _ _ _ hstep
          · cases hstep
            exact ⟨rfl, rfl⟩
        · cases hstep
          exact ⟨rfl, rfl⟩
      exact ⟨g1.trans hnext.1, g2.trans hnext.2⟩

theorem bcsPurgeOrphansLoop_bodies (fuel : Nat) (bcs : BREthereumBCS) (blockNumber : Nat) :
    (bcsPurgeOrphansLoop fuel bcs blockNumber).activeBlocks = bcs.activeBlocks ∧
    (bcsPurgeOrphansLoop fuel bcs blockNumber).effects = bcs.effects := by
  induction fuel generalizing bcs with
  | zero => exact ⟨rfl, rfl⟩
  | succ fuel ih =>
    rw [bcsPurgeOrphansLoop]
    split
    · exact ⟨rfl, rfl⟩
    · rename_i orphan _
      exact ih { bcs with orphans := BRSetRemove blockHeaderGetHash bcs.orphans orphan.hash }

theorem bcsChainOrphansLoop_bodies (fuel : Nat) (bcs bcs' : BREthereumBCS)
    (h : bcsChainOrphansLoop fuel bcs = Outcome.returns bcs') :
    bcs'.activeBlocks = bcs.activeBlocks ∧ bcs'.effects = bcs.effects ∧
      bcs'.headers = bcs.headers := by
  induction fuel generalizing bcs with
  | zero =>
    rw [bcsChainOrphansLoop] at h
    cases h
    exact ⟨rfl, rfl, rfl⟩
  | succ fuel ih =>
    rw [bcsChainOrphansLoop] at h
    split at h
    · cases h
      exact ⟨rfl, rfl, rfl⟩
    · split at h
      · cases h
      · split at h
        · cases h
          exact ⟨rfl, rfl, rfl⟩
        · obtain ⟨g1, g2, g3⟩ := ih _ h
          exact ⟨g1, g2, g3⟩

theorem bcsChainThenPurgeOrphans_bodies (bcs bcs' : BREthereumBCS)
    (h : bcsChainThenPurgeOrphans bcs = Outcome.returns bcs') :
    bcs'.activeBlocks = bcs.activeBlocks ∧ bcs'.effects = bcs.effects ∧
      bcs'.headers = bcs.headers := by
  unfold bcsChainThenPurgeOrphans bcsChainOrphans at h
  cases hloop : bcsChainOrphansLoop bcs.orphans.length bcs with
  | aborts => rw [hloop] at h; simp [Outcome.andThen] at h
  | loops => rw [hloop] at h; simp [Outcome.andThen] at h
  | returns chained =>
    rw [hloop] at h
    simp only [Outcome.andThen] at h
    obtain ⟨c1, c2, c3⟩ := bcsChainOrphansLoop_bodies _ _ _ hloop
    split at h
    · cases h
    · cases h
      rename_i chain _
      unfold bcsPurgeOrphans
      split
      · exact ⟨c1, c2, c3⟩
      · obtain ⟨p1, p2⟩ := bcsPurgeOrphansLoop_bodies chained.orphans.length chained
          (chain.number - BCS_ORPHAN_AGE_OFFSET)
        obtain ⟨_, _, p3, _, _⟩ := bcsPurgeOrphansLoop_frame chained.orphans.length chained
          (chain.number - BCS_ORPHAN_AGE_OFFSET)
        exact ⟨p1.trans c1, p2.trans c2, p3.trans c3⟩

theorem bcsHandleBlockHeader_reorg_bodies (fuel : Nat) (bcs : BREthereumBCS)
    (headerParent : BREthereumBlockHeader) (bcs' : BREthereumBCS)
    (h : bcsHandleBlockHeader_reorg fuel bcs headerParent = Outcome.returns bcs') :
    bcs'.activeBlocks = bcs.activeBlocks ∧ bcs'.effects = bcs.effects ∧
      bcs'.headers = bcs.headers := by
  induction fuel generalizing bcs with
  | zero => simp [bcsHandleBlockHeader_reorg] at h
  | succ fuel ih =>
    rw [bcsHandleBlockHeader_reorg] at h
    cases hchain : bcs.chain with
    | none =>
      rw [hchain] at h
      cases h
      exact ⟨rfl, rfl, rfl⟩
    | some chain =>
      rw [hchain] at h
      simp only at h
      split at h
      · cases h
        exact ⟨rfl, rfl, rfl⟩
      · exact ih { bcsMakeOrphan bcs chain with
          chain := BRSetGet blockHeaderGetHash bcs.headers chain.parentHash } h

theorem bcsHandleBlockHeader_extend_bodies (bcs : BREthereumBCS)
    (header headerParent : BREthereumBlockHeader) (bcs' : BREthereumBCS)
    (h : bcsHandleBlockHeader_extend bcs header headerParent = Outcome.returns bcs') :
    bcs'.activeBlocks = bcs.activeBlocks ∧ bcs'.effects = bcs.effects ∧
      bcs'.headers = bcs.headers := by
  unfold bcsHandleBlockHeader_extend at h
  cases hreorg : bcsHandleBlockHeader_reorg (bcs.headers.length + 2) bcs headerParent with
  | aborts => rw [hreorg] at h; simp [Outcome.andThen] at h
  | loops => rw [hreorg] at h; simp [Outcome.andThen] at h
  | returns walked =>
    rw [hreorg] at h
    simp only [Outcome.andThen] at h
    have hframe := bcsHandleBlockHeader_reorg_bodies _ _ _ _ hreorg
    split at h
    · cases h
    · cases h
      exact hframe

theorem bcsHandleBlockHeader_neededHeaders_walk (fuel : Nat) (bcs : BREthereumBCS)
    (start stop : BREthereumBlockHeader) (neededHeaders found : List BREthereumBlockHeader)
    (walkFuel : Nat) (path : List BREthereumBlockHeader)
    (h : bcsHandleBlockHeader_neededHeaders fuel bcs (some start) (some stop) neededHeaders =
      Outcome.returns found)
    (hwalk : parentWalk bcs.headers walkFuel start stop = some path) :
    found = (path.filter (bcsBlockHeaderIsNeeded bcs)).reverse ++ neededHeaders := by
  induction fuel generalizing start neededHeaders walkFuel path with
  | zero => simp [bcsHandleBlockHeader_neededHeaders] at h
  | succ fuel ih =>
    cases walkFuel with
    | zero => simp [parentWalk] at hwalk
    | succ walkFuel =>
      rw [parentWalk] at hwalk
      rw [bcsHandleBlockHeader_neededHeaders] at h
      simp only at h
      by_cases hstop : stop = start
      · rw [if_pos hstop] at hwalk
        rw [if_pos (by rw [hstop])] at h
        cases h
        cases hwalk
        rfl
      · rw [if_neg hstop] at hwalk
        rw [if_neg (fun heq => hstop (Option.some.inj heq).symm)] at h
        cases hget : BRSetGet blockHeaderGetHash bcs.headers start.parentHash with
        | none => rw [hget] at hwalk; simp at hwalk
        | some parent =>
          rw [hget] at hwalk h
          simp only at hwalk
          cases hrest : parentWalk bcs.headers walkFuel parent stop with
          | none => rw [hrest] at hwalk; simp at hwalk
          | some rest =>
            rw [hrest] at hwalk
            cases hwalk
            have hfound := ih parent _ walkFuel rest h hrest
            rw [hfound]
            by_cases hneeded : bcsBlockHeaderIsNeeded bcs start = true
            · have hor : bcsBlockHeaderHasMatchingTransactions bcs start = true ∨
                  bcsBlockHeaderHasMatchingLogs bcs start = true := by
                unfold bcsBlockHeaderIsNeeded at hneeded
                simpa using hneeded
              rw [if_pos hor, List.filter_cons_of_pos hneeded, List.reverse_cons,
                List.append_assoc]
              rfl
            · have hor : ¬ (bcsBlockHeaderHasMatchingTransactions bcs start = true ∨
                  bcsBlockHeaderHasMatchingLogs bcs start = true) := by
                unfold bcsBlockHeaderIsNeeded at hneeded
                simpa using hneeded
              rw [if_neg hor, List.filter_cons_of_neg hneeded]

theorem bcsHandleBlockHeader_requestBodies_bodies (neededHeaders : List BREthereumBlockHeader)
    (bcs : BREthereumBCS) :
    (bcsHandleBlockHeader_requestBodies neededHeaders bcs).activeBlocks =
      bcs.activeBlocks ++ neededHeaders.map bcsActiveBlockFor ∧
    bcsRequestedBodies (bcsHandleBlockHeader_requestBodies neededHeaders bcs).effects =
      bcsRequestedBodies bcs.effects ++ neededHeaders.map fun needed => needed.hash := by
  induction neededHeaders generalizing bcs with
  | nil => simp [bcsHandleBlockHeader_requestBodies]
  | cons needed rest ih =>
    rw [bcsHandleBlockHeader_requestBodies]
    obtain ⟨h1, h2⟩ := ih
      { bcs with
        activeBlocks := bcs.activeBlocks ++
          [{ hash := needed.hash
             state := BREthereumBCSActiveBlockState.ACTIVE_BLOCK_PENDING_BODIES }]
        effects := bcs.effects ++ [BCSEffect.lesGetBlockBodiesOne needed.hash] }
    rw [h1, h2]
    constructor
    · simp [bcsActiveBlockFor]
    · show bcsRequestedBodies (bcs.effects ++ _) ++ _ = _
      rw [bcsRequestedBodies_append]
      simp [bcsRequestedBodies]

theorem bcsReclaimAndSaveBlocksIfAppropriate_walk_bodies (fuel : Nat) (bcs : BREthereumBCS)
    (header : Option BREthereumBlockHeader) (reclaimFromBlockNumber : Nat)
    (bcs' : BREthereumBCS)
    (h : bcsReclaimAndSaveBlocksIfAppropriate_walk fuel bcs header reclaimFromBlockNumber =
      Outcome.returns bcs') :
    bcs'.activeBlocks = bcs.activeBlocks ∧ bcs'.effects = bcs.effects := by
  induction fuel generalizing bcs header with
  | zero => simp [bcsReclaimAndSaveBlocksIfAppropriate_walk] at h
  | succ fuel ih =>
    cases header with
    | none =>
      rw [bcsReclaimAndSaveBlocksIfAppropriate_walk] at h
      cases h
      exact ⟨rfl, rfl⟩
    | some header =>
      rw [bcsReclaimAndSaveBlocksIfAppropriate_walk] at h
      obtain ⟨g1, g2⟩ := ih _ _ h
      refine ⟨g1.trans ?_, g2.trans ?_⟩ <;>
        (split <;> [rfl; (split <;> rfl)])

theorem bcsReclaimAndSaveBlocksIfAppropriate_bodies (bcs bcs' : BREthereumBCS)
    (h : bcsReclaimAndSaveBlocksIfAppropriate bcs = Outcome.returns bcs') :
    bcs'.activeBlocks = bcs.activeBlocks ∧ bcs'.effects = bcs.effects := by
  unfold bcsReclaimAndSaveBlocksIfAppropriate at h
  split at h
  · cases h
  · split at h
    · cases h
    · simp only at h
      split at h
      · exact bcsReclaimAndSaveBlocksIfAppropriate_walk_bodies _ _ _ _ _ h
      · cases h
        exact ⟨rfl, rfl⟩

theorem bcsSyncContinue_bodies (bcs : BREthereumBCS) (chainBlockNumber : Nat) :
    (bcsSyncContinue bcs chainBlockNumber).activeBlocks = bcs.activeBlocks ∧
    bcsRequestedBodies (bcsSyncContinue bcs chainBlockNumber).effects =
      bcsRequestedBodies bcs.effects := by
  obtain ⟨_, _, _, _, _, _, _, hactive, heffects⟩ := bcsSyncContinue_frame bcs chainBlockNumber
  refine ⟨hactive, ?_⟩
  rcases heffects with hsame | ⟨blockStart, blockCount, hmore⟩
  · rw [hsame]
  · rw [hmore, bcsRequestedBodies_append]
    simp [bcsRequestedBodies]

theorem bcsHandleBlockHeader_chained_bodies (placed : BREthereumBCS)
    (parent : BREthereumBlockHeader) (bcs' : BREthereumBCS) (head : BREthereumBlockHeader)
    (walkFuel : Nat) (path : List BREthereumBlockHeader)
    (h : bcsHandleBlockHeader_chained placed (some parent) = Outcome.returns bcs')
    (hhead : bcs'.chain = some head)
    (hwalk : parentWalk placed.headers walkFuel head parent = some path) :
    bcs'.activeBlocks = placed.activeBlocks ++
        ((path.filter (bcsBlockHeaderIsNeeded placed)).reverse).map bcsActiveBlockFor ∧
      bcsRequestedBodies bcs'.effects = bcsRequestedBodies placed.effects ++
        ((path.filter (bcsBlockHeaderIsNeeded placed)).reverse).map fun needed => needed.hash := by
  unfold bcsHandleBlockHeader_chained at h
  cases hpurge : bcsChainThenPurgeOrphans placed with
  | aborts => rw [hpurge] at h; simp [Outcome.andThen] at h
  | loops => rw [hpurge] at h; simp [Outcome.andThen] at h
  | returns purged =>
    rw [hpurge] at h
    simp only [Outcome.andThen] at h
    obtain ⟨p1, p2, p3⟩ := bcsChainThenPurgeOrphans_bodies _ _ hpurge
    cases hexamine : bcsHandleBlockHeader_transactions purged.transactions purged with
    | aborts => rw [hexamine] at h; simp at h
    | loops => rw [hexamine] at h; simp at h
    | returns examined =>
      rw [hexamine] at h
      simp only at h
      obtain ⟨e1, _, e3, _, _⟩ := bcsHandleBlockHeader_transactions_frame _ _ _ hexamine
      obtain ⟨e6, e7⟩ := bcsHandleBlockHeader_transactions_bodies _ _ _ hexamine
      cases hlogs : bcsHandleBlockHeader_logs examined with
      | aborts => rw [hlogs] at h; simp at h
      | loops => rw [hlogs] at h; simp at h
      | returns logged =>
        rw [hlogs] at h
        simp only at h
        have hsame : logged = examined := by
          unfold bcsHandleBlockHeader_logs at hlogs
          split at hlogs
          · cases hlogs; rfl
          · cases hlogs
        rw [hsame] at h
        cases hneeded : bcsHandleBlockHeader_neededHeaders (examined.headers.length + 2)
            examined examined.chain (some parent) [] with
        | aborts => rw [hneeded] at h; simp at h
        | loops => rw [hneeded] at h; simp at h
        | returns neededHeaders =>
          rw [hneeded] at h
          simp only at h
          obtain ⟨r1, _, _, _, _, _⟩ :=
            bcsHandleBlockHeader_requestBodies_frame neededHeaders examined
          obtain ⟨r6, r7⟩ := bcsHandleBlockHeader_requestBodies_bodies neededHeaders examined
          cases hreclaim : bcsReclaimAndSaveBlocksIfAppropriate
              (bcsHandleBlockHeader_requestBodies neededHeaders examined) with
          | aborts => rw [hreclaim] at h; simp at h
          | loops => rw [hreclaim] at h; simp at h
          | returns reclaimed =>
            rw [hreclaim] at h
            simp only at h
            obtain ⟨c1, _, _, _⟩ := bcsReclaimAndSaveBlocksIfAppropriate_frame _ _ hreclaim
            obtain ⟨c6, c7⟩ := bcsReclaimAndSaveBlocksIfAppropriate_bodies _ _ hreclaim
            split at h
            · cases h
            · rename_i last hlast
              cases h
              obtain ⟨_, _, s3, _, _, _, _, _, _⟩ := bcsSyncContinue_frame reclaimed last.number
              obtain ⟨s6, s7⟩ := bcsSyncContinue_bodies reclaimed last.number
              have hchain : examined.chain = some head := by
                rw [← r1, ← c1, ← s3]
                exact hhead
              have hheaders : examined.headers = placed.headers := e3.trans p3
              rw [hchain] at hneeded
              rw [← hheaders] at hwalk
              have hfound := bcsHandleBlockHeader_neededHeaders_walk _ examined head parent []
                neededHeaders walkFuel path hneeded hwalk
              rw [List.append_nil] at hfound
              have hpred : bcsBlockHeaderIsNeeded examined = bcsBlockHeaderIsNeeded placed := rfl
              rw [hpred] at hfound
              constructor
              · rw [s6, c6, r6, e6, p1, hfound]
              · rw [s7, c7, r7, e7, p2, hfound]

/-- What `bcsHandleBlockHeader` asks the bodies of.  The header is new and valid, its parent is in
the header set, with the block number before the header's, and is no orphan, and the handler
returns with `head` as the head.  Then the active blocks it has added, and the block bodies it
has asked for, one by one, are those of the needed headers on the walk over parent hashes from
`head` back to the parent, the parent left out, the one nearest to the parent first; every
active block is in the state PENDING_BODIES.  When the block numbers go down along the walk, the
order is that of ascending block numbers. -/
theorem bcsHandleBlockHeader_requests_bodies (bcs : BREthereumBCS)
    (header parent : BREthereumBlockHeader) (bcs' : BREthereumBCS) (head : BREthereumBlockHeader)
    (walkFuel : Nat) (path : List BREthereumBlockHeader)
    (hnew : BRSetGet blockHeaderGetHash bcs.headers header.hash = none)
    (hvalid : header.isValid = true)
    (hparent : BRSetGet blockHeaderGetHash bcs.headers header.parentHash = some parent)
    (hnumber : header.number = u64Add 1 parent.number)
    (horphan : BRSetGet blockHeaderGetHash bcs.orphans parent.hash = none)
    (hreturns : bcsHandleBlockHeader bcs header = Outcome.returns bcs')
    (hhead : bcs'.chain = some head)
    (hwalk : parentWalk (BRSetAdd blockHeaderGetHash bcs.headers header) walkFuel head parent =
      some path) :
    bcs'.activeBlocks = bcs.activeBlocks ++
        ((path.filter (bcsBlockHeaderIsNeeded bcs)).reverse).map bcsActiveBlockFor ∧
      bcsRequestedBodies bcs'.effects = bcsRequestedBodies bcs.effects ++
        ((path.filter (bcsBlockHeaderIsNeeded bcs)).reverse).map (fun needed => needed.hash) ∧
      (∀ block ∈ ((path.filter (bcsBlockHeaderIsNeeded bcs)).reverse).map bcsActiveBlockFor,
        block.state = BREthereumBCSActiveBlockState.ACTIVE_BLOCK_PENDING_BODIES) ∧
      (path.Pairwise (fun newer older => older.number < newer.number) →
        ((path.filter (bcsBlockHeaderIsNeeded bcs)).reverse).Pairwise
          (fun earlier later => earlier.number < later.number)) := by
  have hstate : ∀ block ∈
      ((path.filter (bcsBlockHeaderIsNeeded bcs)).reverse).map bcsActiveBlockFor,
      block.state = BREthereumBCSActiveBlockState.ACTIVE_BLOCK_PENDING_BODIES := by
    intro block hin
    obtain ⟨needed, _, hblock⟩ := List.mem_map.mp hin
    rw [← hblock]
    rfl
  have horder : path.Pairwise (fun newer older => older.number < newer.number) →
      ((path.filter (bcsBlockHeaderIsNeeded bcs)).reverse).Pairwise
        (fun earlier later => earlier.number < later.number) := by
    intro hdown
    rw [List.pairwise_reverse]
    exact List.Pairwise.filter _ hdown
  unfold bcsHandleBlockHeader at hreturns
  rw [if_neg (by rw [hnew]; simp), if_neg (by rw [hvalid]; simp)] at hreturns
  simp only at hreturns
  rw [hparent] at hreturns
  have hconsistent : ¬ bcsHandleBlockHeader_inconsistent header (some parent) = true := by
    unfold bcsHandleBlockHeader_inconsistent
    simp [hnumber]
  rw [if_neg hconsistent] at hreturns
  unfold bcsHandleBlockHeader_place at hreturns
  cases hchain : bcs.chain with
  | none =>
    simp only [hchain] at hreturns
    obtain ⟨h1, h2⟩ := bcsHandleBlockHeader_chained_bodies _ parent bcs' head walkFuel path
      hreturns hhead hwalk
    exact ⟨h1, h2, hstate, horder⟩
  | some chain =>
    simp only [hchain] at hreturns
    rw [if_neg (by rw [horphan]; simp)] at hreturns
    cases hextend : bcsHandleBlockHeader_extend
        { bcs with
          headers := BRSetAdd blockHeaderGetHash bcs.headers header
          chain := some chain } header parent with
    | aborts => rw [hextend] at hreturns; simp [Outcome.andThen] at hreturns
    | loops => rw [hextend] at hreturns; simp [Outcome.andThen] at hreturns
    | returns placed =>
      rw [hextend] at hreturns
      simp only [Outcome.andThen] at hreturns
      obtain ⟨x1, x2, x3⟩ := bcsHandleBlockHeader_extend_bodies _ _ _ _ hextend
      have hwalk' : parentWalk placed.headers walkFuel head parent = some path := by
        rw [x3]
        exact hwalk
      obtain ⟨h1, h2⟩ := bcsHandleBlockHeader_chained_bodies placed parent bcs' head walkFuel
        path hreturns hhead hwalk'
      have hpred : bcsBlockHeaderIsNeeded placed = bcsBlockHeaderIsNeeded bcs := rfl
      rw [hpred, x1] at h1
      rw [hpred, x2] at h2
      exact ⟨h1, h2, hstate, horder⟩

/-- The body requests of `bcsHandleBlockHeader_requests_bodies` at work: the matching header 5002
and its child 5003, which matches nothing, are orphans when the matching header 5001 arrives on
top of the genesis header.  The header is chained, the two orphans are adopted, and the handler
adds the active blocks 5001 and 5002, in this order, and asks for their bodies; header 5003 gets
neither. -/
theorem bcsHandleBlockHeader_requests_bodies_example :
    bcsHandleBlockHeader exampleBodiesBeforeState (exampleMatching 5001 1000 1) =
      Outcome.returns exampleBodiesState ∧
    exampleBodiesState.chain = some (exampleHeader 5003 5002 3) ∧
    exampleBodiesBeforeState.activeBlocks = [] ∧
    exampleBodiesState.activeBlocks =
      [bcsActiveBlockFor (exampleMatching 5001 1000 1),
       bcsActiveBlockFor (exampleMatching 5002 5001 2)] ∧
    bcsRequestedBodies exampleBodiesState.effects = [5001, 5002] :=
  have hreturns : bcsHandleBlockHeader exampleBodiesBeforeState (exampleMatching 5001 1000 1) =
      Outcome.returns exampleBodiesState := by decide
  have hhead : exampleBodiesState.chain = some (exampleHeader 5003 5002 3) := by decide
  have hbodies := bcsHandleBlockHeader_requests_bodies exampleBodiesBeforeState
    (exampleMatching 5001 1000 1) exampleGenesis exampleBodiesState (exampleHeader 5003 5002 3) 5
    [exampleHeader 5003 5002 3, exampleMatching 5002 5001 2, exampleMatching 5001 1000 1]
    (by decide) (by decide) (by decide) (by decide) (by decide) hreturns hhead (by decide)
  ⟨hreturns, hhead, by decide, hbodies.1.trans (by decide), hbodies.2.1.trans (by decide)⟩

/-- C34 fails on the code in the order of the requests: the needed headers are taken in the order
of the walk, the one nearest to the parent first, and `bcsChainOrphans` adopts an orphan without
the look at its block number that line 579 takes for a header whose parent is known.  The engine
created without saved headers has received header 1 of the line and then a matching header
numbered 1 whose parent, hash 5102, is unknown: an orphan.  The parent arrives, a matching header
numbered 2 on top of header 1 of the line.  It is chained, the orphan is adopted as head, and the
handler adds the active block of the header numbered 2 and then that of the header numbered 1,
and asks for the bodies in this order: descending block numbers. -/
theorem bcsHandleBlockHeader_requests_bodies_out_of_order :
    bcsHandleBlockHeaders [exampleLine 1, exampleEarlyChild] (bcsCreate exampleGenesis none) =
      Outcome.returns exampleOutOfOrderBeforeState ∧
    exampleOutOfOrderBeforeState.chain = some (exampleLine 1) ∧
    exampleOutOfOrderBeforeState.orphans = [exampleEarlyChild] ∧
    exampleOutOfOrderBeforeState.activeBlocks = [] ∧
    BRSetGet blockHeaderGetHash exampleOutOfOrderBeforeState.headers exampleLateParent.parentHash =
      some (exampleLine 1) ∧
    bcsHandleBlockHeader exampleOutOfOrderBeforeState exampleLateParent =
      Outcome.returns exampleOutOfOrderState ∧
    exampleOutOfOrderState.chain = some exampleEarlyChild ∧
    parentWalk exampleOutOfOrderState.headers 5 exampleEarlyChild (exampleLine 1) =
      some [exampleEarlyChild, exampleLateParent] ∧
    exampleOutOfOrderState.activeBlocks =
      [bcsActiveBlockFor exampleLateParent, bcsActiveBlockFor exampleEarlyChild] ∧
    bcsRequestedBodies exampleOutOfOrderState.effects =
      [exampleLateParent.hash, exampleEarlyChild.hash] ∧
    exampleLateParent.number = 2 ∧
    exampleEarlyChild.number = 1 := by
  decide

/-- C36 fails on the code once the orphan is purged.  The engine created without saved headers
receives header 1 of the line, which is chained, and header 1 of a second line, also a child of
the genesis header: the reorganisation moves header 1 of the line from the chain into the orphan
set.  While it is an orphan, its child, header 2 of the line, becomes an orphan when it arrives.
The headers 2 to 12 of the second line arrive instead; at head 12 `bcsPurgeOrphans` removes
header 1 of the line from the orphan set and leaves it in the header set.  It is not on the
chain.  Now header 2 of the line arrives: its parent is in the header set and is no orphan, the
reorganisation walk makes every header of the chain an orphan without meeting the parent, and
the handler stops on `assert (NULL != bcs->chain)`; the header does not become an orphan. -/
theorem bcsHandleBlockHeader_child_of_purged_orphan_aborts :
    bcsHandleBlockHeaders [exampleLine 1, exampleSide 1] (bcsCreate exampleGenesis none) =
      Outcome.returns exampleReorgState ∧
    exampleReorgState.chain = some (exampleSide 1) ∧
    exampleReorgState.orphans = [exampleLine 1] ∧
    bcsHandleBlockHeader exampleReorgState (exampleLine 2) =
      Outcome.returns exampleReorgChildState ∧
    exampleReorgChildState.chain = some (exampleSide 1) ∧
    exampleReorgChildState.orphans = [exampleLine 1, exampleLine 2] ∧
    bcsHandleBlockHeaders ((List.range 11).map fun n => exampleSide (n + 2))
      exampleReorgState = Outcome.returns exampleReorgPurgedState ∧
    exampleReorgPurgedState.chain = some (exampleSide 12) ∧
    exampleReorgPurgedState.orphans = [] ∧
    BRSetGet blockHeaderGetHash exampleReorgPurgedState.headers (exampleLine 1).hash =
      some (exampleLine 1) ∧
    (bcsChainMembers exampleReorgPurgedState).map (fun members =>
      decide (exampleLine 1 ∈ members)) = some false ∧
    bcsHandleBlockHeader exampleReorgPurgedState (exampleLine 2) = Outcome.aborts := by
  decide

/-! ## Included transactions through reclamation -/

theorem bcsIncludedInBlockOrBelowTail_iff (bcs : BREthereumBCS) :
    bcsIncludedInBlockOrBelowTail bcs = true ↔
      ∀ transaction ∈ bcs.transactions,
        ∀ gasUsed blockHash blockNumber transactionIndex,
          transaction.status = .INCLUDED gasUsed blockHash blockNumber transactionIndex →
            (∃ header, BRSetGet blockHeaderGetHash bcs.headers blockHash = some header ∧
              header.number = blockNumber) ∨
            (∃ chainTail, bcs.chainTail = some chainTail ∧ blockNumber < chainTail.number) := by
  unfold bcsIncludedInBlockOrBelowTail
  rw [List.all_eq_true]
  constructor
  · intro h transaction hmem gasUsed blockHash blockNumber transactionIndex hstatus
    have hone := h transaction hmem
    unfold transactionIncludedIsInBlock at hone
    rw [hstatus] at hone
    simp only [Bool.or_eq_true] at hone
    rcases hone with hin | hlow
    · left
      cases hget : BRSetGet blockHeaderGetHash bcs.headers blockHash with
      | none => rw [hget] at hin; cases hin
      | some header =>
        rw [hget] at hin
        exact ⟨header, rfl, by simpa using hin⟩
    · right
      cases htail : bcs.chainTail with
      | none => rw [htail] at hlow; cases hlow
      | some chainTail =>
        rw [htail] at hlow
        exact ⟨chainTail, rfl, by simpa using hlow⟩
  · intro h transaction hmem
    unfold transactionIncludedIsInBlock
    cases hstatus : transaction.status <;> first | rfl | skip
    rename_i gasUsed blockHash blockNumber transactionIndex
    simp only [Bool.or_eq_true]
    rcases h transaction hmem gasUsed blockHash blockNumber transactionIndex hstatus with
      ⟨header, hget, hnumber⟩ | ⟨chainTail, htail, hlow⟩
    · left
      rw [hget]
      simpa using hnumber
    · right
      rw [htail]
      simpa using hlow

/-- The property with the block number implies the property without it. -/
theorem bcsIncludedInHeaderSetOrBelowTail_of_block (bcs : BREthereumBCS)
    (h : bcsIncludedInBlockOrBelowTail bcs = true) :
    bcsIncludedInHeaderSetOrBelowTail bcs = true := by
  unfold bcsIncludedInHeaderSetOrBelowTail
  rw [List.all_eq_true]
  intro transaction hmem
  unfold transactionIncludedIsKnown
  cases hstatus : transaction.status <;> first | rfl | skip
  rename_i gasUsed blockHash blockNumber transactionIndex
  simp only [Bool.or_eq_true]
  rcases (bcsIncludedInBlockOrBelowTail_iff bcs).mp h transaction hmem gasUsed blockHash
      blockNumber transactionIndex hstatus with ⟨header, hget, _⟩ | ⟨chainTail, htail, hlow⟩
  · left
    rw [hget]
    rfl
  · right
    rw [htail]
    simpa using hlow

/-- The property moves from one state to another with the same transactions when every header
under which a lookup succeeds is either found as before or numbered below the new tail, and the
number of the tail does not go down. -/
theorem bcsIncludedInBlockOrBelowTail_transfer (bcs bcs' : BREthereumBCS)
    (hinv : bcsIncludedInBlockOrBelowTail bcs = true)
    (htxs : bcs'.transactions = bcs.transactions)
    (hkeep : ∀ hash header, BRSetGet blockHeaderGetHash bcs.headers hash = some header →
      BRSetGet blockHeaderGetHash bcs'.headers hash = some header ∨
        ∃ chainTail, bcs'.chainTail = some chainTail ∧ header.number < chainTail.number)
    (htail : ∀ chainTail, bcs.chainTail = some chainTail →
      ∃ newTail, bcs'.chainTail = some newTail ∧ chainTail.number ≤ newTail.number) :
    bcsIncludedInBlockOrBelowTail bcs' = true := by
  rw [bcsIncludedInBlockOrBelowTail_iff] at hinv ⊢
  intro transaction hmem gasUsed blockHash blockNumber transactionIndex hstatus
  rw [htxs] at hmem
  rcases hinv transaction hmem gasUsed blockHash blockNumber transactionIndex hstatus with
    ⟨header, hget, hnumber⟩ | ⟨chainTail, hold, hlow⟩
  · rcases hkeep blockHash header hget with hsame | ⟨newTail, hnew, hbelow⟩
    · exact Or.inl ⟨header, hsame, hnumber⟩
    · exact Or.inr ⟨newTail, hnew, by omega⟩
  · obtain ⟨newTail, hnew, hle⟩ := htail chainTail hold
    exact Or.inr ⟨newTail, hnew, by omega⟩

theorem bcsIncludedInBlockOrBelowTail_congr (bcs bcs' : BREthereumBCS)
    (htxs : bcs'.transactions = bcs.transactions) (hheaders : bcs'.headers = bcs.headers)
    (htail : bcs'.chainTail = bcs.chainTail) :
    bcsIncludedInBlockOrBelowTail bcs' = bcsIncludedInBlockOrBelowTail bcs := by
  unfold bcsIncludedInBlockOrBelowTail
  rw [htxs, hheaders, htail]

/-- A header that is not in the header set is added to it. -/
theorem bcsIncludedInBlockOrBelowTail_add_header (bcs bcs' : BREthereumBCS)
    (header : BREthereumBlockHeader)
    (hinv : bcsIncludedInBlockOrBelowTail bcs = true)
    (hnew : BRSetGet blockHeaderGetHash bcs.headers header.hash = none)
    (htxs : bcs'.transactions = bcs.transactions)
    (hheaders : bcs'.headers = BRSetAdd blockHeaderGetHash bcs.headers header)
    (htail : bcs'.chainTail = bcs.chainTail) :
    bcsIncludedInBlockOrBelowTail bcs' = true := by
  apply bcsIncludedInBlockOrBelowTail_transfer bcs bcs' hinv htxs
  · intro hash known hget
    left
    rw [hheaders, BRSetGet_BRSetAdd, if_neg]
    · exact hget
    · intro heq
      have : header.hash = hash := heq
      rw [this, hget] at hnew
      cases hnew
  · intro chainTail hold
    exact ⟨chainTail, by rw [htail, hold], Nat.le_refl _⟩

/-- A transaction that satisfies the property on its own is put into the transaction set. -/
theorem bcsIncludedInBlockOrBelowTail_BRSetAdd (bcs : BREthereumBCS)
    (transaction : BREthereumTransaction)
    (hinv : bcsIncludedInBlockOrBelowTail bcs = true)
    (hnew : transactionIncludedIsInBlock bcs.headers bcs.chainTail transaction = true) :
    ∀ member ∈ BRSetAdd transactionGetHash bcs.transactions transaction,
      transactionIncludedIsInBlock bcs.headers bcs.chainTail member = true := by
  unfold bcsIncludedInBlockOrBelowTail at hinv
  rw [List.all_eq_true] at hinv
  intro member hmem
  rcases mem_BRSetAdd transactionGetHash _ _ _ hmem with hold | heq
  · exact hinv member hold
  · rw [heq]
    exact hnew

/-- The normalized status is INCLUDED only when the status that arrived is this status, or the
stored status is. -/
theorem bcsHandleTransactionStatus_normalized_included (bcs : BREthereumBCS)
    (oldStatus status : BREthereumTransactionStatus)
    (gasUsed : Nat) (blockHash : BREthereumHash) (blockNumber transactionIndex : Nat)
    (h : bcsHandleTransactionStatus_normalized bcs oldStatus status =
      Outcome.returns (.INCLUDED gasUsed blockHash blockNumber transactionIndex)) :
    status = .INCLUDED gasUsed blockHash blockNumber transactionIndex ∨
      oldStatus = .INCLUDED gasUsed blockHash blockNumber transactionIndex := by
  unfold bcsHandleTransactionStatus_normalized at h
  simp only at h
  cases oldStatus <;> cases status <;>
    simp [bcsHandleTransactionStatus_switch, Outcome.andThen] at h ⊢
  all_goals
    generalize bcsChainHasBlock bcs _ _ = has at h
    cases has with
    | aborts => simp at h
    | loops => simp at h
    | returns a =>
      cases a <;> simp at h
      first | exact h | exact Or.inl h

theorem bcsHandleTransactionStatus_keeps_included_in_block (bcs : BREthereumBCS)
    (hash : BREthereumHash) (status : BREthereumTransactionStatus) (bcs' : BREthereumBCS)
    (hinv : bcsIncludedInBlockOrBelowTail bcs = true)
    (hreports : transactionStatusReportsBlockNumber bcs.headers status = true)
    (hreturns : bcsHandleTransactionStatus bcs hash status = Outcome.returns bcs') :
    bcsIncludedInBlockOrBelowTail bcs' = true := by
  cases hget : BRSetGet transactionGetHash bcs.transactions hash with
  | none =>
    unfold bcsHandleTransactionStatus at hreturns
    rw [hget] at hreturns
    cases hreturns
    exact hinv
  | some tx =>
    obtain ⟨normalized, hnormalized⟩ :=
      bcsHandleTransactionStatus_returns_normalized bcs hash tx status bcs' hget hreturns
    have hchain := (bcsHandleTransactionStatus_normalized_inv _ _ _ _ hnormalized).2
    rw [bcsHandleTransactionStatus_of_normalized bcs hash tx status normalized hget
      hnormalized] at hreturns
    cases hreturns
    by_cases hsame : normalized = tx.status
    · rw [if_pos hsame]
      exact hinv
    · rw [if_neg hsame]
      have hnew : transactionIncludedIsInBlock bcs.headers bcs.chainTail
          { tx with status := normalized } = true := by
        unfold transactionIncludedIsInBlock
        cases hn : normalized <;> first | rfl | skip
        rename_i gasUsed blockHash blockNumber transactionIndex
        have hhas := bcsChainHasBlock_true bcs _ _ (hchain _ _ _ _ hn)
        rw [hn] at hnormalized hsame
        have hstatus : status = .INCLUDED gasUsed blockHash blockNumber transactionIndex := by
          rcases bcsHandleTransactionStatus_normalized_included bcs tx.status status _ _ _ _
            hnormalized with h | h
          · exact h
          · exact absurd h.symm hsame
        rw [hstatus] at hreports
        unfold transactionStatusReportsBlockNumber at hreports
        simp only [Bool.or_eq_true] at hhas ⊢
        rcases hhas with hin | hlow
        · left
          cases hlook : BRSetGet blockHeaderGetHash bcs.headers blockHash with
          | none => rw [hlook] at hin; cases hin
          | some header =>
            simp only [hlook] at hreports
            exact hreports
        · exact Or.inr hlow
      have hall := bcsIncludedInBlockOrBelowTail_BRSetAdd bcs
        { tx with status := normalized } hinv hnew
      unfold bcsIncludedInBlockOrBelowTail transactionSetStatus
      rw [List.all_eq_true]
      exact hall

theorem bcsHandleBlockHeader_transactions_keeps_included_in_block
    (transactions : List BREthereumTransaction) (bcs bcs' : BREthereumBCS)
    (hinv : bcsIncludedInBlockOrBelowTail bcs = true)
    (hreturns : bcsHandleBlockHeader_transactions transactions bcs = Outcome.returns bcs') :
    bcsIncludedInBlockOrBelowTail bcs' = true := by
  induction transactions generalizing bcs with
  | nil =>
    rw [bcsHandleBlockHeader_transactions] at hreturns
    cases hreturns
    exact hinv
  | cons tx rest ih =>
    rw [bcsHandleBlockHeader_transactions] at hreturns
    generalize hstep :
      (match tx.status with
        | .INCLUDED _ blockHash _ _ =>
          if (BRSetGet blockHeaderGetHash bcs.orphans blockHash).isSome then
            bcsHandleTransactionStatus bcs tx.hash .PENDING
          else .returns bcs
        | _ => Outcome.returns bcs) = step at hreturns
    cases step with
    | aborts => simp [Outcome.andThen] at hreturns
    | loops => simp [Outcome.andThen] at hreturns
    | returns middle =>
      simp only [Outcome.andThen] at hreturns
      apply ih middle _ hreturns
      split at hstep
      · split at hstep
        · exact bcsHandleTransactionStatus_keeps_included_in_block bcs tx.hash .PENDING middle
            hinv rfl hstep
        · cases hstep
          exact hinv
      · cases hstep
        exact hinv

/-- The reclamation walk over a path on which the numbers go down by one: the header numbered
`reclaimFromBlockNumber` is the new tail when the path reaches that number, and nothing changes
when it does not. -/
theorem bcsReclaimAndSaveBlocksIfAppropriate_rounds_kept (reclaimFromBlockNumber : Nat)
    (bcs : BREthereumBCS) (chain chainTail : BREthereumBlockHeader)
    (rest : List BREthereumBlockHeader)
    (htail : bcs.chainTail = some chainTail)
    (hfrom : reclaimFromBlockNumber ≤ chain.number)
    (hold : chainTail.number ≤ reclaimFromBlockNumber)
    (hnumbers : List.Chain (fun above below => above.number = below.number + 1) chain rest)
    (hallStored : ∀ member ∈ chain :: rest,
      BRSetGet blockHeaderGetHash bcs.headers member.hash = some member) :
    ∃ newTail,
      ((chain :: rest).foldl (bcsReclaimAndSaveBlocksIfAppropriate_round reclaimFromBlockNumber)
        bcs).chainTail = some newTail ∧
      chainTail.number ≤ newTail.number ∧
      ∀ hash header, BRSetGet blockHeaderGetHash bcs.headers hash = some header →
        BRSetGet blockHeaderGetHash
            ((chain :: rest).foldl
              (bcsReclaimAndSaveBlocksIfAppropriate_round reclaimFromBlockNumber) bcs).headers
            hash = some header ∨
          (BRSetGet blockHeaderGetHash
              ((chain :: rest).foldl
                (bcsReclaimAndSaveBlocksIfAppropriate_round reclaimFromBlockNumber) bcs).headers
              hash = none ∧
            header ∈ chain :: rest ∧
            header.number < reclaimFromBlockNumber ∧
            newTail.number = reclaimFromBlockNumber) := by
  have hpair := chain_numbers_pairwise rest chain hnumbers
  obtain ⟨hfound, hnone⟩ := bcsReclaimAndSaveBlocksIfAppropriate_rounds_tail
    reclaimFromBlockNumber (chain :: rest) bcs hpair
  by_cases hreach : ∃ member ∈ chain :: rest, member.number ≤ reclaimFromBlockNumber
  · obtain ⟨member, hmem, hle⟩ := hreach
    obtain ⟨newTail, hnewMem, hnewNumber⟩ :=
      chain_numbers_between rest chain hnumbers member hmem reclaimFromBlockNumber hle hfrom
    refine ⟨newTail, hfound newTail hnewMem hnewNumber, by omega, ?_⟩
    intro hash header hget
    rw [bcsReclaimAndSaveBlocksIfAppropriate_rounds_get]
    by_cases hgone : ∃ member ∈ chain :: rest,
        member.number < reclaimFromBlockNumber ∧ member.hash = hash
    · rw [if_pos hgone]
      right
      obtain ⟨other, hother, hlow, hhash⟩ := hgone
      have hsame := hallStored other hother
      rw [hhash, hget] at hsame
      cases hsame
      exact ⟨rfl, hother, hlow, hnewNumber⟩
    · rw [if_neg hgone]
      exact Or.inl hget
  · refine ⟨chainTail, ?_, Nat.le_refl _, ?_⟩
    · rw [hnone]
      · exact htail
      · intro member hmem heq
        exact hreach ⟨member, hmem, by omega⟩
    · intro hash header hget
      left
      rw [bcsReclaimAndSaveBlocksIfAppropriate_rounds_get, if_neg]
      · exact hget
      · rintro ⟨member, hmem, hlow, _⟩
        exact hreach ⟨member, hmem, by omega⟩

/-- The reclamation returns what the rounds of its walk leave, one round per header of the path
from the head, when the head is 600 or more above the tail and the numbers follow the parents. -/
theorem bcsReclaimAndSaveBlocksIfAppropriate_due (bcs : BREthereumBCS)
    (chain chainTail : BREthereumBlockHeader) (rest : List BREthereumBlockHeader)
    (hchain : bcs.chain = some chain) (htail : bcs.chainTail = some chainTail)
    (hle : chainTail.number ≤ chain.number)
    (hlong : 600 ≤ chain.number - chainTail.number)
    (hnumber : chain.number < UINT64_MOD)
    (hfollows : bcsNumbersFollowParents bcs = true)
    (hends : parentWalkEnds bcs.headers chain rest)
    (hnumbers : List.Chain (fun above below => above.number = below.number + 1) chain rest)
    (hallStored : ∀ member ∈ chain :: rest,
      BRSetGet blockHeaderGetHash bcs.headers member.hash = some member) :
    bcsReclaimAndSaveBlocksIfAppropriate bcs =
      Outcome.returns
        ((chain :: rest).foldl
          (bcsReclaimAndSaveBlocksIfAppropriate_round (chain.number - 300)) bcs) := by
  have hfollow := (bcsNumbersFollowParents_iff bcs).mp hfollows
  have hpair := chain_numbers_pairwise rest chain hnumbers
  have hdiff : u64Sub chain.number chainTail.number = chain.number - chainTail.number := by
    unfold u64Sub
    unfold UINT64_MOD at hnumber ⊢
    omega
  have hfrom : u64Sub chain.number BCS_SAVE_BLOCKS_COUNT = chain.number - 300 := by
    unfold u64Sub BCS_SAVE_BLOCKS_COUNT
    unfold UINT64_MOD at hnumber ⊢
    omega
  have hcycle : (chain :: rest).Pairwise
      (fun above below => below.parentHash ≠ above.hash) := by
    apply List.Pairwise.imp_of_mem _ hpair
    intro above below habove hbelow hlt heq
    have hget : BRSetGet blockHeaderGetHash bcs.headers below.parentHash = some above := by
      rw [heq]
      exact hallStored above habove
    have := hfollow below (BRSetGet_some_mem _ _ _ _ (hallStored below hbelow)) above hget
    omega
  have hself : ∀ member ∈ chain :: rest, member.parentHash ≠ member.hash := by
    intro member hmem heq
    have hget : BRSetGet blockHeaderGetHash bcs.headers member.parentHash = some member := by
      rw [heq]
      exact hallStored member hmem
    have := hfollow member (BRSetGet_some_mem _ _ _ _ (hallStored member hmem)) member hget
    omega
  have hlength : (chain :: rest).length ≤ bcs.headers.length := by
    have hnodup : (chain :: rest).Nodup := by
      apply List.Pairwise.imp _ hpair
      intro above below hlt heq
      rw [heq] at hlt
      omega
    have hsub : chain :: rest ⊆ bcs.headers := fun member hmem =>
      BRSetGet_some_mem _ _ _ _ (hallStored member hmem)
    exact (List.Nodup.subperm hnodup hsub).length_le
  have hwalked := bcsReclaimAndSaveBlocksIfAppropriate_walk_path (chain.number - 300)
    bcs.headers rest chain bcs (2 * bcs.headers.length + 2) hends (fun _ _ => rfl) hcycle
    hself (by simp only [List.length_cons] at hlength; omega)
  unfold bcsReclaimAndSaveBlocksIfAppropriate
  rw [hchain, htail]
  simp only
  rw [if_pos (by rw [hdiff]; unfold BCS_SAVE_BLOCKS_COUNT; omega), hfrom]
  exact hwalked

/-- The reclamation returns and keeps the property, in an engine in which the numbers follow the
parents and the head is in the header set, at or above the tail. -/
theorem bcsReclaimAndSaveBlocksIfAppropriate_keeps_included_in_block (bcs : BREthereumBCS)
    (chain chainTail : BREthereumBlockHeader)
    (hinv : bcsIncludedInBlockOrBelowTail bcs = true)
    (hchain : bcs.chain = some chain) (htail : bcs.chainTail = some chainTail)
    (hfollows : bcsNumbersFollowParents bcs = true)
    (hstored : BRSetGet blockHeaderGetHash bcs.headers chain.hash = some chain)
    (hle : chainTail.number ≤ chain.number)
    (hnumber : chain.number < UINT64_MOD) :
    ∃ bcs', bcsReclaimAndSaveBlocksIfAppropriate bcs = Outcome.returns bcs' ∧
      bcs'.chain = some chain ∧
      bcsIncludedInBlockOrBelowTail bcs' = true ∧
      ∀ hash header, BRSetGet blockHeaderGetHash bcs.headers hash = some header →
        BRSetGet blockHeaderGetHash bcs'.headers hash = some header ∨
          BRSetGet blockHeaderGetHash bcs'.headers hash = none ∧
            ∃ newTail, bcs'.chainTail = some newTail ∧ header.number < newTail.number := by
  by_cases hlong : 600 ≤ chain.number - chainTail.number
  · have hfollow := (bcsNumbersFollowParents_iff bcs).mp hfollows
    obtain ⟨rest, hends, hnumbers, hrestStored⟩ :=
      parentWalkEnds_exists bcs.headers hfollow chain.number chain rfl
        (BRSetGet_some_mem _ _ _ _ hstored)
    have hallStored : ∀ member ∈ chain :: rest,
        BRSetGet blockHeaderGetHash bcs.headers member.hash = some member := by
      intro member hmem
      rcases List.mem_cons.mp hmem with heq | hin
      · rw [heq]; exact hstored
      · exact hrestStored member hin
    have hreturns := bcsReclaimAndSaveBlocksIfAppropriate_due bcs chain chainTail rest hchain
      htail hle hlong hnumber hfollows hends hnumbers hallStored
    obtain ⟨newTail, hnewTail, hnewLe, hkept⟩ :=
      bcsReclaimAndSaveBlocksIfAppropriate_rounds_kept (chain.number - 300) bcs chain chainTail
        rest htail (by omega) (by omega) hnumbers hallStored
    obtain ⟨f1, _, f3, _⟩ :=
      bcsReclaimAndSaveBlocksIfAppropriate_rounds_frame (chain.number - 300) (chain :: rest) bcs
    refine ⟨_, hreturns, f1.trans hchain, ?_, ?_⟩
    · apply bcsIncludedInBlockOrBelowTail_transfer bcs _ hinv f3
      · intro hash header hget
        rcases hkept hash header hget with hsame | ⟨_, _, hlow, hnew⟩
        · exact Or.inl hsame
        · exact Or.inr ⟨newTail, hnewTail, by omega⟩
      · intro oldTail hold
        rw [htail] at hold
        cases hold
        exact ⟨newTail, hnewTail, hnewLe⟩
    · intro hash header hget
      rcases hkept hash header hget with hsame | ⟨hgone, _, hlow, hnew⟩
      · exact Or.inl hsame
      · exact Or.inr ⟨hgone, newTail, hnewTail, by omega⟩
  · refine ⟨bcs, ?_, hchain, hinv, fun _ _ hget => Or.inl hget⟩
    unfold bcsReclaimAndSaveBlocksIfAppropriate
    rw [hchain, htail]
    simp only
    rw [if_neg]
    unfold BCS_SAVE_BLOCKS_COUNT u64Sub
    unfold UINT64_MOD at hnumber ⊢
    omega

theorem bcsNumbersFollowParents_congr (bcs bcs' : BREthereumBCS)
    (hheaders : bcs'.headers = bcs.headers) :
    bcsNumbersFollowParents bcs' = bcsNumbersFollowParents bcs := by
  unfold bcsNumbersFollowParents
  rw [hheaders]

/-- The handler keeps the property whenever it returns, also when it reclaims old headers, if with
the new header in the header set the numbers follow the parents and the head that the handler
leaves is in that header set, at or above the tail. -/
theorem bcsHandleBlockHeader_keeps_included_in_block (bcs : BREthereumBCS)
    (header : BREthereumBlockHeader) (bcs' : BREthereumBCS) (chain : BREthereumBlockHeader)
    (hinv : bcsIncludedInBlockOrBelowTail bcs = true)
    (hchain : bcs.chain = some chain)
    (hreturns : bcsHandleBlockHeader bcs header = Outcome.returns bcs')
    (hfollows : bcsNumbersFollowParents
      { bcs with headers := BRSetAdd blockHeaderGetHash bcs.headers header } = true)
    (hhead : ∀ head chainTail, bcs'.chain = some head → bcs.chainTail = some chainTail →
      BRSetGet blockHeaderGetHash (BRSetAdd blockHeaderGetHash bcs.headers header) head.hash =
        some head ∧
      chainTail.number ≤ head.number ∧ head.number < UINT64_MOD) :
    bcsIncludedInBlockOrBelowTail bcs' = true := by
  cases hnew : BRSetGet blockHeaderGetHash bcs.headers header.hash with
  | some known =>
    unfold bcsHandleBlockHeader at hreturns
    rw [hnew] at hreturns
    simp only [Option.isSome_some, if_true] at hreturns
    cases hreturns
    exact hinv
  | none =>
    rcases bcsHandleBlockHeader_fields bcs header bcs' chain hchain hreturns with
      hsame | ⟨htxs, htail, hheaders⟩ |
      ⟨placed, headerParent, hchained, phead, ptxs, ptail, pheaders⟩
    · rw [hsame]
      exact hinv
    · exact bcsIncludedInBlockOrBelowTail_add_header bcs bcs' header hinv hnew htxs hheaders
        htail
    · obtain ⟨purged, examined, before, after, qtxs, qheaders, qtail, hexamine, btxs, bheaders,
        btail, hreclaim, atxs, aheaders, atail, achain⟩ :=
        bcsHandleBlockHeader_chained_fields placed headerParent bcs' header phead hchained
      have hpurged : bcsIncludedInBlockOrBelowTail purged = true :=
        bcsIncludedInBlockOrBelowTail_add_header bcs purged header hinv hnew (qtxs.trans ptxs)
          (qheaders.trans pheaders) (qtail.trans ptail)
      have hexamined := bcsHandleBlockHeader_transactions_keeps_included_in_block _ _ _ hpurged
        hexamine
      obtain ⟨_, e2, e3, _, _⟩ := bcsHandleBlockHeader_transactions_frame _ _ _ hexamine
      have hbefore : bcsIncludedInBlockOrBelowTail before = true := by
        rw [bcsIncludedInBlockOrBelowTail_congr examined before btxs
          (bheaders.trans (e3.trans qheaders).symm) (btail.trans (e2.trans qtail).symm)]
        exact hexamined
      obtain ⟨head, last, hheadBefore, hlast, _⟩ :=
        bcsReclaimAndSaveBlocksIfAppropriate_not_due before after hreclaim
      have hkeep := (bcsReclaimAndSaveBlocksIfAppropriate_frame before after hreclaim).1
      have hlast' : bcs.chainTail = some last := (ptail.symm.trans btail.symm).trans hlast
      obtain ⟨hstored, hle, hnumber⟩ :=
        hhead head last ((achain.trans hkeep).trans hheadBefore) hlast'
      have hfollows' : bcsNumbersFollowParents before = true := by
        rw [bcsNumbersFollowParents_congr
          { bcs with headers := BRSetAdd blockHeaderGetHash bcs.headers header } before
          (bheaders.trans pheaders)]
        exact hfollows
      obtain ⟨after', hafter', _, hinvAfter, _⟩ :=
        bcsReclaimAndSaveBlocksIfAppropriate_keeps_included_in_block before head last hbefore
          hheadBefore hlast hfollows'
          (by rw [bheaders.trans pheaders]; exact hstored) hle hnumber
      rw [hreclaim] at hafter'
      cases hafter'
      rw [bcsIncludedInBlockOrBelowTail_congr after bcs' atxs aheaders atail]
      exact hinvAfter

/-! ## Included transactions on the line of 601 headers -/

set_option maxRecDepth 100000 in
theorem exampleLongIncludedState_fields :
    bcsHandleTransactionStatus exampleLongSubmittedState 9000 (.INCLUDED 21000 1005 5 0) =
      Outcome.returns exampleLongIncludedState ∧
    exampleLongIncludedState.headers = exampleLineHeaders 601 ∧
    exampleLongIncludedState.chain = some (exampleLine 600) ∧
    exampleLongIncludedState.chainTail = some (exampleLine 0) ∧
    exampleLongIncludedState.transactions =
      [{ hash := 9000, status := .INCLUDED 21000 1005 5 0 }] ∧
    exampleLongIncludedState.orphans = [] ∧
    exampleLongIncludedState.logs = [] := by
  decide

set_option maxRecDepth 100000 in
theorem exampleLongMisreportedState_fields :
    bcsHandleTransactionStatus exampleLongSubmittedState 9000 (.INCLUDED 21000 1005 400 0) =
      Outcome.returns exampleLongMisreportedState ∧
    exampleLongMisreportedState.headers = exampleLineHeaders 601 ∧
    exampleLongMisreportedState.chain = some (exampleLine 600) ∧
    exampleLongMisreportedState.chainTail = some (exampleLine 0) ∧
    exampleLongMisreportedState.transactions =
      [{ hash := 9000, status := .INCLUDED 21000 1005 400 0 }] ∧
    exampleLongMisreportedState.orphans = [] ∧
    exampleLongMisreportedState.logs = [] := by
  decide

/-- The walk over parent hashes from header `n` of the line goes on down to header 0, whose parent
is not in the header set. -/
theorem parentWalkEnds_exampleLine (count : Nat) :
    ∀ n, n < count →
      parentWalkEnds (exampleLineHeaders count) (exampleLine n)
        ((List.range n).reverse.map exampleLine) := by
  intro n
  induction n with
  | zero =>
    intro _
    apply parentWalkEnds.last
    rw [BRSetGet_exampleLineHeaders, (exampleLine_fields 0).2.1, if_neg]
    omega
  | succ n ih =>
    intro hn
    rw [List.range_succ, List.reverse_append]
    apply parentWalkEnds.step _ (exampleLine n)
    · have hparent : (exampleLine (n + 1)).parentHash = 1000 + n := by
        show (1000 + (n + 1) - 1 : Nat) = 1000 + n
        omega
      rw [hparent]
      exact BRSetGet_exampleLine _ count (Or.inl rfl) n (by omega)
    · exact ih (by omega)

theorem chain_exampleLine (n : Nat) :
    List.Chain (fun above below => above.number = below.number + 1) (exampleLine n)
      ((List.range n).reverse.map exampleLine) := by
  induction n with
  | zero => exact List.Chain.nil
  | succ n ih =>
    rw [List.range_succ, List.reverse_append]
    exact List.Chain.cons rfl ih

theorem mem_exampleLinePath (n : Nat) (member : BREthereumBlockHeader) :
    member ∈ exampleLine n :: (List.range n).reverse.map exampleLine ↔
      ∃ i, i ≤ n ∧ member = exampleLine i := by
  simp only [List.mem_cons, List.mem_map, List.mem_reverse, List.mem_range]
  constructor
  · rintro (heq | ⟨i, hi, heq⟩)
    · exact ⟨n, Nat.le_refl _, heq⟩
    · exact ⟨i, by omega, heq.symm⟩
  · rintro ⟨i, hi, heq⟩
    by_cases hlast : i = n
    · exact Or.inl (by rw [heq, hlast])
    · exact Or.inr ⟨i, by omega, heq.symm⟩

theorem bcsNumbersFollowParents_exampleLineHeaders (bcs : BREthereumBCS) (count : Nat)
    (hheaders : bcs.headers = exampleLineHeaders count) :
    bcsNumbersFollowParents bcs = true := by
  rw [bcsNumbersFollowParents_iff]
  intro header hmem parent hget
  rw [hheaders] at hmem hget
  unfold exampleLineHeaders at hmem
  obtain ⟨n, hn, heq⟩ := List.mem_map.mp hmem
  rw [List.mem_range] at hn
  subst heq
  rw [BRSetGet_exampleLineHeaders] at hget
  have hparent : (exampleLine n).parentHash = 1000 + n - 1 := rfl
  rw [hparent] at hget
  by_cases hin : 1000 ≤ 1000 + n - 1 ∧ 1000 + n - 1 < 1000 + count
  · rw [if_pos hin] at hget
    rw [← Option.some.inj hget, (exampleLine_fields n).2.2, (exampleLine_fields _).2.2]
    omega
  · rw [if_neg hin] at hget
    cases hget

/-- Header `count` of the line is added to the header set of the headers 0 to `count - 1`. -/
theorem BRSetAdd_exampleLineHeaders (count : Nat) :
    BRSetAdd blockHeaderGetHash (exampleLineHeaders count) (exampleLine count) =
      exampleLineHeaders (count + 1) := by
  unfold BRSetAdd
  rw [if_neg]
  · unfold exampleLineHeaders
    rw [List.range_succ, List.map_append]
    rfl
  · rw [Bool.not_eq_true, List.any_eq_false]
    intro member hmem
    unfold exampleLineHeaders at hmem
    obtain ⟨n, hn, heq⟩ := List.mem_map.mp hmem
    rw [List.mem_range] at hn
    subst heq
    rw [beq_iff_eq]
    show ¬ ((1000 + n : Nat) = 1000 + count)
    omega

/-- The reclamation in an engine whose header set holds the headers 0 to `top` of the line, with
header `top` as head and header 0 as tail, for `top` from 600 on: it returns, header `top - 300` is
the new tail, the headers below it are gone from the header set and the headers from it on are
kept. -/
theorem bcsReclaimAndSaveBlocksIfAppropriate_exampleLine (bcs : BREthereumBCS) (top : Nat)
    (hlong : 600 ≤ top) (hsmall : top < UINT64_MOD)
    (hheaders : bcs.headers = exampleLineHeaders (top + 1))
    (hchain : bcs.chain = some (exampleLine top))
    (htail : bcs.chainTail = some (exampleLine 0)) :
    ∃ after, bcsReclaimAndSaveBlocksIfAppropriate bcs = Outcome.returns after ∧
      after.chainTail = some (exampleLine (top - 300)) ∧
      after.chain = some (exampleLine top) ∧
      after.transactions = bcs.transactions ∧
      (∀ n : Nat, n < top - 300 →
        BRSetGet blockHeaderGetHash after.headers (1000 + n) = none) ∧
      (∀ n : Nat, top - 300 ≤ n → n ≤ top →
        BRSetGet blockHeaderGetHash after.headers (1000 + n) = some (exampleLine n)) := by
  have hfollows := bcsNumbersFollowParents_exampleLineHeaders bcs (top + 1) hheaders
  have hallStored : ∀ member ∈ exampleLine top :: (List.range top).reverse.map exampleLine,
      BRSetGet blockHeaderGetHash bcs.headers member.hash = some member := by
    intro member hmem
    obtain ⟨i, hi, heq⟩ := (mem_exampleLinePath top member).mp hmem
    rw [heq, (exampleLine_fields i).1]
    exact BRSetGet_exampleLine _ (top + 1) (Or.inl hheaders) i (by omega)
  have hends : parentWalkEnds bcs.headers (exampleLine top)
      ((List.range top).reverse.map exampleLine) := by
    rw [hheaders]
    exact parentWalkEnds_exampleLine (top + 1) top (by omega)
  have hnumber : (exampleLine top).number = top := rfl
  have hzero : (exampleLine 0).number = 0 := rfl
  have hreturns := bcsReclaimAndSaveBlocksIfAppropriate_due bcs (exampleLine top)
    (exampleLine 0) _ hchain htail (by rw [hnumber, hzero]; omega)
    (by rw [hnumber, hzero]; omega) (by rw [hnumber]; exact hsmall) hfollows hends
    (chain_exampleLine top) hallStored
  rw [hnumber] at hreturns
  obtain ⟨f1, _, f3, _⟩ := bcsReclaimAndSaveBlocksIfAppropriate_rounds_frame (top - 300)
    (exampleLine top :: (List.range top).reverse.map exampleLine) bcs
  have hpair := chain_numbers_pairwise _ _ (chain_exampleLine top)
  refine ⟨_, hreturns, ?_, f1.trans hchain, f3, ?_, ?_⟩
  · exact (bcsReclaimAndSaveBlocksIfAppropriate_rounds_tail (top - 300) _ bcs hpair).1
      (exampleLine (top - 300)) ((mem_exampleLinePath top _).mpr ⟨top - 300, by omega, rfl⟩) rfl
  · intro n hn
    rw [bcsReclaimAndSaveBlocksIfAppropriate_rounds_get, if_pos]
    exact ⟨exampleLine n, (mem_exampleLinePath top _).mpr ⟨n, by omega, rfl⟩, hn, rfl⟩
  · intro n hlow hhigh
    rw [bcsReclaimAndSaveBlocksIfAppropriate_rounds_get, if_neg]
    · exact BRSetGet_exampleLine _ (top + 1) (Or.inl hheaders) n (by omega)
    · rintro ⟨member, hmem, hnum, hhash⟩
      obtain ⟨i, hi, heq⟩ := (mem_exampleLinePath top member).mp hmem
      rw [heq, (exampleLine_fields i).1] at hhash
      rw [heq, (exampleLine_fields i).2.2] at hnum
      have hsame : (1000 + i : Nat) = 1000 + n := hhash
      omega

/-- The replay of the saved headers `start` to `start + count - 1` of the line, in an engine whose
header set holds the headers below `start` and whose tail is header 0. -/
theorem bcsCreateReplay_exampleLine (count : Nat) :
    ∀ (start : Nat) (bcs : BREthereumBCS),
      bcs.headers = exampleLineHeaders start →
      bcs.chainTail = some (exampleLine 0) →
      bcsCreateReplay ((List.range' start (count + 1)).map exampleLine) bcs =
        { bcs with
          headers := exampleLineHeaders (start + count + 1)
          chain := some (exampleLine (start + count)) } := by
  induction count with
  | zero =>
    intro start bcs hheaders htail
    simp only [List.range', List.map_cons, List.map_nil, bcsCreateReplay, Nat.add_zero]
    rw [hheaders, htail, BRSetAdd_exampleLineHeaders]
    simp only [Bool.false_eq_true, if_false]
  | succ count ih =>
    intro start bcs hheaders htail
    rw [List.range'_succ, List.map_cons, List.range'_succ, List.map_cons, bcsCreateReplay]
    have hnumber : ((exampleLine start).number == (exampleLine (start + 1)).number) = false := by
      rw [(exampleLine_fields start).2.2, (exampleLine_fields (start + 1)).2.2]
      simp
    simp only [hnumber, Bool.false_eq_true, if_false]
    rw [← List.map_cons, ← List.range'_succ, hheaders, htail, BRSetAdd_exampleLineHeaders,
      ih (start + 1) _ rfl rfl]
    have hsum : start + 1 + count = start + (count + 1) := by omega
    simp only [hsum]

/-- The engine created with header 0 of the line as genesis header and the headers 0 to 600 of the
line as saved headers is `exampleLongState`. -/
theorem bcsCreate_exampleLine :
    bcsCreate (exampleLine 0) (some (exampleLineHeaders 601)) = exampleLongState := by
  have hfirst : exampleLineHeaders 601 =
      exampleLine 0 :: (List.range' 1 600).map exampleLine := by
    unfold exampleLineHeaders
    rw [List.range_eq_range', List.range'_succ, List.map_cons]
  unfold bcsCreate
  simp only
  rw [hfirst, List.range'_succ, List.map_cons, bcsCreateReplay]
  have hnumber : ((exampleLine 0).number == (exampleLine 1).number) = false := by decide
  simp only [hnumber, Bool.false_eq_true, if_false]
  rw [← List.map_cons, ← List.range'_succ, bcsCreateReplay_exampleLine 599 1 _ (by decide) rfl]
  rfl

/-! ## The handler returns when it reclaims -/

/-- A new header whose parent is on the chain, in an engine in which the reclamation returns: the
handler returns, with the new header or a chained orphan as head. -/
theorem bcsHandleBlockHeader_returns_reclaimed (bcs : BREthereumBCS)
    (header parent chain chainTail : BREthereumBlockHeader)
    (path : List BREthereumBlockHeader) (fuel : Nat)
    (hchain : bcs.chain = some chain)
    (htail : bcs.chainTail = some chainTail)
    (hnew : BRSetGet blockHeaderGetHash bcs.headers header.hash = none)
    (hvalid : header.isValid = true)
    (hparent : BRSetGet blockHeaderGetHash bcs.headers header.parentHash = some parent)
    (hnotorphan : BRSetGet blockHeaderGetHash bcs.orphans parent.hash = none)
    (hnumber : header.number = u64Add 1 parent.number)
    (hwalk : parentWalk bcs.headers fuel chain parent = some path)
    (hhead : BRSetGet blockHeaderGetHash bcs.headers chain.hash = some chain)
    (horphans : ∀ orphan ∈ bcs.orphans,
      BRSetGet blockHeaderGetHash bcs.headers orphan.hash = some orphan)
    (hlogs : ∀ log ∈ bcs.logs,
      (BRSetGet transactionGetHash bcs.transactions log.hash).isSome = true)
    (hreclaims : ∀ before chain', before.headers = BRSetAdd blockHeaderGetHash bcs.headers header →
      before.chainTail = some chainTail → before.chain = some chain' →
      (chain' = header ∨ chain' ∈ path.foldl (BRSetAdd blockHeaderGetHash) bcs.orphans) →
      ∃ after, bcsReclaimAndSaveBlocksIfAppropriate before = Outcome.returns after) :
    ∃ bcs' chain' before after, bcsHandleBlockHeader bcs header = Outcome.returns bcs' ∧
      bcs'.chain = some chain' ∧
      (chain' = header ∨ chain' ∈ path.foldl (BRSetAdd blockHeaderGetHash) bcs.orphans) ∧
      before.headers = BRSetAdd blockHeaderGetHash bcs.headers header ∧
      before.chainTail = some chainTail ∧
      before.chain = some chain' ∧
      bcsReclaimAndSaveBlocksIfAppropriate before = Outcome.returns after ∧
      bcs'.headers = after.headers ∧
      bcs'.chainTail = after.chainTail := by
  obtain ⟨placed, _, hplaced, _, _, _, _, hhandler⟩ :=
    bcsHandleBlockHeader_extends_chain.1 bcs header parent chain path fuel hchain hnew hvalid
      hparent hnotorphan hnumber hwalk
  rw [hhandler]
  -- lookups in the header set with the new header
  have hlookup : ∀ known : BREthereumBlockHeader,
      BRSetGet blockHeaderGetHash bcs.headers known.hash = some known →
      BRSetGet blockHeaderGetHash (BRSetAdd blockHeaderGetHash bcs.headers header) known.hash =
        some known := by
    intro known hknown
    rw [BRSetGet_BRSetAdd]
    have hne : ¬ blockHeaderGetHash header = known.hash := by
      intro heq
      have : header.hash = known.hash := heq
      rw [this, hknown] at hnew
      cases hnew
    rw [if_neg hne]
    exact hknown
  have hpathStored := parentWalk_stored bcs.headers fuel chain parent path hwalk hhead
  have hplacedOrphans : ∀ orphan ∈ placed.orphans,
      BRSetGet blockHeaderGetHash bcs.headers orphan.hash = some orphan := by
    intro orphan hmem
    rw [hplaced] at hmem
    rcases mem_foldl_BRSetAdd bcs.orphans path orphan hmem with hold | hwalked
    · exact horphans orphan hold
    · exact hpathStored orphan hwalked
  have hparentKey : ¬ blockHeaderGetHash header = header.parentHash := by
    intro heq
    have : header.hash = header.parentHash := heq
    rw [this, hparent] at hnew
    cases hnew
  have hparentNe : ¬ parent = header := by
    intro heq
    have hkey := BRSetGet_some_key blockHeaderGetHash bcs.headers _ parent hparent
    apply hparentKey
    rw [← hkey, heq]
  have hfirstWalk : parentWalk placed.headers 2 header parent = some [header] := by
    rw [hplaced]
    simp only [parentWalk]
    rw [if_neg hparentNe, BRSetGet_BRSetAdd, if_neg hparentKey, hparent]
    simp
  -- chain the orphans
  obtain ⟨adopted, chain', walkFuel, path', hloop, hadopted, hwhere, hwalk', ah, at', atx,
      al⟩ :=
    bcsChainOrphansLoop_walk placed.orphans.length placed header parent 2 [header]
      (by rw [hplaced]) (by rw [hplaced]; simp [BRSetGet_BRSetAdd, blockHeaderGetHash])
      (fun orphan hmem => by
        have := hlookup orphan (hplacedOrphans orphan hmem)
        rw [hplaced]
        exact this)
      hfirstWalk
  obtain ⟨p1, p2, p3, p4, _⟩ := bcsPurgeOrphans_frame adopted chain'.number
  have p5 := bcsPurgeOrphans_logs adopted chain'.number
  have hpurge : bcsChainThenPurgeOrphans placed =
      Outcome.returns (bcsPurgeOrphans adopted chain'.number) := by
    unfold bcsChainThenPurgeOrphans bcsChainOrphans
    rw [hloop]
    simp only [Outcome.andThen, hadopted]
  -- look at the transactions
  obtain ⟨examined, hexamined, hkeys⟩ :=
    bcsHandleBlockHeader_transactions_returns
      (bcsPurgeOrphans adopted chain'.number).transactions (bcsPurgeOrphans adopted chain'.number)
  obtain ⟨e1, e2, e3, _, e5⟩ := bcsHandleBlockHeader_transactions_frame _ _ _ hexamined
  have hheaders : examined.headers = placed.headers := by rw [e3, p3, ah]
  have hexaminedChain : examined.chain = some chain' := by rw [e1, p1, hadopted]
  have hexaminedTail : examined.chainTail = some chainTail := by
    rw [e2, p2, at', hplaced]
    exact htail
  -- the logs
  have hlogsOk : bcsHandleBlockHeader_logs examined = Outcome.returns examined := by
    unfold bcsHandleBlockHeader_logs
    have hall : (examined.logs.all fun log =>
        (BRSetGet transactionGetHash examined.transactions log.hash).isSome) = true := by
      rw [List.all_eq_true]
      intro log hmem
      apply hkeys
      rw [p4, atx, hplaced]
      apply hlogs
      rw [e5, p5, al, hplaced] at hmem
      exact hmem
    rw [if_pos hall]
  -- the needed headers
  have hwalkExamined : parentWalk examined.headers (examined.headers.length + 2) chain' parent =
      some path' := by
    rw [hheaders]
    exact parentWalk_within_fuel _ _ _ _ _ hwalk'
  obtain ⟨found, hfound⟩ := bcsHandleBlockHeader_neededHeaders_returns
    (examined.headers.length + 2) examined chain' parent path' [] hwalkExamined
  obtain ⟨r1, r2, r3, _, _, _⟩ := bcsHandleBlockHeader_requestBodies_frame found examined
  -- the reclamation
  have hwhere' : chain' = header ∨
      chain' ∈ path.foldl (BRSetAdd blockHeaderGetHash) bcs.orphans := by
    rw [hplaced] at hwhere
    exact hwhere
  have hbeforeHeaders : (bcsHandleBlockHeader_requestBodies found examined).headers =
      BRSetAdd blockHeaderGetHash bcs.headers header := by
    rw [r3, hheaders, hplaced]
  have hbeforeTail : (bcsHandleBlockHeader_requestBodies found examined).chainTail =
      some chainTail := by
    rw [r2, hexaminedTail]
  have hbeforeChain : (bcsHandleBlockHeader_requestBodies found examined).chain =
      some chain' := by
    rw [r1, hexaminedChain]
  obtain ⟨reclaimed, hreclaim⟩ := hreclaims (bcsHandleBlockHeader_requestBodies found examined)
    chain' hbeforeHeaders hbeforeTail hbeforeChain hwhere'
  have hreclaimedChain : reclaimed.chain = some chain' := by
    rw [(bcsReclaimAndSaveBlocksIfAppropriate_frame _ _ hreclaim).1, r1, hexaminedChain]
  refine ⟨bcsSyncContinue reclaimed chain'.number, chain',
    bcsHandleBlockHeader_requestBodies found examined, reclaimed, ?_, ?_, hwhere',
    hbeforeHeaders, hbeforeTail, hbeforeChain, hreclaim,
    (bcsSyncContinue_frame reclaimed chain'.number).1,
    (bcsSyncContinue_frame reclaimed chain'.number).2.2.2.1⟩
  · unfold bcsHandleBlockHeader_chained
    rw [hpurge]
    simp only [Outcome.andThen]
    rw [hexamined]
    simp only
    rw [hlogsOk]
    simp only
    rw [hexaminedChain, hfound]
    simp only
    rw [hreclaim]
    simp only
    rw [hreclaimedChain]
  · rw [(bcsSyncContinue_frame reclaimed chain'.number).2.2.1, hreclaimedChain]

/-! ## Header 601 arrives on the line of 601 headers -/

theorem bcsChainThenPurgeOrphans_no_orphans (bcs : BREthereumBCS)
    (chain : BREthereumBlockHeader) (hchain : bcs.chain = some chain)
    (horphans : bcs.orphans = []) :
    bcsChainThenPurgeOrphans bcs = Outcome.returns (bcsPurgeOrphans bcs chain.number) ∧
      (bcsPurgeOrphans bcs chain.number).orphans = [] := by
  constructor
  · unfold bcsChainThenPurgeOrphans bcsChainOrphans
    rw [horphans, List.length_nil, bcsChainOrphansLoop]
    simp only [Outcome.andThen, hchain]
  · unfold bcsPurgeOrphans
    split
    · exact horphans
    · rw [horphans, List.length_nil, bcsPurgeOrphansLoop]
      exact horphans

/-- Without orphans the handler leaves the statuses of the transactions as they are. -/
theorem bcsHandleBlockHeader_transactions_no_orphans
    (transactions : List BREthereumTransaction) (bcs : BREthereumBCS)
    (horphans : bcs.orphans = []) :
    bcsHandleBlockHeader_transactions transactions bcs = Outcome.returns bcs := by
  induction transactions with
  | nil => rw [bcsHandleBlockHeader_transactions]
  | cons tx rest ih =>
    rw [bcsHandleBlockHeader_transactions, bcsHandleBlockHeader_transactions_step, if_neg]
    · simp only [Outcome.andThen]
      exact ih
    · unfold transactionIsOrphaned
      rw [horphans]
      cases tx.status <;> simp [BRSetGet]

/-- Header 601 of the line arrives in an engine without orphans and logs whose header set holds the
headers 0 to 600 of the line, with header 600 as head and header 0 as tail: the handler returns,
header 601 is the head, the reclamation makes header 301 the tail, the headers 0 to 300 are gone
from the header set, the headers 301 to 601 are in it, and the transactions are as before. -/
theorem bcsHandleBlockHeader_exampleLine (bcs : BREthereumBCS)
    (hheaders : bcs.headers = exampleLineHeaders 601)
    (hchain : bcs.chain = some (exampleLine 600))
    (htail : bcs.chainTail = some (exampleLine 0))
    (horphans : bcs.orphans = [])
    (hlogs : bcs.logs = []) :
    ∃ bcs', bcsHandleBlockHeader bcs (exampleLine 601) = Outcome.returns bcs' ∧
      bcs'.chain = some (exampleLine 601) ∧
      bcs'.chainTail = some (exampleLine 301) ∧
      bcs'.transactions = bcs.transactions ∧
      (∀ n : Nat, n < 301 → BRSetGet blockHeaderGetHash bcs'.headers (1000 + n) = none) ∧
      (∀ n : Nat, 301 ≤ n → n ≤ 601 →
        BRSetGet blockHeaderGetHash bcs'.headers (1000 + n) = some (exampleLine n)) := by
  have hadded : BRSetAdd blockHeaderGetHash bcs.headers (exampleLine 601) =
      exampleLineHeaders 602 := by
    rw [hheaders]
    exact BRSetAdd_exampleLineHeaders 601
  have hstored : BRSetGet blockHeaderGetHash bcs.headers (exampleLine 600).hash =
      some (exampleLine 600) :=
    BRSetGet_exampleLine _ 601 (Or.inl hheaders) 600 (by omega)
  have hnew : BRSetGet blockHeaderGetHash bcs.headers (exampleLine 601).hash = none := by
    rw [hheaders, (exampleLine_fields 601).1, BRSetGet_exampleLineHeaders, if_neg]
    omega
  have hnotorphan : BRSetGet blockHeaderGetHash bcs.orphans (exampleLine 600).hash = none := by
    rw [horphans]
    rfl
  have hnumber : (exampleLine 601).number = u64Add 1 (exampleLine 600).number := by decide
  have hwalk : parentWalk bcs.headers 1 (exampleLine 600) (exampleLine 600) = some [] := by
    simp [parentWalk]
  obtain ⟨bcs', chain', before, after, hreturns, hhead, hwhere, bheaders, btail, bchain,
      hreclaim, aheaders, atail⟩ :=
    bcsHandleBlockHeader_returns_reclaimed bcs (exampleLine 601)
      (exampleLine 600) (exampleLine 600) (exampleLine 0) [] 1 hchain htail hnew rfl hstored
      hnotorphan hnumber hwalk hstored
      (by rw [horphans]; intro orphan hmem; cases hmem)
      (by rw [hlogs]; intro log hmem; cases hmem)
      (by
        intro before chain' bheaders btail bchain hwhere
        have hchain' : chain' = exampleLine 601 := by
          rcases hwhere with heq | hin
          · exact heq
          · rw [horphans] at hin
            cases hin
        rw [hchain'] at bchain
        obtain ⟨after, hafter, _⟩ := bcsReclaimAndSaveBlocksIfAppropriate_exampleLine before
          601 (by omega) (by unfold UINT64_MOD; omega) (bheaders.trans hadded) bchain btail
        exact ⟨after, hafter⟩)
  have hchain' : chain' = exampleLine 601 := by
    rcases hwhere with heq | hin
    · exact heq
    · rw [horphans] at hin
      cases hin
  rw [hchain'] at hhead bchain
  obtain ⟨after', hafter', ntail, _, _, hgone, hkept⟩ :=
    bcsReclaimAndSaveBlocksIfAppropriate_exampleLine before 601 (by omega)
      (by unfold UINT64_MOD; omega) (bheaders.trans hadded) bchain btail
  rw [hreclaim] at hafter'
  cases hafter'
  -- the transactions
  obtain ⟨placed, _, hplaced, _, hsameOrphans, hplacedChain, _, hhandler⟩ :=
    bcsHandleBlockHeader_extends_chain.1 bcs (exampleLine 601) (exampleLine 600)
      (exampleLine 600) [] 1 hchain hnew rfl hstored hnotorphan hnumber hwalk
  rw [hhandler] at hreturns
  obtain ⟨purged, _, examined, hpurge, _, _, ptxs, _, hexamine, _, _, etxs, _⟩ :=
    bcsHandleBlockHeader_chained_inv placed (some (exampleLine 600)) bcs' (exampleLine 601)
      hplacedChain hreturns
  have hplacedOrphans : placed.orphans = [] := (hsameOrphans rfl).trans horphans
  obtain ⟨hpurge', hnone⟩ :=
    bcsChainThenPurgeOrphans_no_orphans placed (exampleLine 601) hplacedChain hplacedOrphans
  rw [hpurge] at hpurge'
  cases hpurge'
  rw [bcsHandleBlockHeader_transactions_no_orphans _ _ hnone] at hexamine
  cases hexamine
  have hplacedTxs : placed.transactions = bcs.transactions := by rw [hplaced]
  rw [← hhandler] at hreturns
  refine ⟨bcs', hreturns, hhead, atail.trans ntail, (etxs.trans ptxs).trans hplacedTxs, ?_, ?_⟩
  · intro n hn
    rw [aheaders]
    exact hgone n (by omega)
  · intro n hlow hhigh
    rw [aheaders]
    exact hkept n (by omega) hhigh

/-! ## Included transactions through the handlers -/

set_option maxRecDepth 100000 in
theorem exampleLongSubmittedState_fields :
    bcsIncludedInBlockOrBelowTail exampleLongSubmittedState = true ∧
    transactionStatusReportsBlockNumber exampleLongSubmittedState.headers
      (.INCLUDED 21000 1005 5 0) = true ∧
    transactionStatusReportsBlockNumber exampleLongSubmittedState.headers
      (.INCLUDED 21000 1005 400 0) = false ∧
    bcsIncludedInHeaderSet exampleLongIncludedState = true ∧
    bcsIncludedInHeaderSet exampleLongMisreportedState = true ∧
    bcsIncludedInHeaderSetOrBelowTail exampleLongMisreportedState = true := by
  decide

/-- The one transaction of the engine is INCLUDED in a block whose hash is not in the header
set. -/
theorem bcsIncludedInHeaderSet_gone (bcs : BREthereumBCS) (hash : BREthereumHash)
    (gasUsed : Nat) (blockHash : BREthereumHash) (blockNumber transactionIndex : Nat)
    (htxs : bcs.transactions =
      [{ hash := hash, status := .INCLUDED gasUsed blockHash blockNumber transactionIndex }])
    (hgone : BRSetGet blockHeaderGetHash bcs.headers blockHash = none) :
    bcsIncludedInHeaderSet bcs = false ∧
      ∀ chainTail, bcs.chainTail = some chainTail → chainTail.number ≤ blockNumber →
        bcsIncludedInHeaderSetOrBelowTail bcs = false := by
  constructor
  · unfold bcsIncludedInHeaderSet
    rw [htxs]
    simp [hgone]
  · intro chainTail htail hhigh
    unfold bcsIncludedInHeaderSetOrBelowTail transactionIncludedIsKnown
    rw [htxs, htail]
    simp [hgone]
    omega

set_option maxRecDepth 100000 in
theorem exampleFarState_fields :
    bcsHandleTransactionStatus
        (bcsHandleSubmitTransaction (bcsCreate exampleGenesis (some [exampleLine 1, exampleFar]))
          exampleTransaction .LES_SUCCESS)
        9000 (.INCLUDED 21000 1001 1 0) = Outcome.returns exampleFarState ∧
      transactionStatusReportsBlockNumber
        (bcsCreate exampleGenesis (some [exampleLine 1, exampleFar])).headers
        (.INCLUDED 21000 1001 1 0) = true ∧
      exampleFarState.headers = [exampleGenesis, exampleLine 1, exampleFar] ∧
      exampleFarState.chain = some exampleFar ∧
      exampleFarState.chainTail = some (exampleLine 1) ∧
      bcsIncludedInBlockOrBelowTail exampleFarState = true ∧
      bcsNumbersFollowParents exampleFarState = false ∧
      bcsHandleBlockHeader exampleFarState exampleFarChild =
        Outcome.returns exampleFarReclaimedState ∧
      exampleFarReclaimedState.chain = some exampleFarChild ∧
      exampleFarReclaimedState.chainTail = some (exampleLine 1) ∧
      exampleFarReclaimedState.headers = [exampleFar, exampleFarChild] ∧
      exampleFarReclaimedState.transactions =
        [{ hash := 9000, status := .INCLUDED 21000 1001 1 0 }] ∧
      bcsIncludedInHeaderSetOrBelowTail exampleFarReclaimedState = false := by
  decide

/-- C16, as stated, fails, and so does the property with "or its block number below the number of
`chainTail`" when a block number is reported that is not the number of the block, or when the
numbers of the headers do not follow the parents.

Below the tail: the engine is created with one saved header numbered 100, which is head and tail;
the transaction 9000 is submitted and a status INCLUDED arrives for it with block number 5 and the
block hash 7777.  No header has that hash, yet the status is accepted because 5 is below the
number of `chainTail`: the transaction is stored as INCLUDED with a block hash that is not in the
header set.

Reclamation: `exampleLongSubmittedState` is the engine created with the saved headers 0 to 600 of
the line, with header 600 as head and header 0 as tail, after the transaction was submitted.  The
status INCLUDED in header 5 (hash 1005) with block number 5 is accepted and the block hash is in
the header set; header 601 arrives, the handler returns, and the block hash of the transaction is
no longer in the header set.

Reclamation after a misreported number: the status INCLUDED in header 5 with block number 400 is
accepted as well; header 601 arrives, the handler returns with header 301 as tail, and the
transaction has neither its block hash in the header set nor a block number below the number of
`chainTail`.

Numbers that do not follow the parents: `exampleFarState` is created with the saved headers
1 and `exampleFar`, numbered 700 with header 1 as parent; the transaction is reported as included
in header 1 with block number 1.  `exampleFarChild` arrives: the reclamation removes header 1 and
the genesis header and leaves header 1 as tail, so that the transaction has neither its block hash
in the header set nor a block number below the number of `chainTail`. -/
theorem bcsIncludedInHeaderSet_not_kept :
    (bcsHandleEvents
        [.submitTransaction exampleTransaction .LES_SUCCESS,
         .transactionStatus 9000 (.INCLUDED 21000 7777 5 0)]
        (bcsCreate exampleGenesis (some [exampleSaved])) =
        Outcome.returns exampleBelowTailState ∧
      exampleBelowTailState.transactions =
        [{ hash := 9000, status := .INCLUDED 21000 7777 5 0 }] ∧
      exampleBelowTailState.headers = [exampleGenesis, exampleSaved] ∧
      BRSetGet blockHeaderGetHash exampleBelowTailState.headers 7777 = none ∧
      bcsIncludedInHeaderSet exampleBelowTailState = false) ∧
    (bcsHandleSubmitTransaction (bcsCreate (exampleLine 0) (some (exampleLineHeaders 601)))
        exampleTransaction .LES_SUCCESS = exampleLongSubmittedState ∧
      bcsHandleTransactionStatus exampleLongSubmittedState 9000 (.INCLUDED 21000 1005 5 0) =
        Outcome.returns exampleLongIncludedState ∧
      bcsIncludedInHeaderSet exampleLongIncludedState = true ∧
      ∃ bcs', bcsHandleBlockHeader exampleLongIncludedState (exampleLine 601) =
          Outcome.returns bcs' ∧
        bcs'.transactions = [{ hash := 9000, status := .INCLUDED 21000 1005 5 0 }] ∧
        BRSetGet blockHeaderGetHash bcs'.headers 1005 = none ∧
        bcsIncludedInHeaderSet bcs' = false) ∧
    (bcsHandleTransactionStatus exampleLongSubmittedState 9000 (.INCLUDED 21000 1005 400 0) =
        Outcome.returns exampleLongMisreportedState ∧
      transactionStatusReportsBlockNumber exampleLongSubmittedState.headers
        (.INCLUDED 21000 1005 400 0) = false ∧
      bcsIncludedInHeaderSet exampleLongMisreportedState = true ∧
      bcsIncludedInHeaderSetOrBelowTail exampleLongMisreportedState = true ∧
      ∃ bcs', bcsHandleBlockHeader exampleLongMisreportedState (exampleLine 601) =
          Outcome.returns bcs' ∧
        bcs'.transactions = [{ hash := 9000, status := .INCLUDED 21000 1005 400 0 }] ∧
        bcs'.chainTail = some (exampleLine 301) ∧
        BRSetGet blockHeaderGetHash bcs'.headers 1005 = none ∧
        bcsIncludedInHeaderSetOrBelowTail bcs' = false) ∧
    (bcsHandleTransactionStatus
        (bcsHandleSubmitTransaction (bcsCreate exampleGenesis (some [exampleLine 1, exampleFar]))
          exampleTransaction .LES_SUCCESS)
        9000 (.INCLUDED 21000 1001 1 0) = Outcome.returns exampleFarState ∧
      transactionStatusReportsBlockNumber
        (bcsCreate exampleGenesis (some [exampleLine 1, exampleFar])).headers
        (.INCLUDED 21000 1001 1 0) = true ∧
      bcsIncludedInBlockOrBelowTail exampleFarState = true ∧
      bcsNumbersFollowParents exampleFarState = false ∧
      bcsHandleBlockHeader exampleFarState exampleFarChild =
        Outcome.returns exampleFarReclaimedState ∧
      exampleFarReclaimedState.transactions =
        [{ hash := 9000, status := .INCLUDED 21000 1001 1 0 }] ∧
      exampleFarReclaimedState.headers = [exampleFar, exampleFarChild] ∧
      exampleFarReclaimedState.chainTail = some (exampleLine 1) ∧
      bcsIncludedInHeaderSetOrBelowTail exampleFarReclaimedState = false) := by
  refine ⟨by decide, ?_, ?_, ?_⟩
  · obtain ⟨hstatus, hheaders, hchain, htail, htxs, horphans, hlogs⟩ :=
      exampleLongIncludedState_fields
    refine ⟨by rw [bcsCreate_exampleLine]; rfl, hstatus,
      exampleLongSubmittedState_fields.2.2.2.1, ?_⟩
    obtain ⟨bcs', hreturns, _, _, hsame, hgone, _⟩ :=
      bcsHandleBlockHeader_exampleLine exampleLongIncludedState hheaders hchain htail horphans
        hlogs
    have hlost := hgone 5 (by omega)
    exact ⟨bcs', hreturns, hsame.trans htxs, hlost,
      (bcsIncludedInHeaderSet_gone bcs' 9000 21000 1005 5 0 (hsame.trans htxs) hlost).1⟩
  · obtain ⟨hstatus, hheaders, hchain, htail, htxs, horphans, hlogs⟩ :=
      exampleLongMisreportedState_fields
    refine ⟨hstatus, exampleLongSubmittedState_fields.2.2.1,
      exampleLongSubmittedState_fields.2.2.2.2.1, exampleLongSubmittedState_fields.2.2.2.2.2, ?_⟩
    obtain ⟨bcs', hreturns, _, hnewTail, hsame, hgone, _⟩ :=
      bcsHandleBlockHeader_exampleLine exampleLongMisreportedState hheaders hchain htail
        horphans hlogs
    have hlost := hgone 5 (by omega)
    exact ⟨bcs', hreturns, hsame.trans htxs, hnewTail, hlost,
      (bcsIncludedInHeaderSet_gone bcs' 9000 21000 1005 400 0 (hsame.trans htxs) hlost).2
        (exampleLine 301) hnewTail (by decide)⟩
  · obtain ⟨hstatus, hreports, _, _, _, hinv, hfollows, hreturns, _, htail, hheaders, htxs,
      hfails⟩ := exampleFarState_fields
    exact ⟨hstatus, hreports, hinv, hfollows, hreturns, htxs, hheaders, htail, hfails⟩

/-- C16, amended.  The property "every transaction stored as INCLUDED has its block hash in the
header set, on a header with the reported block number, or its block number below the number of
`chainTail`" implies that every such transaction has its block hash in the header set or its block
number below the number of `chainTail`.  It holds after `bcsCreate`, for every saved-headers
argument.  It is kept by `bcsHandleSubmitTransaction` for a transaction that is not INCLUDED, for
each answer of LES; by `bcsHandleTransactionStatus`, for every hash and every status that reports,
for a block of the header set, the number of that block, also when a status with a block number
below the number of `chainTail` is accepted; by `bcsPurgeOrphans`, which leaves the header set as
it is; by `bcsHandleAnnounce`; by `bcsReclaimAndSaveBlocksIfAppropriate`, which returns and takes
from the header set only headers with a number below the number of the new tail; and by
`bcsHandleBlockHeader` in an engine with a head, whenever it returns, also when it reclaims old
headers.  The last two are for an engine in which every header of the header set with its parent
in the header set has the number of the parent plus one (for the handler: with the new header in
the header set) and the head (for the handler: the head it leaves) is in the header set with a
number below 2^64 that is at least the number of the tail. -/
theorem bcsIncludedInBlockOrBelowTail_kept :
    (∀ bcs : BREthereumBCS,
      bcsIncludedInBlockOrBelowTail bcs = true →
      bcsIncludedInHeaderSetOrBelowTail bcs = true) ∧
    (∀ (genesis : BREthereumBlockHeader) (headers : Option (List BREthereumBlockHeader)),
      bcsIncludedInBlockOrBelowTail (bcsCreate genesis headers) = true) ∧
    (∀ (bcs : BREthereumBCS) (transaction : BREthereumTransaction)
      (lesStatus : BREthereumLESStatus),
      bcsIncludedInBlockOrBelowTail bcs = true →
      (∀ gasUsed blockHash blockNumber transactionIndex,
        transaction.status ≠ .INCLUDED gasUsed blockHash blockNumber transactionIndex) →
      bcsIncludedInBlockOrBelowTail
        (bcsHandleSubmitTransaction bcs transaction lesStatus) = true) ∧
    (∀ (bcs : BREthereumBCS) (hash : BREthereumHash) (status : BREthereumTransactionStatus)
      (bcs' : BREthereumBCS),
      bcsIncludedInBlockOrBelowTail bcs = true →
      transactionStatusReportsBlockNumber bcs.headers status = true →
      bcsHandleTransactionStatus bcs hash status = Outcome.returns bcs' →
      bcsIncludedInBlockOrBelowTail bcs' = true) ∧
    (∀ (bcs : BREthereumBCS) (blockNumber : Nat),
      bcsIncludedInBlockOrBelowTail bcs = true →
      (bcsPurgeOrphans bcs blockNumber).headers = bcs.headers ∧
      bcsIncludedInBlockOrBelowTail (bcsPurgeOrphans bcs blockNumber) = true) ∧
    (∀ (bcs : BREthereumBCS) (chain chainTail : BREthereumBlockHeader),
      bcsIncludedInBlockOrBelowTail bcs = true →
      bcs.chain = some chain →
      bcs.chainTail = some chainTail →
      bcsNumbersFollowParents bcs = true →
      BRSetGet blockHeaderGetHash bcs.headers chain.hash = some chain →
      chainTail.number ≤ chain.number →
      chain.number < UINT64_MOD →
      ∃ bcs', bcsReclaimAndSaveBlocksIfAppropriate bcs = Outcome.returns bcs' ∧
        bcsIncludedInBlockOrBelowTail bcs' = true ∧
        ∀ hash header, BRSetGet blockHeaderGetHash bcs.headers hash = some header →
          BRSetGet blockHeaderGetHash bcs'.headers hash = some header ∨
            BRSetGet blockHeaderGetHash bcs'.headers hash = none ∧
              ∃ newTail, bcs'.chainTail = some newTail ∧ header.number < newTail.number) ∧
    (∀ (bcs : BREthereumBCS) (header : BREthereumBlockHeader) (bcs' : BREthereumBCS)
      (chain : BREthereumBlockHeader),
      bcsIncludedInBlockOrBelowTail bcs = true →
      bcs.chain = some chain →
      bcsHandleBlockHeader bcs header = Outcome.returns bcs' →
      bcsNumbersFollowParents
        { bcs with headers := BRSetAdd blockHeaderGetHash bcs.headers header } = true →
      (∀ head chainTail, bcs'.chain = some head → bcs.chainTail = some chainTail →
        BRSetGet blockHeaderGetHash (BRSetAdd blockHeaderGetHash bcs.headers header)
          head.hash = some head ∧
        chainTail.number ≤ head.number ∧ head.number < UINT64_MOD) →
      bcsIncludedInBlockOrBelowTail bcs' = true) ∧
    (∀ (bcs : BREthereumBCS) (headNumber : Nat),
      bcsIncludedInBlockOrBelowTail bcs = true →
      bcsIncludedInBlockOrBelowTail (bcsHandleAnnounce bcs headNumber) = true) := by
  refine ⟨bcsIncludedInHeaderSetOrBelowTail_of_block, ?_, ?_, ?_, ?_, ?_, ?_, ?_⟩
  · intro genesis headers
    unfold bcsIncludedInBlockOrBelowTail
    rw [bcsCreate_transactions]
    rfl
  · intro bcs transaction lesStatus hinv hstatus
    have hnew : transactionIncludedIsInBlock bcs.headers bcs.chainTail transaction = true := by
      unfold transactionIncludedIsInBlock
      cases hs : transaction.status <;> first | rfl | exact absurd hs (hstatus _ _ _ _)
    have hall := bcsIncludedInBlockOrBelowTail_BRSetAdd bcs transaction hinv hnew
    unfold bcsIncludedInBlockOrBelowTail bcsHandleSubmitTransaction
    cases lesStatus <;> (rw [List.all_eq_true]; exact hall)
  · intro bcs hash status bcs' hinv hreports hreturns
    exact bcsHandleTransactionStatus_keeps_included_in_block bcs hash status bcs' hinv hreports
      hreturns
  · intro bcs blockNumber hinv
    obtain ⟨_, htail, hheaders, htxs, _⟩ := bcsPurgeOrphans_frame bcs blockNumber
    refine ⟨hheaders, ?_⟩
    unfold bcsIncludedInBlockOrBelowTail at hinv ⊢
    rw [htail, hheaders, htxs]
    exact hinv
  · intro bcs chain chainTail hinv hchain htail hfollows hstored hle hnumber
    obtain ⟨bcs', hreturns, _, hkept, hbelow⟩ :=
      bcsReclaimAndSaveBlocksIfAppropriate_keeps_included_in_block bcs chain chainTail hinv
        hchain htail hfollows hstored hle hnumber
    exact ⟨bcs', hreturns, hkept, hbelow⟩
  · intro bcs header bcs' chain hinv hchain hreturns hfollows hhead
    exact bcsHandleBlockHeader_keeps_included_in_block bcs header bcs' chain hinv hchain
      hreturns hfollows hhead
  · intro bcs headNumber hinv
    exact hinv

/-- The amended C16 at work.  In `exampleSavedState` the transaction 9000 is stored as CREATED; the
status INCLUDED with block number 5, below the number 100 of `chainTail`, is accepted and the
property holds in `exampleBelowTailState`.  `exampleLongSubmittedState` is the engine created with
the saved headers 0 to 600 of the line, with header 600 as head and header 0 as tail, after the
transaction was submitted; the status INCLUDED in header 5 with block number 5 is accepted and the
property holds in `exampleLongIncludedState`.  There the reclamation returns a state in which the
property holds.  Header 601 arrives: the handler returns, header 301 is the tail, the block hash
of the transaction is gone from the header set, and the property holds, with the block number 5
below the number of the tail. -/
theorem bcsIncludedInBlockOrBelowTail_kept_witness :
    bcsHandleTransactionStatus exampleSavedState 9000 (.INCLUDED 21000 7777 5 0) =
        Outcome.returns exampleBelowTailState ∧
      bcsIncludedInBlockOrBelowTail exampleBelowTailState = true ∧
      bcsHandleSubmitTransaction (bcsCreate (exampleLine 0) (some (exampleLineHeaders 601)))
        exampleTransaction .LES_SUCCESS = exampleLongSubmittedState ∧
      bcsHandleTransactionStatus exampleLongSubmittedState 9000 (.INCLUDED 21000 1005 5 0) =
        Outcome.returns exampleLongIncludedState ∧
      bcsIncludedInBlockOrBelowTail exampleLongIncludedState = true ∧
      (∃ bcs', bcsReclaimAndSaveBlocksIfAppropriate exampleLongIncludedState =
          Outcome.returns bcs' ∧
        bcsIncludedInBlockOrBelowTail bcs' = true) ∧
      ∃ bcs', bcsHandleBlockHeader exampleLongIncludedState (exampleLine 601) =
          Outcome.returns bcs' ∧
        bcs'.chainTail = some (exampleLine 301) ∧
        bcs'.transactions = [{ hash := 9000, status := .INCLUDED 21000 1005 5 0 }] ∧
        BRSetGet blockHeaderGetHash bcs'.headers 1005 = none ∧
        bcsIncludedInBlockOrBelowTail bcs' = true ∧
        bcsIncludedInHeaderSetOrBelowTail bcs' = true := by
  obtain ⟨hstatus, hheaders, hchain, htail, htxs, horphans, hlogs⟩ :=
    exampleLongIncludedState_fields
  have hincluded : bcsIncludedInBlockOrBelowTail exampleLongIncludedState = true :=
    bcsIncludedInBlockOrBelowTail_kept.2.2.2.1 exampleLongSubmittedState 9000
      (.INCLUDED 21000 1005 5 0) exampleLongIncludedState exampleLongSubmittedState_fields.1
      exampleLongSubmittedState_fields.2.1 hstatus
  have hadded : BRSetAdd blockHeaderGetHash exampleLongIncludedState.headers
      (exampleLine 601) = exampleLineHeaders 602 := by
    rw [hheaders]
    exact BRSetAdd_exampleLineHeaders 601
  refine ⟨by decide,
    bcsIncludedInBlockOrBelowTail_kept.2.2.2.1 exampleSavedState 9000
      (.INCLUDED 21000 7777 5 0) exampleBelowTailState (by decide) (by decide) (by decide),
    by rw [bcsCreate_exampleLine]; rfl, hstatus, hincluded, ?_, ?_⟩
  · obtain ⟨bcs', hreturns, hkept, _⟩ :=
      bcsIncludedInBlockOrBelowTail_kept.2.2.2.2.2.1 exampleLongIncludedState
        (exampleLine 600) (exampleLine 0) hincluded hchain htail
        (bcsNumbersFollowParents_exampleLineHeaders exampleLongIncludedState 601 hheaders)
        (BRSetGet_exampleLine _ 601 (Or.inl hheaders) 600 (by omega)) (by decide) (by decide)
    exact ⟨bcs', hreturns, hkept⟩
  · obtain ⟨bcs', hreturns, hhead, hnewTail, hsame, hgone, _⟩ :=
      bcsHandleBlockHeader_exampleLine exampleLongIncludedState hheaders hchain htail horphans
        hlogs
    have hkept : bcsIncludedInBlockOrBelowTail bcs' = true :=
      bcsIncludedInBlockOrBelowTail_kept.2.2.2.2.2.2.1 exampleLongIncludedState
        (exampleLine 601) bcs' (exampleLine 600) hincluded hchain hreturns
        (bcsNumbersFollowParents_exampleLineHeaders
          { exampleLongIncludedState with
            headers := BRSetAdd blockHeaderGetHash exampleLongIncludedState.headers
              (exampleLine 601) } 602 (by dsimp only; exact hadded))
        (by
          intro head chainTail hh ht
          rw [hhead] at hh
          rw [htail] at ht
          cases hh
          cases ht
          rw [hadded]
          exact ⟨BRSetGet_exampleLine _ 602 (Or.inl rfl) 601 (by omega), by decide,
            by decide⟩)
    exact ⟨bcs', hreturns, hnewTail, hsame.trans htxs, hgone 5 (by omega), hkept,
      bcsIncludedInBlockOrBelowTail_kept.1 bcs' hkept⟩

end BCS

namespace LES

open BCS

/-! ## Establishing a provisioner -/

/-- The messages count that `provisionerEstablish` computes. -/
theorem provisionerEstablish_returns (imports : BREthereumNodeImports)
    (provisioner : BREthereumNodeProvisioner) (node : BREthereumNode)
    (hlimit : provisionerGetMessageContentLimit imports node.type provisioner ≠ 0) :
    provisionerEstablish imports provisioner node =
      Outcome.returns
        ({ provisioner with
            messageContentLimit :=
              provisionerGetMessageContentLimit imports node.type provisioner
            messagesCount :=
              u64Sub (u64Add (provisionerGetCount provisioner)
                (provisionerGetMessageContentLimit imports node.type provisioner)) 1 /
                provisionerGetMessageContentLimit imports node.type provisioner
            messageIdentifier := node.messageIdentifier
            messagesRemainingCount :=
              u64Sub (u64Add (provisionerGetCount provisioner)
                (provisionerGetMessageContentLimit imports node.type provisioner)) 1 /
                provisionerGetMessageContentLimit imports node.type provisioner
            messagesReceivedCount :=
              if provisioner.provision.type = .PROVISION_SUBMIT_TRANSACTION then 1 else 0
            messages :=
              (List.range
                (u64Sub (u64Add (provisionerGetCount provisioner)
                  (provisionerGetMessageContentLimit imports node.type provisioner)) 1 /
                  provisionerGetMessageContentLimit imports node.type provisioner)).map
                fun index =>
                  imports.provisionCreateMessage provisioner.provision
                    (if node.type = .NODE_TYPE_GETH then .MESSAGE_LES else .MESSAGE_PIP)
                    (provisionerGetMessageContentLimit imports node.type provisioner)
                    node.messageIdentifier index },
          { node with
            messageIdentifier := u64Add node.messageIdentifier
              (u64Sub (u64Add (provisionerGetCount provisioner)
                (provisionerGetMessageContentLimit imports node.type provisioner)) 1 /
                provisionerGetMessageContentLimit imports node.type provisioner) }) := by
  unfold provisionerEstablish
  rw [if_neg hlimit]
  rfl

theorem provisionerEstablish_aborts (imports : BREthereumNodeImports)
    (provisioner : BREthereumNodeProvisioner) (node : BREthereumNode)
    (hlimit : provisionerGetMessageContentLimit imports node.type provisioner = 0) :
    provisionerEstablish imports provisioner node = Outcome.aborts := by
  unfold provisionerEstablish
  rw [if_pos hlimit]

/-- What `provisionerEstablish` leaves when it returns. -/
theorem provisionerEstablish_inv (imports : BREthereumNodeImports)
    (provisioner : BREthereumNodeProvisioner) (node : BREthereumNode)
    (established : BREthereumNodeProvisioner) (node' : BREthereumNode)
    (h : provisionerEstablish imports provisioner node = Outcome.returns (established, node')) :
    provisionerGetMessageContentLimit imports node.type provisioner ≠ 0 ∧
      established.provision = provisioner.provision ∧
      established.messageContentLimit =
        provisionerGetMessageContentLimit imports node.type provisioner ∧
      established.messagesCount =
        u64Sub (u64Add (provisionerGetCount provisioner)
          (provisionerGetMessageContentLimit imports node.type provisioner)) 1 /
          provisionerGetMessageContentLimit imports node.type provisioner ∧
      established.messageIdentifier = node.messageIdentifier ∧
      established.messagesRemainingCount = established.messagesCount ∧
      established.messagesReceivedCount =
        (if provisioner.provision.type = .PROVISION_SUBMIT_TRANSACTION then 1 else 0) ∧
      established.messages =
        (List.range established.messagesCount).map (fun index =>
          imports.provisionCreateMessage provisioner.provision
            (if node.type = .NODE_TYPE_GETH then .MESSAGE_LES else .MESSAGE_PIP)
            established.messageContentLimit node.messageIdentifier index) ∧
      node' = { node with
        messageIdentifier := u64Add node.messageIdentifier established.messagesCount } := by
  by_cases hlimit : provisionerGetMessageContentLimit imports node.type provisioner = 0
  · rw [provisionerEstablish_aborts imports provisioner node hlimit] at h
    cases h
  · rw [provisionerEstablish_returns imports provisioner node hlimit] at h
    cases h
    exact ⟨hlimit, rfl, rfl, rfl, rfl, rfl, rfl, rfl, rfl⟩

/-- What `nodeHandleProvision` leaves when it returns: one provisioner more, at the end of the
list, established on the node as it was. -/
theorem nodeHandleProvision_inv (imports : BREthereumNodeImports) (node : BREthereumNode)
    (provision : BREthereumProvision) (node' : BREthereumNode)
    (h : nodeHandleProvision imports node provision = Outcome.returns node') :
    ∃ established,
      provisionerEstablish imports
        { provision := provision, messageIdentifier := 0, messagesCount := 0,
          messageContentLimit := 0, messagesRemainingCount := 0, messagesReceivedCount := 0,
          messages := [] } node =
        Outcome.returns (established,
          { node with
            messageIdentifier := u64Add node.messageIdentifier established.messagesCount }) ∧
      node' = { node with
        messageIdentifier := u64Add node.messageIdentifier established.messagesCount
        provisioners := node.provisioners ++ [established] } := by
  unfold nodeHandleProvision at h
  cases hestablish : provisionerEstablish imports
      { provision := provision, messageIdentifier := 0, messagesCount := 0,
        messageContentLimit := 0, messagesRemainingCount := 0, messagesReceivedCount := 0,
        messages := [] } node with
  | aborts => rw [hestablish] at h; simp [Outcome.andThen] at h
  | loops => rw [hestablish] at h; simp [Outcome.andThen] at h
  | returns pair =>
    obtain ⟨established, mid⟩ := pair
    rw [hestablish] at h
    simp only [Outcome.andThen] at h
    have hmid := (provisionerEstablish_inv _ _ _ _ _ hestablish).2.2.2.2.2.2.2.2
    cases h
    refine ⟨established, ?_, ?_⟩
    · rw [← hmid]
    · rw [hmid]

theorem nodeHandleProvision_returns (imports : BREthereumNodeImports) (node : BREthereumNode)
    (provision : BREthereumProvision)
    (hlimit : provisionerGetMessageContentLimit imports node.type
      { provision := provision, messageIdentifier := 0, messagesCount := 0,
        messageContentLimit := 0, messagesRemainingCount := 0, messagesReceivedCount := 0,
        messages := [] } ≠ 0) :
    ∃ node', nodeHandleProvision imports node provision = Outcome.returns node' := by
  unfold nodeHandleProvision
  rw [provisionerEstablish_returns imports _ node hlimit]
  exact ⟨_, rfl⟩

/-! ## Request identifiers -/

theorem nodeHandleProvisions_append (imports : BREthereumNodeImports)
    (first second : List BREthereumProvision) (node : BREthereumNode) :
    nodeHandleProvisions imports (first ++ second) node =
      (nodeHandleProvisions imports first node).andThen
        (nodeHandleProvisions imports second) := by
  induction first generalizing node with
  | nil => rfl
  | cons provision rest ih =>
    rw [List.cons_append, nodeHandleProvisions, nodeHandleProvisions]
    cases nodeHandleProvision imports node provision with
    | aborts => rfl
    | loops => rfl
    | returns mid =>
      simp only [Outcome.andThen]
      exact ih mid

/-- What a run of `nodeHandleProvision` leaves: the new provisioners follow the old ones, one for
each provision; and as long as the counter of the node does not pass `2 ^ 64`, it grows by the
messages counts of the new provisioners, whose ranges lie in order between the old counter and the
new one. -/
theorem nodeHandleProvisions_spec (imports : BREthereumNodeImports) :
    ∀ (provisions : List BREthereumProvision) (node node' : BREthereumNode),
      nodeHandleProvisions imports provisions node = Outcome.returns node' →
      ∃ established : List BREthereumNodeProvisioner,
        node'.provisioners = node.provisioners ++ established ∧
        established.map (fun provisioner => provisioner.provision) = provisions ∧
        (node.messageIdentifier +
            (established.map fun provisioner => provisioner.messagesCount).sum < UINT64_MOD →
          node'.messageIdentifier = node.messageIdentifier +
            (established.map fun provisioner => provisioner.messagesCount).sum ∧
          established.Pairwise
            (fun earlier later =>
              earlier.messageIdentifier + earlier.messagesCount ≤ later.messageIdentifier) ∧
          ∀ provisioner ∈ established,
            node.messageIdentifier ≤ provisioner.messageIdentifier ∧
            provisioner.messageIdentifier + provisioner.messagesCount ≤
              node'.messageIdentifier) := by
  intro provisions
  induction provisions with
  | nil =>
    intro node node' h
    rw [nodeHandleProvisions] at h
    cases h
    exact ⟨[], by simp, rfl, fun _ => ⟨by simp, List.Pairwise.nil, by simp⟩⟩
  | cons provision rest ih =>
    intro node node' h
    rw [nodeHandleProvisions] at h
    cases hstep : nodeHandleProvision imports node provision with
    | aborts => rw [hstep] at h; simp [Outcome.andThen] at h
    | loops => rw [hstep] at h; simp [Outcome.andThen] at h
    | returns mid =>
      rw [hstep] at h
      simp only [Outcome.andThen] at h
      obtain ⟨first, hestablish, hmid⟩ := nodeHandleProvision_inv imports node provision mid hstep
      obtain ⟨_, hprovision, _, _, hbase, _⟩ := provisionerEstablish_inv _ _ _ _ _ hestablish
      obtain ⟨others, hlist, hmap, hrest⟩ := ih mid node' h
      have hmidId : mid.messageIdentifier =
          u64Add node.messageIdentifier first.messagesCount := by rw [hmid]
      have hmidList : mid.provisioners = node.provisioners ++ [first] := by rw [hmid]
      refine ⟨first :: others, ?_, ?_, ?_⟩
      · rw [hlist, hmidList, List.append_assoc]
        rfl
      · rw [List.map_cons, hmap, hprovision]
      · intro hbound
        rw [List.map_cons, List.sum_cons] at hbound ⊢
        have hstepId : mid.messageIdentifier =
            node.messageIdentifier + first.messagesCount := by
          rw [hmidId]
          unfold u64Add
          exact Nat.mod_eq_of_lt (by omega)
        obtain ⟨hcounter, hpairwise, hbetween⟩ := hrest (by omega)
        refine ⟨by omega, ?_, ?_⟩
        · rw [List.pairwise_cons]
          refine ⟨?_, hpairwise⟩
          intro later hlater
          have := (hbetween later hlater).1
          omega
        · intro provisioner hmem
          rcases List.mem_cons.mp hmem with hfirst | hother
          · rw [hfirst]
            omega
          · have := hbetween provisioner hother
            omega

/-- C22: request-identifier ranges.  When `nodeHandleProvision` returns, the list of provisioners
has grown at its end by one provisioner, which holds the provision; its base identifier is the
counter of the node before the call, and the counter after the call is the `uint64_t` sum of the
old counter and the messages count of the provisioner; without wrap-around the range of the
provisioner is the stretch from the old counter up to but excluding the new one.  For a run of
such calls on a node whose ranges are in order, as they are after `nodeCreate`, and whose counter
does not pass `2 ^ 64` during the run: the ranges are in order afterwards; no request identifier
lies in the ranges of two provisioners at different places of the list; and the counter never
decreases, for it is at or above the old counter and at or below the final one after every part
of the run. -/
theorem nodeHandleProvision_allots_ranges :
    (∀ (imports : BREthereumNodeImports) (node : BREthereumNode)
      (provision : BREthereumProvision) (node' : BREthereumNode),
      nodeHandleProvision imports node provision = Outcome.returns node' →
      ∃ provisioner,
        node'.provisioners = node.provisioners ++ [provisioner] ∧
        provisioner.provision = provision ∧
        provisioner.messageIdentifier = node.messageIdentifier ∧
        node'.messageIdentifier =
          u64Add node.messageIdentifier provisioner.messagesCount ∧
        (node.messageIdentifier + provisioner.messagesCount < UINT64_MOD →
          node'.messageIdentifier = node.messageIdentifier + provisioner.messagesCount ∧
          ∀ requestId : Nat, provisionerRangeHas provisioner requestId ↔
            (node.messageIdentifier ≤ requestId ∧ requestId < node'.messageIdentifier))) ∧
    (∀ (remote localEndpoint : BREthereumNodeEndpoint),
      (nodeCreate remote localEndpoint).messageIdentifier = 0 ∧
      (nodeCreate remote localEndpoint).provisioners = [] ∧
      nodeRangesInOrder (nodeCreate remote localEndpoint)) ∧
    (∀ (imports : BREthereumNodeImports) (provisions : List BREthereumProvision)
      (node node' : BREthereumNode),
      nodeRangesInOrder node →
      nodeHandleProvisions imports provisions node = Outcome.returns node' →
      node.messageIdentifier +
        ((node'.provisioners.drop node.provisioners.length).map
          fun provisioner => provisioner.messagesCount).sum < UINT64_MOD →
      nodeRangesInOrder node' ∧
      (∀ (i j : Nat) (first second : BREthereumNodeProvisioner),
        node'.provisioners[i]? = some first → node'.provisioners[j]? = some second →
        i ≠ j → ∀ requestId : Nat,
          ¬ (provisionerRangeHas first requestId ∧ provisionerRangeHas second requestId)) ∧
      node.messageIdentifier ≤ node'.messageIdentifier ∧
      (∀ start rest : List BREthereumProvision, provisions = start ++ rest →
        ∃ mid, nodeHandleProvisions imports start node = Outcome.returns mid ∧
          nodeHandleProvisions imports rest mid = Outcome.returns node' ∧
          node.messageIdentifier ≤ mid.messageIdentifier ∧
          mid.messageIdentifier ≤ node'.messageIdentifier)) := by
  refine ⟨?_, ?_, ?_⟩
  · intro imports node provision node' h
    obtain ⟨established, hestablish, hnode⟩ := nodeHandleProvision_inv imports node provision
      node' h
    obtain ⟨_, hprovision, _, _, hbase, _⟩ := provisionerEstablish_inv _ _ _ _ _ hestablish
    have hcounter : node'.messageIdentifier =
        u64Add node.messageIdentifier established.messagesCount := by rw [hnode]
    refine ⟨established, by rw [hnode], hprovision, hbase, hcounter, ?_⟩
    intro hbound
    have hsum : node'.messageIdentifier =
        node.messageIdentifier + established.messagesCount := by
      rw [hcounter]
      unfold u64Add
      exact Nat.mod_eq_of_lt hbound
    refine ⟨hsum, ?_⟩
    intro requestId
    unfold provisionerRangeHas
    rw [hbase, hsum]
  · intro remote localEndpoint
    have hid : (nodeCreate remote localEndpoint).messageIdentifier = 0 := by
      unfold nodeCreate nodeSetStateErrorProtocol
      split <;> split <;> rfl
    have hlist : (nodeCreate remote localEndpoint).provisioners = [] := by
      unfold nodeCreate nodeSetStateErrorProtocol
      split <;> split <;> rfl
    refine ⟨hid, hlist, ?_⟩
    unfold nodeRangesInOrder
    rw [hlist]
    exact ⟨List.Pairwise.nil, by simp⟩
  · intro imports provisions node node' hinv hrun hbound
    obtain ⟨established, hlist, _, hspec⟩ := nodeHandleProvisions_spec imports provisions node
      node' hrun
    rw [hlist, List.drop_left] at hbound
    obtain ⟨hcounter, hpairwise, hbetween⟩ := hspec hbound
    have horder : nodeRangesInOrder node' := by
      unfold nodeRangesInOrder at hinv ⊢
      rw [hlist]
      refine ⟨?_, ?_⟩
      · rw [List.pairwise_append]
        refine ⟨hinv.1, hpairwise, ?_⟩
        intro earlier hearlier later hlater
        have h1 := hinv.2 earlier hearlier
        have h2 := (hbetween later hlater).1
        omega
      · intro provisioner hmem
        rcases List.mem_append.mp hmem with hold | hnew
        · have := hinv.2 provisioner hold
          omega
        · exact (hbetween provisioner hnew).2
    refine ⟨horder, ?_, by omega, ?_⟩
    · have hordered := horder.1
      rw [List.pairwise_iff_getElem] at hordered
      intro i j first second hi hj hne requestId hboth
      obtain ⟨hilt, hieq⟩ := List.getElem?_eq_some_iff.mp hi
      obtain ⟨hjlt, hjeq⟩ := List.getElem?_eq_some_iff.mp hj
      unfold provisionerRangeHas at hboth
      rcases Nat.lt_or_gt_of_ne hne with hlt | hgt
      · have := hordered i j hilt hjlt hlt
        rw [hieq, hjeq] at this
        omega
      · have := hordered j i hjlt hilt hgt
        rw [hieq, hjeq] at this
        omega
    · intro start rest hsplit
      rw [hsplit, nodeHandleProvisions_append] at hrun
      cases hstart : nodeHandleProvisions imports start node with
      | aborts => rw [hstart] at hrun; simp [Outcome.andThen] at hrun
      | loops => rw [hstart] at hrun; simp [Outcome.andThen] at hrun
      | returns mid =>
        rw [hstart] at hrun
        simp only [Outcome.andThen] at hrun
        refine ⟨mid, rfl, hrun, ?_⟩
        obtain ⟨firsts, hlist1, _, hspec1⟩ := nodeHandleProvisions_spec imports start node
          mid hstart
        obtain ⟨seconds, hlist2, _, hspec2⟩ := nodeHandleProvisions_spec imports rest mid
          node' hrun
        have hall : established = firsts ++ seconds := by
          have : node.provisioners ++ established =
              node.provisioners ++ (firsts ++ seconds) := by
            rw [← hlist, hlist2, hlist1, List.append_assoc]
          exact List.append_cancel_left this
        rw [hall, List.map_append, List.sum_append] at hbound
        obtain ⟨hc1, _, _⟩ := hspec1 (by omega)
        obtain ⟨hc2, _, _⟩ := hspec2 (by omega)
        omega

/-- C22 at work: the node of the examples takes a request for 500 headers, a request for 10
bodies and a submission.  The provisioners get the bases 0, 3 and 4 and the messages counts 3, 1
and 1, the counter ends at 5, the ranges are in order and the request identifier 3 lies in the
range of the second provisioner only. -/
theorem nodeHandleProvision_allots_ranges_witness :
    nodeRangesInOrder exampleNode ∧
      nodeHandleProvisions exampleImports
        [exampleHeadersProvision, exampleBodiesProvision, exampleSubmitProvision] exampleNode =
        Outcome.returns exampleProvisionedNode ∧
      exampleProvisionedNode.provisioners.map
        (fun provisioner => (provisioner.messageIdentifier, provisioner.messagesCount)) =
        [(0, 3), (3, 1), (4, 1)] ∧
      exampleProvisionedNode.messageIdentifier = 5 ∧
      nodeRangesInOrder exampleProvisionedNode ∧
      (∀ (i j : Nat) (first second : BREthereumNodeProvisioner),
        exampleProvisionedNode.provisioners[i]? = some first →
        exampleProvisionedNode.provisioners[j]? = some second →
        i ≠ j → ∀ requestId : Nat,
          ¬ (provisionerRangeHas first requestId ∧ provisionerRangeHas second requestId)) :=
  have h := nodeHandleProvision_allots_ranges.2.2 exampleImports
    [exampleHeadersProvision, exampleBodiesProvision, exampleSubmitProvision] exampleNode
    exampleProvisionedNode (by decide) (by decide) (by decide)
  ⟨by decide, by decide, by decide, by decide, h.1, h.2.1⟩

/-! ## The count of messages -/

/-- The `uint64_t` value of `count + limit - 1` when that number is below `2 ^ 64`. -/
theorem u64Sub_u64Add_one (count limit : Nat) (hlimit : limit ≠ 0)
    (hbound : count + limit - 1 < UINT64_MOD) :
    u64Sub (u64Add count limit) 1 = count + limit - 1 := by
  unfold u64Sub u64Add UINT64_MOD at *
  omega

/-- The quotient `(count + limit - 1) / limit` is the least number of messages of `limit` items
that hold `count` items. -/
theorem messagesCount_least (count limit : Nat) (hlimit : limit ≠ 0) :
    count ≤ (count + limit - 1) / limit * limit ∧
      ∀ messages : Nat, count ≤ messages * limit → (count + limit - 1) / limit ≤ messages := by
  have hpos : 0 < limit := Nat.pos_of_ne_zero hlimit
  constructor
  · have h1 := Nat.div_add_mod (count + limit - 1) limit
    have h2 := Nat.mod_lt (count + limit - 1) hpos
    have h3 : limit * ((count + limit - 1) / limit) =
        (count + limit - 1) / limit * limit := Nat.mul_comm _ _
    omega
  · intro messages hholds
    rw [Nat.div_le_iff_le_mul_add_pred hpos]
    have h3 : limit * messages = messages * limit := Nat.mul_comm _ _
    omega

/-- The quotient `(count + limit - 1) / limit` is the ceiling of `count / limit`. -/
theorem messagesCount_ceil (count limit : Nat) (hlimit : limit ≠ 0) :
    (count + limit - 1) / limit = ⌈(count : ℚ) / (limit : ℚ)⌉₊ := by
  have hpos : 0 < limit := Nat.pos_of_ne_zero hlimit
  have hposQ : (0 : ℚ) < (limit : ℚ) := by exact_mod_cast hpos
  obtain ⟨hholds, hleast⟩ := messagesCount_least count limit hlimit
  apply le_antisymm
  · apply hleast
    have h := Nat.le_ceil ((count : ℚ) / (limit : ℚ))
    rw [div_le_iff₀ hposQ] at h
    exact_mod_cast h
  · apply Nat.ceil_le.mpr
    rw [div_le_iff₀ hposQ]
    exact_mod_cast hholds

/-- C24: message count.  For a provisioner whose content limit on the node is not 0 (the limit
is the entry `limit` of `messageLESSpecs` for the provision type on a GETH node and 256 on a
PARITY node) and whose count of items plus the limit minus one is below `2 ^ 64`, so that the
`uint64_t` sum of the source does not wrap: `provisionerEstablish` returns; the messages count
is the ceiling of the count of items divided by the limit, which is the least number of messages
of at most `limit` items that hold them all; the count of messages remaining to send is the
messages count; and the list of messages has that many messages. -/
theorem provisionerEstablish_messagesCount (imports : BREthereumNodeImports)
    (provisioner : BREthereumNodeProvisioner) (node : BREthereumNode)
    (hlimit : provisionerGetMessageContentLimit imports node.type provisioner ≠ 0)
    (hbound : provisionerGetCount provisioner +
      provisionerGetMessageContentLimit imports node.type provisioner - 1 < UINT64_MOD) :
    (node.type = .NODE_TYPE_GETH →
      provisionerGetMessageContentLimit imports node.type provisioner =
        imports.messageLESSpecsLimit
          (imports.provisionGetMessageLESIdentifier provisioner.provision.type)) ∧
    (node.type = .NODE_TYPE_PARITY →
      provisionerGetMessageContentLimit imports node.type provisioner = 256) ∧
    ∃ established node',
      provisionerEstablish imports provisioner node = Outcome.returns (established, node') ∧
      established.messageContentLimit =
        provisionerGetMessageContentLimit imports node.type provisioner ∧
      established.messagesCount =
        ⌈(provisionerGetCount provisioner : ℚ) /
          (provisionerGetMessageContentLimit imports node.type provisioner : ℚ)⌉₊ ∧
      provisionerGetCount provisioner ≤
        established.messagesCount *
          provisionerGetMessageContentLimit imports node.type provisioner ∧
      (∀ messages : Nat,
        provisionerGetCount provisioner ≤
          messages * provisionerGetMessageContentLimit imports node.type provisioner →
        established.messagesCount ≤ messages) ∧
      established.messagesRemainingCount = established.messagesCount ∧
      established.messages.length = established.messagesCount := by
  refine ⟨?_, ?_, ?_⟩
  · intro htype
    rw [htype]
    rfl
  · intro htype
    rw [htype]
    rfl
  · have hcount := u64Sub_u64Add_one (provisionerGetCount provisioner)
      (provisionerGetMessageContentLimit imports node.type provisioner) hlimit hbound
    obtain ⟨hholds, hleast⟩ := messagesCount_least (provisionerGetCount provisioner)
      (provisionerGetMessageContentLimit imports node.type provisioner) hlimit
    have hceil := messagesCount_ceil (provisionerGetCount provisioner)
      (provisionerGetMessageContentLimit imports node.type provisioner) hlimit
    refine ⟨_, _, provisionerEstablish_returns imports provisioner node hlimit, rfl, ?_, ?_,
      ?_, rfl, ?_⟩
    · show u64Sub (u64Add _ _) 1 / _ = _
      rw [hcount, hceil]
    · show _ ≤ u64Sub (u64Add _ _) 1 / _ * _
      rw [hcount]
      exact hholds
    · intro messages hmessages
      show u64Sub (u64Add _ _) 1 / _ ≤ _
      rw [hcount]
      exact hleast messages hmessages
    · show ((List.range _).map _).length = _
      rw [List.length_map, List.length_range]

/-- C24 at work: a request for 500 headers on the GETH node of the examples, where the limit is
192, is established with 3 messages, 3 of them to send; a request for 10 bodies on a PARITY
node, where the limit is 256, with 1 message. -/
theorem provisionerEstablish_messagesCount_witness :
    (provisionerGetCount (exampleProvisioner exampleHeadersProvision) = 500 ∧
      provisionerGetMessageContentLimit exampleImports exampleNode.type
        (exampleProvisioner exampleHeadersProvision) = 192 ∧
      ∃ established node',
        provisionerEstablish exampleImports (exampleProvisioner exampleHeadersProvision)
          exampleNode = Outcome.returns (established, node') ∧
        established.messagesCount = 3 ∧ established.messagesRemainingCount = 3 ∧
        established.messages.length = 3) ∧
    (provisionerGetMessageContentLimit exampleImports exampleParityNode.type
        (exampleProvisioner exampleBodiesProvision) = 256 ∧
      ∃ established node',
        provisionerEstablish exampleImports (exampleProvisioner exampleBodiesProvision)
          exampleParityNode = Outcome.returns (established, node') ∧
        established.messagesCount = 1 ∧ established.messagesRemainingCount = 1 ∧
        established.messages.length = 1) := by
  obtain ⟨_, _, e1, n1, hr1, _, _, hh1, hl1, hrem1, hlen1⟩ :=
    provisionerEstablish_messagesCount exampleImports
      (exampleProvisioner exampleHeadersProvision) exampleNode (by decide) (by decide)
  obtain ⟨_, _, e2, n2, hr2, _, _, hh2, hl2, hrem2, hlen2⟩ :=
    provisionerEstablish_messagesCount exampleImports
      (exampleProvisioner exampleBodiesProvision) exampleParityNode (by decide) (by decide)
  have hc1 : provisionerGetCount (exampleProvisioner exampleHeadersProvision) = 500 := by
    decide
  have hL1 : provisionerGetMessageContentLimit exampleImports exampleNode.type
      (exampleProvisioner exampleHeadersProvision) = 192 := by decide
  have hc2 : provisionerGetCount (exampleProvisioner exampleBodiesProvision) = 10 := by
    decide
  have hL2 : provisionerGetMessageContentLimit exampleImports exampleParityNode.type
      (exampleProvisioner exampleBodiesProvision) = 256 := by decide
  rw [hc1, hL1] at hh1 hl1
  rw [hc2, hL2] at hh2 hl2
  have hm1 : e1.messagesCount = 3 := by
    have := hl1 3 (by decide)
    omega
  have hm2 : e2.messagesCount = 1 := by
    have := hl2 1 (by decide)
    omega
  exact ⟨⟨hc1, hL1, e1, n1, hr1, hm1, by omega, by omega⟩,
    ⟨hL2, e2, n2, hr2, hm2, by omega, by omega⟩⟩

/-! ## The submission of a transaction -/

/-- C25 fails on the code: for a submission `provisionerGetCount` is 2, and
`provisionerEstablish` divides it by the content limit like every other count.  On a PARITY
node, where the limit is 256, the messages count is 1: one message is created, one is to send,
and the count of messages received is seeded with 1, which is the messages count already.  On a
GETH node the same holds for every limit from 2 on; the messages count is 2 for the limit 1
only.  For the submission of the examples on the PARITY node of the examples the one message is
the one that `provisionCreateMessage` makes for the index 0. -/
theorem provisionerEstablish_submit_creates_one_message :
    (∀ (imports : BREthereumNodeImports) (provisioner : BREthereumNodeProvisioner)
      (node : BREthereumNode),
      provisioner.provision.type = .PROVISION_SUBMIT_TRANSACTION →
      node.type = .NODE_TYPE_PARITY →
      ∃ established node',
        provisionerEstablish imports provisioner node = Outcome.returns (established, node') ∧
        established.messageContentLimit = 256 ∧
        established.messagesCount = 1 ∧
        established.messagesRemainingCount = 1 ∧
        established.messagesReceivedCount = 1 ∧
        established.messages =
          [imports.provisionCreateMessage provisioner.provision .MESSAGE_PIP 256
            node.messageIdentifier 0] ∧
        provisionerRecvMessagesPending established = false) ∧
    (∀ (imports : BREthereumNodeImports) (provisioner : BREthereumNodeProvisioner)
      (node : BREthereumNode),
      provisioner.provision.type = .PROVISION_SUBMIT_TRANSACTION →
      node.type = .NODE_TYPE_GETH →
      2 ≤ provisionerGetMessageContentLimit imports node.type provisioner →
      provisionerGetMessageContentLimit imports node.type provisioner < UINT64_MOD - 1 →
      ∃ established node',
        provisionerEstablish imports provisioner node = Outcome.returns (established, node') ∧
        established.messagesCount = 1 ∧
        established.messagesReceivedCount = 1 ∧
        established.messages.length = 1) ∧
    (∀ (imports : BREthereumNodeImports) (provisioner : BREthereumNodeProvisioner)
      (node : BREthereumNode),
      provisioner.provision.type = .PROVISION_SUBMIT_TRANSACTION →
      provisionerGetMessageContentLimit imports node.type provisioner = 1 →
      ∃ established node',
        provisionerEstablish imports provisioner node = Outcome.returns (established, node') ∧
        established.messagesCount = 2 ∧
        established.messagesReceivedCount = 1 ∧
        established.messages.length = 2) ∧
    (∃ established node',
      provisionerEstablish exampleImports (exampleProvisioner exampleSubmitProvision)
        exampleParityNode = Outcome.returns (established, node') ∧
      established.messagesCount = 1 ∧
      established.messagesReceivedCount = 1 ∧
      established.messages =
        [exampleImports.provisionCreateMessage exampleSubmitProvision .MESSAGE_PIP 256 0 0] ∧
      node'.messageIdentifier = 1) := by
  have hcount : ∀ provisioner : BREthereumNodeProvisioner,
      provisioner.provision.type = .PROVISION_SUBMIT_TRANSACTION →
      provisionerGetCount provisioner = 2 := by
    intro provisioner htype
    unfold provisionerGetCount
    rw [htype]
  refine ⟨?_, ?_, ?_, ?_⟩
  · intro imports provisioner node htype hnode
    have hL : provisionerGetMessageContentLimit imports node.type provisioner = 256 := by
      rw [hnode]
      rfl
    have hne : provisionerGetMessageContentLimit imports node.type provisioner ≠ 0 := by
      rw [hL]
      decide
    have hm : u64Sub (u64Add (provisionerGetCount provisioner)
        (provisionerGetMessageContentLimit imports node.type provisioner)) 1 /
        provisionerGetMessageContentLimit imports node.type provisioner = 1 := by
      rw [hL, hcount provisioner htype]
      decide
    refine ⟨_, _, provisionerEstablish_returns imports provisioner node hne, hL, hm, hm, ?_,
      ?_, ?_⟩
    · show (if provisioner.provision.type = .PROVISION_SUBMIT_TRANSACTION then 1 else 0) = 1
      rw [if_pos htype]
    · show (List.range _).map _ = _
      rw [hm, hL, hnode]
      rfl
    · show decide ((if provisioner.provision.type = .PROVISION_SUBMIT_TRANSACTION then 1
        else 0) < u64Sub (u64Add (provisionerGetCount provisioner)
          (provisionerGetMessageContentLimit imports node.type provisioner)) 1 /
          provisionerGetMessageContentLimit imports node.type provisioner) = false
      rw [if_pos htype, hm]
      rfl
  · intro imports provisioner node htype _ hlow hhigh
    have hne : provisionerGetMessageContentLimit imports node.type provisioner ≠ 0 := by
      omega
    have hm : u64Sub (u64Add (provisionerGetCount provisioner)
        (provisionerGetMessageContentLimit imports node.type provisioner)) 1 /
        provisionerGetMessageContentLimit imports node.type provisioner = 1 := by
      rw [u64Sub_u64Add_one _ _ hne (by rw [hcount provisioner htype]; omega),
        hcount provisioner htype]
      apply Nat.div_eq_of_lt_le
      · omega
      · show _ < (1 + 1) * _
        omega
    refine ⟨_, _, provisionerEstablish_returns imports provisioner node hne, hm, ?_, ?_⟩
    · show (if provisioner.provision.type = .PROVISION_SUBMIT_TRANSACTION then 1 else 0) = 1
      rw [if_pos htype]
    · show ((List.range _).map _).length = _
      rw [List.length_map, List.length_range, hm]
  · intro imports provisioner node htype hL
    have hne : provisionerGetMessageContentLimit imports node.type provisioner ≠ 0 := by
      omega
    have hm : u64Sub (u64Add (provisionerGetCount provisioner)
        (provisionerGetMessageContentLimit imports node.type provisioner)) 1 /
        provisionerGetMessageContentLimit imports node.type provisioner = 2 := by
      rw [hL, hcount provisioner htype]
      decide
    refine ⟨_, _, provisionerEstablish_returns imports provisioner node hne, hm, ?_, ?_⟩
    · show (if provisioner.provision.type = .PROVISION_SUBMIT_TRANSACTION then 1 else 0) = 1
      rw [if_pos htype]
    · show ((List.range _).map _).length = _
      rw [List.length_map, List.length_range, hm]
  · exact ⟨_, _, provisionerEstablish_returns exampleImports
      (exampleProvisioner exampleSubmitProvision) exampleParityNode (by decide), by decide,
      by decide, by decide, by decide⟩

/-! ## The completion of a provision -/

theorem eraseIdx_set_same {α : Type} (list : List α) (index : Nat) (value : α) :
    (list.set index value).eraseIdx index = list.eraseIdx index := by
  induction list generalizing index with
  | nil => rfl
  | cons first rest ih =>
    cases index with
    | zero => rfl
    | succ index =>
      rw [List.set_cons_succ, List.eraseIdx_cons_succ, List.eraseIdx_cons_succ, ih]

/-- What `nodeHandleProvisionerMessage` returns for a provisioner of the list. -/
theorem nodeHandleProvisionerMessage_returns (imports : BREthereumNodeImports)
    (node : BREthereumNode) (index : Nat) (message : BREthereumMessage)
    (provisioner : BREthereumNodeProvisioner)
    (hget : node.provisioners[index]? = some provisioner) :
    nodeHandleProvisionerMessage imports node index message =
      Outcome.returns
        (if provisionerRecvMessagesPending
            (provisionerHandleMessage imports provisioner message) = false then
          { node with
            effects := node.effects ++
              [BREthereumNodeEffect.callbackProvide
                { identifier :=
                    (provisionerHandleMessage imports provisioner message).provision.identifier
                  type := (provisionerHandleMessage imports provisioner message).provision.type
                  status := .PROVISION_SUCCESS
                  provision := (provisionerHandleMessage imports provisioner message).provision }]
            provisioners := node.provisioners.eraseIdx index }
        else
          { node with
            provisioners := node.provisioners.set index
              (provisionerHandleMessage imports provisioner message) }) := by
  unfold nodeHandleProvisionerMessage
  rw [hget]
  by_cases hpending : provisionerRecvMessagesPending
      (provisionerHandleMessage imports provisioner message) = false
  · rw [if_pos hpending]
    show (if provisionerRecvMessagesPending
      (provisionerHandleMessage imports provisioner message) = false then _ else _) = _
    rw [if_pos hpending]
    congr 2
    exact eraseIdx_set_same _ _ _
  · rw [if_neg hpending]
    show (if provisionerRecvMessagesPending
      (provisionerHandleMessage imports provisioner message) = false then _ else _) = _
    rw [if_neg hpending]

/-- C26: provision completion.  For the provisioner at `index` of the list,
`nodeHandleProvisionerMessage` returns.  The provisioner handles the message: its count of
messages received grows by one (a `size_t` sum) and its range and its count of messages to send
are unchanged.  When the new count equals the messages count, one call of `callbackProvide` is
added to the calls of the node, with `PROVISION_SUCCESS` and the identifier and the type of the
provision that the provisioner holds (those of the provision before the message when
`provisionHandleMessage` keeps them), and the provisioner is taken out of the list: the list is
one shorter, the provisioners before `index` stay where they are and those after it move up by
one.  When the new count is below the messages count, no call is added and the list holds the
provisioner, with the message handled, at `index` and every other provisioner as before. -/
theorem nodeHandleProvisionerMessage_completes (imports : BREthereumNodeImports)
    (node : BREthereumNode) (index : Nat) (message : BREthereumMessage)
    (provisioner : BREthereumNodeProvisioner)
    (hget : node.provisioners[index]? = some provisioner) :
    (provisionerHandleMessage imports provisioner message).messagesReceivedCount =
        u64Add provisioner.messagesReceivedCount 1 ∧
      (provisioner.messagesReceivedCount + 1 < UINT64_MOD →
        (provisionerHandleMessage imports provisioner message).messagesReceivedCount =
          provisioner.messagesReceivedCount + 1) ∧
      (provisionerHandleMessage imports provisioner message).messagesCount =
        provisioner.messagesCount ∧
      (provisionerHandleMessage imports provisioner message).messageIdentifier =
        provisioner.messageIdentifier ∧
      (provisionerHandleMessage imports provisioner message).messagesRemainingCount =
        provisioner.messagesRemainingCount ∧
      (provisionerHandleMessage imports provisioner message).provision =
        imports.provisionHandleMessage provisioner.provision message
          provisioner.messageContentLimit provisioner.messageIdentifier ∧
      (u64Add provisioner.messagesReceivedCount 1 = provisioner.messagesCount →
        nodeHandleProvisionerMessage imports node index message =
          Outcome.returns
            { node with
              effects := node.effects ++
                [BREthereumNodeEffect.callbackProvide
                  { identifier :=
                      (provisionerHandleMessage imports provisioner
                        message).provision.identifier
                    type := (provisionerHandleMessage imports provisioner message).provision.type
                    status := .PROVISION_SUCCESS
                    provision :=
                      (provisionerHandleMessage imports provisioner message).provision }]
              provisioners := node.provisioners.eraseIdx index } ∧
        (node.provisioners.eraseIdx index).length + 1 = node.provisioners.length ∧
        (∀ other : Nat, other < index →
          (node.provisioners.eraseIdx index)[other]? = node.provisioners[other]?) ∧
        (∀ other : Nat, index ≤ other →
          (node.provisioners.eraseIdx index)[other]? = node.provisioners[other + 1]?)) ∧
      (u64Add provisioner.messagesReceivedCount 1 < provisioner.messagesCount →
        nodeHandleProvisionerMessage imports node index message =
          Outcome.returns
            { node with
              provisioners := node.provisioners.set index
                (provisionerHandleMessage imports provisioner message) } ∧
        (node.provisioners.set index
          (provisionerHandleMessage imports provisioner message))[index]? =
          some (provisionerHandleMessage imports provisioner message) ∧
        (∀ other : Nat, other ≠ index →
          (node.provisioners.set index
            (provisionerHandleMessage imports provisioner message))[other]? =
            node.provisioners[other]?)) ∧
      ((∀ (provision : BREthereumProvision) (message : BREthereumMessage)
          (limit identifier : Nat),
          (imports.provisionHandleMessage provision message limit identifier).identifier =
            provision.identifier ∧
          (imports.provisionHandleMessage provision message limit identifier).type =
            provision.type) →
        (provisionerHandleMessage imports provisioner message).provision.identifier =
          provisioner.provision.identifier ∧
        (provisionerHandleMessage imports provisioner message).provision.type =
          provisioner.provision.type) := by
  have hreturns := nodeHandleProvisionerMessage_returns imports node index message provisioner
    hget
  have hlt : index < node.provisioners.length := (List.getElem?_eq_some_iff.mp hget).1
  refine ⟨rfl, ?_, rfl, rfl, rfl, rfl, ?_, ?_, ?_⟩
  · intro hbound
    show u64Add provisioner.messagesReceivedCount 1 = _
    unfold u64Add
    exact Nat.mod_eq_of_lt hbound
  · intro hequal
    have hpending : provisionerRecvMessagesPending
        (provisionerHandleMessage imports provisioner message) = false := by
      show decide (u64Add provisioner.messagesReceivedCount 1 < provisioner.messagesCount) =
        false
      rw [hequal]
      exact decide_eq_false (Nat.lt_irrefl _)
    rw [if_pos hpending] at hreturns
    refine ⟨hreturns, ?_, ?_, ?_⟩
    · rw [List.length_eraseIdx_of_lt hlt]
      omega
    · intro other hother
      exact List.getElem?_eraseIdx_of_lt _ _ _ hother
    · intro other hother
      exact List.getElem?_eraseIdx_of_ge _ _ _ hother
  · intro hbelow
    have hpending : ¬ provisionerRecvMessagesPending
        (provisionerHandleMessage imports provisioner message) = false := by
      show ¬ decide (u64Add provisioner.messagesReceivedCount 1 <
        provisioner.messagesCount) = false
      rw [decide_eq_true hbelow]
      decide
    rw [if_neg hpending] at hreturns
    refine ⟨hreturns, ?_, ?_⟩
    · rw [List.getElem?_set_eq_of_lt _ hlt]
    · intro other hother
      exact List.getElem?_set_ne (Ne.symm hother)
  · intro hkeeps
    exact hkeeps _ _ _ _

/-- C26 at work: in `exampleProvisionedNode` the provisioner for the bodies, at index 1, waits
for one message; the response completes it, the result of provision 2 goes to `callbackProvide`
and the list keeps the two other provisioners.  The provisioner for the headers, at index 0,
waits for three messages; after one response it stays, with one message received, and no call
is added. -/
theorem nodeHandleProvisionerMessage_completes_witness :
    (exampleProvisionedNode.provisioners[1]? = some exampleBodiesProvisioner ∧
      u64Add exampleBodiesProvisioner.messagesReceivedCount 1 =
        exampleBodiesProvisioner.messagesCount ∧
      nodeHandleProvisionerMessage exampleImports exampleProvisionedNode 1
        exampleBodiesResponse = Outcome.returns exampleCompletedNode ∧
      exampleCompletedNode.effects = exampleProvisionedNode.effects ++
        [BREthereumNodeEffect.callbackProvide
          { identifier := 2, type := .PROVISION_BLOCK_BODIES, status := .PROVISION_SUCCESS
            provision :=
              { exampleBodiesProvision with responses := [exampleBodiesResponse] } }] ∧
      exampleCompletedNode.provisioners.map
        (fun provisioner => provisioner.provision.identifier) = [1, 3]) ∧
    (exampleProvisionedNode.provisioners[0]? = some exampleHeadersProvisioner ∧
      u64Add exampleHeadersProvisioner.messagesReceivedCount 1 <
        exampleHeadersProvisioner.messagesCount ∧
      nodeHandleProvisionerMessage exampleImports exampleProvisionedNode 0
        exampleHeadersResponse = Outcome.returns exampleWaitingNode ∧
      exampleWaitingNode.effects = exampleProvisionedNode.effects ∧
      exampleWaitingNode.provisioners.map
        (fun provisioner =>
          (provisioner.provision.identifier, provisioner.messagesReceivedCount)) =
        [(1, 1), (2, 0), (3, 1)]) :=
  ⟨⟨by decide, by decide,
      (((nodeHandleProvisionerMessage_completes exampleImports exampleProvisionedNode 1
        exampleBodiesResponse exampleBodiesProvisioner (by decide)).2.2.2.2.2.2.1
        (by decide)).1).trans (by decide),
      by decide, by decide⟩,
    ⟨by decide, by decide,
      (((nodeHandleProvisionerMessage_completes exampleImports exampleProvisionedNode 0
        exampleHeadersResponse exampleHeadersProvisioner (by decide)).2.2.2.2.2.2.2.1
        (by decide)).1).trans (by decide),
      by decide, by decide⟩⟩

/-! ## The routing of responses -/

theorem nodeFindProvisionerOfInterest_none (provisioners : List BREthereumNodeProvisioner)
    (requestId : Nat) :
    nodeFindProvisionerOfInterest provisioners requestId = none ↔
      ∀ provisioner ∈ provisioners,
        provisionerMessageOfInterest provisioner requestId = false := by
  induction provisioners with
  | nil => simp [nodeFindProvisionerOfInterest]
  | cons first rest ih =>
    rw [nodeFindProvisionerOfInterest]
    by_cases hfirst : provisionerMessageOfInterest first requestId = true
    · rw [if_pos hfirst]
      constructor
      · intro h
        cases h
      · intro h
        have := h first (List.mem_cons_self _ _)
        rw [hfirst] at this
        cases this
    · rw [if_neg hfirst, Option.map_eq_none', ih]
      constructor
      · intro h provisioner hmem
        rcases List.mem_cons.mp hmem with heq | hin
        · rw [heq]
          exact Bool.eq_false_iff.mpr hfirst
        · exact h provisioner hin
      · intro h provisioner hmem
        exact h provisioner (List.mem_cons_of_mem _ hmem)

/-- The search answers the index of the first provisioner of interest. -/
theorem nodeFindProvisionerOfInterest_some (provisioners : List BREthereumNodeProvisioner)
    (requestId index : Nat) :
    nodeFindProvisionerOfInterest provisioners requestId = some index ↔
      (∃ provisioner, provisioners[index]? = some provisioner ∧
        provisionerMessageOfInterest provisioner requestId = true) ∧
      ∀ (before : Nat) (other : BREthereumNodeProvisioner), before < index →
        provisioners[before]? = some other →
        provisionerMessageOfInterest other requestId = false := by
  induction provisioners generalizing index with
  | nil =>
    rw [nodeFindProvisionerOfInterest]
    constructor
    · intro h
      cases h
    · rintro ⟨⟨provisioner, hget, _⟩, _⟩
      rw [List.getElem?_nil] at hget
      cases hget
  | cons first rest ih =>
    rw [nodeFindProvisionerOfInterest]
    by_cases hfirst : provisionerMessageOfInterest first requestId = true
    · rw [if_pos hfirst]
      constructor
      · intro h
        cases h
        refine ⟨⟨first, List.getElem?_cons_zero, hfirst⟩, ?_⟩
        intro before other hbefore
        omega
      · rintro ⟨_, hnone⟩
        cases index with
        | zero => rfl
        | succ index =>
          have := hnone 0 first (Nat.succ_pos _) List.getElem?_cons_zero
          rw [hfirst] at this
          cases this
    · rw [if_neg hfirst]
      cases index with
      | zero =>
        constructor
        · intro h
          cases hrest : nodeFindProvisionerOfInterest rest requestId with
          | none => rw [hrest] at h; cases h
          | some found => rw [hrest] at h; cases h
        · rintro ⟨⟨provisioner, hget, hinterest⟩, _⟩
          rw [List.getElem?_cons_zero] at hget
          cases hget
          exact absurd hinterest hfirst
      | succ index =>
        constructor
        · intro h
          have hrest : nodeFindProvisionerOfInterest rest requestId = some index := by
            cases hfound : nodeFindProvisionerOfInterest rest requestId with
            | none => rw [hfound] at h; cases h
            | some found =>
              rw [hfound] at h
              simp only [Option.map_some', Option.some.injEq, Nat.add_right_cancel_iff] at h
              rw [h]
          obtain ⟨hfound, hnone⟩ := (ih index).mp hrest
          refine ⟨?_, ?_⟩
          · obtain ⟨provisioner, hget, hinterest⟩ := hfound
            exact ⟨provisioner, by rw [List.getElem?_cons_succ]; exact hget, hinterest⟩
          · intro before other hbefore hget
            cases before with
            | zero =>
              rw [List.getElem?_cons_zero] at hget
              cases hget
              exact Bool.eq_false_iff.mpr hfirst
            | succ before =>
              rw [List.getElem?_cons_succ] at hget
              exact hnone before other (by omega) hget
        · rintro ⟨hfound, hnone⟩
          have hrest : nodeFindProvisionerOfInterest rest requestId = some index := by
            apply (ih index).mpr
            refine ⟨?_, ?_⟩
            · obtain ⟨provisioner, hget, hinterest⟩ := hfound
              rw [List.getElem?_cons_succ] at hget
              exact ⟨provisioner, hget, hinterest⟩
            · intro before other hbefore hget
              exact hnone (before + 1) other (by omega)
                (by rw [List.getElem?_cons_succ]; exact hget)
          rw [hrest]
          rfl

/-- What `nodeProcessRecvLES` does with a message of a routed kind on a GETH node. -/
theorem nodeProcessRecvLES_routed (imports : BREthereumNodeImports) (node : BREthereumNode)
    (route : BREthereumNodeEndpointRoute) (message : BREthereumLESMessage)
    (htype : node.type = .NODE_TYPE_GETH)
    (hkind : messageLESIsRouted message.identifier = true) :
    nodeProcessRecvLES imports node route message =
      match nodeFindProvisionerOfInterest node.provisioners message.requestId with
      | some index => nodeHandleProvisionerMessage imports node index (.les message)
      | none => Outcome.returns node := by
  unfold nodeProcessRecvLES
  rw [if_neg (by rw [htype]; decide)]
  cases hid : message.identifier <;> rw [hid] at hkind <;>
    first
    | rfl
    | exact absurd hkind (by decide)

/-- What `nodeProcessRecvLES` does with a message that it logs as an unexpected response. -/
theorem nodeProcessRecvLES_unexpected (imports : BREthereumNodeImports) (node : BREthereumNode)
    (route : BREthereumNodeEndpointRoute) (message : BREthereumLESMessage)
    (htype : node.type = .NODE_TYPE_GETH)
    (hkind : messageLESIsUnexpectedResponse message.identifier = true) :
    nodeProcessRecvLES imports node route message = Outcome.returns node := by
  unfold nodeProcessRecvLES
  rw [if_neg (by rw [htype]; decide)]
  cases hid : message.identifier <;> rw [hid] at hkind <;>
    first
    | rfl
    | exact absurd hkind (by decide)

/-- What `nodeProcessRecvPIP` does with a response on a PARITY node. -/
theorem nodeProcessRecvPIP_routed (imports : BREthereumNodeImports) (node : BREthereumNode)
    (route : BREthereumNodeEndpointRoute) (message : BREthereumPIPMessage) (error : Int)
    (htype : node.type = .NODE_TYPE_PARITY)
    (hkind : message.type = .PIP_MESSAGE_RESPONSE) :
    nodeProcessRecvPIP imports node route message error =
      match nodeFindProvisionerOfInterest node.provisioners message.requestId with
      | some index => nodeHandleProvisionerMessage imports node index (.pip message)
      | none => Outcome.returns node := by
  unfold nodeProcessRecvPIP
  rw [if_neg (by rw [htype]; decide), hkind]

/-- Without wrap-around `provisionerMessageOfInterest` tells whether the request identifier lies
in the range of the provisioner. -/
theorem provisionerMessageOfInterest_iff (provisioner : BREthereumNodeProvisioner)
    (requestId : Nat)
    (hbound : provisioner.messageIdentifier + provisioner.messagesCount < UINT64_MOD) :
    provisionerMessageOfInterest provisioner requestId = true ↔
      provisionerRangeHas provisioner requestId := by
  unfold provisionerMessageOfInterest provisionerRangeHas u64Add
  rw [Nat.mod_eq_of_lt hbound, Bool.and_eq_true, decide_eq_true_iff, decide_eq_true_iff]

/-- C23, as stated, fails.  In `exampleProvisionedNode` the first provisioner is live and the
request identifier 1 lies in its range, yet a response of the kind `LES_MESSAGE_HEADER_PROOFS`
with that request identifier is handed to no provisioner: `nodeProcessRecvLES` returns the node
as it was.  A response of the kind `LES_MESSAGE_BLOCK_HEADERS` with the request identifier 7,
which lies in no range, is handed to no provisioner either. -/
theorem nodeProcessRecvLES_hands_response_to_none :
    exampleProvisionedNode.type = .NODE_TYPE_GETH ∧
      exampleProvisionedNode.provisioners[0]? = some exampleHeadersProvisioner ∧
      provisionerRangeHas exampleHeadersProvisioner exampleHeaderProofsResponse.requestId ∧
      provisionerMessageOfInterest exampleHeadersProvisioner
        exampleHeaderProofsResponse.requestId = true ∧
      nodeProcessRecvLES exampleImports exampleProvisionedNode .NODE_ROUTE_TCP
        exampleHeaderProofsResponse = Outcome.returns exampleProvisionedNode ∧
      (∀ provisioner ∈ exampleProvisionedNode.provisioners,
        ¬ provisionerRangeHas provisioner exampleLateResponse.requestId) ∧
      nodeProcessRecvLES exampleImports exampleProvisionedNode .NODE_ROUTE_TCP
        exampleLateResponse = Outcome.returns exampleProvisionedNode := by
  decide

/-- C23, amended: response routing.  On a GETH node, for a LES message of one of the kinds
`BLOCK_HEADERS`, `BLOCK_BODIES`, `RECEIPTS`, `PROOFS`, `PROOFS_V2` and `TX_STATUS`, and on a
PARITY node for a PIP message of the kind `RESPONSE`: when a provisioner of the list is of
interest for the request identifier of the message (`provisionerMessageOfInterest`, with the
`uint64_t` sum of the source) and no provisioner before it is, the node does what
`nodeHandleProvisionerMessage` does for that provisioner and the message, and the list it leaves
is the old list with that provisioner taken out or replaced by itself with the message handled,
so no other provisioner gets the message; when no provisioner is of interest the node is left as
it was.  When the ranges of the node are in order and the counter is below `2 ^ 64`, being of
interest is having the request identifier in the range, and at most one provisioner of the list
is of interest.  A LES message of one of the kinds `CONTRACT_CODES`, `HEADER_PROOFS` and
`HELPER_TRIE_PROOFS` leaves the node as it was. -/
theorem nodeProcessRecv_routes_response :
    (∀ (imports : BREthereumNodeImports) (node : BREthereumNode)
      (route : BREthereumNodeEndpointRoute) (message : BREthereumLESMessage) (index : Nat)
      (provisioner : BREthereumNodeProvisioner),
      node.type = .NODE_TYPE_GETH → messageLESIsRouted message.identifier = true →
      node.provisioners[index]? = some provisioner →
      provisionerMessageOfInterest provisioner message.requestId = true →
      (∀ (before : Nat) (other : BREthereumNodeProvisioner), before < index →
        node.provisioners[before]? = some other →
        provisionerMessageOfInterest other message.requestId = false) →
      nodeProcessRecvLES imports node route message =
        nodeHandleProvisionerMessage imports node index (.les message) ∧
      ∃ node', nodeProcessRecvLES imports node route message = Outcome.returns node' ∧
        (node'.provisioners = node.provisioners.eraseIdx index ∨
          node'.provisioners = node.provisioners.set index
            (provisionerHandleMessage imports provisioner (.les message)))) ∧
    (∀ (imports : BREthereumNodeImports) (node : BREthereumNode)
      (route : BREthereumNodeEndpointRoute) (message : BREthereumLESMessage),
      node.type = .NODE_TYPE_GETH → messageLESIsRouted message.identifier = true →
      (∀ provisioner ∈ node.provisioners,
        provisionerMessageOfInterest provisioner message.requestId = false) →
      nodeProcessRecvLES imports node route message = Outcome.returns node) ∧
    (∀ (imports : BREthereumNodeImports) (node : BREthereumNode)
      (route : BREthereumNodeEndpointRoute) (message : BREthereumPIPMessage) (error : Int)
      (index : Nat) (provisioner : BREthereumNodeProvisioner),
      node.type = .NODE_TYPE_PARITY → message.type = .PIP_MESSAGE_RESPONSE →
      node.provisioners[index]? = some provisioner →
      provisionerMessageOfInterest provisioner message.requestId = true →
      (∀ (before : Nat) (other : BREthereumNodeProvisioner), before < index →
        node.provisioners[before]? = some other →
        provisionerMessageOfInterest other message.requestId = false) →
      nodeProcessRecvPIP imports node route message error =
        nodeHandleProvisionerMessage imports node index (.pip message) ∧
      ∃ node', nodeProcessRecvPIP imports node route message error = Outcome.returns node' ∧
        (node'.provisioners = node.provisioners.eraseIdx index ∨
          node'.provisioners = node.provisioners.set index
            (provisionerHandleMessage imports provisioner (.pip message)))) ∧
    (∀ (imports : BREthereumNodeImports) (node : BREthereumNode)
      (route : BREthereumNodeEndpointRoute) (message : BREthereumPIPMessage) (error : Int),
      node.type = .NODE_TYPE_PARITY → message.type = .PIP_MESSAGE_RESPONSE →
      (∀ provisioner ∈ node.provisioners,
        provisionerMessageOfInterest provisioner message.requestId = false) →
      nodeProcessRecvPIP imports node route message error = Outcome.returns node) ∧
    (∀ (node : BREthereumNode), nodeRangesInOrder node →
      node.messageIdentifier < UINT64_MOD →
      (∀ provisioner ∈ node.provisioners, ∀ requestId : Nat,
        provisionerMessageOfInterest provisioner requestId = true ↔
          provisionerRangeHas provisioner requestId) ∧
      ∀ (i j : Nat) (first second : BREthereumNodeProvisioner) (requestId : Nat),
        node.provisioners[i]? = some first → node.provisioners[j]? = some second →
        provisionerMessageOfInterest first requestId = true →
        provisionerMessageOfInterest second requestId = true → i = j) ∧
    (∀ (imports : BREthereumNodeImports) (node : BREthereumNode)
      (route : BREthereumNodeEndpointRoute) (message : BREthereumLESMessage),
      node.type = .NODE_TYPE_GETH →
      messageLESIsUnexpectedResponse message.identifier = true →
      nodeProcessRecvLES imports node route message = Outcome.returns node) := by
  have hhandled : ∀ (imports : BREthereumNodeImports) (node : BREthereumNode) (index : Nat)
      (message : BREthereumMessage) (provisioner : BREthereumNodeProvisioner),
      node.provisioners[index]? = some provisioner →
      ∃ node', nodeHandleProvisionerMessage imports node index message =
          Outcome.returns node' ∧
        (node'.provisioners = node.provisioners.eraseIdx index ∨
          node'.provisioners = node.provisioners.set index
            (provisionerHandleMessage imports provisioner message)) := by
    intro imports node index message provisioner hget
    refine ⟨_, nodeHandleProvisionerMessage_returns imports node index message provisioner
      hget, ?_⟩
    split
    · exact Or.inl rfl
    · exact Or.inr rfl
  refine ⟨?_, ?_, ?_, ?_, ?_, ?_⟩
  · intro imports node route message index provisioner htype hkind hget hinterest hfirst
    have hfind := (nodeFindProvisionerOfInterest_some node.provisioners message.requestId
      index).mpr ⟨⟨provisioner, hget, hinterest⟩, hfirst⟩
    have hroute := nodeProcessRecvLES_routed imports node route message htype hkind
    rw [hfind] at hroute
    refine ⟨hroute, ?_⟩
    rw [hroute]
    exact hhandled imports node index _ provisioner hget
  · intro imports node route message htype hkind hnone
    have hfind := (nodeFindProvisionerOfInterest_none node.provisioners
      message.requestId).mpr hnone
    have hroute := nodeProcessRecvLES_routed imports node route message htype hkind
    rw [hfind] at hroute
    exact hroute
  · intro imports node route message error index provisioner htype hkind hget hinterest
      hfirst
    have hfind := (nodeFindProvisionerOfInterest_some node.provisioners message.requestId
      index).mpr ⟨⟨provisioner, hget, hinterest⟩, hfirst⟩
    have hroute := nodeProcessRecvPIP_routed imports node route message error htype hkind
    rw [hfind] at hroute
    refine ⟨hroute, ?_⟩
    rw [hroute]
    exact hhandled imports node index _ provisioner hget
  · intro imports node route message error htype hkind hnone
    have hfind := (nodeFindProvisionerOfInterest_none node.provisioners
      message.requestId).mpr hnone
    have hroute := nodeProcessRecvPIP_routed imports node route message error htype hkind
    rw [hfind] at hroute
    exact hroute
  · intro node horder hcounter
    have hiff : ∀ provisioner ∈ node.provisioners, ∀ requestId : Nat,
        provisionerMessageOfInterest provisioner requestId = true ↔
          provisionerRangeHas provisioner requestId := by
      intro provisioner hmem requestId
      apply provisionerMessageOfInterest_iff
      have := horder.2 provisioner hmem
      omega
    refine ⟨hiff, ?_⟩
    intro i j first second requestId hi hj hfirst hsecond
    obtain ⟨hilt, hieq⟩ := List.getElem?_eq_some_iff.mp hi
    obtain ⟨hjlt, hjeq⟩ := List.getElem?_eq_some_iff.mp hj
    have hmem1 : first ∈ node.provisioners := hieq ▸ List.getElem_mem _
    have hmem2 : second ∈ node.provisioners := hjeq ▸ List.getElem_mem _
    have h1 := (hiff first hmem1 requestId).mp hfirst
    have h2 := (hiff second hmem2 requestId).mp hsecond
    unfold provisionerRangeHas at h1 h2
    have hordered := horder.1
    rw [List.pairwise_iff_getElem] at hordered
    by_contra hne
    rcases Nat.lt_or_gt_of_ne hne with hlt | hgt
    · have := hordered i j hilt hjlt hlt
      rw [hieq, hjeq] at this
      omega
    · have := hordered j i hjlt hilt hgt
      rw [hieq, hjeq] at this
      omega
  · intro imports node route message htype hkind
    exact nodeProcessRecvLES_unexpected imports node route message htype hkind

/-- The amended C23 at work: in `exampleProvisionedNode` the response for the bodies, with the
request identifier 3, is of interest for the provisioner at index 1 and for none before it;
`nodeProcessRecvLES` hands it to that provisioner and leaves `exampleCompletedNode`. -/
theorem nodeProcessRecv_routes_response_witness :
    exampleProvisionedNode.type = .NODE_TYPE_GETH ∧
      messageLESIsRouted exampleBodiesResponseLES.identifier = true ∧
      exampleProvisionedNode.provisioners[1]? = some exampleBodiesProvisioner ∧
      provisionerMessageOfInterest exampleBodiesProvisioner
        exampleBodiesResponseLES.requestId = true ∧
      provisionerMessageOfInterest exampleHeadersProvisioner
        exampleBodiesResponseLES.requestId = false ∧
      nodeProcessRecvLES exampleImports exampleProvisionedNode .NODE_ROUTE_TCP
        exampleBodiesResponseLES = Outcome.returns exampleCompletedNode :=
  ⟨by decide, by decide, by decide, by decide, by decide,
    ((nodeProcessRecv_routes_response.1 exampleImports exampleProvisionedNode .NODE_ROUTE_TCP
      exampleBodiesResponseLES 1 exampleBodiesProvisioner (by decide) (by decide) (by decide)
      (by decide) (by
        intro before other hbefore hget
        have hzero : before = 0 := by omega
        rw [hzero] at hget
        have hfirst : exampleProvisionedNode.provisioners[0]? =
            some exampleHeadersProvisioner := by decide
        rw [hfirst] at hget
        rw [← Option.some.inj hget]
        decide)).1).trans (by decide)⟩

/-! ## One send per tick -/

theorem nodeFindProvisionerSendPending_none (provisioners : List BREthereumNodeProvisioner) :
    nodeFindProvisionerSendPending provisioners = none ↔
      ∀ provisioner ∈ provisioners,
        provisionerSendMessagesPending provisioner = false := by
  induction provisioners with
  | nil => simp [nodeFindProvisionerSendPending]
  | cons first rest ih =>
    rw [nodeFindProvisionerSendPending]
    by_cases hfirst : provisionerSendMessagesPending first = true
    · rw [if_pos hfirst]
      constructor
      · intro h
        cases h
      · intro h
        have := h first (List.mem_cons_self _ _)
        rw [hfirst] at this
        cases this
    · rw [if_neg hfirst, Option.map_eq_none', ih]
      constructor
      · intro h provisioner hmem
        rcases List.mem_cons.mp hmem with heq | hin
        · rw [heq]
          exact Bool.eq_false_iff.mpr hfirst
        · exact h provisioner hin
      · intro h provisioner hmem
        exact h provisioner (List.mem_cons_of_mem _ hmem)

/-- The search answers the index of the first provisioner with a message to send. -/
theorem nodeFindProvisionerSendPending_some (provisioners : List BREthereumNodeProvisioner)
    (index : Nat) :
    nodeFindProvisionerSendPending provisioners = some index ↔
      (∃ provisioner, provisioners[index]? = some provisioner ∧
        provisionerSendMessagesPending provisioner = true) ∧
      ∀ (before : Nat) (other : BREthereumNodeProvisioner), before < index →
        provisioners[before]? = some other →
        provisionerSendMessagesPending other = false := by
  induction provisioners generalizing index with
  | nil =>
    rw [nodeFindProvisionerSendPending]
    constructor
    · intro h
      cases h
    · rintro ⟨⟨provisioner, hget, _⟩, _⟩
      rw [List.getElem?_nil] at hget
      cases hget
  | cons first rest ih =>
    rw [nodeFindProvisionerSendPending]
    by_cases hfirst : provisionerSendMessagesPending first = true
    · rw [if_pos hfirst]
      constructor
      · intro h
        cases h
        refine ⟨⟨first, List.getElem?_cons_zero, hfirst⟩, ?_⟩
        intro before other hbefore
        omega
      · rintro ⟨_, hnone⟩
        cases index with
        | zero => rfl
        | succ index =>
          have := hnone 0 first (Nat.succ_pos _) List.getElem?_cons_zero
          rw [hfirst] at this
          cases this
    · rw [if_neg hfirst]
      cases index with
      | zero =>
        constructor
        · intro h
          cases hrest : nodeFindProvisionerSendPending rest with
          | none => rw [hrest] at h; cases h
          | some found => rw [hrest] at h; cases h
        · rintro ⟨⟨provisioner, hget, hinterest⟩, _⟩
          rw [List.getElem?_cons_zero] at hget
          cases hget
          exact absurd hinterest hfirst
      | succ index =>
        constructor
        · intro h
          have hrest : nodeFindProvisionerSendPending rest = some index := by
            cases hfound : nodeFindProvisionerSendPending rest with
            | none => rw [hfound] at h; cases h
            | some found =>
              rw [hfound] at h
              simp only [Option.map_some', Option.some.injEq, Nat.add_right_cancel_iff] at h
              rw [h]
          obtain ⟨hfound, hnone⟩ := (ih index).mp hrest
          refine ⟨?_, ?_⟩
          · obtain ⟨provisioner, hget, hinterest⟩ := hfound
            exact ⟨provisioner, by rw [List.getElem?_cons_succ]; exact hget, hinterest⟩
          · intro before other hbefore hget
            cases before with
            | zero =>
              rw [List.getElem?_cons_zero] at hget
              cases hget
              exact Bool.eq_false_iff.mpr hfirst
            | succ before =>
              rw [List.getElem?_cons_succ] at hget
              exact hnone before other (by omega) hget
        · rintro ⟨hfound, hnone⟩
          have hrest : nodeFindProvisionerSendPending rest = some index := by
            apply (ih index).mpr
            refine ⟨?_, ?_⟩
            · obtain ⟨provisioner, hget, hinterest⟩ := hfound
              rw [List.getElem?_cons_succ] at hget
              exact ⟨provisioner, hget, hinterest⟩
            · intro before other hbefore hget
              exact hnone (before + 1) other (by omega)
                (by rw [List.getElem?_cons_succ]; exact hget)
          rw [hrest]
          rfl


/-- What `provisionerMessageSend` returns for a provisioner of the list whose next message is on
its list and goes to the TCP route. -/
theorem provisionerMessageSend_returns (node : BREthereumNode) (index : Nat) (error : Int)
    (provisioner : BREthereumNodeProvisioner) (message : BREthereumMessage)
    (hget : node.provisioners[index]? = some provisioner)
    (hmessage : provisioner.messages[
      u64Sub provisioner.messagesCount provisioner.messagesRemainingCount]? = some message)
    (hfamily : message.identifier ≠ .MESSAGE_DIS) :
    provisionerMessageSend node index error =
      Outcome.returns
        ({ (if error = 0 then
              { node with
                effects := node.effects ++
                  [BREthereumNodeEffect.nodeEndpointSendMessage .NODE_ROUTE_TCP message] }
            else
              nodeStateAnnounce
                { node with
                  effects := node.effects ++
                    [BREthereumNodeEffect.nodeEndpointSendMessage .NODE_ROUTE_TCP message] }
                .NODE_ROUTE_TCP (nodeStateCreateErrorUnix error)) with
            provisioners := node.provisioners.set index
              { provisioner with
                messagesRemainingCount := u64Sub provisioner.messagesRemainingCount 1 } },
          decide (error = 0)) := by
  unfold provisionerMessageSend
  rw [hget]
  simp only
  rw [hmessage]
  simp only
  unfold nodeSend
  rw [if_pos (Or.inr ⟨by decide, hfamily⟩)]
  by_cases herror : error = 0
  · rw [if_pos herror, if_pos herror]
    simp only [Outcome.andThen, herror, decide_True]
  · rw [if_neg herror, if_neg herror]
    simp only [Outcome.andThen, herror, decide_False]
    rfl

/-- C27, as stated, fails.  On `exampleConnectedNode` the TCP route is connected and the first
provisioner has three messages to send.  In a tick with the socket writable and readable in
which a P2P Ping is read, `nodeProcessDescriptors` writes two messages: the first message of the
provisioner and the Pong.  In a tick in which the response for the bodies is read, the first
provisioner sends one message and the second provisioner, which sent nothing, is completed and
taken out of the list. -/
theorem nodeProcessDescriptors_sends_twice :
    exampleConnectedNode.states.get .NODE_ROUTE_TCP = .NODE_CONNECTED ∧
      exampleConnectedNode.provisioners.map
        (fun provisioner =>
          (provisioner.provision.identifier, provisioner.messagesRemainingCount,
            provisioner.messagesReceivedCount)) = [(1, 3, 0), (2, 1, 0), (3, 1, 1)] ∧
      nodeProcessDescriptors exampleImports exampleConnectedNode .NODE_ROUTE_TCP true true
        examplePingAnswers = Outcome.returns examplePingTickNode ∧
      nodeEffectsSends (examplePingTickNode.effects.drop exampleConnectedNode.effects.length) =
        [exampleImports.provisionCreateMessage exampleHeadersProvision .MESSAGE_LES 192 0 0,
         messageP2PPong] ∧
      nodeProcessDescriptors exampleImports exampleConnectedNode .NODE_ROUTE_TCP true true
        exampleBodiesAnswers = Outcome.returns exampleBodiesTickNode ∧
      exampleBodiesTickNode.provisioners.map
        (fun provisioner =>
          (provisioner.provision.identifier, provisioner.messagesRemainingCount,
            provisioner.messagesReceivedCount)) = [(1, 2, 0), (3, 1, 1)] := by
  decide

/-- C27, amended: one send per tick.  On a connected TCP route with a socket, in a tick with the
socket writable and not readable: when a provisioner of the list has messages to send and no
provisioner before it has, and its next message, the one at the index `messagesCount -
messagesRemainingCount`, is on its list and is no discovery message, `nodeProcessDescriptors`
returns, it has written that one message, the count of messages to send of that provisioner has
dropped by one, and every other provisioner and every other field of the node is as before,
but for the state of the route and the state callback when the write fails; when no provisioner
has a message to send the node is left as it was.  In a tick with the socket readable too, the
same send comes first and the receipt and the processing of one message follow. -/
theorem nodeProcessDescriptors_sends_one :
    (∀ (imports : BREthereumNodeImports) (node : BREthereumNode)
      (answers : BREthereumNodeTickAnswers) (index : Nat)
      (provisioner : BREthereumNodeProvisioner) (message : BREthereumMessage),
      node.remote.sockets.get .NODE_ROUTE_TCP ≠ -1 →
      node.states.get .NODE_ROUTE_TCP = .NODE_CONNECTED →
      node.provisioners[index]? = some provisioner →
      0 < provisioner.messagesRemainingCount →
      (∀ (before : Nat) (other : BREthereumNodeProvisioner), before < index →
        node.provisioners[before]? = some other → other.messagesRemainingCount = 0) →
      provisioner.messages[
        u64Sub provisioner.messagesCount provisioner.messagesRemainingCount]? = some message →
      message.identifier ≠ .MESSAGE_DIS →
      (provisioner.messagesRemainingCount ≤ provisioner.messagesCount →
        provisioner.messagesCount < UINT64_MOD →
        u64Sub provisioner.messagesCount provisioner.messagesRemainingCount =
          provisioner.messagesCount - provisioner.messagesRemainingCount) ∧
      (provisioner.messagesRemainingCount < UINT64_MOD →
        u64Sub provisioner.messagesRemainingCount 1 =
          provisioner.messagesRemainingCount - 1) ∧
      ∃ node',
        nodeProcessDescriptors imports node .NODE_ROUTE_TCP false true answers =
          Outcome.returns node' ∧
        nodeEffectsSends (node'.effects.drop node.effects.length) = [message] ∧
        node'.provisioners = node.provisioners.set index
          { provisioner with
            messagesRemainingCount := u64Sub provisioner.messagesRemainingCount 1 } ∧
        (∀ other : Nat, other ≠ index → node'.provisioners[other]? = node.provisioners[other]?) ∧
        node'.messageIdentifier = node.messageIdentifier ∧
        node'.type = node.type ∧
        (answers.sendError = 0 →
          node' =
            { node with
              effects := node.effects ++
                [BREthereumNodeEffect.nodeEndpointSendMessage .NODE_ROUTE_TCP message]
              provisioners := node.provisioners.set index
                { provisioner with
                  messagesRemainingCount :=
                    u64Sub provisioner.messagesRemainingCount 1 } })) ∧
    (∀ (imports : BREthereumNodeImports) (node : BREthereumNode)
      (answers : BREthereumNodeTickAnswers),
      (∀ provisioner ∈ node.provisioners, provisioner.messagesRemainingCount = 0) →
      nodeProcessDescriptors imports node .NODE_ROUTE_TCP false true answers =
        Outcome.returns node) ∧
    (∀ (imports : BREthereumNodeImports) (node : BREthereumNode)
      (answers : BREthereumNodeTickAnswers) (recv send : Bool),
      node.remote.sockets.get .NODE_ROUTE_TCP ≠ -1 →
      node.states.get .NODE_ROUTE_TCP = .NODE_CONNECTED →
      nodeProcessDescriptors imports node .NODE_ROUTE_TCP recv send answers =
        (nodeProcessDescriptors imports node .NODE_ROUTE_TCP false send answers).andThen
          fun node => nodeProcessDescriptors_recv imports node .NODE_ROUTE_TCP recv answers) := by
  have hsplit : ∀ (imports : BREthereumNodeImports) (node : BREthereumNode)
      (answers : BREthereumNodeTickAnswers) (send : Bool),
      node.remote.sockets.get .NODE_ROUTE_TCP ≠ -1 →
      node.states.get .NODE_ROUTE_TCP = .NODE_CONNECTED →
      nodeProcessDescriptors imports node .NODE_ROUTE_TCP false send answers =
        nodeProcessDescriptors_send node .NODE_ROUTE_TCP send answers.sendError := by
    intro imports node answers send hsocket hstate
    unfold nodeProcessDescriptors
    rw [if_neg hsocket, if_neg (by rw [hstate]; exact fun h => h rfl)]
    cases nodeProcessDescriptors_send node .NODE_ROUTE_TCP send answers.sendError with
    | aborts => rfl
    | loops => rfl
    | returns sent => rfl
  refine ⟨?_, ?_, ?_⟩
  · intro imports node answers index provisioner message hsocket hstate hget hremaining
      hfirst hmessage hfamily
    refine ⟨?_, ?_, ?_⟩
    · intro hle hbound
      unfold u64Sub UINT64_MOD at *
      omega
    · intro hbound
      unfold u64Sub UINT64_MOD at *
      omega
    · have hfind : nodeFindProvisionerSendPending node.provisioners = some index := by
        apply (nodeFindProvisionerSendPending_some node.provisioners index).mpr
        refine ⟨⟨provisioner, hget, ?_⟩, ?_⟩
        · unfold provisionerSendMessagesPending
          exact decide_eq_true hremaining
        · intro before other hbefore hother
          unfold provisionerSendMessagesPending
          rw [hfirst before other hbefore hother]
          rfl
      have hsend := provisionerMessageSend_returns node index answers.sendError provisioner
        message hget hmessage hfamily
      have hrun : nodeProcessDescriptors imports node .NODE_ROUTE_TCP false true answers =
          Outcome.returns
            { (if answers.sendError = 0 then
                { node with
                  effects := node.effects ++
                    [BREthereumNodeEffect.nodeEndpointSendMessage .NODE_ROUTE_TCP message] }
              else
                nodeStateAnnounce
                  { node with
                    effects := node.effects ++
                      [BREthereumNodeEffect.nodeEndpointSendMessage .NODE_ROUTE_TCP message] }
                  .NODE_ROUTE_TCP (nodeStateCreateErrorUnix answers.sendError)) with
              provisioners := node.provisioners.set index
                { provisioner with
                  messagesRemainingCount :=
                    u64Sub provisioner.messagesRemainingCount 1 } } := by
        rw [hsplit imports node answers true hsocket hstate]
        unfold nodeProcessDescriptors_send
        rw [if_pos ⟨rfl, rfl⟩, hfind]
        simp only
        rw [hsend]
        rfl
      refine ⟨_, hrun, ?_, rfl, ?_, ?_, ?_, ?_⟩
      · by_cases herror : answers.sendError = 0
        · rw [if_pos herror]
          show nodeEffectsSends ((node.effects ++ _).drop node.effects.length) = _
          rw [List.drop_left]
          rfl
        · rw [if_neg herror]
          show nodeEffectsSends (((node.effects ++ _) ++ _).drop node.effects.length) = _
          rw [List.append_assoc, List.drop_left]
          rfl
      · intro other hother
        exact List.getElem?_set_ne (Ne.symm hother)
      · by_cases herror : answers.sendError = 0
        · rw [if_pos herror]
        · rw [if_neg herror]
          rfl
      · by_cases herror : answers.sendError = 0
        · rw [if_pos herror]
        · rw [if_neg herror]
          rfl
      · intro herror
        rw [if_pos herror]
  · intro imports node answers hnone
    unfold nodeProcessDescriptors
    by_cases hsocket : node.remote.sockets.get .NODE_ROUTE_TCP = -1
    · rw [if_pos hsocket]
    · rw [if_neg hsocket]
      by_cases hstate : node.states.get .NODE_ROUTE_TCP ≠ .NODE_CONNECTED
      · rw [if_pos hstate]
      · rw [if_neg hstate]
        have hfind : nodeFindProvisionerSendPending node.provisioners = none := by
          apply (nodeFindProvisionerSendPending_none node.provisioners).mpr
          intro provisioner hmem
          unfold provisionerSendMessagesPending
          rw [hnone provisioner hmem]
          rfl
        unfold nodeProcessDescriptors_send
        rw [if_pos ⟨rfl, rfl⟩, hfind]
        rfl
  · intro imports node answers recv send hsocket hstate
    rw [hsplit imports node answers send hsocket hstate]
    unfold nodeProcessDescriptors
    rw [if_neg hsocket, if_neg (by rw [hstate]; exact fun h => h rfl)]

/-- The amended C27 at work: on `exampleConnectedNode`, in a tick with the socket writable and
not readable, the first provisioner has three messages to send; its first message is written and
nothing else, its count of messages to send drops to 2, and the two other provisioners are as
before. -/
theorem nodeProcessDescriptors_sends_one_witness :
    exampleConnectedNode.provisioners[0]? = some exampleHeadersProvisioner ∧
      0 < exampleHeadersProvisioner.messagesRemainingCount ∧
      exampleHeadersProvisioner.messages[
        u64Sub exampleHeadersProvisioner.messagesCount
          exampleHeadersProvisioner.messagesRemainingCount]? =
        some (exampleImports.provisionCreateMessage exampleHeadersProvision .MESSAGE_LES 192
          0 0) ∧
      nodeProcessDescriptors exampleImports exampleConnectedNode .NODE_ROUTE_TCP false true
        examplePingAnswers = Outcome.returns exampleSendTickNode ∧
      nodeEffectsSends
          (exampleSendTickNode.effects.drop exampleConnectedNode.effects.length) =
        [exampleImports.provisionCreateMessage exampleHeadersProvision .MESSAGE_LES 192 0 0] ∧
      exampleSendTickNode.provisioners.map
        (fun provisioner =>
          (provisioner.provision.identifier, provisioner.messagesRemainingCount,
            provisioner.messagesReceivedCount)) = [(1, 2, 0), (2, 1, 0), (3, 1, 1)] := by
  obtain ⟨_, _, node', hrun, hsends, _⟩ :=
    nodeProcessDescriptors_sends_one.1 exampleImports exampleConnectedNode examplePingAnswers
      0 exampleHeadersProvisioner
      (exampleImports.provisionCreateMessage exampleHeadersProvision .MESSAGE_LES 192 0 0)
      (by decide) (by decide) (by decide) (by decide)
      (by intro before other hbefore; omega) (by decide) (by decide)
  have heval : nodeProcessDescriptors exampleImports exampleConnectedNode .NODE_ROUTE_TCP false
      true examplePingAnswers = Outcome.returns exampleSendTickNode := by decide
  rw [heval] at hrun
  have hnode : exampleSendTickNode = node' := Outcome.returns.inj hrun
  rw [← hnode] at hsends
  exact ⟨by decide, by decide, by decide, heval, hsends, by decide⟩

/-! ## Disconnection -/

theorem ByRoute.get_set_same {α : Type} (array : ByRoute α) (route : BREthereumNodeEndpointRoute)
    (value : α) : (array.set route value).get route = value := by
  cases route <;> rfl

theorem ByRoute.get_set_other {α : Type} (array : ByRoute α)
    (route : BREthereumNodeEndpointRoute) (value : α) :
    (array.set route value).get route.other = array.get route.other := by
  cases route <;> rfl

theorem ByRoute.set_set {α : Type} (array : ByRoute α) (route : BREthereumNodeEndpointRoute)
    (first second : α) : (array.set route first).set route second = array.set route second := by
  cases route <;> rfl

theorem ByRoute.set_get {α : Type} (array : ByRoute α) (route : BREthereumNodeEndpointRoute) :
    array.set route (array.get route) = array := by
  cases route <;> rfl

/-- The state that `nodeDisconnect` gives the route. -/
theorem nodeDisconnect_state (node : BREthereumNode) (route : BREthereumNodeEndpointRoute)
    (reason : BREthereumP2PDisconnectReason) :
    (nodeDisconnect node route reason).states =
        node.states.set route
          (match node.states.get route with
            | .NODE_CONNECTING _ =>
              if reason = P2P_MESSAGE_DISCONNECT_REQUESTED then nodeStateCreateAvailable
              else nodeStateCreateErrorDisconnect reason
            | .NODE_CONNECTED =>
              if reason = P2P_MESSAGE_DISCONNECT_REQUESTED then nodeStateCreateAvailable
              else nodeStateCreateErrorDisconnect reason
            | state => state) := by
  cases hthread : node.threads.get route <;> cases hstate : node.states.get route <;>
    simp only [nodeDisconnect, nodeEndpointClose, hthread, hstate, if_true, if_false,
      Bool.false_eq_true] <;>
    first
    | rfl
    | rw [← hstate, ByRoute.set_get]

/-- The other fields that `nodeDisconnect` leaves. -/
theorem nodeDisconnect_frame (node : BREthereumNode) (route : BREthereumNodeEndpointRoute)
    (reason : BREthereumP2PDisconnectReason) :
    (nodeDisconnect node route reason).threads = node.threads.set route false ∧
      (nodeDisconnect node route reason).remote =
        { node.remote with sockets := node.remote.sockets.set route (-1) } ∧
      (nodeDisconnect node route reason).type = node.type ∧
      (nodeDisconnect node route reason).localEndpoint = node.localEndpoint ∧
      (nodeDisconnect node route reason).credits = node.credits ∧
      (nodeDisconnect node route reason).messageIdOffset = node.messageIdOffset ∧
      (nodeDisconnect node route reason).recvDataBufferCount = node.recvDataBufferCount ∧
      (nodeDisconnect node route reason).messageIdentifier = node.messageIdentifier ∧
      (nodeDisconnect node route reason).provisioners = node.provisioners := by
  cases hthread : node.threads.get route <;> cases hstate : node.states.get route <;>
    simp only [nodeDisconnect, nodeEndpointClose, hthread, hstate, if_true, if_false,
      Bool.false_eq_true, and_true, true_and] <;>
    first
    | rfl
    | rw [← hthread, ByRoute.set_get]

/-- Two nodes that agree on every field but the list of calls are equal once the lists are
emptied. -/
theorem node_ext_but_effects (first second : BREthereumNode)
    (h1 : first.type = second.type) (h2 : first.states = second.states)
    (h3 : first.localEndpoint = second.localEndpoint) (h4 : first.remote = second.remote)
    (h5 : first.credits = second.credits) (h6 : first.messageIdOffset = second.messageIdOffset)
    (h7 : first.recvDataBufferCount = second.recvDataBufferCount)
    (h8 : first.messageIdentifier = second.messageIdentifier)
    (h9 : first.provisioners = second.provisioners) (h10 : first.threads = second.threads) :
    { first with effects := [] } = { second with effects := [] } := by
  cases first
  cases second
  simp only at h1 h2 h3 h4 h5 h6 h7 h8 h9 h10
  subst h1 h2 h3 h4 h5 h6 h7 h8 h9 h10
  rfl

/-- C28: disconnect transitions.  `nodeDisconnect` moves a route that is connecting or connected
to AVAILABLE when the reason is `P2P_MESSAGE_DISCONNECT_REQUESTED` and to the state
`NODE_ERROR_DISCONNECT` with the reason for every other reason; it leaves the state of a route
that is exhausted, in one of the three error states or available as it is; it never changes the
state of the other route; and a second call with the same route and reason leaves the states, and
every field of the node but the list of calls, as the first call left them. -/
theorem nodeDisconnect_transitions (node : BREthereumNode)
    (route : BREthereumNodeEndpointRoute) (reason : BREthereumP2PDisconnectReason) :
    ((node.states.get route = .NODE_CONNECTED ∨
        ∃ type, node.states.get route = .NODE_CONNECTING type) →
      (reason = P2P_MESSAGE_DISCONNECT_REQUESTED →
        (nodeDisconnect node route reason).states.get route = .NODE_AVAILABLE) ∧
      (reason ≠ P2P_MESSAGE_DISCONNECT_REQUESTED →
        (nodeDisconnect node route reason).states.get route =
          .NODE_ERROR_DISCONNECT reason)) ∧
    ((node.states.get route = .NODE_AVAILABLE ∨
        (∃ timestamp, node.states.get route = .NODE_EXHAUSTED timestamp) ∨
        (∃ error, node.states.get route = .NODE_ERROR_UNIX error) ∨
        (∃ other, node.states.get route = .NODE_ERROR_DISCONNECT other) ∨
        (∃ other, node.states.get route = .NODE_ERROR_PROTOCOL other)) →
      (nodeDisconnect node route reason).states.get route = node.states.get route ∧
      (nodeDisconnect node route reason).states = node.states) ∧
    (nodeDisconnect node route reason).states.get route.other =
      node.states.get route.other ∧
    (nodeDisconnect (nodeDisconnect node route reason) route reason).states =
      (nodeDisconnect node route reason).states ∧
    { nodeDisconnect (nodeDisconnect node route reason) route reason with effects := [] } =
      { nodeDisconnect node route reason with effects := [] } := by
  have hstates := nodeDisconnect_state node route reason
  have hagain := nodeDisconnect_state (nodeDisconnect node route reason) route reason
  have hstable : (nodeDisconnect (nodeDisconnect node route reason) route reason).states =
      (nodeDisconnect node route reason).states := by
    rw [hagain, hstates, ByRoute.get_set_same, ByRoute.set_set]
    cases hstate : node.states.get route <;> try rfl
    · by_cases hreason : reason = P2P_MESSAGE_DISCONNECT_REQUESTED
      · simp only [if_pos hreason]
        rfl
      · simp only [if_neg hreason]
        rfl
    · by_cases hreason : reason = P2P_MESSAGE_DISCONNECT_REQUESTED
      · simp only [if_pos hreason]
        rfl
      · simp only [if_neg hreason]
        rfl
  refine ⟨?_, ?_, ?_, hstable, ?_⟩
  · intro hstate
    rw [hstates, ByRoute.get_set_same]
    rcases hstate with hconnected | ⟨type, hconnecting⟩
    · rw [hconnected]
      exact ⟨fun hreason => by simp only [if_pos hreason]; rfl,
        fun hreason => by simp only [if_neg hreason]; rfl⟩
    · rw [hconnecting]
      exact ⟨fun hreason => by simp only [if_pos hreason]; rfl,
        fun hreason => by simp only [if_neg hreason]; rfl⟩
  · intro hstate
    have hsame : (nodeDisconnect node route reason).states = node.states := by
      rw [hstates]
      rcases hstate with h | ⟨_, h⟩ | ⟨_, h⟩ | ⟨_, h⟩ | ⟨_, h⟩ <;>
        (rw [h]; simp only; rw [← h, ByRoute.set_get])
    exact ⟨by rw [hsame], hsame⟩
  · rw [hstates, ByRoute.get_set_other]
  · obtain ⟨f1, f2, f3, f4, f5, f6, f7, f8, f9⟩ := nodeDisconnect_frame node route reason
    obtain ⟨g1, g2, g3, g4, g5, g6, g7, g8, g9⟩ :=
      nodeDisconnect_frame (nodeDisconnect node route reason) route reason
    have hthreads : (nodeDisconnect (nodeDisconnect node route reason) route reason).threads =
        (nodeDisconnect node route reason).threads := by
      rw [g1, f1, ByRoute.set_set]
    have hremote : (nodeDisconnect (nodeDisconnect node route reason) route reason).remote =
        (nodeDisconnect node route reason).remote := by
      rw [g2, f2]
      simp only [ByRoute.set_set]
    exact node_ext_but_effects _ _ g3 hstable g4 hremote g5 g6 g7 g8 g9 hthreads

/-! ## The handshake -/

/-- When the first part of the handshake goes on, every answer on the way was a good one. -/
theorem nodeThreadConnectTCP_auth_continues (node : BREthereumNode)
    (answers : BREthereumNodeConnectAnswers) (node' : BREthereumNode)
    (h : nodeThreadConnectTCP_auth node answers = .continues node') :
    node.states.get .NODE_ROUTE_TCP = .NODE_AVAILABLE ∧ answers.openError = 0 ∧
      answers.authSendError = 0 ∧ 0 < answers.ackSelect.result ∧ answers.ackRecvError = 0 ∧
      answers.ackCipherBufCount = ackCipherBufLen ∧ answers.ackLength = ackBufLen ∧
      node'.states.get .NODE_ROUTE_TCP = .NODE_CONNECTING .NODE_CONNECT_AUTH_ACK := by
  unfold nodeThreadConnectTCP_auth nodeConnectFailed at h
  simp only [_sendAuthInitiator, _readAuthAckFromRecipient, ne_eq, not_true_eq_false,
    if_false, ite_not] at h
  split at h
  · rename_i h1
    split at h
    · rename_i h2
      split at h
      · rename_i h3
        split at h
        · cases h
        · rename_i h4
          split at h
          · rename_i h5
            split at h
            · rename_i h6
              split at h
              · rename_i h7
                cases h
                refine ⟨h1, h2, h3, by omega, h5, h6, h7, ?_⟩
                simp only [ByRoute.get_set_same]
                rfl
              · cases h
            · cases h
          · cases h
      · cases h
    · cases h
  · cases h

/-- When every answer is a good one the first part of the handshake goes on. -/
theorem nodeThreadConnectTCP_auth_accepts (node : BREthereumNode)
    (answers : BREthereumNodeConnectAnswers)
    (h1 : node.states.get .NODE_ROUTE_TCP = .NODE_AVAILABLE) (h2 : answers.openError = 0)
    (h3 : answers.authSendError = 0) (h4 : 0 < answers.ackSelect.result)
    (h5 : answers.ackRecvError = 0) (h6 : answers.ackCipherBufCount = ackCipherBufLen)
    (h7 : answers.ackLength = ackBufLen) :
    ∃ node', nodeThreadConnectTCP_auth node answers = .continues node' ∧
      node'.localEndpoint = node.localEndpoint ∧ node'.remote.hello = node.remote.hello ∧
      node'.type = node.type := by
  unfold nodeThreadConnectTCP_auth nodeConnectFailed
  simp only [_sendAuthInitiator, _readAuthAckFromRecipient, ne_eq, not_true_eq_false,
    if_false, ite_not]
  rw [if_pos h1, if_pos h2, if_pos h3, if_neg (by omega), if_pos h5, if_pos h6, if_pos h7,
    if_pos rfl]
  exact ⟨_, rfl, rfl, rfl, rfl⟩

/-- An auth-ack of another length than `ackCipherBufLen` ends the thread with the protocol error
`NODE_PROTOCOL_TCP_AUTHENTICATION`. -/
theorem nodeThreadConnectTCP_auth_rejects (node : BREthereumNode)
    (answers : BREthereumNodeConnectAnswers)
    (h1 : node.states.get .NODE_ROUTE_TCP = .NODE_AVAILABLE) (h2 : answers.openError = 0)
    (h3 : answers.authSendError = 0) (h4 : 0 < answers.ackSelect.result)
    (h5 : answers.ackRecvError = 0) (h6 : answers.ackCipherBufCount ≠ ackCipherBufLen) :
    ∃ node', nodeThreadConnectTCP_auth node answers = .exits node' ∧
      node'.states.get .NODE_ROUTE_TCP =
        .NODE_ERROR_PROTOCOL .NODE_PROTOCOL_TCP_AUTHENTICATION := by
  unfold nodeThreadConnectTCP_auth nodeConnectFailed
  simp only [_sendAuthInitiator, _readAuthAckFromRecipient, ne_eq, not_true_eq_false,
    if_false, ite_not]
  rw [if_pos h1, if_pos h2, if_pos h3, if_neg (by omega), if_pos h5, if_neg h6]
  refine ⟨_, rfl, ?_⟩
  unfold nodeStateAnnounce
  simp only [ByRoute.get_set_same]
  rfl

/-- C30, as stated, fails: `ackBufLen` is 97, the 64 bytes of a public key, the 32 bytes of a
nonce and one byte more, and not 113; `ackCipherBufLen` is 210 and not 226.  An auth-ack of 226
bytes is rejected: the thread ends with the protocol error `NODE_PROTOCOL_TCP_AUTHENTICATION`. -/
theorem ackBufLen_is_not_113 :
    ackBufLen = 97 ∧ ackBufLen ≠ 113 ∧ ackCipherBufLen = 210 ∧ ackCipherBufLen ≠ 226 ∧
      exampleLongAckAnswers.ackCipherBufCount = 226 ∧
      ∃ node', nodeThreadConnectTCP_auth exampleNode exampleLongAckAnswers = .exits node' ∧
        node'.states.get .NODE_ROUTE_TCP =
          .NODE_ERROR_PROTOCOL .NODE_PROTOCOL_TCP_AUTHENTICATION :=
  ⟨by decide, by decide, by decide, by decide, by decide,
    nodeThreadConnectTCP_auth_rejects exampleNode exampleLongAckAnswers (by decide) (by decide)
      (by decide) (by decide) (by decide) (by decide)⟩

/-- C30, amended: handshake blob lengths.  The constants are `authBufLen` = 194,
`authCipherBufLen` = 307, `ackBufLen` = 97 and `ackCipherBufLen` = 210.  The first part of the
handshake goes on past the auth-ack only when exactly `ackCipherBufLen` bytes were received (and
they decrypt to `ackBufLen` bytes); when the route was available and every call before
succeeded, another count of bytes ends the thread with the route in the protocol error
`NODE_PROTOCOL_TCP_AUTHENTICATION`, and `ackCipherBufLen` bytes that decrypt to `ackBufLen`
bytes let the handshake go on. -/
theorem nodeThreadConnectTCP_auth_lengths :
    authBufLen = 194 ∧ authCipherBufLen = 307 ∧ ackBufLen = 97 ∧ ackCipherBufLen = 210 ∧
    (∀ (node : BREthereumNode) (answers : BREthereumNodeConnectAnswers)
      (node' : BREthereumNode),
      nodeThreadConnectTCP_auth node answers = .continues node' →
      answers.ackCipherBufCount = ackCipherBufLen ∧ answers.ackCipherBufCount = 210) ∧
    (∀ (imports : BREthereumNodeImports) (node : BREthereumNode)
      (answers : BREthereumNodeConnectAnswers) (node' : BREthereumNode),
      nodeThreadConnectTCP imports node answers = .continues node' →
      answers.ackCipherBufCount = ackCipherBufLen) ∧
    (∀ (node : BREthereumNode) (answers : BREthereumNodeConnectAnswers),
      node.states.get .NODE_ROUTE_TCP = .NODE_AVAILABLE → answers.openError = 0 →
      answers.authSendError = 0 → 0 < answers.ackSelect.result →
      answers.ackRecvError = 0 → answers.ackCipherBufCount ≠ ackCipherBufLen →
      ∃ node', nodeThreadConnectTCP_auth node answers = .exits node' ∧
        node'.states.get .NODE_ROUTE_TCP =
          .NODE_ERROR_PROTOCOL .NODE_PROTOCOL_TCP_AUTHENTICATION) ∧
    (∀ (node : BREthereumNode) (answers : BREthereumNodeConnectAnswers),
      node.states.get .NODE_ROUTE_TCP = .NODE_AVAILABLE → answers.openError = 0 →
      answers.authSendError = 0 → 0 < answers.ackSelect.result →
      answers.ackRecvError = 0 → answers.ackCipherBufCount = ackCipherBufLen →
      answers.ackLength = ackBufLen →
      ∃ node', nodeThreadConnectTCP_auth node answers = .continues node') := by
  refine ⟨by decide, by decide, by decide, by decide, ?_, ?_, ?_, ?_⟩
  · intro node answers node' h
    have hcount := (nodeThreadConnectTCP_auth_continues node answers node' h).2.2.2.2.2.1
    exact ⟨hcount, by rw [hcount]; decide⟩
  · intro imports node answers node' h
    unfold nodeThreadConnectTCP at h
    cases hauth : nodeThreadConnectTCP_auth node answers with
    | exits ended => rw [hauth] at h; cases h
    | aborts => rw [hauth] at h; cases h
    | continues mid =>
      exact (nodeThreadConnectTCP_auth_continues node answers mid hauth).2.2.2.2.2.1
  · intro node answers h1 h2 h3 h4 h5 h6
    exact nodeThreadConnectTCP_auth_rejects node answers h1 h2 h3 h4 h5 h6
  · intro node answers h1 h2 h3 h4 h5 h6 h7
    obtain ⟨node', h, _⟩ := nodeThreadConnectTCP_auth_accepts node answers h1 h2 h3 h4 h5 h6 h7
    exact ⟨node', h⟩

/-- The amended C30 at work: on the node of the examples, with the answers of the examples, the
auth-ack has 210 bytes and the first part of the handshake goes on. -/
theorem nodeThreadConnectTCP_auth_lengths_witness :
    exampleConnectAnswers.ackCipherBufCount = 210 ∧
      ∃ node', nodeThreadConnectTCP_auth exampleNode exampleConnectAnswers =
        .continues node' :=
  ⟨by decide,
    nodeThreadConnectTCP_auth_lengths.2.2.2.2.2.2.2 exampleNode exampleConnectAnswers
      (by decide) (by decide) (by decide) (by decide) (by decide) (by decide) (by decide)⟩

theorem find?_of_filter_singleton {α : Type} (test : α → Bool) (list : List α) (item : α)
    (h : list.filter test = [item]) : list.find? test = some item := by
  induction list with
  | nil => cases h
  | cons first rest ih =>
    by_cases hfirst : test first = true
    · rw [List.filter_cons_of_pos hfirst] at h
      rw [List.find?_cons_of_pos _ hfirst, (List.cons.inj h).1]
    · rw [List.filter_cons_of_neg hfirst] at h
      rw [List.find?_cons_of_neg _ hfirst]
      exact ih h

/-- The capabilities part of the handshake when the count of shared capabilities is not 1. -/
theorem nodeThreadConnectTCP_capabilities_mismatch (imports : BREthereumNodeImports)
    (node : BREthereumNode) (localHello remoteHello : BREthereumP2PMessageHello)
    (hlocal : messageP2PHello node.localEndpoint.hello = some localHello)
    (hremote : messageP2PHello node.remote.hello = some remoteHello)
    (hcount : nodeThreadConnectTCP_capabilitiesMatchCount imports localHello remoteHello ≠ 1) :
    nodeThreadConnectTCP_capabilities imports node =
      nodeConnectFailed node .NODE_ROUTE_TCP
        (nodeStateCreateErrorProtocol .NODE_PROTOCOL_CAPABILITIES_MISMATCH) := by
  unfold nodeThreadConnectTCP_capabilities
  rw [hlocal, hremote]
  simp only
  rw [if_pos hcount]

/-- The capabilities part of the handshake when the count of shared capabilities is 1: there is
a first capability of the local Hello that the remote Hello has, and the part goes by its
name. -/
theorem nodeThreadConnectTCP_capabilities_match (imports : BREthereumNodeImports)
    (node : BREthereumNode) (localHello remoteHello : BREthereumP2PMessageHello)
    (hlocal : messageP2PHello node.localEndpoint.hello = some localHello)
    (hremote : messageP2PHello node.remote.hello = some remoteHello)
    (hcount : nodeThreadConnectTCP_capabilitiesMatchCount imports localHello remoteHello = 1) :
    ∃ capability,
      localHello.capabilities.filter
        (fun capability => imports.messageP2PHelloHasCapability remoteHello capability) =
        [capability] ∧
      capability ∈ localHello.capabilities ∧
      imports.messageP2PHelloHasCapability remoteHello capability = true ∧
      nodeThreadConnectTCP_capabilities imports node =
        if capability.name = "les" then
          match updateLocalEndpointStatusMessage node.localEndpoint .NODE_TYPE_GETH
              capability.version with
          | .returns endpoint =>
            .continues
              { node with
                type := .NODE_TYPE_GETH, localEndpoint := endpoint, messageIdOffset := 0x10 }
          | _ => .aborts
        else if capability.name = "pip" then
          match updateLocalEndpointStatusMessage node.localEndpoint .NODE_TYPE_PARITY
              capability.version with
          | .returns endpoint =>
            .continues
              { node with
                type := .NODE_TYPE_PARITY, localEndpoint := endpoint, messageIdOffset := 0x10 }
          | _ => .aborts
        else .aborts := by
  unfold nodeThreadConnectTCP_capabilitiesMatchCount at hcount
  obtain ⟨capability, hfilter⟩ := List.length_eq_one.mp hcount
  have hmem : capability ∈ localHello.capabilities.filter
      (fun capability => imports.messageP2PHelloHasCapability remoteHello capability) := by
    rw [hfilter]
    exact List.mem_singleton_self _
  obtain ⟨hin, hhas⟩ := List.mem_filter.mp hmem
  have hfind : localHello.capabilities.find?
      (fun capability => imports.messageP2PHelloHasCapability remoteHello capability) =
      some capability := find?_of_filter_singleton _ _ _ hfilter
  refine ⟨capability, hfilter, hin, hhas, ?_⟩
  unfold nodeThreadConnectTCP_capabilities
  rw [hlocal, hremote]
  simp only
  have hone : ¬ nodeThreadConnectTCP_capabilitiesMatchCount imports localHello remoteHello ≠
      1 := by
    unfold nodeThreadConnectTCP_capabilitiesMatchCount
    rw [hfilter]
    exact fun h => h rfl
  rw [if_neg hone, hfind]

/-- C29, as stated, fails.  The local Hello of `exampleEthHelloNode` advertises `eth/63` and the
remote Hello offers `eth/63` and `les/2`: exactly one capability is shared, and it is neither
`les` nor `pip`.  The capabilities part of the handshake stops on the `assert` of line 1521 and
sets no protocol error; so does the whole handshake from `exampleEthNode` with the answers of the
examples. -/
theorem nodeThreadConnectTCP_capabilities_asserts :
    messageP2PHello exampleEthHelloNode.localEndpoint.hello =
        some { capabilities := [{ name := "eth", version := 63 }] } ∧
      messageP2PHello exampleEthHelloNode.remote.hello =
        some { capabilities :=
          [{ name := "eth", version := 63 }, { name := "les", version := 2 }] } ∧
      nodeThreadConnectTCP_capabilitiesMatchCount exampleImports
        { capabilities := [{ name := "eth", version := 63 }] }
        { capabilities :=
          [{ name := "eth", version := 63 }, { name := "les", version := 2 }] } = 1 ∧
      nodeThreadConnectTCP_capabilities exampleImports exampleEthHelloNode = .aborts ∧
      nodeThreadConnectTCP exampleImports exampleEthNode exampleConnectAnswers = .aborts := by
  decide

/-- C29, amended: capability negotiation.  With the Hello of the local endpoint and the Hello of
the remote: when the count of the capabilities of the local Hello that the remote Hello has is
not 1, the thread ends with the route in the protocol error
`NODE_PROTOCOL_CAPABILITIES_MISMATCH`, and the type of the node and the offset are untouched.
When the count is 1 there is one such capability; if its name is `les` and the local status
message is a LES message, the handshake goes on with the type GETH and the offset 0x10; if its
name is `pip` and the local status message is a LES message, with the type PARITY and the offset
0x10; in both cases the states of the routes are untouched.  If its name is neither, the thread
stops on the `assert`. -/
theorem nodeThreadConnectTCP_capabilities_negotiates (imports : BREthereumNodeImports)
    (node : BREthereumNode) (localHello remoteHello : BREthereumP2PMessageHello)
    (hlocal : messageP2PHello node.localEndpoint.hello = some localHello)
    (hremote : messageP2PHello node.remote.hello = some remoteHello) :
    (nodeThreadConnectTCP_capabilitiesMatchCount imports localHello remoteHello ≠ 1 →
      ∃ node', nodeThreadConnectTCP_capabilities imports node = .exits node' ∧
        node'.states.get .NODE_ROUTE_TCP =
          .NODE_ERROR_PROTOCOL .NODE_PROTOCOL_CAPABILITIES_MISMATCH ∧
        node'.type = node.type ∧ node'.messageIdOffset = node.messageIdOffset) ∧
    (nodeThreadConnectTCP_capabilitiesMatchCount imports localHello remoteHello = 1 →
      ∃ capability,
        localHello.capabilities.filter
          (fun capability => imports.messageP2PHelloHasCapability remoteHello capability) =
          [capability] ∧
        (capability.name = "les" →
          (∃ message, node.localEndpoint.status = .les message) →
          ∃ node', nodeThreadConnectTCP_capabilities imports node = .continues node' ∧
            node'.type = .NODE_TYPE_GETH ∧ node'.messageIdOffset = 0x10 ∧
            node'.states = node.states) ∧
        (capability.name = "pip" →
          (∃ message, node.localEndpoint.status = .les message) →
          ∃ node', nodeThreadConnectTCP_capabilities imports node = .continues node' ∧
            node'.type = .NODE_TYPE_PARITY ∧ node'.messageIdOffset = 0x10 ∧
            node'.states = node.states) ∧
        (capability.name ≠ "les" → capability.name ≠ "pip" →
          nodeThreadConnectTCP_capabilities imports node = .aborts)) := by
  constructor
  · intro hcount
    rw [nodeThreadConnectTCP_capabilities_mismatch imports node localHello remoteHello hlocal
      hremote hcount]
    refine ⟨_, rfl, ?_, rfl, rfl⟩
    unfold nodeStateAnnounce
    simp only [ByRoute.get_set_same]
    rfl
  · intro hcount
    obtain ⟨capability, hfilter, _, _, hrun⟩ :=
      nodeThreadConnectTCP_capabilities_match imports node localHello remoteHello hlocal
        hremote hcount
    refine ⟨capability, hfilter, ?_, ?_, ?_⟩
    · rintro hles ⟨message, hstatus⟩
      rw [hrun, if_pos hles]
      unfold updateLocalEndpointStatusMessage
      rw [hstatus]
      exact ⟨_, rfl, rfl, rfl, rfl⟩
    · rintro hpip ⟨message, hstatus⟩
      have hnot : capability.name ≠ "les" := by
        rw [hpip]
        decide
      rw [hrun, if_neg hnot, if_pos hpip]
      unfold updateLocalEndpointStatusMessage
      rw [hstatus]
      exact ⟨_, rfl, rfl, rfl, rfl⟩
    · intro hles hpip
      rw [hrun, if_neg hles, if_neg hpip]

/-- The amended C29 at work: the local Hello of `exampleHelloNode` advertises `les/2` and
`pip/1` and the remote Hello offers `eth/63` and `les/2`; the one shared capability is `les/2`,
and the handshake goes on with the type GETH and the offset 16. -/
theorem nodeThreadConnectTCP_capabilities_negotiates_witness :
    messageP2PHello exampleHelloNode.localEndpoint.hello =
        some { capabilities :=
          [{ name := "les", version := 2 }, { name := "pip", version := 1 }] } ∧
      messageP2PHello exampleHelloNode.remote.hello =
        some { capabilities :=
          [{ name := "eth", version := 63 }, { name := "les", version := 2 }] } ∧
      ∃ node', nodeThreadConnectTCP_capabilities exampleImports exampleHelloNode =
          .continues node' ∧
        node'.type = .NODE_TYPE_GETH ∧ node'.messageIdOffset = 16 := by
  obtain ⟨capability, hfilter, hles, _, _⟩ :=
    (nodeThreadConnectTCP_capabilities_negotiates exampleImports exampleHelloNode
      { capabilities := [{ name := "les", version := 2 }, { name := "pip", version := 1 }] }
      { capabilities := [{ name := "eth", version := 63 }, { name := "les", version := 2 }] }
      (by decide) (by decide)).2 (by decide)
  have hcapability : capability = { name := "les", version := 2 } := by
    have hlist : [capability] = [{ name := "les", version := 2 }] :=
      hfilter.symm.trans (by decide)
    exact (List.cons.inj hlist).1
  obtain ⟨node', hrun, htype, hoffset, _⟩ := hles (by rw [hcapability])
    ⟨_, (by decide : exampleHelloNode.localEndpoint.status = .les
      { identifier := .LES_MESSAGE_STATUS, requestId := 0, credits := 0,
        status := exampleStatus, announce := exampleAnnounce, content := [] })⟩
  exact ⟨by decide, by decide, node', hrun, htype, hoffset⟩

/-! ## The lengths of a frame -/

theorem lor_shiftLeft_bytes (high middle low : Nat) (hmiddle : middle < 256) (hlow : low < 256) :
    low ||| (middle <<< 8) ||| (high <<< 16) = high * 65536 + middle * 256 + low := by
  have e1 : low ||| (middle <<< 8) = middle * 256 + low := by
    rw [Nat.lor_comm, Nat.shiftLeft_eq]
    have h := Nat.mul_add_lt_is_or (show low < 2 ^ 8 by omega) middle
    rw [show middle * 2 ^ 8 = 2 ^ 8 * middle by ring, ← h]
    omega
  have e2 : (middle * 256 + low) ||| (high <<< 16) = high * 65536 + (middle * 256 + low) := by
    rw [Nat.lor_comm, Nat.shiftLeft_eq]
    have h := Nat.mul_add_lt_is_or (show middle * 256 + low < 2 ^ 16 by omega) high
    rw [show high * 2 ^ 16 = 2 ^ 16 * high by ring, ← h]
    omega
  rw [e1, e2]
  omega

theorem nodeRecv_headerCount_eq (header : List Nat) :
    nodeRecv_headerCount header =
      (header.getD 0 0 % 256) * 65536 + (header.getD 1 0 % 256) * 256 +
        header.getD 2 0 % 256 := by
  unfold nodeRecv_headerCount
  exact lor_shiftLeft_bytes _ _ _ (Nat.mod_lt _ (by decide)) (Nat.mod_lt _ (by decide))

theorem nodeRecv_headerCount_lt (header : List Nat) :
    nodeRecv_headerCount header < 16777216 := by
  rw [nodeRecv_headerCount_eq]
  have h0 : header.getD 0 0 % 256 < 256 := Nat.mod_lt _ (by decide)
  have h1 : header.getD 1 0 % 256 < 256 := Nat.mod_lt _ (by decide)
  have h2 : header.getD 2 0 % 256 < 256 := Nat.mod_lt _ (by decide)
  omega

theorem nodeRecv_bytesCount_eq (headerCount : Nat) (h : headerCount < 16777216) :
    nodeRecv_bytesCount headerCount = headerCount + (16 - headerCount % 16) % 16 + 16 := by
  unfold nodeRecv_bytesCount u64Add u64Sub UINT64_MOD
  omega

theorem nodeRecv_dataCount_eq (headerCount : Nat) (hpayload : 1 ≤ headerCount)
    (h : headerCount < 16777216) :
    nodeRecv_dataCount headerCount = headerCount - 1 := by
  unfold nodeRecv_dataCount u64Sub UINT64_MOD
  omega

theorem nodeRecv_reads_frame (imports : BREthereumNodeImports) (node : BREthereumNode)
    (answers : BREthereumNodeRecvAnswers) (herror : answers.error = 0)
    (hvalid : answers.headerIsValid = true) :
    ∃ node' message later,
      nodeRecv imports node .NODE_ROUTE_TCP answers = Outcome.returns (node', message) ∧
      node'.effects = node.effects ++
        [BREthereumNodeEffect.nodeEndpointRecvData .NODE_ROUTE_TCP 32,
         BREthereumNodeEffect.nodeEndpointRecvData .NODE_ROUTE_TCP
           (nodeRecv_bytesCount (nodeRecv_headerCount answers.header))] ++ later ∧
      (answers.frameError = 0 →
        later = [BREthereumNodeEffect.messageDecode
          (nodeRecv_dataCount (nodeRecv_headerCount answers.header))
          (extractIdentifier node (answers.value % 256)).1
          (some (extractIdentifier node (answers.value % 256)).2)]) := by
  unfold nodeRecv
  simp only
  rw [if_neg (by rw [herror]; simp), if_neg (by rw [hvalid]; simp)]
  by_cases hgrow : nodeRecv_bytesCount (nodeRecv_headerCount answers.header) >
      node.recvDataBufferCount
  · rw [if_pos hgrow]
    by_cases hframe : answers.frameError ≠ 0
    · rw [if_pos hframe]
      exact ⟨_, _, [BREthereumNodeEffect.callbackState .NODE_ROUTE_TCP
        (nodeStateCreateErrorUnix answers.frameError)], rfl, by simp [nodeStateAnnounce],
        fun hzero => absurd hzero hframe⟩
    · rw [if_neg hframe]
      refine ⟨_, _, _, rfl, ?_, fun _ => rfl⟩
      split
      · split <;> (simp; exact ⟨rfl, rfl⟩)
      · simp
        exact ⟨rfl, rfl⟩
  · rw [if_neg hgrow]
    by_cases hframe : answers.frameError ≠ 0
    · rw [if_pos hframe]
      exact ⟨_, _, [BREthereumNodeEffect.callbackState .NODE_ROUTE_TCP
        (nodeStateCreateErrorUnix answers.frameError)], rfl, by simp [nodeStateAnnounce],
        fun hzero => absurd hzero hframe⟩
    · rw [if_neg hframe]
      refine ⟨_, _, _, rfl, ?_, fun _ => rfl⟩
      split
      · split <;> (simp; exact ⟨rfl, rfl⟩)
      · simp
        exact ⟨rfl, rfl⟩

/-- C35: the lengths of a frame in `nodeRecv` on the TCP route.  The payload length is the number
that the first three bytes of the decrypted header make, most significant byte first:
`h[0] * 65536 + h[1] * 256 + h[2]`, below `2 ^ 24`.  The count of bytes of the second read is the
payload length rounded up to a multiple of 16, plus 16: it is a multiple of 16, at least the
payload length plus 16 and at most the payload length plus 31.  When the first read succeeds and
the header is valid, `nodeRecv` returns and its two reads are one of 32 bytes and one of that
count of bytes. -/
theorem nodeRecv_frame_length (imports : BREthereumNodeImports) (node : BREthereumNode)
    (answers : BREthereumNodeRecvAnswers) :
    nodeRecv_headerCount answers.header =
      (answers.header.getD 0 0 % 256) * 65536 + (answers.header.getD 1 0 % 256) * 256 +
        answers.header.getD 2 0 % 256 ∧
    (∀ h0 h1 h2 rest, h0 < 256 → h1 < 256 → h2 < 256 →
      nodeRecv_headerCount (h0 :: h1 :: h2 :: rest) = h0 * 65536 + h1 * 256 + h2) ∧
    nodeRecv_headerCount answers.header < 2 ^ 24 ∧
    nodeRecv_bytesCount (nodeRecv_headerCount answers.header) =
      (nodeRecv_headerCount answers.header + 15) / 16 * 16 + 16 ∧
    nodeRecv_bytesCount (nodeRecv_headerCount answers.header) % 16 = 0 ∧
    nodeRecv_headerCount answers.header + 16 ≤
      nodeRecv_bytesCount (nodeRecv_headerCount answers.header) ∧
    nodeRecv_bytesCount (nodeRecv_headerCount answers.header) ≤
      nodeRecv_headerCount answers.header + 31 ∧
    (answers.error = 0 → answers.headerIsValid = true →
      ∃ node' message later,
        nodeRecv imports node .NODE_ROUTE_TCP answers = Outcome.returns (node', message) ∧
        node'.effects = node.effects ++
          [BREthereumNodeEffect.nodeEndpointRecvData .NODE_ROUTE_TCP 32,
           BREthereumNodeEffect.nodeEndpointRecvData .NODE_ROUTE_TCP
             (nodeRecv_bytesCount (nodeRecv_headerCount answers.header))] ++ later) := by
  have hlt := nodeRecv_headerCount_lt answers.header
  have hbytes := nodeRecv_bytesCount_eq _ hlt
  refine ⟨nodeRecv_headerCount_eq answers.header, ?_, hlt, ?_, ?_, ?_, ?_, ?_⟩
  · intro h0 h1 h2 rest hb0 hb1 hb2
    rw [nodeRecv_headerCount_eq]
    simp only [List.getD_cons_zero, List.getD_cons_succ]
    rw [Nat.mod_eq_of_lt hb0, Nat.mod_eq_of_lt hb1, Nat.mod_eq_of_lt hb2]
  · rw [hbytes]
    omega
  · rw [hbytes]
    omega
  · rw [hbytes]
    omega
  · rw [hbytes]
    omega
  · intro herror hvalid
    obtain ⟨node', message, later, hreturns, heffects, _⟩ :=
      nodeRecv_reads_frame imports node answers herror hvalid
    exact ⟨node', message, later, hreturns, heffects⟩

/-- The lengths of `nodeRecv_frame_length` for a header that starts with the bytes 1, 2 and 3: the
payload has 66051 bytes and the second read is of 66080 bytes, which is 16 times 4130. -/
theorem nodeRecv_frame_length_witness :
    nodeRecv_headerCount exampleLongFrameAnswers.header = 66051 ∧
    nodeRecv_bytesCount (nodeRecv_headerCount exampleLongFrameAnswers.header) = 66080 ∧
    nodeRecv_bytesCount (nodeRecv_headerCount exampleLongFrameAnswers.header) % 16 = 0 :=
  ⟨(nodeRecv_frame_length exampleImports exampleConnectedNode exampleLongFrameAnswers).1.trans
      (by decide),
   (nodeRecv_frame_length exampleImports exampleConnectedNode
      exampleLongFrameAnswers).2.2.2.1.trans (by decide),
   (nodeRecv_frame_length exampleImports exampleConnectedNode
      exampleLongFrameAnswers).2.2.2.2.1⟩

/-- C40 fails on the code for a frame header that announces a payload of no byte: the length of
the message body is `headerCount - 1` on the unsigned `size_t`, and `nodeRecv` makes no test of
`headerCount` before the subtraction.  For a header that starts with three zero bytes the
payload length is 0, the second read is of 16 bytes, and the decoder is handed a body of
`2 ^ 64 - 1` bytes that starts at the second byte of the buffer: not below the payload length
and far beyond the bytes that were read.  For every header that announces a payload of at least
one byte the length of the body is the payload length minus 1, below the payload length and
below the count of bytes read. -/
theorem nodeRecv_body_length_wraps :
    nodeRecv_headerCount exampleEmptyFrameAnswers.header = 0 ∧
    nodeRecv_bytesCount 0 = 16 ∧
    nodeRecv_dataCount 0 = 18446744073709551615 ∧
    ¬ nodeRecv_dataCount 0 < 0 ∧
    ¬ nodeRecv_dataCount 0 ≤ nodeRecv_bytesCount 0 ∧
    nodeRecv exampleImports exampleConnectedNode .NODE_ROUTE_TCP exampleEmptyFrameAnswers =
      Outcome.returns (exampleEmptyFrameNode, some (.p2p .P2P_MESSAGE_PING)) ∧
    exampleEmptyFrameNode.effects = exampleConnectedNode.effects ++
      [BREthereumNodeEffect.nodeEndpointRecvData .NODE_ROUTE_TCP 32,
       BREthereumNodeEffect.nodeEndpointRecvData .NODE_ROUTE_TCP 16,
       BREthereumNodeEffect.messageDecode 18446744073709551615 .MESSAGE_P2P (some 2)] ∧
    (∀ header : List Nat, 1 ≤ nodeRecv_headerCount header →
      nodeRecv_dataCount (nodeRecv_headerCount header) = nodeRecv_headerCount header - 1 ∧
      nodeRecv_dataCount (nodeRecv_headerCount header) < nodeRecv_headerCount header ∧
      nodeRecv_dataCount (nodeRecv_headerCount header) <
        nodeRecv_bytesCount (nodeRecv_headerCount header)) := by
  refine ⟨by decide, by decide, by decide, by decide, by decide, by decide, by decide, ?_⟩
  intro header hpayload
  have hlt := nodeRecv_headerCount_lt header
  rw [nodeRecv_dataCount_eq _ hpayload hlt, nodeRecv_bytesCount_eq _ hlt]
  omega

/-! ## Responses that repeat a request identifier -/

/-- C38 fails on the code: a provisioner counts the messages it is handed and keeps no record of
their request identifiers.  Whether a provisioner still waits after a message does not depend on
the message.  The first provisioner of the node of the examples asks for 500 headers with three
messages, request identifiers 0, 1 and 2.  The response with the request identifier 1 arrives
three times: the first two are handled and the provisioner waits, the third makes the count of
messages received 3, and the node hands the provision to `callbackProvide` with
`PROVISION_SUCCESS` and takes the provisioner out of the list.  The provision holds the same
response three times and no response for the identifiers 0 and 2. -/
theorem nodeProcessRecvLES_completes_on_repeated_response :
    (∀ (imports : BREthereumNodeImports) (provisioner : BREthereumNodeProvisioner)
      (first second : BREthereumMessage),
      provisionerRecvMessagesPending (provisionerHandleMessage imports provisioner first) =
        provisionerRecvMessagesPending (provisionerHandleMessage imports provisioner second)) ∧
    exampleProvisionedNode.type = .NODE_TYPE_GETH ∧
    exampleHeadersProvisioner.provision = exampleHeadersProvision ∧
    exampleHeadersProvisioner.messageIdentifier = 0 ∧
    exampleHeadersProvisioner.messagesCount = 3 ∧
    exampleHeadersProvisioner.messagesReceivedCount = 0 ∧
    exampleProvisionedNode.provisioners.length = 3 ∧
    exampleProvisionedNode.provisioners[0]? = some exampleHeadersProvisioner ∧
    (∃ node,
      nodeProcessRecvLESAll exampleImports .NODE_ROUTE_TCP
          [exampleHeadersResponseLES, exampleHeadersResponseLES] exampleProvisionedNode =
        Outcome.returns node ∧
      node.effects = exampleProvisionedNode.effects ∧
      node.provisioners.length = 3) ∧
    nodeProcessRecvLESAll exampleImports .NODE_ROUTE_TCP
        [exampleHeadersResponseLES, exampleHeadersResponseLES, exampleHeadersResponseLES]
        exampleProvisionedNode =
      Outcome.returns exampleRepeatedResponseNode ∧
    exampleRepeatedResponseNode.effects = exampleProvisionedNode.effects ++
      [BREthereumNodeEffect.callbackProvide
        { identifier := 1
          type := .PROVISION_BLOCK_HEADERS
          status := .PROVISION_SUCCESS
          provision :=
            { exampleHeadersProvision with
              responses :=
                [.les exampleHeadersResponseLES, .les exampleHeadersResponseLES,
                 .les exampleHeadersResponseLES] } }] ∧
    exampleRepeatedResponseNode.provisioners.length = 2 := by
  refine ⟨fun _ _ _ _ => rfl, by decide, by decide, by decide, by decide, by decide, by decide,
    by decide, ⟨_, rfl, by decide, by decide⟩, by decide, by decide, by decide⟩

/-! ## The round trip of a node state through its coder -/

theorem intOfUInt64_uint64OfInt (error : Int) (hlow : -2147483648 ≤ error)
    (hhigh : error < 2147483648) :
    intOfUInt64 (uint64OfInt error % UINT64_MOD) = error := by
  unfold intOfUInt64 uint64OfInt UINT32_MOD UINT64_MOD
  by_cases hsign : 0 ≤ error
  · obtain ⟨value, hvalue⟩ := Int.eq_ofNat_of_zero_le hsign
    subst hvalue
    have hnat : value < 2147483648 := by omega
    have h1 : ((value : Int) % ((18446744073709551616 : Nat) : Int)).toNat = value := by
      omega
    rw [h1]
    have h2 : value % 18446744073709551616 % 4294967296 = value := by omega
    rw [h2]
    rw [if_pos (by omega)]
  · have h1 : (error % ((18446744073709551616 : Nat) : Int)).toNat =
        (error + 18446744073709551616).toNat := by
      omega
    rw [h1]
    obtain ⟨value, hvalue⟩ := Int.eq_ofNat_of_zero_le (show 0 ≤ error + 18446744073709551616 by
      omega)
    rw [hvalue]
    simp only [Int.toNat_ofNat]
    have hrange : 18446744071562067968 ≤ value ∧ value < 18446744073709551616 := by omega
    have h2 : value % 18446744073709551616 % 4294967296 = value - 18446744069414584320 := by
      omega
    rw [h2]
    rw [if_neg (by omega)]
    omega

theorem uint32_of_uint64_of_uint32 (value : Nat) (h : value < 4294967296) :
    value % UINT64_MOD % UINT32_MOD = value := by
  unfold UINT64_MOD UINT32_MOD
  omega

/-- C39: the round trip of a node state through `nodeStateEncode` and `nodeStateDecode`, for a
state whose union members hold values of their C types.  The decoder returns, and the state it
returns has the type of the state that was encoded.  For the types of error, UNIX, DISCONNECT and
PROTOCOL, it has the same error or reason, and for AVAILABLE and CONNECTED it is the state that
was encoded.  For CONNECTING it has the connect type of `nodeStateCreate`, the first one, whatever
the connect type was, and for EXHAUSTED the timestamp 0, whatever the timestamp was. -/
theorem nodeStateDecode_nodeStateEncode (state : BREthereumNodeState)
    (hvalue : nodeStateIsValue state = true) :
    nodeStateDecode (nodeStateEncode state) = Outcome.returns (nodeStateEncoded state) ∧
    (nodeStateEncoded state).type = state.type ∧
    ((state.type = .NODE_ERROR_UNIX ∨ state.type = .NODE_ERROR_DISCONNECT ∨
        state.type = .NODE_ERROR_PROTOCOL ∨ state.type = .NODE_AVAILABLE ∨
        state.type = .NODE_CONNECTED) →
      nodeStateEncoded state = state) ∧
    (∀ type, state = .NODE_CONNECTING type →
      nodeStateEncoded state = .NODE_CONNECTING .NODE_CONNECT_OPEN) ∧
    (∀ timestamp, state = .NODE_EXHAUSTED timestamp →
      nodeStateEncoded state = .NODE_EXHAUSTED 0) := by
  cases state with
  | NODE_AVAILABLE => exact ⟨rfl, rfl, fun _ => rfl, fun _ h => (by cases h), fun _ h => (by cases h)⟩
  | NODE_CONNECTING type =>
    refine ⟨rfl, rfl, ?_, fun _ _ => rfl, fun _ h => (by cases h)⟩
    intro h
    rcases h with h | h | h | h | h <;> cases h
  | NODE_CONNECTED => exact ⟨rfl, rfl, fun _ => rfl, fun _ h => (by cases h), fun _ h => (by cases h)⟩
  | NODE_EXHAUSTED timestamp =>
    refine ⟨rfl, rfl, ?_, fun _ h => (by cases h), fun _ _ => rfl⟩
    intro h
    rcases h with h | h | h | h | h <;> cases h
  | NODE_ERROR_UNIX error =>
    refine ⟨?_, rfl, fun _ => rfl, fun _ h => (by cases h), fun _ h => (by cases h)⟩
    have hrange : -2147483648 ≤ error ∧ error < 2147483648 := by
      simpa [nodeStateIsValue] using hvalue
    show Outcome.returns (nodeStateCreateErrorUnix
      (intOfUInt64 (uint64OfInt error % UINT64_MOD))) = _
    rw [intOfUInt64_uint64OfInt error hrange.1 hrange.2]
    rfl
  | NODE_ERROR_DISCONNECT reason =>
    refine ⟨?_, rfl, fun _ => rfl, fun _ h => (by cases h), fun _ h => (by cases h)⟩
    have hrange : reason < 4294967296 := by
      simpa [nodeStateIsValue, UINT32_MOD] using hvalue
    show Outcome.returns (nodeStateCreateErrorDisconnect
      (reason % UINT64_MOD % UINT32_MOD)) = _
    have hsame : reason % UINT64_MOD % UINT32_MOD = reason :=
      uint32_of_uint64_of_uint32 reason hrange
    rw [hsame]
    rfl
  | NODE_ERROR_PROTOCOL reason =>
    refine ⟨?_, rfl, fun _ => rfl, fun _ h => (by cases h), fun _ h => (by cases h)⟩
    cases reason <;> rfl

/-- The round trip of `nodeStateDecode_nodeStateEncode` for four states: the error 61 of the
system and the error -1 come back, the connect type HELLO comes back as OPEN, and the timestamp
1234 comes back as 0. -/
theorem nodeStateDecode_nodeStateEncode_witness :
    nodeStateIsValue (.NODE_ERROR_UNIX 61) = true ∧
    nodeStateDecode (nodeStateEncode (.NODE_ERROR_UNIX 61)) =
      Outcome.returns (.NODE_ERROR_UNIX 61) ∧
    nodeStateDecode (nodeStateEncode (.NODE_ERROR_UNIX (-1))) =
      Outcome.returns (.NODE_ERROR_UNIX (-1)) ∧
    nodeStateDecode (nodeStateEncode (.NODE_CONNECTING .NODE_CONNECT_HELLO)) =
      Outcome.returns (.NODE_CONNECTING .NODE_CONNECT_OPEN) ∧
    nodeStateDecode (nodeStateEncode (.NODE_EXHAUSTED 1234)) =
      Outcome.returns (.NODE_EXHAUSTED 0) :=
  ⟨rfl,
   (nodeStateDecode_nodeStateEncode (.NODE_ERROR_UNIX 61) rfl).1,
   (nodeStateDecode_nodeStateEncode (.NODE_ERROR_UNIX (-1)) (by decide)).1,
   (nodeStateDecode_nodeStateEncode (.NODE_CONNECTING .NODE_CONNECT_HELLO) rfl).1,
   (nodeStateDecode_nodeStateEncode (.NODE_EXHAUSTED 1234) rfl).1⟩

end LES
